import Mathlib

/-!
# HTTP client engine and HSTS store: a shallow embedding

Definitions follow `src/code_without_proxy.c` (request builder, response head,
parameter tokenizer, authentication, redirect dispatch) and `src/hsts.c`
(HSTS store).  C strings are modelled as `List Char`: the list holds the bytes
in front of the terminating NUL, and reading at the end of the list yields NUL.
Pointers into a string are indices into the list.
-/

namespace Http

/-! ## Character classes (c-ctype.h, c-strcase.h; not part of the sources given) -/

/-- The NUL byte that terminates a C string. -/
def NUL : Char := Char.ofNat 0

/-- Carriage return. -/
def CR : Char := Char.ofNat 13

/-- Line feed. -/
def LF : Char := Char.ofNat 10

/-- Horizontal tab. -/
def TAB : Char := Char.ofNat 9

/-- The double quote character. -/
def DQUOTE : Char := Char.ofNat 34

/-- The single quote character. -/
def SQUOTE : Char := Char.ofNat 39

/-- Modelled from the spec: c_isspace of gnulib c-ctype.h, absent from the sources:
space, tab, line feed, vertical tab, form feed, carriage return. -/
def c_isspace (c : Char) : Bool :=
  c.toNat = 32 || (9 ≤ c.toNat && c.toNat ≤ 13)

/-- Modelled from the spec: c_isdigit of gnulib c-ctype.h. -/
def c_isdigit (c : Char) : Bool :=
  48 ≤ c.toNat && c.toNat ≤ 57

/-- Modelled from the spec: c_tolower of gnulib c-ctype.h (ASCII only). -/
def c_tolower (c : Char) : Char :=
  if 65 ≤ c.toNat ∧ c.toNat ≤ 90 then Char.ofNat (c.toNat + 32) else c

/-- Modelled from the spec: c_toupper of gnulib c-ctype.h (ASCII only). -/
def c_toupper (c : Char) : Char :=
  if 97 ≤ c.toNat ∧ c.toNat ≤ 122 then Char.ofNat (c.toNat - 32) else c

/-- The byte at index `p` of a C string; NUL at (and past) the end. -/
def charAt (s : List Char) (p : Nat) : Char := s.getD p NUL

/-- Modelled from the spec: c_strcasecmp of gnulib c-strcase.h (case-insensitive
comparison, ASCII only): walk both strings, stop at the first NUL of the first
string or at the first difference, return the difference of the lowered bytes. -/
def c_strcasecmp : List Char → List Char → Int
  | [], s2 => 0 - ((c_tolower (s2.headD NUL)).toNat : Int)
  | c1 :: s1, s2 =>
    if (c_tolower c1).toNat = 0 then 0 - ((c_tolower (s2.headD NUL)).toNat : Int)
    else if c_tolower c1 = c_tolower (s2.headD NUL) then c_strcasecmp s1 s2.tail
    else ((c_tolower c1).toNat : Int) - ((c_tolower (s2.headD NUL)).toNat : Int)

/-- Modelled from the spec: c_strncasecmp of gnulib c-strcase.h: as c_strcasecmp,
over at most `n` bytes. -/
def c_strncasecmp : List Char → List Char → Nat → Int
  | _, _, 0 => 0
  | [], s2, _ + 1 => 0 - ((c_tolower (s2.headD NUL)).toNat : Int)
  | c1 :: s1, s2, n + 1 =>
    if (c_tolower c1).toNat = 0 then 0 - ((c_tolower (s2.headD NUL)).toNat : Int)
    else if c_tolower c1 = c_tolower (s2.headD NUL) then c_strncasecmp s1 s2.tail n
    else ((c_tolower c1).toNat : Int) - ((c_tolower (s2.headD NUL)).toNat : Int)

/-- The case-folded content of a C string in front of its first NUL. -/
def casefold (s : List Char) : List Char :=
  (s.takeWhile (fun c => c.toNat ≠ 0)).map c_tolower

/-! ## Request builder -/

/-- Release policy of a header (who frees name and value). -/
inductive rp
  | rel_none
  | rel_name
  | rel_value
  | rel_both
  deriving DecidableEq, Repr

/-- One header record of a request. -/
structure request_header where
  name : List Char
  value : List Char
  release_policy : rp
  deriving DecidableEq, Repr

/-- The struct request: method, request target, the `hcount` headers in use
(`hcount` is the length of `headers`) and the capacity of the header array. -/
structure request where
  method : List Char
  arg : List Char
  headers : List request_header
  hcapacity : Nat
  deriving DecidableEq, Repr

/-- The number of headers in use. -/
def request.hcount (req : request) : Nat := req.headers.length

/-- Create a new, empty request (request_new). -/
def request_new (method arg : List Char) : request :=
  { method := method, arg := arg, headers := [], hcapacity := 8 }

/-- The method passed to request_new (request_method). -/
def request_method (req : request) : List Char := req.method

/-- The replacement loop of request_set_header: the first header whose name equals
`name` ignoring case is overwritten; `none` when no header matches. -/
def set_header_loop (name value : List Char) (release_policy : rp) :
    List request_header → Option (List request_header)
  | [] => none
  | hdr :: rest =>
    if c_strcasecmp name hdr.name = 0 then
      some ({ name := name, value := value, release_policy := release_policy } :: rest)
    else
      (set_header_loop name value release_policy rest).map (fun r => hdr :: r)

/-- Set the header `name` to `value` (request_set_header); a NULL value is a no-op. -/
def request_set_header (req : request) (name : List Char) (value : Option (List Char))
    (release_policy : rp) : request :=
  match value with
  | none => req
  | some v =>
    match set_header_loop name v release_policy req.headers with
    | some hs => { req with headers := hs }
    | none =>
      let cap := if req.hcount ≥ req.hcapacity then req.hcapacity * 2 else req.hcapacity
      { req with
        hcapacity := cap
        headers := req.headers ++ [{ name := name, value := v, release_policy := release_policy }] }

/-- Set a whole header line given by the user (request_set_user_header): the name is
the text before the first colon, the value what follows it after leading whitespace;
a line without a colon is ignored. -/
def request_set_user_header (req : request) (header : List Char) : request :=
  if header.contains ':' then
    let name := header.takeWhile (fun c => c ≠ ':')
    let p := (header.dropWhile (fun c => c ≠ ':')).drop 1
    request_set_header req name (some (p.dropWhile c_isspace)) rp.rel_name
  else req

/-- The loop of request_remove_header: drop the first header named `name`. -/
def remove_header_loop (name : List Char) : List request_header → Option (List request_header)
  | [] => none
  | hdr :: rest =>
    if c_strcasecmp name hdr.name = 0 then some rest
    else (remove_header_loop name rest).map (fun r => hdr :: r)

/-- Remove the header `name` (request_remove_header); the flag tells whether a header
was removed. -/
def request_remove_header (req : request) (name : List Char) : request × Bool :=
  match remove_header_loop name req.headers with
  | some hs => ({ req with headers := hs }, true)
  | none => (req, false)

/-- A call that changes a request after request_new. -/
inductive request_op
  | set_header (name : List Char) (value : Option (List Char)) (release_policy : rp)
  | set_user_header (header : List Char)
  | remove_header (name : List Char)

/-- The effect of one call on the request. -/
def request_op.apply (req : request) : request_op → request
  | .set_header name value release_policy => request_set_header req name value release_policy
  | .set_user_header header => request_set_user_header req header
  | .remove_header name => (request_remove_header req name).1

/-- The request after a finite sequence of calls. -/
def request_run (req : request) (ops : List request_op) : request :=
  ops.foldl request_op.apply req

/-- No two headers of the request have names equal ignoring ASCII case. -/
def names_distinct (req : request) : Prop :=
  req.headers.Pairwise (fun h1 h2 => c_strcasecmp h1.name h2.name ≠ 0)

/-- The header lines of the request that carry a name equal to `name` ignoring case. -/
def headers_named (req : request) (name : List Char) : List request_header :=
  req.headers.filter (fun h => decide (c_strcasecmp name h.name = 0))

/-- The first part of request_send: the size it counts. -/
def request_size (req : request) : Nat :=
  (req.method.length + 1 + req.arg.length + 1 + 8 + 2)
    + (req.headers.map (fun hdr => hdr.name.length + 2 + hdr.value.length + 2)).sum
    + 3

/-- The second part of request_send: the bytes it generates into request_string,
the trailing NUL included. -/
def request_string (req : request) : List Char :=
  req.method ++ [' '] ++ req.arg ++ [' '] ++ "HTTP/1.1".toList ++ [CR, LF]
    ++ (req.headers.map (fun hdr => hdr.name ++ [':', ' '] ++ hdr.value ++ [CR, LF])).flatten
    ++ [CR, LF, NUL]

/-- What request_send did: its return value, the buffers handed to fd_write (one per
call) and the buffers handed to fwrite on the WARC file. -/
structure send_result where
  write_error : Int
  fd_writes : List (List Char)
  warc_writes : List (List Char)
  deriving DecidableEq, Repr

/-- Construct the request and write it (request_send).  `fd_write_ret` is what fd_write
returns for the buffer it is given; `warc_tmp` is `none` for a NULL file pointer and
otherwise tells what fwrite returns for the buffer it is given. -/
def request_send (req : request) (fd_write_ret : List Char → Int)
    (warc_tmp : Option (List Char → Int)) : send_result :=
  let size := request_size req
  let buf := (request_string req).take (size - 1)
  let write_error := fd_write_ret buf
  if write_error < 0 then
    { write_error := write_error, fd_writes := [buf], warc_writes := [] }
  else
    match warc_tmp with
    | none => { write_error := write_error, fd_writes := [buf], warc_writes := [] }
    | some fwrite_ret =>
      let warc_tmp_written := fwrite_ret buf
      { write_error := if warc_tmp_written ≠ ((size - 1 : Nat) : Int) then -2 else write_error
        fd_writes := [buf]
        warc_writes := [buf] }

/-- The wire form of a request: request line, header lines in list order, empty line. -/
def wire_form (method target : List Char) (headers : List (List Char × List Char)) : List Char :=
  method ++ [' '] ++ target ++ " HTTP/1.1".toList ++ [CR, LF]
    ++ (headers.map (fun nv => nv.1 ++ [':', ' '] ++ nv.2 ++ [CR, LF])).flatten
    ++ [CR, LF]

/-! ## Result codes -/

/-- Modelled from the spec: the result codes (uerr_t of wget.h, absent from the
sources) that the functions embedded here return. -/
inductive uerr_t
  | RETROK
  | RETRFINISHED
  | RETRUNNEEDED
  | NEWLOCATION
  | NEWLOCATION_KEEP_POST
  | HOSTERR
  | CONERROR
  | CONIMPOSSIBLE
  | CONSSLERR
  | WRITEFAILED
  | READERR
  | HERR
  | HEOF
  | RANGEERR
  | AUTHFAILED
  | ATTRMISSING
  | GATEWAYTIMEOUT
  | FOPENERR
  | FOPEN_EXCL_ERR
  | FWRITEERR
  | UNLINKERR
  | WARC_ERR
  | WARC_TMP_FOPENERR
  | WARC_TMP_FWRITEERR
  | FILEBADFILE
  | WRONGCODE
  | TRYLIMEXC
  | TIMECONV_ERR
  | CONSOCKERR
  | PROXERR
  | SSLINITFAILED
  | CONTNOTSUPPORTED
  | VERIFCERTERR
  | UNKNOWNATTR
  deriving DecidableEq, Repr

/-! ## Basic authentication -/

/-- The base64 alphabet. -/
def base64_tbl : List Char :=
  "ABCDEFGHIJKLMNOPQRSTUVWXYZabcdefghijklmnopqrstuvwxyz0123456789+/".toList

/-- The base64 digit of a six-bit value. -/
def base64_digit (n : Nat) : Char := base64_tbl.getD n '='

/-- The value of a byte of a C string as an unsigned char. -/
def byte (c : Char) : Nat := c.toNat % 256

/-- Modelled from the spec: wget_base64_encode of utils.c, absent from the sources:
the base64 encoding (RFC 4648, with padding) of a byte string. -/
def wget_base64_encode : List Char → List Char
  | a :: b :: c :: rest =>
    base64_digit (byte a / 4) :: base64_digit (byte a % 4 * 16 + byte b / 16)
      :: base64_digit (byte b % 16 * 4 + byte c / 64) :: base64_digit (byte c % 64)
      :: wget_base64_encode rest
  | [a, b] =>
    [base64_digit (byte a / 4), base64_digit (byte a % 4 * 16 + byte b / 16),
      base64_digit (byte b % 16 * 4), '=']
  | [a] => [base64_digit (byte a / 4), base64_digit (byte a % 4 * 16), '=', '=']
  | [] => []

/-- Modelled from the spec: the macro BASE64_LENGTH of utils.h, absent from the
sources: the length of the base64 encoding of `len` bytes. -/
def BASE64_LENGTH (len : Nat) : Nat := 4 * ((len + 2) / 3)

/-- Create the header value for the Basic scheme (basic_authentication_encode).
The two work buffers are the 256-byte stack arrays when the text fits and are
allocated otherwise; `none` stands for a write past the end of a buffer. -/
def basic_authentication_encode (user passwd : List Char) : Option (List Char) :=
  let len1 := user.length + 1 + passwd.length
  let cap1 := if len1 < 256 then 256 else len1 + 1
  let cap2 := if BASE64_LENGTH len1 < 256 then 256 else BASE64_LENGTH len1 + 1
  let t1 := user ++ [':'] ++ passwd
  if t1.length + 1 > cap1 then none
  else
    let t2 := wget_base64_encode (t1.take len1)
    if t2.length + 1 > cap2 then none
    else some ("Basic ".toList ++ t2)

/-! ## Parameter tokenizer -/

/-- A span of the header value: begin and end index (param_token). -/
structure param_token where
  b : Nat
  e : Nat
  deriving DecidableEq, Repr

/-- Advance `p` while the byte under it satisfies `pred` (the loops
`while (pred (*p)) ++p`); the end of the string stops every such loop. -/
def scan (s : List Char) (p : Nat) (pred : Char → Bool) : Nat :=
  p + ((s.drop p).takeWhile pred).length

/-- The bytes of the span `[b, e)`. -/
def span (s : List Char) (b e : Nat) : List Char := (s.drop b).take (e - b)

/-- The constant NOT_RFC2231. -/
def NOT_RFC2231 : Nat := 0

/-- The constant RFC2231_NOENCODING. -/
def RFC2231_NOENCODING : Nat := 1

/-- The constant RFC2231_ENCODING. -/
def RFC2231_ENCODING : Nat := 2

/-- Index of the last element satisfying `f`, if any (memrchr). -/
def lastIdx (f : Char → Bool) (l : List Char) : Option Nat :=
  match l.reverse.findIdx? f with
  | some i => some (l.length - 1 - i)
  | none => none

/-- Strip the RFC 2231 marks from a parameter name (modify_param_name): returns the
kind of the parameter and the adjusted name. -/
def modify_param_name (s : List Char) (name : param_token) : Nat × param_token :=
  let seg := span s name.b name.e
  match seg.findIdx? (fun c => c = '*'), lastIdx (fun c => c = '*') seg with
  | some d1, some d2 =>
    if d1 = d2 then
      if name.e - 1 = name.b + d1 then (RFC2231_ENCODING, { name with e := name.b + d1 })
      else (RFC2231_NOENCODING, { name with e := name.b + d1 })
    else (RFC2231_ENCODING, { name with e := name.b + d1 })
  | _, _ => (NOT_RFC2231, name)

/-- Strip the encoding information from a parameter value (modify_param_value). -/
def modify_param_value (s : List Char) (value : param_token) (encoding_type : Nat) : param_token :=
  if encoding_type = RFC2231_ENCODING then
    match lastIdx (fun c => c = SQUOTE) (span s value.b value.e) with
    | some d => { value with b := value.b + d + 1 }
    | none => value
  else value

/-- What one extract_param call leaves behind: its return value, the cursor, the
name, the value (`none` for a zeroed token) and the is_url_encoded flag.  When the
call returns false no caller reads the tokens. -/
structure param_result where
  ok : Bool
  source : Nat
  name : param_token
  value : Option param_token
  is_url_encoded : Bool
  deriving DecidableEq, Repr

/-- The tail of extract_param after a value was read: store the cursor and adjust
name and value for RFC 2231. -/
def extract_param_finish (s : List Char) (p : Nat) (name value : param_token) : param_result :=
  let r := modify_param_name s name
  if r.1 ≠ NOT_RFC2231 then
    { ok := true, source := p, name := r.2, value := some (modify_param_value s value r.1),
      is_url_encoded := decide (r.1 = RFC2231_ENCODING) }
  else
    { ok := true, source := p, name := r.2, value := some value, is_url_encoded := false }

/-- Extract one parameter at the cursor `source` of the header value `s` and advance
the cursor (extract_param). -/
def extract_param (s : List Char) (source : Nat) (separator : Char) : param_result :=
  let fail (src : Nat) (name : param_token) : param_result :=
    { ok := false, source := src, name := name, value := none, is_url_encoded := false }
  let p := scan s source c_isspace
  if charAt s p = NUL then fail p ⟨0, 0⟩
  else
    let nb := p
    let p := scan s p (fun c => c ≠ NUL && !c_isspace c && c ≠ '=' && c ≠ separator)
    let name : param_token := ⟨nb, p⟩
    if nb = p then fail source name
    else
      let p := scan s p c_isspace
      if charAt s p = separator || charAt s p = NUL then
        { ok := true, source := if charAt s p = separator then p + 1 else p,
          name := name, value := none, is_url_encoded := false }
      else if charAt s p ≠ '=' then fail source name
      else
        let p := scan s (p + 1) c_isspace
        if charAt s p = DQUOTE then
          let vb := p + 1
          let p := scan s vb (fun c => c ≠ NUL && c ≠ DQUOTE)
          if charAt s p = NUL then fail source name
          else
            let ve := p
            let p := scan s (p + 1) c_isspace
            let p := scan s p (fun c => c ≠ NUL && c ≠ separator)
            if charAt s p = separator then extract_param_finish s (p + 1) name ⟨vb, ve⟩
            else if charAt s p ≠ NUL then fail source name
            else extract_param_finish s p name ⟨vb, ve⟩
        else
          let vb := p
          let p := scan s p (fun c => c ≠ NUL && c ≠ separator)
          let ve := vb + ((span s vb p).reverse.dropWhile c_isspace).length
          extract_param_finish s (if charAt s p = separator then p + 1 else p) name ⟨vb, ve⟩

/-! ## Digest authentication -/

/-- Modelled from the spec: the macro XNUM_TO_digit of utils.h, absent from the
sources: the lowercase hexadecimal digit of a value below 16. -/
def XNUM_TO_digit (x : Nat) : Char := "0123456789abcdef".toList.getD x '0'

/-- The constant MD5_DIGEST_SIZE. -/
def MD5_DIGEST_SIZE : Nat := 16

/-- Dump the hexadecimal representation of the 16 bytes of `hash` (dump_hash). -/
def dump_hash (hash : List Nat) : List Char :=
  ((List.range MD5_DIGEST_SIZE).map (fun i =>
    [XNUM_TO_digit (hash.getD i 0 % 256 / 16), XNUM_TO_digit (hash.getD i 0 % 256 % 16)])).flatten

/-- The text that the format "%08x" prints for an unsigned int. -/
def fmt_08x (n : Nat) : List Char :=
  let d := Nat.toDigits 16 (n % 2 ^ 32)
  List.replicate (8 - d.length) '0' ++ d

/-- The five static variables that digest_authentication_encode fills from the
challenge. -/
structure digest_params where
  realm : Option (List Char)
  opaq : Option (List Char)
  nonce : Option (List Char)
  qop : Option (List Char)
  algorithm : Option (List Char)
  deriving DecidableEq, Repr

/-- The inner loop over the options table: the first option whose name equals
`name` (case-sensitively) receives a copy of `value`. -/
def digest_set_option (ps : digest_params) (name value : List Char) : digest_params :=
  if name = "realm".toList then { ps with realm := some value }
  else if name = "opaque".toList then { ps with opaq := some value }
  else if name = "nonce".toList then { ps with nonce := some value }
  else if name = "qop".toList then { ps with qop := some value }
  else if name = "algorithm".toList then { ps with algorithm := some value }
  else ps

/-- The parameter loop of digest_authentication_encode, from the cursor `source`;
`none` when the fuel runs out. -/
def digest_params_loop (s : List Char) : Nat → Nat → digest_params → Option digest_params
  | 0, _, _ => none
  | fuel + 1, source, ps =>
    let r := extract_param s source ','
    if r.ok then
      let value := match r.value with
        | some v => span s v.b v.e
        | none => []
      digest_params_loop s fuel r.source (digest_set_option ps (span s r.name.b r.name.e) value)
    else some ps

/-- The challenge parameters that digest_authentication_encode reads from `au`,
after skipping the six bytes of the scheme name. -/
def digest_parse (au : List Char) : Option digest_params :=
  digest_params_loop au (au.length + 1) 6 ⟨none, none, none, none, none⟩

/-- The hexadecimal MD5 of a message: md5_init_ctx, md5_process_bytes over the parts
of the message, md5_finish_ctx, dump_hash.  The hash function `md5` (md5.c, absent
from the sources) is a parameter. -/
def md5_hex (md5 : List Char → List Nat) (msg : List Char) : List Char :=
  dump_hash (md5 msg)

/-- One snprintf into the result buffer `res` of `res_size` bytes at offset `res_len`:
`none` when the offset is not inside the buffer (the size argument would wrap);
otherwise the text is cut to the room left and the return value is its full
length. -/
def snprintf_at (res : List Char) (res_size res_len : Nat) (text : List Char) :
    Option (List Char × Nat) :=
  if res_size ≤ res_len then none
  else some (res.take res_len ++ text.take (res_size - res_len - 1), text.length)

/-- The snprintf calls at the end of digest_authentication_encode: the header text
into a buffer of `res_size` bytes, then the opaque field and the algorithm field
when present, each at the length returned so far. -/
def digest_emit (res_size : Nat) (text : List Char) (opaq algorithm : Option (List Char))
    (auth_err : uerr_t) : Option (Option (List Char) × uerr_t) :=
  match snprintf_at [] res_size 0 text with
  | none => none
  | some (res, res_len) =>
    let step2 : Option (List Char × Nat) := match opaq with
      | some o =>
        match snprintf_at res res_size res_len
            (", opaque=".toList ++ [DQUOTE] ++ o ++ [DQUOTE]) with
        | some (res2, n) => some (res2, res_len + n)
        | none => none
      | none => some (res, res_len)
    match step2 with
    | none => none
    | some (res, res_len) =>
      match algorithm with
      | some a =>
        match snprintf_at res res_size res_len
            (", algorithm=".toList ++ [DQUOTE] ++ a ++ [DQUOTE]) with
        | some (res3, _) => some (some res3, auth_err)
        | none => none
      | none => some (some res, auth_err)

/-- Compose a Digest authorization header from the challenge `au`
(digest_authentication_encode).  `md5` is the hash function and `rnd` the value that
random_number returns; the outer `none` stands for undefined behaviour (a challenge
shorter than the scheme name, the parameter loop out of fuel, or a write outside the
result buffer), the pair is the returned string (NULL as `none`) and `*auth_err`. -/
def digest_authentication_encode (md5 : List Char → List Nat) (rnd : Nat) (au : List Char)
    (user passwd method path : Option (List Char)) (auth_err : uerr_t) :
    Option (Option (List Char) × uerr_t) :=
  if au.length < 6 then none
  else
    match digest_parse au with
    | none => none
    | some ps =>
      let qop_bad := match ps.qop with
        | some q => decide (q ≠ "auth".toList)
        | none => false
      let qop := if qop_bad then none else ps.qop
      let algorithm_bad := match ps.algorithm with
        | some a => !qop_bad && decide (a ≠ "MD5".toList) && decide (a ≠ "MD5-sess".toList)
        | none => false
      let algorithm := if algorithm_bad then none else ps.algorithm
      match ps.realm, ps.nonce, user, passwd, path, method with
      | some realm, some nonce, some user, some passwd, some path, some method =>
        let a1buf := md5_hex md5 (user ++ [':'] ++ realm ++ [':'] ++ passwd)
        let sess := decide (algorithm = some "MD5-sess".toList)
        let cnonce := if sess then (fmt_08x rnd).take 15 else []
        let a1buf := if sess then md5_hex md5 (a1buf ++ [':'] ++ nonce ++ [':'] ++ cnonce) else a1buf
        let a2buf := md5_hex md5 (method ++ [':'] ++ path)
        let is_auth := decide (qop = some "auth".toList)
        let cnonce := if is_auth && cnonce.isEmpty then (fmt_08x rnd).take 15 else cnonce
        let response_digest :=
          if is_auth then
            md5_hex md5 (a1buf ++ [':'] ++ nonce ++ [':'] ++ "00000001".toList ++ [':'] ++ cnonce
              ++ [':'] ++ qop.getD [] ++ [':'] ++ a2buf)
          else md5_hex md5 (a1buf ++ [':'] ++ nonce ++ [':'] ++ a2buf)
        let res_size := user.length + realm.length + nonce.length + path.length
          + 2 * MD5_DIGEST_SIZE
          + (match ps.opaq with | some o => o.length | none => 0)
          + (match algorithm with | some a => a.length | none => 0)
          + (if qop.isSome then 128 else 0) + cnonce.length + 128
        let head := "Digest username=".toList ++ [DQUOTE] ++ user ++ [DQUOTE]
          ++ ", realm=".toList ++ [DQUOTE] ++ realm ++ [DQUOTE]
          ++ ", nonce=".toList ++ [DQUOTE] ++ nonce ++ [DQUOTE]
          ++ ", uri=".toList ++ [DQUOTE] ++ path ++ [DQUOTE]
          ++ ", response=".toList ++ [DQUOTE] ++ response_digest ++ [DQUOTE]
        let text := if is_auth then
            head ++ ", qop=auth, nc=00000001, cnonce=".toList ++ [DQUOTE] ++ cnonce ++ [DQUOTE]
          else head
        digest_emit res_size text ps.opaq algorithm auth_err
      | _, _, _, _, _, _ => some (none, uerr_t.ATTRMISSING)

/-- The lowercase hexadecimal digit of a value below 16, as the spec words it: the
decimal digits 0 to 9, then the letters a to f. -/
def spec_hex_digit (d : Nat) : Char :=
  if d < 10 then Char.ofNat ('0'.toNat + d) else Char.ofNat ('a'.toNat + (d - 10))

/-- The lowercase-hex text of a string of bytes, as the spec words it: two digits for
each byte, the high half first. -/
def spec_lowercase_hex : List Nat → List Char
  | [] => []
  | b :: rest => spec_hex_digit (b / 16) :: spec_hex_digit (b % 16) :: spec_lowercase_hex rest

/-- The lowercase-hex MD5 of a message, H in the spec, for the hash function `md5`. -/
def spec_md5_hex (md5 : List Char → List Nat) (msg : List Char) : List Char :=
  spec_lowercase_hex (md5 msg)

/-- A1 as the spec words it: H(user:realm:password), and for the algorithm MD5-sess
H(H(user:realm:password):nonce:cnonce), where H is the lowercase-hex MD5. -/
def spec_digest_A1 (md5 : List Char → List Nat) (user realm passwd nonce cnonce : List Char)
    (algorithm : Option (List Char)) : List Char :=
  if algorithm = some "MD5-sess".toList then
    spec_md5_hex md5 (spec_md5_hex md5 (user ++ [':'] ++ realm ++ [':'] ++ passwd)
      ++ [':'] ++ nonce ++ [':'] ++ cnonce)
  else spec_md5_hex md5 (user ++ [':'] ++ realm ++ [':'] ++ passwd)

/-- A2 as the spec words it: H(method:path). -/
def spec_digest_A2 (md5 : List Char → List Nat) (method path : List Char) : List Char :=
  spec_md5_hex md5 (method ++ [':'] ++ path)

/-- The response for qop=auth as the spec words it:
H(A1:nonce:00000001:cnonce:auth:A2). -/
def spec_digest_response (md5 : List Char → List Nat) (a1 nonce cnonce a2 : List Char) :
    List Char :=
  spec_md5_hex md5 (a1 ++ [':'] ++ nonce ++ [':'] ++ "00000001".toList ++ [':'] ++ cnonce
    ++ [':'] ++ "auth".toList ++ [':'] ++ a2)

/-- A stand-in for the hash function in examples: sixteen bytes that depend on the
length and the first byte of the message and that need all sixteen hexadecimal
digits. -/
def md5_example (msg : List Char) : List Nat :=
  (List.range 16).map (fun i => (17 * i + 7 * msg.length + (msg.headD NUL).toNat) % 256)

/-- The text of a Digest header for qop=auth with the given field values, followed by
the opaque and algorithm fields when present. -/
def spec_digest_header (user realm nonce path response cnonce : List Char)
    (opaq algorithm : Option (List Char)) : List Char :=
  "Digest username=".toList ++ [DQUOTE] ++ user ++ [DQUOTE]
    ++ ", realm=".toList ++ [DQUOTE] ++ realm ++ [DQUOTE]
    ++ ", nonce=".toList ++ [DQUOTE] ++ nonce ++ [DQUOTE]
    ++ ", uri=".toList ++ [DQUOTE] ++ path ++ [DQUOTE]
    ++ ", response=".toList ++ [DQUOTE] ++ response ++ [DQUOTE]
    ++ ", qop=auth, nc=00000001, cnonce=".toList ++ [DQUOTE] ++ cnonce ++ [DQUOTE]
    ++ (match opaq with
        | some o => ", opaque=".toList ++ [DQUOTE] ++ o ++ [DQUOTE]
        | none => [])
    ++ (match algorithm with
        | some a => ", algorithm=".toList ++ [DQUOTE] ++ a ++ [DQUOTE]
        | none => [])

/-! ## Response head -/

/-- The struct response: the head text and the array of header starts; `headers` is
`none` for the NULL array of a headerless response, and otherwise lists the
offsets stored in front of the terminating NULL pointer. -/
structure response where
  data : List Char
  headers : Option (List Nat)
  deriving DecidableEq, Repr

/-- The inner loop of resp_new: find the end of the header that starts at `hdr`,
turning the line break in front of each continuation line into spaces.  Returns
the head and the start of the next header; `none` when the fuel runs out. -/
def resp_fold_line : Nat → List Char → Nat → Option (List Char × Nat)
  | 0, _, _ => none
  | fuel + 1, data, hdr =>
    let e := scan data hdr (fun c => c ≠ NUL && c ≠ LF)
    if charAt data e ≠ LF then some (data, e)
    else
      let hdr := e + 1
      if charAt data hdr ≠ ' ' && charAt data hdr ≠ TAB then some (data, hdr)
      else
        let data := data.set e ' '
        let data := if e > 0 && charAt data (e - 1) = CR then data.set (e - 1) ' ' else data
        resp_fold_line fuel data hdr

/-- The outer loop of resp_new: record the start of each header until the empty
line; `none` when the fuel runs out. -/
def resp_new_loop : Nat → List Char → Nat → List Nat → Option (List Char × List Nat)
  | 0, _, _, _ => none
  | fuel + 1, data, hdr, headers =>
    let headers := headers ++ [hdr]
    if charAt data hdr = NUL || (charAt data hdr = CR && charAt data (hdr + 1) = LF)
        || charAt data hdr = LF then
      some (data, headers)
    else
      match resp_fold_line (data.length + 1) data hdr with
      | none => none
      | some (data, hdr) => resp_new_loop fuel data hdr headers

/-- Create a response object from the text of the response head (resp_new). -/
def resp_new (head : List Char) : Option response :=
  if charAt head 0 = NUL then some { data := head, headers := none }
  else
    match resp_new_loop (head.length + 1) head 0 [] with
    | none => none
    | some (data, headers) => some { data := data, headers := some headers }

/-- The loop of resp_header_locate from index `i`.  The outer `none` stands for a
read of the header array past its NULL terminator (or for the fuel running out),
the inner one for the return value -1; otherwise the index found and the span of
the value. -/
def resp_header_locate_loop (data : List Char) (headers : List Nat) (name : List Char) :
    Nat → Nat → Option (Option (Nat × Nat × Nat))
  | 0, _ => none
  | fuel + 1, i =>
    if headers.length < i + 1 then none
    else if headers.length = i + 1 then some none
    else
      let b := headers.getD i 0
      let e := headers.getD (i + 1) 0
      if e - b > name.length && charAt data (b + name.length) = ':'
          && c_strncasecmp (data.drop b) name name.length = 0 then
        let b := b + name.length + 1
        let b := b + ((span data b e).takeWhile c_isspace).length
        let e := b + ((span data b e).reverse.dropWhile c_isspace).length
        some (some (i, b, e))
      else resp_header_locate_loop data headers name fuel (i + 1)

/-- Locate the header `name` at or after position `start` (resp_header_locate). -/
def resp_header_locate (resp : response) (name : List Char) (start : Nat) :
    Option (Option (Nat × Nat × Nat)) :=
  match resp.headers with
  | none => some none
  | some headers =>
    if headers.length ≤ 1 then some none
    else
      resp_header_locate_loop resp.data headers name (headers.length + 1)
        (if start > 0 then start else 1)

/-- Advance `p` while it is in front of `e` and the byte under it satisfies `pred`
(the loops `while (p < end && pred (*p)) ++p`). -/
def scan_to (data : List Char) (p e : Nat) (pred : Char → Bool) : Nat :=
  p + ((span data p e).takeWhile pred).length

/-- Parse the status line (resp_status); `want_message` tells whether the caller
passes a non-NULL `message`.  Returns the status code, -1 for a malformed line, and
the message stored through `message`, if any. -/
def resp_status (resp : response) (want_message : Bool) : Int × Option (List Char) :=
  match resp.headers with
  | none =>
    (200, if want_message then some "No headers, assuming HTTP/0.9".toList else none)
  | some headers =>
    if headers.length ≤ 1 then (-1, none)
    else
      let p := headers.getD 0 0
      let e := headers.getD 1 0
      if (e : Int) - (p : Int) < 4 ∨ (resp.data.drop p).take 4 ≠ "HTTP".toList then (-1, none)
      else
        let p := p + 4
        let p :=
          if p < e ∧ charAt resp.data p = '/' then
            let p := scan_to resp.data (p + 1) e c_isdigit
            let p := if p < e ∧ charAt resp.data p = '.' then p + 1 else p
            scan_to resp.data p e c_isdigit
          else p
        let p := scan_to resp.data p e c_isspace
        if (e : Int) - (p : Int) < 3 ∨ c_isdigit (charAt resp.data p) = false
            ∨ c_isdigit (charAt resp.data (p + 1)) = false
            ∨ c_isdigit (charAt resp.data (p + 2)) = false then (-1, none)
        else
          let status : Int := 100 * ((charAt resp.data p).toNat - 48 : Int)
            + 10 * ((charAt resp.data (p + 1)).toNat - 48 : Int)
            + ((charAt resp.data (p + 2)).toNat - 48 : Int)
          let p := p + 3
          if want_message then
            let p := scan_to resp.data p e c_isspace
            let e := p + ((span resp.data p e).reverse.dropWhile c_isspace).length
            (status, some (span resp.data p e))
          else (status, none)

/-- The loop `for (pos = 0; (pos = resp_header_locate (...)) != -1; ++pos)` that the
callers run over the headers of one name: the index and the span of every header it
visits, in the order of the visits; `none` when a call is undefined or the fuel runs
out. -/
def locate_all_loop (resp : response) (name : List Char) :
    Nat → Nat → Option (List (Nat × Nat × Nat))
  | 0, _ => none
  | fuel + 1, pos =>
    match resp_header_locate resp name pos with
    | none => none
    | some none => some []
    | some (some (i, b, e)) =>
      match locate_all_loop resp name fuel (i + 1) with
      | none => none
      | some rest => some ((i, b, e) :: rest)

/-- All headers of one name, as the loop of the callers visits them. -/
def locate_all (resp : response) (name : List Char) : Option (List (Nat × Nat × Nat)) :=
  locate_all_loop resp name ((resp.headers.getD []).length + 1) 0

/-- The text of header `i` of a response: the bytes from its start to the start of
the next header. -/
def header_line (resp : response) (i : Nat) : List Char :=
  span resp.data ((resp.headers.getD []).getD i 0) ((resp.headers.getD []).getD (i + 1) 0)

/-- A header line begins with `name`, compared ignoring ASCII case, immediately
followed by a colon. -/
def spec_header_named (line name : List Char) : Bool :=
  decide ((line.take name.length).map c_tolower = name.map c_tolower)
    && decide ((line.drop name.length).head? = some ':')

/-- A text without its leading and trailing whitespace. -/
def trim_ws (l : List Char) : List Char :=
  ((l.dropWhile c_isspace).reverse.dropWhile c_isspace).reverse

/-- The value of a header line: what follows the name and the colon, trimmed. -/
def spec_header_value (line name : List Char) : List Char :=
  trim_ws (line.drop (name.length + 1))

/-- The index of a response is in order and inside the head: every header starts no
later than the next one, which starts inside the text or at its end. -/
def index_in_order (resp : response) : Prop :=
  ∀ i, i + 1 < (resp.headers.getD []).length →
    (resp.headers.getD []).getD i 0 ≤ (resp.headers.getD []).getD (i + 1) 0
      ∧ (resp.headers.getD []).getD (i + 1) 0 ≤ resp.data.length

/-- The header start `h` points just past a line feed and not at a space or tab. -/
def starts_line (data : List Char) (h : Nat) : Prop :=
  1 ≤ h ∧ charAt data (h - 1) = LF ∧ charAt data h ≠ ' ' ∧ charAt data h ≠ TAB

/-- The position `h` is the end of the head: the end of the text or an empty line. -/
def ends_head (data : List Char) (h : Nat) : Prop :=
  charAt data h = NUL ∨ (charAt data h = CR ∧ charAt data (h + 1) = LF) ∨ charAt data h = LF

/-- The indices at which resp_status reads the header array (`resp->headers[0]` and
`resp->headers[1]`, when the array is not NULL). -/
def resp_status_reads (resp : response) : List Nat :=
  match resp.headers with
  | none => []
  | some _ => [0, 1]

/-- The indices at which the loop of resp_header_locate reads the header array from
index `i` on, in the order of the reads: the loop condition reads `headers[i + 1]`,
the body reads `headers[i]` and `headers[i + 1]`.  The list ends with the read that
ends the loop (the NULL terminator, or an entry past it, after which nothing is
defined). -/
def resp_header_locate_loop_reads (data : List Char) (headers : List Nat) (name : List Char) :
    Nat → Nat → List Nat
  | 0, _ => []
  | fuel + 1, i =>
    if headers.length ≤ i + 1 then [i + 1]
    else
      let b := headers.getD i 0
      let e := headers.getD (i + 1) 0
      if e - b > name.length && charAt data (b + name.length) = ':'
          && c_strncasecmp (data.drop b) name name.length = 0 then
        [i + 1, i, i + 1]
      else [i + 1, i, i + 1] ++ resp_header_locate_loop_reads data headers name fuel (i + 1)

/-- The indices at which resp_header_locate reads the header array: `headers[1]` in
the test at the top, then the reads of the loop. -/
def resp_header_locate_reads (resp : response) (name : List Char) (start : Nat) : List Nat :=
  match resp.headers with
  | none => []
  | some headers =>
    if headers.length ≤ 1 then [1]
    else
      1 :: resp_header_locate_loop_reads resp.data headers name (headers.length + 1)
        (if start > 0 then start else 1)

/-- The text of a protocol version in a status line: nothing, or a slash and digits,
or a slash, digits, a dot and digits. -/
def http_version (ver : List Char) : Prop :=
  ver = []
    ∨ (∃ ds1 : List Char, ver = '/' :: ds1 ∧ ds1.all c_isdigit = true)
    ∨ (∃ ds1 ds2 : List Char, ver = '/' :: ds1 ++ '.' :: ds2 ∧ ds1.all c_isdigit = true
        ∧ ds2.all c_isdigit = true)

/-- The value of a decimal digit. -/
def digit_value (c : Char) : Int := (c.toNat : Int) - 48

/-! ## Choice of the authentication scheme -/

/-- The macro STARTS: the token `[b, e)` of `line` is `literal` ignoring case. -/
def STARTS (literal : List Char) (line : List Char) (b e : Nat) : Bool :=
  e > b && e - b ≥ literal.length
    && c_strncasecmp (line.drop b) literal literal.length = 0
    && (e - b = literal.length || c_isspace (charAt line (b + literal.length)))

/-- Whether the token names a scheme that is supported (known_authentication_scheme_p). -/
def known_authentication_scheme_p (line : List Char) (b e : Nat) : Bool :=
  STARTS "Basic".toList line b e || STARTS "Digest".toList line b e
    || STARTS "NTLM".toList line b e

/-- The macro BEGINS_WITH: `line` begins with the constant, ignoring case, followed
by whitespace or by the end of the string. -/
def BEGINS_WITH (line : List Char) (string_constant : List Char) : Bool :=
  c_strncasecmp line string_constant string_constant.length = 0
    && (c_isspace (charAt line string_constant.length)
        || charAt line string_constant.length = NUL)

/-- The memory that holds the copy of a header value: the stack array `buf` or a
block obtained from xmalloc. -/
inductive auth_region
  | stack
  | heap (id : Nat)
  deriving DecidableEq, Repr

/-- A pointer into a copy of a header value. -/
structure auth_ptr where
  region : auth_region
  off : Nat
  deriving DecidableEq, Repr

/-- The scratch memory of check_auth: the bytes of the stack array `buf`, the live
heap block (its number and bytes), the number of the next block, and `tmp`
(`none` for NULL). -/
structure auth_mem where
  buf : List Char
  heap : Option (Nat × List Char)
  next_id : Nat
  tmp : Option auth_region
  deriving DecidableEq, Repr

/-- The three challenge pointers of check_auth. -/
structure auth_ptrs where
  digest : Option auth_ptr
  basic : Option auth_ptr
  ntlm : Option auth_ptr
  deriving DecidableEq, Repr

/-- The C string at offset `off` of a byte array. -/
def cstr_at (raw : List Char) (off : Nat) : List Char :=
  (raw.drop off).takeWhile (fun c => c ≠ NUL)

/-- Read the C string a pointer points to; `none` for a pointer into a freed block. -/
def auth_mem.deref (m : auth_mem) (p : auth_ptr) : Option (List Char) :=
  match p.region with
  | .stack => some (cstr_at m.buf p.off)
  | .heap id =>
    match m.heap with
    | some (live, bytes) => if live = id then some (cstr_at bytes p.off) else none
    | none => none

/-- The start of one pass of the header loop of check_auth: free `tmp` unless it is
`buf`, pick `buf` or a new block for a value of `len` bytes, copy the value and
terminate it. -/
def auth_mem.store (m : auth_mem) (value : List Char) : auth_mem × auth_region :=
  let heap := if m.tmp = some auth_region.stack ∨ m.tmp = none then m.heap else none
  if value.length < 256 then
    ({ m with heap := heap, tmp := some auth_region.stack,
              buf := value ++ [NUL] ++ m.buf.drop (value.length + 1) },
      auth_region.stack)
  else
    ({ m with heap := some (m.next_id, value ++ [NUL]), next_id := m.next_id + 1,
              tmp := some (auth_region.heap m.next_id) },
      auth_region.heap m.next_id)

/-- The loop `while (extract_param (...) && name.b && value.b)` that advances over
the parameters of one challenge; returns the cursor, `none` when out of fuel. -/
def auth_params_loop (line : List Char) : Nat → Nat → Option Nat
  | 0, _ => none
  | fuel + 1, www =>
    let r := extract_param line www ','
    if r.ok && r.value.isSome then auth_params_loop line fuel r.source
    else some r.source

/-- The loop `for (;!ntlm;)` over the challenges of one header value `line` held in
`region`; `none` when out of fuel. -/
def auth_scheme_loop (line : List Char) (region : auth_region) :
    Nat → Nat → auth_ptrs → Option auth_ptrs
  | 0, _, _ => none
  | fuel + 1, www, ps =>
    if ps.ntlm.isSome then some ps
    else
      let nb := scan line www c_isspace
      let ne := scan line nb (fun c => c ≠ NUL && !c_isspace c)
      if nb = ne then some ps
      else
        let known := known_authentication_scheme_p line nb ne
        if known && BEGINS_WITH (line.drop nb) "NTLM".toList then
          some { ps with ntlm := some ⟨region, nb⟩ }
        else
          let ps :=
            if known && ps.digest.isNone && BEGINS_WITH (line.drop nb) "Digest".toList then
              { ps with digest := some ⟨region, nb⟩ }
            else if known && ps.basic.isNone && BEGINS_WITH (line.drop nb) "Basic".toList then
              { ps with basic := some ⟨region, nb⟩ }
            else ps
          match auth_params_loop line (line.length + 1) ne with
          | none => none
          | some www => auth_scheme_loop line region fuel www ps

/-- The loop of check_auth over the WWW-Authenticate headers from position `wapos`;
`none` when a step is undefined or the fuel runs out. -/
def auth_header_loop (resp : response) :
    Nat → Nat → auth_mem → auth_ptrs → Option (auth_mem × auth_ptrs)
  | 0, _, _, _ => none
  | fuel + 1, wapos, m, ps =>
    if ps.ntlm.isSome then some (m, ps)
    else
      match resp_header_locate resp "WWW-Authenticate".toList wapos with
      | none => none
      | some none => some (m, ps)
      | some (some (pos, wabeg, waend)) =>
        let value := span resp.data wabeg waend
        let st := m.store value
        match auth_scheme_loop value st.2 (value.length + 1) 0 ps with
        | none => none
        | some ps => auth_header_loop resp fuel (pos + 1) st.1 ps

/-- Create the authorization header value for the challenge `au`
(create_authorization_line), dispatching on its first letter.  `ntlm_input` and
`ntlm_output` (http-ntlm.c, absent from the sources) are parameters.  Returns the
value (NULL as `none`), `*finished` and `*auth_err`; the outer `none` stands for
abort () or for undefined behaviour in an encoder. -/
def create_authorization_line (md5 : List Char → List Nat) (rnd : Nat)
    (ntlm_input : List Char → Bool)
    (ntlm_output : List Char → List Char → Option (List Char) × Bool)
    (au user passwd method path : List Char) (auth_err : uerr_t) :
    Option (Option (List Char) × Bool × uerr_t) :=
  if c_toupper (charAt au 0) = 'B' then
    match basic_authentication_encode user passwd with
    | some v => some (some v, true, auth_err)
    | none => none
  else if c_toupper (charAt au 0) = 'D' then
    match digest_authentication_encode md5 rnd au (some user) (some passwd) (some method)
        (some path) auth_err with
    | some (v, err) => some (v, true, err)
    | none => none
  else if c_toupper (charAt au 0) = 'N' then
    if !ntlm_input au then some (none, true, auth_err)
    else some ((ntlm_output user passwd).1, (ntlm_output user passwd).2, auth_err)
  else none

/-- Insert a host into the set of hosts that accepted Basic credentials
(register_basic_auth_host); the set compares names ignoring case. -/
def register_basic_auth_host (hosts : List (List Char)) (hostname : List Char) :
    List (List Char) :=
  if hosts.any (fun h => decide (c_strcasecmp h hostname = 0)) then hosts
  else hosts ++ [hostname]

/-- What check_auth hands back: the return value, `*retry`, the request, the three
flags behind the reference parameters, and the set of Basic hosts. -/
structure check_auth_result where
  auth_err : uerr_t
  retry : Bool
  req : request
  ntlm_seen : Bool
  basic_auth_finished : Bool
  auth_finished : Bool
  basic_authed_hosts : List (List Char)
  deriving DecidableEq, Repr

/-- Answer the challenges of a 401 response (check_auth).  `u_user` and `u_host` are
the fields of the URL, `pth` is what url_full_path returns for it.  `none` stands
for an execution that is undefined (a read through a pointer into a freed block)
or that ends in abort (). -/
def check_auth (md5 : List Char → List Nat) (rnd : Nat) (ntlm_input : List Char → Bool)
    (ntlm_output : List Char → List Char → Option (List Char) × Bool)
    (u_user : Option (List Char)) (u_host pth : List Char)
    (user passwd : Option (List Char)) (resp : response) (req : request)
    (ntlm_seen basic_auth_finished auth_finished : Bool)
    (basic_authed_hosts : List (List Char)) : Option check_auth_result :=
  let unchanged : check_auth_result :=
    { auth_err := uerr_t.RETROK, retry := false, req := req, ntlm_seen := ntlm_seen,
      basic_auth_finished := basic_auth_finished, auth_finished := auth_finished,
      basic_authed_hosts := basic_authed_hosts }
  match auth_finished, user, passwd with
  | false, some user, some passwd =>
    match auth_header_loop resp ((resp.headers.getD []).length + 1) 0
        { buf := [], heap := none, next_id := 0, tmp := none } ⟨none, none, none⟩ with
    | none => none
    | some (m, ps) =>
      if ps.basic.isNone && ps.digest.isNone && ps.ntlm.isNone then some unchanged
      else if !basic_auth_finished || ps.basic.isNone then
        let chosen := match ps.ntlm, ps.digest with
          | some p, _ => some p
          | none, some p => some p
          | none, none => ps.basic
        match chosen.bind m.deref with
        | none => none
        | some www_authenticate =>
          match create_authorization_line md5 rnd ntlm_input ntlm_output www_authenticate
              user passwd (request_method req) pth uerr_t.RETROK with
          | none => none
          | some (value, finished, err) =>
            if err = uerr_t.RETROK then
              some
                { auth_err := err, retry := true,
                  req := request_set_header req "Authorization".toList value rp.rel_value,
                  ntlm_seen := ntlm_seen || BEGINS_WITH www_authenticate "NTLM".toList,
                  basic_auth_finished := basic_auth_finished,
                  auth_finished := finished,
                  basic_authed_hosts :=
                    if !BEGINS_WITH www_authenticate "NTLM".toList && u_user.isNone
                        && BEGINS_WITH www_authenticate "Basic".toList then
                      register_basic_auth_host basic_authed_hosts u_host
                    else basic_authed_hosts }
            else
              some { unchanged with auth_err := err, auth_finished := finished }
      else some unchanged
  | _, _, _ => some unchanged

/-! ## Redirect dispatch of gethttp -/

/-- The macro H_REDIRECTED. -/
def H_REDIRECTED (x : Int) : Bool :=
  x = 301 || x = 302 || x = 303 || x = 307 || x = 308

/-- The constant HTTP_STATUS_MULTIPLE_CHOICES. -/
def HTTP_STATUS_MULTIPLE_CHOICES : Int := 300

/-- The block "Return if redirected" of gethttp.  `newloc` is hs->newloc, `opt_method`
is opt.method (`none` for NULL), `warc_body` is `none` when WARC is disabled and
otherwise holds what read_response_body returned and hs->res after it.  The result
is the value gethttp returns from this block, or `none` when it goes on past it. -/
def gethttp_redirect (statcode : Int) (newloc opt_method : Option (List Char))
    (warc_body : Option (uerr_t × Int)) : Option uerr_t :=
  if H_REDIRECTED statcode || statcode = HTTP_STATUS_MULTIPLE_CHOICES then
    if statcode = HTTP_STATUS_MULTIPLE_CHOICES && newloc.isNone then none
    else
      let failed := match warc_body with
        | some (err, res) => if err ≠ uerr_t.RETRFINISHED ∨ res < 0 then some err else none
        | none => none
      match failed with
      | some err => some err
      | none =>
        if statcode = 307 ∨ statcode = 308 then some uerr_t.NEWLOCATION_KEEP_POST
        else if statcode = 301 ∨ statcode = 302 then
          match opt_method with
          | some m =>
            if c_strcasecmp m "post".toList ≠ 0 then some uerr_t.NEWLOCATION_KEEP_POST
            else some uerr_t.NEWLOCATION
          | none => some uerr_t.NEWLOCATION
        else some uerr_t.NEWLOCATION
  else none

/-! ## Concrete inputs -/

/-- A 401 response head that offers Digest first and Basic second, on two header
lines. -/
def head_digest_then_basic : List Char :=
  "HTTP/1.1 401 Unauthorized".toList ++ [CR, LF]
    ++ "WWW-Authenticate: Digest realm=".toList ++ [DQUOTE, 'r', DQUOTE]
    ++ ", nonce=".toList ++ [DQUOTE, 'n', DQUOTE, CR, LF]
    ++ "WWW-Authenticate: Basic realm=".toList ++ [DQUOTE, 'r', DQUOTE, CR, LF]
    ++ [CR, LF]

/-- The same two challenges in the other order. -/
def head_basic_then_digest : List Char :=
  "HTTP/1.1 401 Unauthorized".toList ++ [CR, LF]
    ++ "WWW-Authenticate: Basic realm=".toList ++ [DQUOTE, 'r', DQUOTE, CR, LF]
    ++ "WWW-Authenticate: Digest realm=".toList ++ [DQUOTE, 'r', DQUOTE]
    ++ ", nonce=".toList ++ [DQUOTE, 'n', DQUOTE, CR, LF]
    ++ [CR, LF]

/-- The Authorization values in the request after resp_new and check_auth ran on a
response head, for the user alice with the password secret and a fresh GET request
for /secret on the host h. -/
def check_auth_answer (md5 : List Char → List Nat) (rnd : Nat)
    (ntlm_input : List Char → Bool)
    (ntlm_output : List Char → List Char → Option (List Char) × Bool) (head : List Char) :
    Option (List (List Char)) :=
  (resp_new head).bind (fun resp =>
    (check_auth md5 rnd ntlm_input ntlm_output none "h".toList "/secret".toList
      (some "alice".toList) (some "secret".toList) resp
      (request_new "GET".toList "/secret".toList) false false false []).map
      (fun r => (headers_named r.req "Authorization".toList).map (fun h => h.value)))

/-- A response head with two Set-Cookie headers around a Host header. -/
def head_two_cookies : List Char :=
  "HTTP/1.1 200 OK".toList ++ [CR, LF] ++ "Set-Cookie: a=1 ".toList ++ [CR, LF]
    ++ "Host: x".toList ++ [CR, LF] ++ "SET-COOKIE:b=2".toList ++ [CR, LF] ++ [CR, LF]

/-! ## Parsers built on the tokenizer -/

/-- The backslash. -/
def BACKSLASH : Char := Char.ofNat 92

/-- Modelled from the spec: the macro BOUNDED_EQUAL_NO_CASE of wget.h, absent from the
sources: the span `[b, e)` has the length of the literal and equals it, ignoring
ASCII case. -/
def BOUNDED_EQUAL_NO_CASE (s : List Char) (b e : Nat) (string_literal : List Char) : Bool :=
  decide (e - b = string_literal.length)
    && decide (c_strncasecmp (s.drop b) string_literal string_literal.length = 0)

/-- The value of a hexadecimal digit, if the byte is one. -/
def hex_value (c : Char) : Option Nat :=
  if '0'.toNat ≤ c.toNat ∧ c.toNat ≤ '9'.toNat then some (c.toNat - '0'.toNat)
  else if 'a'.toNat ≤ c.toNat ∧ c.toNat ≤ 'f'.toNat then some (c.toNat - 'a'.toNat + 10)
  else if 'A'.toNat ≤ c.toNat ∧ c.toNat ≤ 'F'.toNat then some (c.toNat - 'A'.toNat + 10)
  else none

/-- Modelled from the spec: url_unescape of url.c, absent from the sources: every
percent sign followed by two hexadecimal digits is replaced by the byte they denote,
except %00, which stays as it is; every other byte is copied. -/
def url_unescape : List Char → List Char
  | [] => []
  | [c] => [c]
  | [c, d] => [c, d]
  | c :: a :: b :: rest =>
    match hex_value a, hex_value b with
    | some x, some y =>
      if c = '%' ∧ 16 * x + y ≠ 0 then Char.ofNat (16 * x + y) :: url_unescape rest
      else c :: url_unescape (a :: b :: rest)
    | _, _ => c :: url_unescape (a :: b :: rest)

/-- The start of the file name inside a value: just past its last slash or
backslash (the memrchr calls of parse_content_disposition). -/
def basename_start (hdr : List Char) (value : param_token) : Nat :=
  match lastIdx (fun c => c = '/') (span hdr value.b value.e),
      lastIdx (fun c => c = BACKSLASH) (span hdr value.b value.e) with
  | some last_slash, some last_bs => value.b + 1 + max last_slash last_bs
  | some last_slash, none => value.b + 1 + last_slash
  | none, some last_bs => value.b + 1 + last_bs
  | none, none => value.b

/-- Store a piece in a file name that is still NULL (strdupdelim) or append it to the
file name (append_value_to_filename); the piece is unescaped when it is URL-encoded. -/
def append_value_to_filename (filename : Option (List Char)) (piece : List Char)
    (is_url_encoded : Bool) : Option (List Char) :=
  some (filename.getD [] ++ (if is_url_encoded then url_unescape piece else piece))

/-- The loop of parse_content_disposition from the cursor `source`: the encoded and
the unencoded file name when extract_param returns false; `none` when the fuel runs
out. -/
def parse_content_disposition_loop (hdr : List Char) :
    Nat → Nat → Option (List Char) → Option (List Char) →
      Option (Option (List Char) × Option (List Char))
  | 0, _, _, _ => none
  | fuel + 1, source, encodedFilename, unencodedFilename =>
    let r := extract_param hdr source ';'
    if r.ok then
      let isFilename := BOUNDED_EQUAL_NO_CASE hdr r.name.b r.name.e "filename".toList
      match r.value with
      | some value =>
        if isFilename then
          let vb := basename_start hdr value
          if vb = value.e then
            parse_content_disposition_loop hdr fuel r.source encodedFilename unencodedFilename
          else
            let isEncodedFilename :=
              decide (charAt hdr r.name.e = '*') && !c_isdigit (charAt hdr (r.name.e + 1))
            if isEncodedFilename then
              parse_content_disposition_loop hdr fuel r.source
                (append_value_to_filename encodedFilename (span hdr vb value.e) r.is_url_encoded)
                unencodedFilename
            else
              parse_content_disposition_loop hdr fuel r.source encodedFilename
                (append_value_to_filename unencodedFilename (span hdr vb value.e)
                  r.is_url_encoded)
        else parse_content_disposition_loop hdr fuel r.source encodedFilename unencodedFilename
      | none => parse_content_disposition_loop hdr fuel r.source encodedFilename unencodedFilename
    else some (encodedFilename, unencodedFilename)

/-- Parse the Content-Disposition header (parse_content_disposition): the outer
`none` stands for the fuel running out, the inner one for the return value false;
otherwise the file name stored through `filename`. -/
def parse_content_disposition (hdr : List Char) : Option (Option (List Char)) :=
  match parse_content_disposition_loop hdr (hdr.length + 1) 0 none none with
  | none => none
  | some (some encodedFilename, _) => some (some encodedFilename)
  | some (none, unencodedFilename) => some unencodedFilename

/-- Modelled from the spec: strtol of the C library with base 10: white space is
skipped, an optional sign and the digits that follow are read, a value out of the
range of long becomes LONG_MIN or LONG_MAX, and 0 is returned when there is no
digit. -/
def strtol10 (s : List Char) : Int :=
  let s := s.dropWhile c_isspace
  let neg : Bool := decide (s.head? = some '-')
  let s := if s.head? = some '-' ∨ s.head? = some '+' then s.tail else s
  let v : Int := ((s.takeWhile c_isdigit).foldl (fun acc c => acc * 10 + (c.toNat - 48)) 0 : Nat)
  if neg then max (-v) (-(2 ^ 63)) else min v (2 ^ 63 - 1)

/-- The loop of parse_strict_transport_security from the cursor `source`: the copy of
the last max-age value and the includeSubDomains flag when extract_param returns
false; `none` when the fuel runs out. -/
def parse_strict_transport_security_loop (header : List Char) :
    Nat → Nat → Option (List Char) → Bool → Option (Option (List Char) × Bool)
  | 0, _, _, _ => none
  | fuel + 1, source, c_max_age, is =>
    let r := extract_param header source ';'
    if r.ok then
      if BOUNDED_EQUAL_NO_CASE header r.name.b r.name.e "max-age".toList then
        parse_strict_transport_security_loop header fuel r.source
          (some (match r.value with
            | some v => span header v.b v.e
            | none => [])) is
      else if BOUNDED_EQUAL_NO_CASE header r.name.b r.name.e "includeSubDomains".toList then
        parse_strict_transport_security_loop header fuel r.source c_max_age true
      else parse_strict_transport_security_loop header fuel r.source c_max_age is
    else some (c_max_age, is)

/-- Parse the Strict-Transport-Security header (parse_strict_transport_security);
`header` is `none` for a NULL pointer.  The outer `none` stands for the fuel running
out, the inner one for the return value false; otherwise max_age and
include_subdomains as stored through the pointers. -/
def parse_strict_transport_security (header : Option (List Char)) :
    Option (Option (Int × Bool)) :=
  match header with
  | none => some none
  | some header =>
    match parse_strict_transport_security_loop header (header.length + 1) 0 none false with
    | none => none
    | some (some c_max_age, is) => some (some (strtol10 c_max_age, is))
    | some (none, _) => some none

/-- Arithmetic on wgint: a signed 64-bit integer. -/
def wgint_wrap (x : Int) : Int := (x + 2 ^ 63) % 2 ^ 64 - 2 ^ 63

/-- The loops `for (num = 0; c_isdigit (*hdr); hdr++) num = 10 * num + (*hdr - '0')`
of parse_content_range from the position `p`: the number and the position behind the
digits. -/
def wgint_digits (hdr : List Char) (p : Nat) : Int × Nat :=
  (((hdr.drop p).takeWhile c_isdigit).foldl
      (fun num c => wgint_wrap (10 * num + ((c.toNat : Int) - 48))) 0,
    scan hdr p c_isdigit)

/-- What parse_content_range leaves behind: its return value and what it stored
through the three pointers (`none`: nothing stored). -/
structure content_range where
  ok : Bool
  first_byte : Option Int
  last_byte : Option Int
  entity_length : Option Int
  deriving DecidableEq, Repr

/-- Parse the Content-Range header (parse_content_range); strncasecmp of the C
library is taken to be c_strncasecmp. -/
def parse_content_range (hdr : List Char) : content_range :=
  let p := if c_strncasecmp hdr "bytes".toList 5 = 0 then
      scan hdr (if charAt hdr 5 = ':' then 5 + 1 else 5) c_isspace
    else 0
  if c_strncasecmp hdr "bytes".toList 5 = 0 ∧ charAt hdr p = NUL then ⟨false, none, none, none⟩
  else if c_isdigit (charAt hdr p) = false then ⟨false, none, none, none⟩
  else
    let first := (wgint_digits hdr p).1
    let p := (wgint_digits hdr p).2
    if charAt hdr p ≠ '-' ∨ c_isdigit (charAt hdr (p + 1)) = false then
      ⟨false, none, none, none⟩
    else
      let last := (wgint_digits hdr (p + 1)).1
      let p := (wgint_digits hdr (p + 1)).2
      if charAt hdr p ≠ '/' then ⟨false, some first, none, none⟩
      else if ¬ (c_isdigit (charAt hdr (p + 1)) = true ∨ charAt hdr (p + 1) = '*') then
        ⟨false, some first, some last, none⟩
      else if last < first then ⟨false, some first, some last, none⟩
      else
        let num : Int := if charAt hdr (p + 1) = '*' then -1 else (wgint_digits hdr (p + 1)).1
        if num ≤ last ∧ num ≠ -1 then ⟨false, some first, some last, some num⟩
        else ⟨true, some first, some last, some num⟩

/-- What may stand in front of the first number of a Content-Range value: nothing, or
the word bytes in any case, an optional colon and white space. -/
def content_range_prefix (pre : List Char) : Prop :=
  pre = [] ∨ ∃ b colon ws : List Char, pre = b ++ (colon ++ ws)
    ∧ b.map c_tolower = "bytes".toList ∧ (colon = [] ∨ colon = [':'])
    ∧ ws.all c_isspace = true

/-! ## Persistent connection -/

/-- The record of the persistent connection (the static struct pconn); the NTLM data
(struct ntlmdata, absent from the sources) is a number, 0 when zeroed. -/
structure pconn_t where
  socket : Int
  host : Option (List Char)
  port : Int
  ssl : Bool
  authorized : Bool
  ntlm : Nat
  deriving DecidableEq, Repr

/-- The state of the persistent connection cache: pconn_active, pconn, and the sockets
handed to fd_close, oldest first. -/
structure pconn_state where
  pconn_active : Bool
  pconn : pconn_t
  closed : List Int
  deriving DecidableEq, Repr

/-- Mark the persistent connection as invalid (invalidate_persistent): close the
socket and zero the record. -/
def invalidate_persistent (st : pconn_state) : pconn_state :=
  { pconn_active := false, pconn := ⟨0, none, 0, false, false, 0⟩,
    closed := st.closed ++ [st.pconn.socket] }

set_option linter.unusedVariables false in
/-- Register a connection as persistent (register_persistent); the argument `ssl` is
not used by the function. -/
def register_persistent (st : pconn_state) (host : List Char) (port fd : Int) (ssl : Bool) :
    pconn_state :=
  if st.pconn_active = true ∧ st.pconn.socket = fd then st
  else
    let st := if st.pconn_active = true then invalidate_persistent st else st
    { st with pconn_active := true,
              pconn := { st.pconn with socket := fd, host := some host, port := port,
                                       authorized := false } }

/-! ## Parameters as they are written -/

/-- The written form of a parameter value: the white space after the equals sign,
whether the value stands between double quotes, its text, and the white space after
it. -/
structure spec_value where
  ws2 : List Char
  quoted : Bool
  text : List Char
  ws3 : List Char
  deriving DecidableEq, Repr

/-- The written form of a parameter: white space, the name, white space, and the
value if there is one. -/
structure spec_param where
  ws0 : List Char
  name : List Char
  ws1 : List Char
  value : Option spec_value
  deriving DecidableEq, Repr

/-- The bytes of a written value, from the equals sign on. -/
def spec_value.bytes (v : spec_value) : List Char :=
  '=' :: (v.ws2 ++ ((if v.quoted then DQUOTE :: (v.text ++ [DQUOTE]) else v.text) ++ v.ws3))

/-- The bytes of a written parameter. -/
def spec_param.bytes (p : spec_param) : List Char :=
  p.ws0 ++ (p.name ++ (p.ws1 ++ (match p.value with
    | some v => v.bytes
    | none => [])))

/-- A written value is well formed: the white space is white space; a quoted text has
no double quote and no NUL; a bare text is not empty, has no separator and no NUL,
does not begin with white space or a double quote and does not end with white
space. -/
def spec_value.wf (separator : Char) (v : spec_value) : Bool :=
  v.ws2.all c_isspace && v.ws3.all c_isspace
    && (if v.quoted then v.text.all (fun c => decide (c ≠ NUL) && decide (c ≠ DQUOTE))
        else decide (v.text ≠ [])
          && v.text.all (fun c => decide (c ≠ NUL) && decide (c ≠ separator))
          && !c_isspace (v.text.headD NUL) && decide (v.text.headD NUL ≠ DQUOTE)
          && !c_isspace (v.text.reverse.headD NUL))

/-- A written parameter is well formed: the white space is white space, the name is
not empty and has no NUL, white space, equals sign or separator, and the value, if
any, is well formed. -/
def spec_param.wf (separator : Char) (p : spec_param) : Bool :=
  p.ws0.all c_isspace && p.ws1.all c_isspace && decide (p.name ≠ [])
    && p.name.all (fun c => decide (c ≠ NUL) && !c_isspace c && decide (c ≠ '=')
        && decide (c ≠ separator))
    && (match p.value with
        | some v => v.wf separator
        | none => true)

/-- A separator that the tokenizer can tell from the rest: not NUL, white space, the
equals sign or the double quote. -/
def separator_ok (separator : Char) : Bool :=
  decide (separator ≠ NUL) && !c_isspace separator && decide (separator ≠ '=')
    && decide (separator ≠ DQUOTE)

/-- A header value: written parameters with the separator between them. -/
def spec_header (separator : Char) : List spec_param → List Char
  | [] => []
  | [p] => p.bytes
  | p :: q :: rest => p.bytes ++ separator :: spec_header separator (q :: rest)

/-- What the calls that extract the written parameters are to deliver, the first
call starting at the cursor `pos`: name, value (`none` when there is none),
is_url_encoded and the cursor left behind, just past the separator or at the end. -/
def spec_results (pos : Nat) : List spec_param → List (List Char × Option (List Char) × Bool × Nat)
  | [] => []
  | [p] => [(p.name, p.value.map (fun v => v.text), false, pos + p.bytes.length)]
  | p :: q :: rest =>
    (p.name, p.value.map (fun v => v.text), false, pos + p.bytes.length + 1)
      :: spec_results (pos + p.bytes.length + 1) (q :: rest)

/-- Successive extract_param calls from the cursor `source`, as in the loops
`for (; extract_param (&hdr, &name, &value, separator, &is_url_encoded); ...)`: for
every call that returns true the text of the name, the text of the value (`none` for
a zeroed token), is_url_encoded and the cursor it leaves, then the cursor of the
call that returns false; `none` when the fuel runs out. -/
def extract_params_loop (s : List Char) (separator : Char) :
    Nat → Nat → Option (List (List Char × Option (List Char) × Bool × Nat) × Nat)
  | 0, _ => none
  | fuel + 1, source =>
    let r := extract_param s source separator
    if r.ok then
      match extract_params_loop s separator fuel r.source with
      | some (rest, last) =>
        some ((span s r.name.b r.name.e, r.value.map (fun v => span s v.b v.e),
          r.is_url_encoded, r.source) :: rest, last)
      | none => none
    else some ([], r.source)

/-- The file name inside a value, as the spec words it: the text behind the last slash
or backslash. -/
def spec_basename (text : List Char) : List Char :=
  (text.reverse.takeWhile (fun c => c ≠ '/' && c ≠ BACKSLASH)).reverse

/-- The file name pieces of a Content-Disposition header, in order of appearance: one
for every extract_param call that returns true (up to the first call that returns
false) with a name equal to filename, ignoring case, and with a value whose basename
is not empty.  A piece is of the encoded kind when the name is followed by an
asterisk and no digit, and its text is the basename, percent-decoded when the call
reports is_url_encoded.  The result is `none` when the fuel runs out. -/
def spec_filename_pieces (hdr : List Char) : Nat → Nat → Option (List (Bool × List Char))
  | 0, _ => none
  | fuel + 1, source =>
    let r := extract_param hdr source ';'
    if r.ok then
      (spec_filename_pieces hdr fuel r.source).map (fun rest =>
        match r.value with
        | some value =>
          let text := spec_basename (span hdr value.b value.e)
          if (span hdr r.name.b r.name.e).map c_tolower = "filename".toList ∧ text ≠ [] then
            (decide (charAt hdr r.name.e = '*') && !c_isdigit (charAt hdr (r.name.e + 1)),
              if r.is_url_encoded then url_unescape text else text) :: rest
          else rest
        | none => rest)
    else some []

/-- The file name chosen from the pieces: the pieces of the encoded kind, concatenated
in order, when there is one; otherwise the pieces of the unencoded kind, concatenated
in order; none when there is no piece. -/
def spec_filename (pieces : List (Bool × List Char)) : Option (List Char) :=
  if (pieces.filter (fun p => p.1)) ≠ [] then
    some ((pieces.filter (fun p => p.1)).map (fun p => p.2)).flatten
  else if pieces ≠ [] then some (pieces.map (fun p => p.2)).flatten
  else none

/-! ## Persistent connection: reuse -/

/-- Whether a persistent connection is available for connecting to `host`:`port`
(persistent_available_p).  The peer address of a socket (socket_ip_address), the
addresses a host resolves to (lookup_host, address_list_contains) and the liveness
probe (test_socket_open) are parameters; strcasecmp is taken to be c_strcasecmp.
Returns the return value, the state of the cache and whether `*host_lookup_failed`
was set; `none` stands for the comparison with a NULL cached host. -/
def persistent_available_p (socket_ip_address : Int → Option Nat)
    (lookup_host : List Char → Option (List Nat)) (test_socket_open : Int → Bool)
    (st : pconn_state) (host : List Char) (port : Int) :
    Option (Bool × pconn_state × Bool) :=
  if st.pconn_active = false then some (false, st, false)
  else if port ≠ st.pconn.port then some (false, st, false)
  else
    match st.pconn.host with
    | none => none
    | some pconn_host =>
      let probe : Bool × pconn_state × Bool :=
        if test_socket_open st.pconn.socket = false then (false, invalidate_persistent st, false)
        else (true, st, false)
      if c_strcasecmp host pconn_host ≠ 0 then
        match socket_ip_address st.pconn.socket with
        | none => some (false, invalidate_persistent st, false)
        | some ip =>
          match lookup_host host with
          | none => some (false, st, true)
          | some al => if al.contains ip = false then some (false, st, false) else some probe
      else some probe

/-! ## The retry loop (http_loop) -/

/-- The bits of `*dt` that the functions embedded here set or test. -/
structure dt_flags where
  HEAD_ONLY : Bool
  IF_MODIFIED_SINCE : Bool
  SEND_NOCACHE : Bool
  RETROKF : Bool
  TEXTHTML : Bool
  TEXTCSS : Bool
  ADDED_HTML_EXTENSION : Bool
  deriving DecidableEq, Repr

/-- Modelled from the spec: the fields of struct options (options.h, absent from the
sources) that http_loop and gethttp read where they decide their control flow; a
string option is `none` when it is NULL. -/
structure options where
  warc_filename : Option (List Char)
  output_document : Option (List Char)
  content_disposition : Bool
  noclobber : Bool
  spider : Bool
  always_rest : Bool
  timestamping : Bool
  if_modified_since : Bool
  backup_converted : Bool
  start_pos : Int
  allow_cache : Bool
  ntry : Int
  retry_on_host_error : Bool
  retry_on_http_error : Option (List Char)
  recursive : Bool
  http_keep_alive : Bool := true
  ignore_length : Bool := false
  content_on_error : Bool := false
  method : Option (List Char) := none
  delete_after : Bool := false
  deriving DecidableEq, Repr

/-- The fields of struct http_stat that http_loop reads or writes where they decide
its control flow. -/
structure http_stat where
  len : Int
  contlen : Int
  restval : Int
  res : Int
  newloc : Option (List Char)
  remote_time : Option (List Char)
  statcode : Int
  local_file : Option (List Char)
  existence_checked : Bool
  timestamp_checked : Bool
  orig_file_name : Option (List Char)
  orig_file_size : Int
  orig_file_tstamp : Int
  deriving DecidableEq, Repr

/-- What http_loop takes from its surroundings: the options, whether a proxy is
used, the name that url_file_name returns, file_exists_p, has_html_suffix_p, stat
(size, modification time and S_ISREG of an existing file), gethttp (by the number
of the call: the result code and what the call leaves in the http_stat and in
`*dt`), http_atotm (-1 for a date that cannot be parsed) and iri->utf8_encode. -/
structure http_loop_env where
  opt : options
  proxy : Bool
  url_file_name : List Char
  file_exists_p : List Char → Bool
  has_html_suffix_p : List Char → Bool
  stat : List Char → Option (Int × Int × Bool)
  gethttp : Nat → http_stat → dt_flags → Int → uerr_t × http_stat × dt_flags
  http_atotm : List Char → Int
  utf8_encode : Bool

/-- The variables of http_loop that live across the passes of its loop; `calls`
counts the calls of gethttp made so far, `newloc` is `*newloc`. -/
structure http_loop_state where
  count : Int
  calls : Nat
  got_head : Bool
  got_name : Bool
  time_came_from_head : Bool
  tmr : Int
  send_head_first : Bool
  force_full_retrieve : Bool
  hstat : http_stat
  dt : dt_flags
  newloc : Option (List Char)
  deriving DecidableEq, Repr

/-- How one pass of the loop of http_loop ends: with `continue`, with `goto exit`
and the value of `ret`, or in abort (). -/
inductive http_loop_step
  | again (st : http_loop_state)
  | leave (ret : uerr_t) (st : http_loop_state)
  | aborts
  deriving DecidableEq, Repr

/-- Where the switch on the result of gethttp leads: to `continue`, to `goto exit`
with the value of `ret`, on to the code behind the switch, or to abort (). -/
inductive http_loop_dispatch_result
  | retry
  | leave (ret : uerr_t)
  | evaluate
  | aborts
  deriving DecidableEq, Repr

/-- The switch of http_loop on the result `err` of gethttp; `newloc` is `*newloc`.
The case RETR_WITH_METALINK belongs to code that is compiled only with
HAVE_METALINK and is left out. -/
def http_loop_dispatch (retry_on_host_error : Bool) (newloc : Option (List Char))
    (err : uerr_t) : http_loop_dispatch_result :=
  match err with
  | .HERR | .HEOF | .CONSOCKERR | .CONERROR | .READERR | .WRITEFAILED | .RANGEERR
  | .FOPEN_EXCL_ERR | .GATEWAYTIMEOUT => .retry
  | .FWRITEERR | .FOPENERR => .leave err
  | .HOSTERR => if retry_on_host_error then .retry else .leave err
  | .CONIMPOSSIBLE | .PROXERR | .SSLINITFAILED | .CONTNOTSUPPORTED | .VERIFCERTERR
  | .FILEBADFILE | .UNKNOWNATTR => .leave err
  | .ATTRMISSING => .leave err
  | .AUTHFAILED => .leave err
  | .WARC_ERR => .leave err
  | .WARC_TMP_FOPENERR | .WARC_TMP_FWRITEERR => .leave err
  | .CONSSLERR => .leave err
  | .UNLINKERR => .leave err
  | .NEWLOCATION | .NEWLOCATION_KEEP_POST =>
    if newloc.isNone then .leave .WRONGCODE else .leave err
  | .RETRUNNEEDED => .leave .RETROK
  | .RETRFINISHED => .evaluate
  | _ => .aborts

/-- Modelled from the spec: atoi of the C library: the number that strtol reads in
base 10, converted to int. -/
def atoi (s : List Char) : Int := (strtol10 s + 2 ^ 31) % 2 ^ 32 - 2 ^ 31

/-- The walk of strchr (tok, ',') in check_retry_on_http_error and the passes of the
loop behind it: at a comma the token that follows is tested. -/
def check_retry_walk (statcode : Int) : List Char → Bool
  | [] => false
  | c :: rest =>
    if c = ',' then
      !rest.isEmpty && (decide (atoi rest = statcode) || check_retry_walk statcode rest)
    else check_retry_walk statcode rest

/-- Whether the status code is listed in opt.retry_on_http_error
(check_retry_on_http_error). -/
def check_retry_on_http_error (retry_on_http_error : Option (List Char)) (statcode : Int) :
    Bool :=
  match retry_on_http_error with
  | none => false
  | some tok => !tok.isEmpty && (decide (atoi tok = statcode) || check_retry_walk statcode tok)

/-- Look for the file to compare time stamps with (set_file_timestamp): the file
with the suffix .orig when -K is given and it exists, else the file itself. -/
def set_file_timestamp (backup_converted : Bool) (stat : List Char → Option (Int × Int × Bool))
    (hs : http_stat) : uerr_t × http_stat :=
  let local_file := hs.local_file.getD []
  let dot_orig := if backup_converted then stat (local_file ++ ".orig".toList) else none
  let found : Option (List Char × Int × Int × Bool) :=
    match dot_orig with
    | some st => some (local_file ++ ".orig".toList, st)
    | none =>
      match stat local_file with
      | some st => some (local_file, st)
      | none => none
  match found with
  | some (local_filename, st) =>
    (uerr_t.RETROK,
      { hs with orig_file_name := some local_filename, orig_file_size := st.1,
                orig_file_tstamp := st.2.1, timestamp_checked := true })
  | none => (uerr_t.RETROK, hs)

/-- How http_loop reaches its loop: it returns before the loop with a result code
and `*dt`, or it enters the loop with its variables set. -/
inductive http_loop_start
  | returned (ret : uerr_t) (dt : dt_flags)
  | enter (st : http_loop_state)
  deriving DecidableEq, Repr

/-- The part of http_loop in front of its loop; `dt0` is `*dt` as the caller passes
it.  Loading the cookies, the log and `*local_file` are not modelled. -/
def http_loop_prelude (E : http_loop_env) (dt0 : dt_flags) : http_loop_start :=
  let force_full_retrieve := E.opt.warc_filename.isSome
  let local_file : Option (List Char) :=
    match E.opt.output_document with
    | some d => some d
    | none => if !E.opt.content_disposition then some E.url_file_name else none
  let got_name := E.opt.output_document.isSome || !E.opt.content_disposition
  let hstat : http_stat :=
    { len := 0, contlen := 0, restval := 0, res := 0, newloc := none, remote_time := none,
      statcode := 0, local_file := local_file, existence_checked := false,
      timestamp_checked := false, orig_file_name := none, orig_file_size := 0,
      orig_file_tstamp := 0 }
  if got_name && E.file_exists_p (local_file.getD []) && E.opt.noclobber
      && E.opt.output_document.isNone then
    .returned uerr_t.RETROK
      { dt0 with RETROKF := true,
                 TEXTHTML := dt0.TEXTHTML || E.has_html_suffix_p (local_file.getD []) }
  else
    let dt : dt_flags := ⟨false, false, false, false, false, false, false⟩
    let send_head_first := E.opt.spider
    let send_head_first :=
      if E.opt.content_disposition && E.opt.always_rest then true else send_head_first
    let st : http_loop_state :=
      { count := 0, calls := 0, got_head := false, got_name := got_name,
        time_came_from_head := false, tmr := -1, send_head_first := send_head_first,
        force_full_retrieve := force_full_retrieve, hstat := hstat, dt := dt, newloc := none }
    if E.opt.timestamping then
      if E.opt.if_modified_since && !send_head_first && got_name
          && E.file_exists_p (local_file.getD []) then
        let r := set_file_timestamp E.opt.backup_converted E.stat hstat
        if r.1 ≠ uerr_t.RETROK then .returned r.1 { dt with IF_MODIFIED_SINCE := true }
        else .enter { st with hstat := r.2, dt := { dt with IF_MODIFIED_SINCE := true } }
      else if E.opt.content_disposition || E.file_exists_p (local_file.getD []) then
        .enter { st with send_head_first := true }
      else .enter st
    else .enter st

/-- The end of a pass of the loop, behind the time-stamping section: the test of
what was received.  Touching the file and the log are not modelled. -/
def http_loop_finish (S : http_loop_state) : http_loop_step :=
  if S.hstat.len = S.hstat.contlen then .leave uerr_t.RETROK S
  else if S.hstat.res = 0 then
    if S.hstat.contlen = -1 then .leave uerr_t.RETROK S
    else if S.hstat.len < S.hstat.contlen then .again S
    else if S.hstat.len ≠ S.hstat.restval then .aborts
    else .leave uerr_t.RETROK S
  else .again S

/-- The code of a pass of the loop behind the switch, reached for RETRFINISHED. -/
def http_loop_evaluate (E : http_loop_env) (S : http_loop_state) : http_loop_step :=
  if !S.dt.RETROKF then
    if S.dt.HEAD_ONLY && (S.hstat.statcode = 500 || S.hstat.statcode = 501) then
      .again { S with got_head := true }
    else if E.opt.spider && !E.utf8_encode then .leave uerr_t.WRONGCODE S
    else if check_retry_on_http_error E.opt.retry_on_http_error S.hstat.statcode then .again S
    else .leave uerr_t.WRONGCODE S
  else if !S.got_head || (E.opt.spider && !E.opt.recursive) then
    let tmr := match S.hstat.remote_time with
      | some t => E.http_atotm t
      | none => S.tmr
    let S1 := { S with got_head := true, tmr := tmr,
                       time_came_from_head :=
                         S.time_came_from_head || (S.hstat.remote_time.isSome && S.dt.HEAD_ONLY) }
    if S.send_head_first then
      let usable := E.opt.timestamping && S.hstat.orig_file_name.isSome
        && S.hstat.remote_time.isSome && tmr ≠ -1
      if usable && S.hstat.orig_file_tstamp ≥ tmr
          && (S.hstat.contlen = -1 || S.hstat.orig_file_size = S.hstat.contlen) then
        .leave uerr_t.RETROK S1
      else
        let S2 := { S1 with
          force_full_retrieve :=
            S1.force_full_retrieve || (usable && !decide (S.hstat.orig_file_tstamp ≥ tmr)),
          hstat := { S1.hstat with
            timestamp_checked := S1.hstat.timestamp_checked || E.opt.timestamping } }
        let finished := E.opt.spider
          && (if E.opt.recursive then !(S.dt.TEXTHTML || S.dt.TEXTCSS) else true)
        if finished then .leave uerr_t.RETROK S2
        else .again { S2 with got_name := true, dt := { S2.dt with HEAD_ONLY := false },
                              count := 0 }
    else http_loop_finish S1
  else http_loop_finish S

/-- One pass of the loop of http_loop.  Sleeping between retrievals and the log are
not modelled. -/
def http_loop_body (E : http_loop_env) (S : http_loop_state) : http_loop_step :=
  let count := S.count + 1
  let dt := { S.dt with HEAD_ONLY := S.send_head_first && !S.got_head }
  let on_disk := if E.opt.always_rest && S.got_name then E.stat (S.hstat.local_file.getD [])
    else none
  let restval : Int :=
    if S.force_full_retrieve then S.hstat.len
    else if E.opt.start_pos ≥ 0 then E.opt.start_pos
    else
      match on_disk.filter (fun st => st.2.2) with
      | some st => st.1
      | none =>
        if count > 1 then
          if S.hstat.len < S.hstat.restval then S.hstat.restval - S.hstat.len else S.hstat.len
        else 0
  let dt := { dt with SEND_NOCACHE := (E.proxy && decide (count > 1)) || !E.opt.allow_cache }
  let r := E.gethttp S.calls { S.hstat with restval := restval } dt count
  let newloc := if r.2.1.newloc.isSome then r.2.1.newloc else S.newloc
  let S1 := { S with count := count, calls := S.calls + 1, hstat := r.2.1, dt := r.2.2,
                     newloc := newloc }
  match http_loop_dispatch E.opt.retry_on_host_error newloc r.1 with
  | .retry => .again S1
  | .leave ret => .leave ret S1
  | .aborts => .aborts
  | .evaluate => http_loop_evaluate E S1

/-- The loop `do ... while (!opt.ntry || (count < opt.ntry))` of http_loop from the
state `S`: the value returned and the variables at that point, whether the run ends
in abort (), or `none` when the fuel runs out. -/
def http_loop_run (E : http_loop_env) : Nat → http_loop_state → Option http_loop_step
  | 0, _ => none
  | fuel + 1, S =>
    match http_loop_body E S with
    | .again S1 =>
      if E.opt.ntry = 0 ∨ S1.count < E.opt.ntry then http_loop_run E fuel S1
      else some (.leave uerr_t.TRYLIMEXC S1)
    | .leave ret S1 => some (.leave ret S1)
    | .aborts => some .aborts

/-- How a run of http_loop ends: it returns a value, with `*dt` and the number of
calls of gethttp it made, or it ends in abort (). -/
inductive http_loop_result
  | returned (ret : uerr_t) (dt : dt_flags) (calls : Nat)
  | aborted
  deriving DecidableEq, Repr

/-- The retry loop around gethttp (http_loop); `none` when the fuel runs out. -/
def http_loop (E : http_loop_env) (dt0 : dt_flags) (fuel : Nat) : Option http_loop_result :=
  match http_loop_prelude E dt0 with
  | .returned ret dt => some (.returned ret dt 0)
  | .enter S =>
    match http_loop_run E fuel S with
    | some (.leave ret S1) => some (.returned ret S1.dt S1.calls)
    | some (.again _) => none
    | some .aborts => some .aborted
    | none => none

/-- A concrete surrounding for http_loop: no output document, the destination file
index.html exists, every call of gethttp returns `err` and leaves the http_stat and
`*dt` alone; timestamping, if_modified_since and the number of tries are as given,
the other options are off. -/
def http_loop_env_example (timestamping if_modified_since : Bool) (ntry : Int) (err : uerr_t) :
    http_loop_env :=
  { opt :=
      { warc_filename := none, output_document := none, content_disposition := false,
        noclobber := false, spider := false, always_rest := false,
        timestamping := timestamping, if_modified_since := if_modified_since,
        backup_converted := false, start_pos := -1, allow_cache := true, ntry := ntry,
        retry_on_host_error := false, retry_on_http_error := none, recursive := false },
    proxy := false,
    url_file_name := "index.html".toList,
    file_exists_p := fun _ => true,
    has_html_suffix_p := fun _ => true,
    stat := fun _ => some (10, 100, true),
    gethttp := fun _ hs dt _ => (err, hs, dt),
    http_atotm := fun _ => -1,
    utf8_encode := false }

/-! ## Reading the response: head terminator and short bodies -/

/-- The loop `for (; p < end - 2; p++)` of response_head_terminator with `n` passes
left: the position it returns, if it returns, and `p` where it stops. -/
def response_head_terminator_scan (hunk : List Char) : Nat → Nat → Option Nat × Nat
  | 0, p => (none, p)
  | n + 1, p =>
    if charAt hunk p = LF then
      if charAt hunk (p + 1) = CR ∧ charAt hunk (p + 2) = LF then (some (p + 3), p)
      else if charAt hunk (p + 1) = LF then (some (p + 2), p)
      else response_head_terminator_scan hunk n (p + 1)
    else response_head_terminator_scan hunk n (p + 1)

/-- Look for the empty line that ends a response head (response_head_terminator).
`hunk` holds the bytes from `start` on, `peeked` is the offset of the pointer
`peeked` and `peeklen` the number of bytes peeked behind it; the result is the
offset returned, `none` for NULL. -/
def response_head_terminator (hunk : List Char) (peeked peeklen : Nat) : Option Nat :=
  if peeked = 0 ∧ hunk.take (min peeklen 4) ≠ "HTTP".toList.take (min peeklen 4) then some 0
  else
    let p := if peeked < 2 then 0 else peeked - 2
    let e := peeked + peeklen
    match response_head_terminator_scan hunk (e - 2 - p) p with
    | (some r, _) => some r
    | (none, p) =>
      if peeklen ≥ 2 ∧ charAt hunk p = LF ∧ charAt hunk (p + 1) = LF then some (p + 2)
      else none

/-- The constant SKIP_SIZE. -/
def SKIP_SIZE : Int := 512

/-- The constant SKIP_THRESHOLD. -/
def SKIP_THRESHOLD : Int := 4096

/-- Modelled from the spec: fd_read_line of retr.c, absent from the sources, on a
connection that delivers the bytes of `input` and is then closed: the line up to
and with the next line feed (or what is left), and the bytes behind it; `none` at
the end of the input. -/
def fd_read_line (input : List Char) : Option (List Char × List Char) :=
  if input.isEmpty then none
  else
    let line := input.takeWhile (fun c => c ≠ LF)
    let rest := input.dropWhile (fun c => c ≠ LF)
    some (line ++ rest.take 1, rest.drop 1)

/-- Modelled from the spec: fd_read of connect.c, absent from the sources, on a
connection that delivers the bytes of `input` and is then closed: the number of
bytes read, at most `bufsize` (0 at the end of the input), and the bytes left. -/
def fd_read (input : List Char) (bufsize : Int) : Int × List Char :=
  (((input.take bufsize.toNat).length : Nat), input.drop bufsize.toNat)

/-- Modelled from the spec: strtol of the C library with base 16: white space is
skipped, an optional sign, an optional 0x and the hexadecimal digits that follow are
read; a value out of the range of long becomes LONG_MIN or LONG_MAX. -/
def strtol16 (s : List Char) : Int :=
  let s := s.dropWhile c_isspace
  let neg : Bool := decide (s.head? = some '-')
  let s := if s.head? = some '-' ∨ s.head? = some '+' then s.tail else s
  let s := if s.take 2 = "0x".toList ∨ s.take 2 = "0X".toList then
      (if ((s.drop 2).head?.bind hex_value).isSome then s.drop 2 else s)
    else s
  let v : Int := ((s.takeWhile (fun c => (hex_value c).isSome)).foldl
    (fun acc c => acc * 16 + (hex_value c).getD 0) 0 : Nat)
  if neg then max (-v) (-(2 ^ 63)) else min v (2 ^ 63 - 1)

/-- The loop of skip_short_body on a connection that delivers the bytes of `input`;
`drained` counts the body bytes that the fd_read calls have taken so far.  The
result is the return value, the number of body bytes drained and the input left;
`none` when the fuel runs out. -/
def skip_short_body_loop : Nat → List Char → Int → Bool → Int → Nat →
    Option (Bool × Nat × List Char)
  | 0, _, _, _, _, _ => none
  | fuel + 1, input, contlen, chunked, remaining_chunk_size, drained =>
    if contlen > 0 ∨ chunked = true then
      let start : Option (Option (Bool × Nat × List Char) × List Char × Int × Int) :=
        if chunked then
          if remaining_chunk_size = 0 then
            match fd_read_line input with
            | none => some (some (true, drained, input), input, contlen, remaining_chunk_size)
            | some (line, input) =>
              let remaining_chunk_size := strtol16 line
              if remaining_chunk_size < 0 then
                some (some (false, drained, input), input, contlen, remaining_chunk_size)
              else if remaining_chunk_size = 0 then
                let input := match fd_read_line input with
                  | some (_, input) => input
                  | none => input
                some (some (true, drained, input), input, contlen, remaining_chunk_size)
              else
                some (none, input, min remaining_chunk_size SKIP_SIZE, remaining_chunk_size)
          else some (none, input, min remaining_chunk_size SKIP_SIZE, remaining_chunk_size)
        else some (none, input, contlen, remaining_chunk_size)
      match start with
      | none => none
      | some (some r, _, _, _) => some r
      | some (none, input, contlen, remaining_chunk_size) =>
        let rd := fd_read input (min contlen SKIP_SIZE)
        let ret := rd.1
        let input := rd.2
        if ret ≤ 0 then some (false, drained, input)
        else
          let contlen := contlen - ret
          let drained := drained + ret.toNat
          if chunked then
            let remaining_chunk_size := remaining_chunk_size - ret
            if remaining_chunk_size = 0 then
              match fd_read_line input with
              | none => some (false, drained, input)
              | some (_, input) =>
                skip_short_body_loop fuel input contlen chunked remaining_chunk_size drained
            else skip_short_body_loop fuel input contlen chunked remaining_chunk_size drained
          else skip_short_body_loop fuel input contlen chunked remaining_chunk_size drained
    else some (true, drained, input)

/-- Read and drop a short body (skip_short_body) from a connection that delivers the
bytes of `input`: the return value, the number of body bytes drained and the input
left; `none` when the fuel runs out. -/
def skip_short_body (input : List Char) (contlen : Int) (chunked : Bool) :
    Option (Bool × Nat × List Char) :=
  if contlen > SKIP_THRESHOLD then some (false, 0, input)
  else skip_short_body_loop (input.length + 2) input contlen chunked 0 0

/-! ## gethttp: one request and its response -/

/-- The macro H_10X. -/
def H_10X (x : Int) : Bool := decide (x ≥ 100) && decide (x < 200)

/-- The macro H_20X. -/
def H_20X (x : Int) : Bool := decide (x ≥ 200) && decide (x < 300)

/-- The macro H_PARTIAL. -/
def H_PARTIAL (x : Int) : Bool := decide (x = 206)

/-- Modelled from the spec: the constant E_HOST of connect.h, absent from the sources:
the value connect_to_host returns when the host name cannot be resolved. -/
def E_HOST : Int := -100

/-- Modelled from the spec: the constant WGINT_MAX, absent from the sources: the
largest value of a signed 64-bit wgint. -/
def WGINT_MAX : Int := 2 ^ 63 - 1

/-- Modelled from the spec: the constant TEXTHTML_S of wget.h, absent from the
sources. -/
def TEXTHTML_S : List Char := "text/html".toList

/-- Modelled from the spec: the constant TEXTXHTML_S of wget.h, absent from the
sources. -/
def TEXTXHTML_S : List Char := "application/xhtml+xml".toList

/-- Modelled from the spec: the constant TEXTCSS_S of wget.h, absent from the
sources. -/
def TEXTCSS_S : List Char := "text/css".toList

/-- The calls of gethttp that are recorded, in the order in which they are made: the
two macros that close the connection, skip_short_body, read_response_body (with
whether its `fp` is a file) and open_output_stream. -/
inductive gethttp_event
  | close_finish
  | close_invalidate
  | skip_short_body
  | read_response_body (fp : Bool)
  | open_output_stream
  deriving DecidableEq, Repr

/-- What gethttp takes from one response head: the status code that resp_status
returns, and the header values it looks up, `none` for a header that is absent:
Content-Length as str_to_wgint parses it, with whether errno is ERANGE, Connection,
Transfer-Encoding, Content-Disposition, Content-Type cut at its first semicolon,
Location, Last-Modified, X-Archive-Orig-last-modified, Content-Range, and whether the
Content-Encoding section leaves hs->remote_encoding at ENC_GZIP. -/
structure response_facts where
  statcode : Int
  content_length : Option (Int × Bool)
  connection : Option (List Char)
  transfer_encoding : Option (List Char)
  content_disposition : Option (List Char)
  content_type : Option (List Char)
  location : Option (List Char)
  last_modified : Option (List Char)
  x_archive_orig_last_modified : Option (List Char)
  content_range : Option (List Char)
  remote_gzip : Bool
  deriving DecidableEq, Repr

/-- What the surroundings answer during one pass of gethttp from the label
retry_with_auth on: socket_ip_address, lookup_host and test_socket_open as
persistent_available_p calls them, the value of connect_to_host and of
retryable_socket_connect_error, whether warc_tempfile returns a file, the final
write_error of sending the request, the result of warc_write_request_record, the
response heads in the order in which read_http_response_head delivers them (`none`
for a failed read) and whether errno is 0 after a failed read, the results of
check_auth (return value, `*retry`, `*ntlm_seen_ref`), of skip_short_body (from
contlen and chunked), of read_response_body (from `*hs`, whether `fp` is a file,
contlen, contrange and chunked: return value and `*hs` behind it), of
open_output_stream, of
url_file_name, acceptable, file_exists_p and stat, the name that the branch of
check_file_output for an existing file that may not be overwritten leaves in
hs->local_file, what the section for opt.adjust_extension makes of `*hs` and `*dt`,
and http_atotm. -/
structure gethttp_io where
  socket_ip_address : Int → Option Nat
  lookup_host : List Char → Option (List Nat)
  test_socket_open : Int → Bool
  connect_to_host : Int
  retryable_socket_connect_error : Bool
  warc_tempfile : Bool
  write_error : Int
  warc_write_request_record : Bool
  heads : List (Option response_facts)
  errno_zero : Bool
  check_auth : uerr_t × Bool × Bool
  skip_short_body : Int → Bool → Bool
  read_response_body : http_stat → Bool → Int → Int → Bool → uerr_t × http_stat
  open_output_stream : uerr_t
  url_file_name : Option (List Char) → List Char
  acceptable : List Char → Bool
  file_exists_p : List Char → Bool
  stat : List Char → Option (Int × Int × Bool)
  unique_local_file : List Char → List Char
  adjust_extension : http_stat → dt_flags → http_stat × dt_flags
  http_atotm : List Char → Int

/-- What a call of gethttp is given besides `*hs` and `*dt`: the options, the host and
port of `conn`, and the error of initialize_request when it returns no request. -/
structure gethttp_env where
  opt : options
  host : List Char
  port : Int
  initialize_request : Option uerr_t
  deriving DecidableEq, Repr

/-- The variables of gethttp that a pass changes: `*hs`, `*dt`, the persistent
connection cache, `sock`, `keep_alive`, `ntlm_seen`, and the recorded calls. -/
structure gethttp_state where
  hs : http_stat
  dt : dt_flags
  pc : pconn_state
  sock : Int
  keep_alive : Bool
  ntlm_seen : Bool
  events : List gethttp_event
  deriving DecidableEq, Repr

/-- How a pass of gethttp ends: with `goto retry_with_auth`, or at the label cleanup
with the value to return. -/
inductive gethttp_step
  | retry (st : gethttp_state)
  | done (retval : uerr_t) (st : gethttp_state)
  deriving DecidableEq, Repr

/-- The macro CLOSE_INVALIDATE applied to `sock`: the persistent connection is
invalidated when `sock` is its socket, else `sock` is closed. -/
def CLOSE_INVALIDATE (st : gethttp_state) : gethttp_state :=
  { st with
    pc := if st.pc.pconn_active = true ∧ st.sock = st.pc.pconn.socket then
        invalidate_persistent st.pc
      else { st.pc with closed := st.pc.closed ++ [st.sock] },
    sock := -1,
    events := st.events ++ [gethttp_event.close_invalidate] }

/-- The macro CLOSE_FINISH applied to `sock`: nothing is closed when keep_alive
holds. -/
def CLOSE_FINISH (st : gethttp_state) : gethttp_state :=
  if st.keep_alive = false then
    { st with
      pc := if st.pc.pconn_active = true ∧ st.sock = st.pc.pconn.socket then
          invalidate_persistent st.pc
        else { st.pc with closed := st.pc.closed ++ [st.sock] },
      sock := -1,
      events := st.events ++ [gethttp_event.close_finish] }
  else { st with events := st.events ++ [gethttp_event.close_finish] }

/-- Reuse the persistent connection or open a new one (establish_connection): the
return value, the connection cache and `*sock_ref`.  The request, from which an
Authorization header may be removed, is not modelled; `none` stands for a cached
host that is NULL. -/
def establish_connection (io : gethttp_io) (host : List Char) (port : Int)
    (inhibit_keep_alive : Bool) (pc : pconn_state) (sock0 : Int) :
    Option (uerr_t × pconn_state × Int) :=
  let reuse : Option (Option uerr_t × pconn_state × Int) :=
    if !inhibit_keep_alive then
      match persistent_available_p io.socket_ip_address io.lookup_host io.test_socket_open
          pc host port with
      | none => none
      | some (true, pc, _) => some (none, pc, pc.pconn.socket)
      | some (false, pc, true) => some (some uerr_t.HOSTERR, pc, sock0)
      | some (false, pc, false) => some (none, pc, if sock0 ≠ -1 then -1 else sock0)
    else some (none, pc, sock0)
  match reuse with
  | none => none
  | some (some err, pc, _) => some (err, pc, sock0)
  | some (none, pc, sock) =>
    if sock < 0 then
      if io.connect_to_host = E_HOST then some (uerr_t.HOSTERR, pc, sock0)
      else if io.connect_to_host < 0 then
        some (if io.retryable_socket_connect_error then uerr_t.CONERROR
          else uerr_t.CONIMPOSSIBLE, pc, sock0)
      else some (uerr_t.RETROK, pc, io.connect_to_host)
    else some (uerr_t.RETROK, pc, sock)

/-- Decide the name of the local file and look at the file that is there
(check_file_output): the return value and `*hs`.  hs->temporary is not kept. -/
def check_file_output (opt : options) (io : gethttp_io) (r : response_facts)
    (hs : http_stat) : uerr_t × http_stat :=
  let hs : http_stat :=
    match hs.local_file with
    | some _ => hs
    | none =>
      let local_file : Option (List Char) :=
        if !opt.content_disposition then none
        else
          match r.content_disposition with
          | none => none
          | some hdrval => (parse_content_disposition hdrval).join
      { hs with local_file := some (io.url_file_name local_file) }
  let temporary :=
    opt.delete_after || opt.spider || !io.acceptable (hs.local_file.getD [])
  let hs : http_stat :=
    if temporary then { hs with local_file := some (hs.local_file.getD [] ++ ".tmp".toList) }
    else hs
  let is_there := !hs.existence_checked && io.file_exists_p (hs.local_file.getD [])
  if is_there && opt.noclobber && opt.output_document.isNone then (uerr_t.RETRUNNEEDED, hs)
  else
    let hs : http_stat :=
      if is_there then
        { hs with local_file := some (io.unique_local_file (hs.local_file.getD [])) }
      else hs
    let hs : http_stat := { hs with existence_checked := true }
    if opt.timestamping && !hs.timestamp_checked then
      set_file_timestamp opt.backup_converted io.stat hs
    else (uerr_t.RETROK, hs)

/-- Set the type flags from the type string (set_content_type). -/
def set_content_type (dt : dt_flags) (type : Option (List Char)) : dt_flags :=
  { dt with
    TEXTHTML :=
      match type with
      | none => true
      | some t => decide (c_strcasecmp t TEXTHTML_S = 0) || decide (c_strcasecmp t TEXTXHTML_S = 0),
    TEXTCSS :=
      match type with
      | none => false
      | some t => decide (c_strcasecmp t TEXTCSS_S = 0) }

/-- The loop of gethttp that reads response heads until one is not a 10x response:
that response, or the value gethttp returns after CLOSE_INVALIDATE; `none` when
`heads` ends before the loop does. -/
def gethttp_read_head (errno_zero : Bool) :
    List (Option response_facts) → Option (Except uerr_t response_facts)
  | [] => none
  | none :: _ => some (.error (if errno_zero then uerr_t.HEOF else uerr_t.HERR))
  | some r :: rest =>
    if r.statcode < 0 then some (.error uerr_t.HERR)
    else if H_10X r.statcode then gethttp_read_head errno_zero rest
    else some (.ok r)

/-- The three assignments `hs->len = 0; hs->res = 0; hs->restval = 0;`. -/
def gethttp_state.no_body (st : gethttp_state) : gethttp_state :=
  { st with hs := { st.hs with len := 0, res := 0, restval := 0 } }

/-- The code that gethttp runs, when WARC is enabled, on a body that it does not
store: read_response_body with `fp` NULL, then CLOSE_INVALIDATE and the error to
return, or CLOSE_FINISH. -/
def gethttp_warc_body (io : gethttp_io) (contlen : Int) (chunked : Bool)
    (st : gethttp_state) : Option uerr_t × gethttp_state :=
  let rb := io.read_response_body st.hs false contlen 0 chunked
  let st : gethttp_state :=
    { st with hs := rb.2, events := st.events ++ [gethttp_event.read_response_body false] }
  if rb.1 ≠ uerr_t.RETRFINISHED ∨ st.hs.res < 0 then (some rb.1, CLOSE_INVALIDATE st)
  else (none, CLOSE_FINISH st)

/-- The statement `if (cond && skip_short_body (...)) CLOSE_FINISH (sock); else
CLOSE_INVALIDATE (sock);` of gethttp; skip_short_body is called only when `cond`
holds. -/
def gethttp_skip_body (io : gethttp_io) (cond : Bool) (contlen : Int) (chunked : Bool)
    (st : gethttp_state) : gethttp_state :=
  if cond then
    let st : gethttp_state := { st with events := st.events ++ [gethttp_event.skip_short_body] }
    if io.skip_short_body contlen chunked then CLOSE_FINISH st else CLOSE_INVALIDATE st
  else CLOSE_INVALIDATE st

/-- The part of a pass of gethttp behind the loop that reads the response head, for
the response `r`.  Logging, cookies, the HSTS store, the connection encodings apart
from `remote_gzip`, hs->error and hs->message are not modelled. -/
def gethttp_response (opt : options) (io : gethttp_io) (head_only cond_get : Bool)
    (r : response_facts) (st : gethttp_state) : gethttp_step :=
  let warc_enabled := opt.warc_filename.isSome
  let inhibit_keep_alive := !opt.http_keep_alive || opt.ignore_length
  let statcode := r.statcode
  let contlen : Int :=
    match (if opt.ignore_length then none else r.content_length) with
    | some (parsed, erange) =>
      if parsed = WGINT_MAX ∧ erange = true then -1
      else if parsed < 0 then -1
      else parsed
    | none => -1
  let st : gethttp_state :=
    if !inhibit_keep_alive
        && decide (r.connection.map (fun v => c_strcasecmp v "Close".toList) = some 0) then
      { st with keep_alive := false }
    else st
  let chunked_transfer_encoding : Bool :=
    decide (r.transfer_encoding.map (fun v => c_strcasecmp v "chunked".toList) = some 0)
  if statcode = 401 then
    let d : Option uerr_t × gethttp_state :=
      if warc_enabled then gethttp_warc_body io contlen chunked_transfer_encoding st
      else (none, gethttp_skip_body io (st.keep_alive && !head_only) contlen
        chunked_transfer_encoding st)
    match d.1 with
    | some err => .done err d.2
    | none =>
      let st : gethttp_state :=
        { d.2 with pc := { d.2.pc with pconn := { d.2.pc.pconn with authorized := false } },
                   ntlm_seen := io.check_auth.2.2 }
      if io.check_auth.1 = uerr_t.RETROK ∧ io.check_auth.2.1 = true then .retry st
      else if io.check_auth.1 = uerr_t.RETROK then .done uerr_t.AUTHFAILED st
      else .done io.check_auth.1 st
  else
    let st : gethttp_state :=
      if st.ntlm_seen then
        { st with pc := { st.pc with pconn := { st.pc.pconn with authorized := true } } }
      else st
    let cfo := check_file_output opt io r st.hs
    let st : gethttp_state := { st with hs := cfo.2 }
    if cfo.1 ≠ uerr_t.RETROK then .done cfo.1 st
    else
      let st : gethttp_state :=
        { st with hs := { st.hs with statcode := statcode, newloc := r.location,
                                     remote_time :=
                                       match r.last_modified with
                                       | some t => some t
                                       | none => r.x_archive_orig_last_modified } }
      let range : Option content_range :=
        match r.content_range with
        | some hdrval =>
          if (parse_content_range hdrval).ok then some (parse_content_range hdrval) else none
        | none => none
      let contrange : Int :=
        match range with
        | some cr => cr.first_byte.getD 0
        | none => 0
      let contlen : Int :=
        match range with
        | some cr => wgint_wrap (wgint_wrap (cr.last_byte.getD 0 - cr.first_byte.getD 0) + 1)
        | none => contlen
      let st : gethttp_state :=
        if H_20X statcode then { st with dt := { st.dt with RETROKF := true } } else st
      if statcode = 204 then .done uerr_t.RETRFINISHED (CLOSE_FINISH st.no_body)
      else if (H_REDIRECTED statcode || decide (statcode = HTTP_STATUS_MULTIPLE_CHOICES))
          && !(decide (statcode = HTTP_STATUS_MULTIPLE_CHOICES) && st.hs.newloc.isNone) then
        let d : Option uerr_t × gethttp_state :=
          if warc_enabled then gethttp_warc_body io contlen chunked_transfer_encoding st.no_body
          else (none, gethttp_skip_body io (st.keep_alive && !head_only) contlen
            chunked_transfer_encoding st.no_body)
        match d.1 with
        | some err => .done err d.2
        | none =>
          if statcode = 307 ∨ statcode = 308 then .done uerr_t.NEWLOCATION_KEEP_POST d.2
          else if (statcode = 301 ∨ statcode = 302)
              ∧ (opt.method.map (fun m => decide (c_strcasecmp m "post".toList ≠ 0))) = some true then
            .done uerr_t.NEWLOCATION_KEEP_POST d.2
          else .done uerr_t.NEWLOCATION d.2
      else
        let st : gethttp_state :=
          if H_REDIRECTED statcode || decide (statcode = HTTP_STATUS_MULTIPLE_CHOICES) then
            { st with dt := { st.dt with RETROKF := true } }
          else st
        if cond_get = true ∧ statcode = 304 then
          .done uerr_t.RETRUNNEEDED (CLOSE_FINISH { st with dt := { st.dt with RETROKF := true } })
        else
          let st : gethttp_state := { st with dt := set_content_type st.dt r.content_type }
          let adj := io.adjust_extension st.hs st.dt
          let st : gethttp_state := { st with hs := adj.1, dt := adj.2 }
          let up_to_date : Bool :=
            match st.hs.remote_time with
            | some t =>
              cond_get && decide (statcode = 200) && decide (io.http_atotm t ≠ -1)
                && decide (io.http_atotm t ≤ st.hs.orig_file_tstamp)
                && (decide (contlen = -1) || decide (contlen = st.hs.orig_file_size))
            | none => false
          if up_to_date then
            .done uerr_t.RETRUNNEEDED
              (CLOSE_INVALIDATE { st with dt := { st.dt with RETROKF := true } })
          else if statcode = 416
              ∨ (opt.timestamping = false ∧ st.hs.restval > 0 ∧ statcode = 200 ∧ contrange = 0
                  ∧ contlen ≥ 0 ∧ st.hs.restval ≥ contlen) then
            let st : gethttp_state :=
              { st with hs := { st.hs with len := contlen, res := 0 },
                        dt := { st.dt with RETROKF := true } }
            .done uerr_t.RETRUNNEEDED
              (gethttp_skip_body io st.keep_alive contlen chunked_transfer_encoding st)
          else if (contrange ≠ 0 ∧ contrange ≠ st.hs.restval)
              ∨ (H_PARTIAL statcode = true ∧ contrange = 0 ∧ st.hs.restval ≠ 0) then
            .done uerr_t.RANGEERR (CLOSE_INVALIDATE st)
          else
            let hs_contlen : Int :=
              if contlen = -1 then -1
              else if r.remote_gzip then -1
              else wgint_wrap (contlen + contrange)
            let st : gethttp_state := { st with hs := { st.hs with contlen := hs_contlen } }
            if (!st.dt.RETROKF && !opt.content_on_error) || head_only
                || (opt.spider && !opt.recursive) then
              let d : Option uerr_t × gethttp_state :=
                if warc_enabled then
                  gethttp_warc_body io contlen chunked_transfer_encoding st.no_body
                else if head_only then (none, CLOSE_FINISH st.no_body)
                else if opt.spider && !opt.recursive then (none, CLOSE_INVALIDATE st.no_body)
                else (none, gethttp_skip_body io st.keep_alive contlen
                  chunked_transfer_encoding st.no_body)
              match d.1 with
              | some err => .done err d.2
              | none =>
                if statcode = 504 then .done uerr_t.GATEWAYTIMEOUT d.2
                else .done uerr_t.RETRFINISHED d.2
            else
              let st : gethttp_state :=
                { st with events := st.events ++ [gethttp_event.open_output_stream] }
              if io.open_output_stream ≠ uerr_t.RETROK then
                .done io.open_output_stream (CLOSE_INVALIDATE st)
              else
                let rb := io.read_response_body st.hs true contlen contrange
                  chunked_transfer_encoding
                let st : gethttp_state :=
                  { st with hs := rb.2,
                            events := st.events ++ [gethttp_event.read_response_body true] }
                if st.hs.res ≥ 0 then .done rb.1 (CLOSE_FINISH st)
                else .done rb.1 (CLOSE_INVALIDATE st)

/-- One pass of gethttp from the label retry_with_auth to `goto retry_with_auth` or
to the label cleanup.  Building and sending the request are represented by the
final write_error; `none` when the description `io` of the surroundings is too short
or the cached host is NULL. -/
def gethttp_pass (E : gethttp_env) (io : gethttp_io) (head_only cond_get : Bool)
    (st : gethttp_state) : Option gethttp_step :=
  let warc_enabled := E.opt.warc_filename.isSome
  let inhibit_keep_alive := !E.opt.http_keep_alive || E.opt.ignore_length
  let st : gethttp_state := { st with keep_alive := !inhibit_keep_alive }
  match establish_connection io E.host E.port inhibit_keep_alive st.pc st.sock with
  | none => none
  | some (conn_err, pc, sock) =>
    let st : gethttp_state := { st with pc := pc, sock := sock }
    if conn_err ≠ uerr_t.RETROK then some (.done conn_err st)
    else if warc_enabled && !io.warc_tempfile then
      some (.done uerr_t.WARC_TMP_FOPENERR (CLOSE_INVALIDATE st))
    else if io.write_error < 0 then
      some (.done (if io.write_error = -2 then uerr_t.WARC_TMP_FWRITEERR
        else uerr_t.WRITEFAILED) (CLOSE_INVALIDATE st))
    else
      let st : gethttp_state := { st with dt := { st.dt with RETROKF := false } }
      if warc_enabled && !io.warc_write_request_record then
        some (.done uerr_t.WARC_ERR (CLOSE_INVALIDATE st))
      else
        match gethttp_read_head io.errno_zero io.heads with
        | none => none
        | some (.error err) => some (.done err (CLOSE_INVALIDATE st))
        | some (.ok r) => some (gethttp_response E.opt io head_only cond_get r st)

/-- The passes of gethttp, one element of `ios` for each; `none` when `ios` ends
before gethttp returns. -/
def gethttp_passes (E : gethttp_env) (head_only cond_get : Bool) :
    List gethttp_io → gethttp_state → Option (uerr_t × gethttp_state)
  | [], _ => none
  | io :: ios, st =>
    match gethttp_pass E io head_only cond_get st with
    | none => none
    | some (.retry st) => gethttp_passes E head_only cond_get ios st
    | some (.done retval st) => some (retval, st)

/-- Retrieve a document through HTTP (gethttp): the return value and the variables
at the label cleanup.  `pc` is the persistent connection cache at the call and `ios`
describes the surroundings, pass by pass. -/
def gethttp (E : gethttp_env) (hs : http_stat) (dt : dt_flags) (pc : pconn_state)
    (ios : List gethttp_io) : Option (uerr_t × gethttp_state) :=
  let st : gethttp_state :=
    { hs := { hs with len := 0, contlen := -1, res := -1, newloc := none,
                      remote_time := none },
      dt := dt, pc := pc, sock := -1, keep_alive := false, ntlm_seen := false, events := [] }
  match E.initialize_request with
  | some ret => some (ret, st)
  | none => gethttp_passes E dt.HEAD_ONLY dt.IF_MODIFIED_SINCE ios st

/-- The persistent connection cache when the program starts: the static variables
pconn_active and pconn hold zeros, and nothing was closed. -/
def pconn_state_start : pconn_state :=
  { pconn_active := false, pconn := ⟨0, none, 0, false, false, 0⟩, closed := [] }

/-- The variable hstat as http_loop hands it to gethttp in its first pass, for the
local file index.html, no file being there. -/
def http_stat_example : http_stat :=
  { len := 0, contlen := 0, restval := 0, res := 0, newloc := none, remote_time := none,
    statcode := 0, local_file := some "index.html".toList, existence_checked := false,
    timestamp_checked := false, orig_file_name := none, orig_file_size := 0,
    orig_file_tstamp := 0 }

/-- A call of gethttp for the host example.com, port 80: time-stamping with
If-Modified-Since is on, keep-alive is allowed, the other options are off, and
initialize_request returns a request. -/
def gethttp_env_example : gethttp_env :=
  { opt :=
      { warc_filename := none, output_document := none, content_disposition := false,
        noclobber := false, spider := false, always_rest := false, timestamping := true,
        if_modified_since := true, backup_converted := false, start_pos := -1,
        allow_cache := true, ntry := 20, retry_on_host_error := false,
        retry_on_http_error := none, recursive := false },
    host := "example.com".toList,
    port := 80,
    initialize_request := none }

/-- Surroundings of a pass of gethttp in which connect_to_host returns socket 5, the
request is sent, and the server answers with the status `statcode`, three bytes of
body and the Connection header `connection`; writing the file and reading the body
succeed. -/
def gethttp_io_example (statcode : Int) (connection : Option (List Char)) : gethttp_io :=
  { socket_ip_address := fun _ => none,
    lookup_host := fun _ => none,
    test_socket_open := fun _ => true,
    connect_to_host := 5,
    retryable_socket_connect_error := false,
    warc_tempfile := true,
    write_error := 0,
    warc_write_request_record := true,
    heads :=
      [some { statcode := statcode, content_length := some (3, false),
              connection := connection, transfer_encoding := none,
              content_disposition := none, content_type := some "text/html".toList,
              location := none, last_modified := none,
              x_archive_orig_last_modified := none, content_range := none,
              remote_gzip := false }],
    errno_zero := true,
    check_auth := (uerr_t.RETROK, false, false),
    skip_short_body := fun _ _ => true,
    read_response_body := fun hs _ contlen _ _ =>
      (uerr_t.RETRFINISHED, { hs with len := contlen, res := 0 }),
    open_output_stream := uerr_t.RETROK,
    url_file_name := fun _ => "index.html".toList,
    acceptable := fun _ => true,
    file_exists_p := fun _ => false,
    stat := fun _ => none,
    unique_local_file := fun f => f,
    adjust_extension := fun hs dt => (hs, dt),
    http_atotm := fun _ => -1 }

/-! ## Header values as gethttp receives them -/

/-- Find the header `name` (resp_header_get): the span of its value, the inner `none`
for the return value false, the outer one when resp_header_locate is undefined. -/
def resp_header_get (resp : response) (name : List Char) : Option (Option (Nat × Nat)) :=
  match resp_header_locate resp name 0 with
  | none => none
  | some none => some none
  | some (some (_, b, e)) => some (some (b, e))

/-- Copy the value of the header `name` into a buffer of `bufsize` bytes
(resp_header_copy): the return value and the string in the buffer, which holds `buf`
before the call; `none` when resp_header_locate is undefined. -/
def resp_header_copy (resp : response) (name : List Char) (buf : List Char) (bufsize : Nat) :
    Option (Bool × List Char) :=
  match resp_header_get resp name with
  | none => none
  | some none => some (false, buf)
  | some (some (b, e)) =>
    if bufsize ≠ 0 then some (true, (span resp.data b e).take (min (e - b) (bufsize - 1)))
    else some (true, buf)

/-- What may stand in front of the first number of a Content-Range value as the spec
words it: the optional word bytes with an optional colon behind it, then optional
white space. -/
def spec_content_range_prefix (pre : List Char) : Prop :=
  ∃ b colon ws : List Char, pre = b ++ (colon ++ ws)
    ∧ ((b = [] ∧ colon = [])
        ∨ (b.map c_tolower = "bytes".toList ∧ (colon = [] ∨ colon = [':'])))
    ∧ ws.all c_isspace = true

/-- The value of an encoded parameter with its prefix charset'lang' removed, as the
spec words it: what follows the second apostrophe. -/
def spec_rfc2231_data (value : List Char) : List Char :=
  (((value.dropWhile (fun c => c ≠ SQUOTE)).drop 1).dropWhile (fun c => c ≠ SQUOTE)).drop 1

end Http

namespace Hsts

open Http

/-! ## HSTS store (hsts.c) -/

/-- Modelled from the spec: enum url_scheme of url.h, absent from the sources; the
spec names the two schemes of a URL, http and https. -/
inductive url_scheme
  | SCHEME_HTTP
  | SCHEME_HTTPS
  deriving DecidableEq, Repr

/-- The fields of struct url (url.h) that the HSTS code reads and writes. -/
structure url where
  scheme : url_scheme
  host : List Char
  port : Int
  deriving DecidableEq, Repr

/-- The key of the store: host and explicit port (struct hsts_kh). -/
structure hsts_kh where
  host : List Char
  explicit_port : Int
  deriving DecidableEq, Repr

/-- The value of the store (struct hsts_kh_info). -/
structure hsts_kh_info where
  created : Int
  max_age : Int
  include_subdomains : Bool
  deriving DecidableEq, Repr

/-- The kinds of match (enum hsts_kh_match). -/
inductive hsts_kh_match
  | NO_MATCH
  | SUPERDOMAIN_MATCH
  | CONGRUENT_MATCH
  deriving DecidableEq, Repr

/-- Comparison function of the hash table (hsts_cmp_func): equal hosts and equal
ports. -/
def hsts_cmp_func (kh1 kh2 : hsts_kh) : Bool :=
  decide (kh1.host = kh2.host) && decide (kh1.explicit_port = kh2.explicit_port)

/-- Modelled from the spec: the hash table of hash.c, absent from the sources, as
the list of its key/value pairs; keys are compared with hsts_cmp_func. -/
abbrev hash_table := List (hsts_kh × hsts_kh_info)

/-- Modelled from the spec: hash_table_get of hash.c: the value stored under a key. -/
def hash_table_get : hash_table → hsts_kh → Option hsts_kh_info
  | [], _ => none
  | (k, v) :: rest, key => if hsts_cmp_func k key then some v else hash_table_get rest key

/-- Modelled from the spec: hash_table_contains of hash.c. -/
def hash_table_contains (t : hash_table) (key : hsts_kh) : Bool :=
  (hash_table_get t key).isSome

/-- Modelled from the spec: hash_table_put of hash.c: overwrite the pair stored
under an equal key, or add the pair. -/
def hash_table_put : hash_table → hsts_kh → hsts_kh_info → hash_table
  | [], key, value => [(key, value)]
  | (k, v) :: rest, key, value =>
    if hsts_cmp_func k key then (key, value) :: rest
    else (k, v) :: hash_table_put rest key value

/-- Modelled from the spec: hash_table_remove of hash.c: drop what is stored under
an equal key. -/
def hash_table_remove (t : hash_table) (key : hsts_kh) : hash_table :=
  t.filter (fun kv => !hsts_cmp_func kv.1 key)

/-- The store (struct hsts_store). -/
structure hsts_store where
  table : hash_table
  last_mtime : Int
  changed : Bool
  deriving DecidableEq, Repr

/-- Arithmetic on time_t: a signed 64-bit integer, sums wrap around. -/
def time_t_wrap (x : Int) : Int := (x + 2 ^ 63) % 2 ^ 64 - 2 ^ 63

/-- The macro hsts_is_host_name_valid; `is_valid_ip_address` (host.c, absent from
the sources) is a parameter. -/
def hsts_is_host_name_valid (is_valid_ip_address : List Char → Bool) (host : List Char) : Bool :=
  !is_valid_ip_address host

/-- The macro hsts_is_scheme_valid. -/
def hsts_is_scheme_valid (scheme : url_scheme) : Bool :=
  decide (scheme = url_scheme.SCHEME_HTTP)

/-- The macro hsts_is_host_eligible. -/
def hsts_is_host_eligible (is_valid_ip_address : List Char → Bool) (scheme : url_scheme)
    (host : List Char) : Bool :=
  hsts_is_scheme_valid scheme && hsts_is_host_name_valid is_valid_ip_address host

/-- The constant DEFAULT_HTTP_PORT. -/
def DEFAULT_HTTP_PORT : Int := 80

/-- The constant DEFAULT_SSL_PORT. -/
def DEFAULT_SSL_PORT : Int := 443

/-- The macro MAKE_EXPLICIT_PORT. -/
def MAKE_EXPLICIT_PORT (s : url_scheme) (p : Int) : Int :=
  if s = url_scheme.SCHEME_HTTP then (if p = DEFAULT_SSL_PORT then 0 else p)
  else (if p = DEFAULT_HTTP_PORT then 0 else p)

/-- Modelled from the spec: xstrdup_lower of utils.c: a lowercased copy. -/
def xstrdup_lower (s : List Char) : List Char := s.map c_tolower

/-- The loop of hsts_find_entry that walks to the superdomains: while the host has a
dot that is not its first byte and another dot after it, drop the leading label and
look the rest up.  The fuel is the number of passes allowed. -/
def hsts_find_super (table : hash_table) (explicit_port : Int) :
    Nat → List Char → Option hsts_kh_info
  | 0, _ => none
  | fuel + 1, host =>
    let pos := host.findIdx (fun c => c = '.')
    if pos < host.length ∧ pos > 0 ∧ (host.drop (pos + 1)).contains '.' then
      match hash_table_get table ⟨host.drop (pos + 1), explicit_port⟩ with
      | some khi => some khi
      | none => hsts_find_super table explicit_port fuel (host.drop (pos + 1))
    else none

/-- Look a host up (hsts_find_entry): the entry found, the kind of match, and the
key copied to the caller, which holds the lowercased host that was asked for. -/
def hsts_find_entry (store : hsts_store) (host : List Char) (explicit_port : Int) :
    Option hsts_kh_info × hsts_kh_match × hsts_kh :=
  let k : hsts_kh := ⟨xstrdup_lower host, explicit_port⟩
  match hash_table_get store.table k with
  | some khi => (some khi, hsts_kh_match.CONGRUENT_MATCH, k)
  | none =>
    match hsts_find_super store.table explicit_port k.host.length k.host with
    | some khi => (some khi, hsts_kh_match.SUPERDOMAIN_MATCH, k)
    | none => (none, hsts_kh_match.NO_MATCH, k)

/-- Create an entry after the checks asked for (hsts_new_entry_internal). -/
def hsts_new_entry_internal (is_valid_ip_address : List Char → Bool) (store : hsts_store)
    (host : List Char) (port : Int) (created max_age : Int) (include_subdomains : Bool)
    (check_validity check_expired check_duplicates : Bool) : hsts_store × Bool :=
  let kh : hsts_kh := ⟨xstrdup_lower host, MAKE_EXPLICIT_PORT url_scheme.SCHEME_HTTP port⟩
  let khi : hsts_kh_info := ⟨created, max_age, include_subdomains⟩
  if check_validity && !hsts_is_host_name_valid is_valid_ip_address host then (store, false)
  else if check_expired && decide (time_t_wrap (khi.created + khi.max_age) < khi.created) then
    (store, false)
  else if check_duplicates && hash_table_contains store.table kh then (store, false)
  else ({ store with table := hash_table_put store.table kh khi }, true)

/-- Create an entry stamped with the current time (hsts_add_entry); `now` is what
time (NULL) returns, -1 when it fails. -/
def hsts_add_entry (is_valid_ip_address : List Char → Bool) (now : Int) (store : hsts_store)
    (host : List Char) (port : Int) (max_age : Int) (include_subdomains : Bool) :
    hsts_store × Bool :=
  if now = -1 then (store, false)
  else
    hsts_new_entry_internal is_valid_ip_address store host port now max_age include_subdomains
      false true false

/-- Create an entry unless an identical one exists (hsts_new_entry). -/
def hsts_new_entry (is_valid_ip_address : List Char → Bool) (store : hsts_store)
    (host : List Char) (port : Int) (created max_age : Int) (include_subdomains : Bool) :
    hsts_store × Bool :=
  hsts_new_entry_internal is_valid_ip_address store host port created max_age include_subdomains
    true true true

/-- Remove the entry stored under a key (hsts_remove_entry). -/
def hsts_remove_entry (store : hsts_store) (kh : hsts_kh) : hsts_store :=
  { store with table := hash_table_remove store.table kh }

/-- Change the URL according to the HSTS policy (hsts_match); `now` is what
time (NULL) returns.  Returns the store, the URL and whether the URL was changed. -/
def hsts_match (now : Int) (store : hsts_store) (u : url) : hsts_store × url × Bool :=
  let port := MAKE_EXPLICIT_PORT u.scheme u.port
  if !hsts_is_scheme_valid u.scheme then
    match hsts_find_entry store u.host port with
    | (some entry, m, kh) =>
      if time_t_wrap (entry.created + entry.max_age) ≥ now then
        if m = hsts_kh_match.CONGRUENT_MATCH
            ∨ (m = hsts_kh_match.SUPERDOMAIN_MATCH ∧ entry.include_subdomains = true) then
          ({ store with changed := true },
            { u with scheme := url_scheme.SCHEME_HTTP, port := if u.port = 80 then 443 else u.port },
            true)
        else (store, u, false)
      else ({ hsts_remove_entry store kh with changed := true }, u, false)
    | (none, _, _) => (store, u, false)
  else (store, u, false)

/-- Add a Known Host to the store, or update or delete its entry (hsts_store_entry);
`now` is what time (NULL) returns.  Returns the store and whether a new entry was
created. -/
def hsts_store_entry (is_valid_ip_address : List Char → Bool) (now : Int) (store : hsts_store)
    (scheme : url_scheme) (host : List Char) (port : Int) (max_age : Int)
    (include_subdomains : Bool) : hsts_store × Bool :=
  if hsts_is_host_eligible is_valid_ip_address scheme host then
    let port := MAKE_EXPLICIT_PORT scheme port
    match hsts_find_entry store host port with
    | (entry, m, kh) =>
      if entry.isSome ∧ m = hsts_kh_match.CONGRUENT_MATCH then
        if max_age = 0 then
          ({ hsts_remove_entry store kh with changed := true }, false)
        else if max_age > 0 then
          if now ≠ -1 ∧ some now ≠ entry.map hsts_kh_info.created then
            ({ store with
               table := hash_table_put store.table kh ⟨now, max_age, include_subdomains⟩
               changed := true }, false)
          else (store, false)
        else (store, false)
      else if entry.isNone ∨ m = hsts_kh_match.SUPERDOMAIN_MATCH then
        let r := hsts_add_entry is_valid_ip_address now store host port max_age include_subdomains
        if r.2 then ({ r.1 with changed := true }, true) else (r.1, false)
      else (store, false)
  else (store, false)

/-- Merge a record read from the file into the store (hsts_store_merge). -/
def hsts_store_merge (is_valid_ip_address : List Char → Bool) (store : hsts_store)
    (host : List Char) (port : Int) (created max_age : Int) (include_subdomains : Bool) :
    hsts_store × Bool :=
  let port := MAKE_EXPLICIT_PORT url_scheme.SCHEME_HTTP port
  match hsts_find_entry store host port with
  | (some khi, m, _) =>
    if m = hsts_kh_match.CONGRUENT_MATCH ∧ created > khi.created then
      ({ store with
         table := hash_table_put store.table ⟨xstrdup_lower host, port⟩
           ⟨created, max_age, include_subdomains⟩ }, true)
    else (store, false)
  | (none, _, _) =>
    hsts_new_entry is_valid_ip_address store host port created max_age include_subdomains

/-- The proper suffixes of a host that begin just after one of its dots (the host
with one or more leading labels dropped), longest first. -/
def label_suffixes : List Char → List (List Char)
  | [] => []
  | c :: s => if c = '.' then s :: label_suffixes s else label_suffixes s

/-- The superdomains of a host as the spec words them: the suffixes obtained by
dropping leading labels that still have at least two labels, that is, a dot. -/
def spec_superdomains (host : List Char) : List (List Char) :=
  (label_suffixes host).filter (fun s => s.contains '.')

/-- The lookup as the spec words it: the exact key, else the longest superdomain
that is a key with the same port, else no match. -/
def spec_hsts_find (table : hash_table) (host : List Char) (port : Int) :
    Option hsts_kh_info × hsts_kh_match :=
  match hash_table_get table ⟨xstrdup_lower host, port⟩ with
  | some khi => (some khi, hsts_kh_match.CONGRUENT_MATCH)
  | none =>
    match (spec_superdomains (xstrdup_lower host)).findSome?
        (fun s => hash_table_get table ⟨s, port⟩) with
    | some khi => (some khi, hsts_kh_match.SUPERDOMAIN_MATCH)
    | none => (none, hsts_kh_match.NO_MATCH)

/-- No dot of the text follows a dot, nor the start when `after_dot` is set. -/
def dots_apart : Bool → List Char → Bool
  | _, [] => true
  | after_dot, c :: s => if c = '.' then !after_dot && dots_apart true s else dots_apart false s

/-- No label in front of a dot is empty: the host does not begin with a dot and has
no two dots in a row. -/
def labels_nonempty (host : List Char) : Bool := dots_apart true host

/-! ## The database file (hsts_store_dump, hsts_read_database) -/

/-- Modelled from the spec: the decimal digits that printf writes for an unsigned
number, most significant first; `fuel` bounds the number of digits. -/
def fmt_decimal : Nat → Nat → List Char
  | 0, _ => []
  | fuel + 1, n =>
    if n < 10 then [Char.ofNat (48 + n)]
    else fmt_decimal fuel (n / 10) ++ [Char.ofNat (48 + n % 10)]

/-- Modelled from the spec: printf %d of an int (at most ten digits). -/
def fmt_d (n : Int) : List Char :=
  if n < 0 then '-' :: fmt_decimal 10 (-n).toNat else fmt_decimal 10 n.toNat

/-- Modelled from the spec: printf %lu of a time_t cast to unsigned long (64 bits, at
most twenty digits). -/
def fmt_lu (x : Int) : List Char := fmt_decimal 20 (x % 2 ^ 64).toNat

/-- The line that hsts_store_dump prints for one entry. -/
def hsts_dump_line (kh : hsts_kh) (khi : hsts_kh_info) : List Char :=
  kh.host ++ [TAB] ++ fmt_d kh.explicit_port ++ [TAB]
    ++ fmt_d (if khi.include_subdomains then 1 else 0) ++ [TAB]
    ++ fmt_lu khi.created ++ [TAB] ++ fmt_lu khi.max_age ++ [LF]

/-- The text that hsts_store_dump writes when no write fails: three comment lines,
then one line for each entry, in the order in which the table hands them out. -/
def hsts_store_dump (store : hsts_store) : List Char :=
  "# HSTS 1.0 Known Hosts database for GNU Wget.".toList ++ [LF]
    ++ "# Edit at your own risk.".toList ++ [LF]
    ++ "# <hostname>".toList ++ [TAB] ++ "<port>".toList ++ [TAB]
    ++ "<incl. subdomains>".toList ++ [TAB] ++ "<created>".toList ++ [TAB]
    ++ "<max-age>".toList ++ [LF]
    ++ (store.table.map (fun kv => hsts_dump_line kv.1 kv.2)).flatten

/-- The value of a run of decimal digits. -/
def digits_value (ds : List Char) : Nat :=
  ds.foldl (fun acc c => acc * 10 + (c.toNat - 48)) 0

/-- Modelled from the spec: the subject sequence of a scanf decimal conversion: white
space is skipped, then an optional sign and at least one digit are read.  Returns
whether a minus sign was read, the value of the digits and the rest of the input;
`none` for a matching failure. -/
def scan_decimal (s : List Char) : Option (Bool × Nat × List Char) :=
  let s := s.dropWhile c_isspace
  let sg : Bool × List Char :=
    if s.head? = some '-' then (true, s.tail)
    else if s.head? = some '+' then (false, s.tail)
    else (false, s)
  let ds := sg.2.takeWhile c_isdigit
  if ds = [] then none else some (sg.1, digits_value ds, sg.2.dropWhile c_isdigit)

/-- Arithmetic on int: a signed 32-bit integer. -/
def int_wrap (x : Int) : Int := (x + 2 ^ 31) % 2 ^ 32 - 2 ^ 31

/-- Modelled from the spec: scanf %d: the digits are converted as strtol does (a value
out of the range of long becomes the nearest bound) and stored in an int. -/
def scan_d (s : List Char) : Option (Int × List Char) :=
  match scan_decimal s with
  | none => none
  | some (neg, v, rest) =>
    let l : Int := if neg then max (-(v : Int)) (-(2 ^ 63)) else min (v : Int) (2 ^ 63 - 1)
    some (int_wrap l, rest)

/-- Modelled from the spec: scanf %lu stored through a pointer to time_t: the digits
are converted as strtoul does (a value out of range becomes ULONG_MAX, a minus sign
negates modulo 2^64) and the 64 bits are read back as a time_t. -/
def scan_lu (s : List Char) : Option (Int × List Char) :=
  match scan_decimal s with
  | none => none
  | some (neg, v, rest) =>
    let u : Nat := if v ≥ 2 ^ 64 then 2 ^ 64 - 1 else if neg then (2 ^ 64 - v) % 2 ^ 64 else v
    some (time_t_wrap (u : Int), rest)

/-- Modelled from the spec: scanf %s with a field width: white space is skipped, then
the bytes up to the next white space are read, at most `width` of them; `none` when
there is no byte to read. -/
def scan_s (width : Nat) (s : List Char) : Option (List Char × List Char) :=
  let s := s.dropWhile c_isspace
  let w := (s.takeWhile (fun c => !c_isspace c)).take width
  if w = [] then none else some (w, s.drop w.length)

/-- The call sscanf (p, "%255s %d %d %lu %lu", ...) of hsts_read_database: the five
values when five items are read, `none` otherwise. -/
def hsts_sscanf (p : List Char) : Option (List Char × Int × Int × Int × Int) :=
  match scan_s 255 p with
  | none => none
  | some (host, r) =>
    match scan_d r with
    | none => none
    | some (port, r) =>
      match scan_d r with
      | none => none
      | some (include_subdomains, r) =>
        match scan_lu r with
        | none => none
        | some (created, r) =>
          match scan_lu r with
          | none => none
          | some (max_age, _) => some (host, port, include_subdomains, created, max_age)

/-- The body of the loop of hsts_read_database for one line handed out by getline:
the line as a C string ends at its first NUL. -/
def hsts_read_line (is_valid_ip_address : List Char → Bool) (merge_with_existing_entries : Bool)
    (store : hsts_store) (line : List Char) : hsts_store :=
  let line := line.takeWhile (fun c => c ≠ NUL)
  let p := line.dropWhile c_isspace
  if p.head? = some '#' then store
  else
    match hsts_sscanf p with
    | some (host, port, include_subdomains, created, max_age) =>
      if merge_with_existing_entries then
        (hsts_store_merge is_valid_ip_address store host port created max_age
          (include_subdomains ≠ 0)).1
      else
        (hsts_new_entry is_valid_ip_address store host port created max_age
          (include_subdomains ≠ 0)).1
    | none => store

/-- Modelled from the spec: the lines that successive calls of getline hand out: each
ends with its line feed, except a last line that has none; `cur` holds the bytes of
the current line, last first. -/
def getline_split : List Char → List Char → List (List Char)
  | [], cur => if cur = [] then [] else [cur.reverse]
  | c :: t, cur =>
    if c = LF then (c :: cur).reverse :: getline_split t [] else getline_split t (c :: cur)

/-- Read the database (hsts_read_database) from the text `fp` of the file. -/
def hsts_read_database (is_valid_ip_address : List Char → Bool) (store : hsts_store)
    (fp : List Char) (merge_with_existing_entries : Bool) : hsts_store × Bool :=
  ((getline_split fp []).foldl
    (hsts_read_line is_valid_ip_address merge_with_existing_entries) store, true)

/-- A stored entry that the database file can hold: the host is a non-empty
lowercase name of at most 255 bytes without white space or NUL that does not begin
with the comment sign and is not an IP address, the port is an int in explicit form
(443 is stored as 0), and the two times are time_t values. -/
def hsts_entry_valid (is_valid_ip_address : List Char → Bool) (kv : hsts_kh × hsts_kh_info) :
    Bool :=
  decide (kv.1.host ≠ []) && decide (kv.1.host.length ≤ 255)
    && kv.1.host.all (fun c => !c_isspace c && decide (c ≠ NUL))
    && decide (kv.1.host.head? ≠ some '#')
    && decide (xstrdup_lower kv.1.host = kv.1.host)
    && !is_valid_ip_address kv.1.host
    && decide (-(2 ^ 31) ≤ kv.1.explicit_port ∧ kv.1.explicit_port < 2 ^ 31
        ∧ MAKE_EXPLICIT_PORT url_scheme.SCHEME_HTTP kv.1.explicit_port = kv.1.explicit_port)
    && decide (-(2 ^ 63) ≤ kv.2.created ∧ kv.2.created < 2 ^ 63)
    && decide (-(2 ^ 63) ≤ kv.2.max_age ∧ kv.2.max_age < 2 ^ 63)

/-- The entries of a table that hsts_new_entry accepts: those whose created + max_age
does not fall below created. -/
def hsts_entry_kept (kv : hsts_kh × hsts_kh_info) : Bool :=
  !decide (time_t_wrap (kv.2.created + kv.2.max_age) < kv.2.created)

end Hsts

/-! # Theorems -/

namespace Http

/-! ## Request builder -/

theorem c_tolower_toNat_eq_zero (c : Char) : (c_tolower c).toNat = 0 ↔ c.toNat = 0 := by
  unfold c_tolower
  split_ifs with h
  · constructor
    · intro h0
      obtain ⟨h1, h2⟩ := h
      exfalso
      generalize c.toNat = n at h1 h2 h0
      interval_cases n <;> exact absurd h0 (by decide)
    · intro h0; omega
  · rfl

theorem headD_toNat_eq_zero_iff (s : List Char) :
    (c_tolower (s.headD NUL)).toNat = 0 ↔ casefold s = [] := by
  rw [c_tolower_toNat_eq_zero]
  cases s with
  | nil => simp [casefold, NUL]
  | cons c t =>
    by_cases hc : c.toNat = 0 <;> simp [casefold, List.takeWhile, hc]

theorem c_strcasecmp_eq_zero_iff (a b : List Char) :
    c_strcasecmp a b = 0 ↔ casefold a = casefold b := by
  induction a generalizing b with
  | nil =>
    simp only [c_strcasecmp]
    have := headD_toNat_eq_zero_iff b
    have h1 : casefold ([] : List Char) = [] := rfl
    rw [h1]
    constructor
    · intro h; exact (this.1 (by omega)).symm
    · intro h; have := this.2 h.symm; omega
  | cons c t ih =>
    simp only [c_strcasecmp]
    by_cases hc : (c_tolower c).toNat = 0
    · have hc0 : c.toNat = 0 := (c_tolower_toNat_eq_zero c).1 hc
      have h1 : casefold (c :: t) = [] := by simp [casefold, List.takeWhile, hc0]
      rw [if_pos hc, h1]
      have := headD_toNat_eq_zero_iff b
      constructor
      · intro h; exact (this.1 (by omega)).symm
      · intro h; have := this.2 h.symm; omega
    · have hc0 : c.toNat ≠ 0 := fun h => hc ((c_tolower_toNat_eq_zero c).2 h)
      have h1 : casefold (c :: t) = c_tolower c :: casefold t := by
        simp [casefold, List.takeWhile, hc0]
      rw [if_neg hc, h1]
      cases b with
      | nil =>
        have : c_tolower c ≠ c_tolower NUL := by
          intro h; apply hc; rw [h]; rfl
        simp only [List.headD_nil, if_neg this]
        have h2 : casefold ([] : List Char) = [] := rfl
        rw [h2]
        have h3 : (c_tolower NUL).toNat = 0 := rfl
        simp only [h3]
        constructor
        · intro h; exfalso; omega
        · intro h; exact absurd h (by simp)
      | cons d u =>
        simp only [List.headD_cons, List.tail_cons]
        by_cases hd : c_tolower c = c_tolower d
        · rw [if_pos hd, ih u]
          have hd0 : d.toNat ≠ 0 := by
            intro h; apply hc; rw [hd]; exact (c_tolower_toNat_eq_zero d).2 h
          have h2 : casefold (d :: u) = c_tolower d :: casefold u := by
            simp [casefold, List.takeWhile, hd0]
          rw [h2, hd]
          simp
        · rw [if_neg hd]
          constructor
          · intro h
            exfalso; apply hd
            have : (c_tolower c).toNat = (c_tolower d).toNat := by omega
            exact Char.ext (by
              have := this
              simp only [Char.toNat] at this
              exact UInt32.ext (by simpa [UInt32.toNat] using this))
          · intro h
            exfalso
            by_cases hd0 : d.toNat = 0
            · have h2 : casefold (d :: u) = [] := by simp [casefold, List.takeWhile, hd0]
              rw [h2] at h; simp at h
            · have h2 : casefold (d :: u) = c_tolower d :: casefold u := by
                simp [casefold, List.takeWhile, hd0]
              rw [h2] at h
              exact hd (List.cons.inj h).1

theorem names_distinct_iff (req : request) :
    names_distinct req ↔ req.headers.Pairwise (fun h1 h2 => casefold h1.name ≠ casefold h2.name) := by
  unfold names_distinct
  constructor <;> intro h <;> refine h.imp ?_ <;> intro a b hab
  · exact fun h => hab ((c_strcasecmp_eq_zero_iff _ _).2 h)
  · exact fun h => hab ((c_strcasecmp_eq_zero_iff _ _).1 h)

theorem set_header_loop_none (name value : List Char) (p : rp) (l : List request_header)
    (h : set_header_loop name value p l = none) :
    ∀ hdr ∈ l, casefold hdr.name ≠ casefold name := by
  induction l with
  | nil => simp
  | cons a t ih =>
    simp only [set_header_loop] at h
    split_ifs at h with hc
    simp only [Option.map_eq_none'] at h
    intro hdr hmem
    rcases List.mem_cons.1 hmem with rfl | hm
    · exact fun e => hc ((c_strcasecmp_eq_zero_iff _ _).2 e.symm)
    · exact ih h hdr hm

theorem set_header_loop_some (name value : List Char) (p : rp) (l l2 : List request_header)
    (h : set_header_loop name value p l = some l2)
    (hp : l.Pairwise (fun h1 h2 => casefold h1.name ≠ casefold h2.name)) :
    l2.Pairwise (fun h1 h2 => casefold h1.name ≠ casefold h2.name)
      ∧ ∀ hdr ∈ l2, hdr ∈ l ∨ hdr.name = name := by
  induction l generalizing l2 with
  | nil => simp [set_header_loop] at h
  | cons a t ih =>
    simp only [set_header_loop] at h
    rw [List.pairwise_cons] at hp
    split_ifs at h with hc
    · have hc2 := (c_strcasecmp_eq_zero_iff _ _).1 hc
      injection h with h
      subst h
      refine ⟨List.pairwise_cons.2 ⟨?_, hp.2⟩, ?_⟩
      · intro b hb
        show casefold name ≠ casefold b.name
        rw [hc2]; exact hp.1 b hb
      · intro hdr hmem
        rcases List.mem_cons.1 hmem with rfl | hm
        · exact Or.inr rfl
        · exact Or.inl (List.mem_cons_of_mem _ hm)
    · cases hr : set_header_loop name value p t with
      | none => rw [hr] at h; simp at h
      | some r =>
        rw [hr] at h
        simp only [Option.map_some'] at h
        injection h with h
        subst h
        obtain ⟨ih1, ih2⟩ := ih r hr hp.2
        refine ⟨List.pairwise_cons.2 ⟨?_, ih1⟩, ?_⟩
        · intro b hb
          rcases ih2 b hb with hb | hb
          · exact hp.1 b hb
          · rw [hb]; exact fun e => hc ((c_strcasecmp_eq_zero_iff _ _).2 e.symm)
        · intro hdr hmem
          rcases List.mem_cons.1 hmem with rfl | hm
          · exact Or.inl (List.mem_cons_self _ _)
          · rcases ih2 hdr hm with h1 | h1
            · exact Or.inl (List.mem_cons_of_mem _ h1)
            · exact Or.inr h1

theorem remove_header_loop_sublist (name : List Char) (l l2 : List request_header)
    (h : remove_header_loop name l = some l2) : l2.Sublist l := by
  induction l generalizing l2 with
  | nil => simp [remove_header_loop] at h
  | cons a t ih =>
    simp only [remove_header_loop] at h
    split_ifs at h with hc
    · injection h with h
      subst h
      exact List.sublist_cons_self _ _
    · cases hr : remove_header_loop name t with
      | none => rw [hr] at h; simp at h
      | some r =>
        rw [hr] at h
        simp only [Option.map_some'] at h
        injection h with h
        subst h
        exact (ih r hr).cons₂ _

theorem request_set_header_distinct (req : request) (name : List Char)
    (value : Option (List Char)) (p : rp) (h : names_distinct req) :
    names_distinct (request_set_header req name value p) := by
  rw [names_distinct_iff] at h ⊢
  unfold request_set_header
  cases value with
  | none => exact h
  | some v =>
    simp only
    cases hl : set_header_loop name v p req.headers with
    | some hs => exact (set_header_loop_some name v p _ hs hl h).1
    | none =>
      simp only
      rw [List.pairwise_append]
      refine ⟨h, List.pairwise_singleton _ _, ?_⟩
      intro a ha b hb
      rw [List.mem_singleton] at hb
      subst hb
      exact set_header_loop_none name v p _ hl a ha

theorem request_op_apply_distinct (req : request) (op : request_op) (h : names_distinct req) :
    names_distinct (op.apply req) := by
  cases op with
  | set_header name value p => exact request_set_header_distinct req name value p h
  | set_user_header header =>
    simp only [request_op.apply, request_set_user_header]
    split_ifs
    · exact request_set_header_distinct _ _ _ _ h
    · exact h
  | remove_header name =>
    simp only [request_op.apply, request_remove_header]
    cases hl : remove_header_loop name req.headers with
    | none => exact h
    | some hs =>
      simp only
      exact List.Pairwise.sublist (remove_header_loop_sublist name _ hs hl) h

theorem request_run_distinct (ops : List request_op) (req : request) (h : names_distinct req) :
    names_distinct (request_run req ops) := by
  induction ops generalizing req with
  | nil => exact h
  | cons op t ih => exact ih _ (request_op_apply_distinct req op h)

theorem headers_named_length_le_one (req : request) (h : names_distinct req) (name : List Char) :
    (headers_named req name).length ≤ 1 := by
  rw [names_distinct_iff] at h
  unfold headers_named
  generalize req.headers = l at h
  induction l with
  | nil => simp
  | cons a t ih =>
    rw [List.pairwise_cons] at h
    rw [List.filter_cons]
    split_ifs with hc
    · have : t.filter (fun h => decide (c_strcasecmp name h.name = 0)) = [] := by
        rw [List.filter_eq_nil_iff]
        intro b hb hb2
        simp only [decide_eq_true_eq] at hb2 hc
        apply h.1 b hb
        rw [← (c_strcasecmp_eq_zero_iff _ _).1 hc, ← (c_strcasecmp_eq_zero_iff _ _).1 hb2]
      rw [this]; simp
    · exact ih h.2

/-- C1: after request_new and any finite sequence of request_set_header,
request_set_user_header and request_remove_header calls, no two headers of the
request have names equal ignoring ASCII case, and for every name at most one header
of the request (hence at most one header line written by request_send) carries a name
equal to it ignoring case. -/
theorem request_headers_unique_names (method arg : List Char) (ops : List request_op) :
    names_distinct (request_run (request_new method arg) ops)
      ∧ ∀ name, (headers_named (request_run (request_new method arg) ops) name).length ≤ 1 := by
  have h : names_distinct (request_run (request_new method arg) ops) :=
    request_run_distinct ops _ (by simp [names_distinct, request_new])
  exact ⟨h, headers_named_length_le_one _ h⟩

/-! ## request_send and Basic authentication -/

theorem header_lines_length (l : List request_header) :
    ((l.map (fun hdr => hdr.name ++ [':', ' '] ++ hdr.value ++ [CR, LF])).flatten).length
      = (l.map (fun hdr => hdr.name.length + 2 + hdr.value.length + 2)).sum := by
  induction l with
  | nil => rfl
  | cons a t ih =>
    simp only [List.map_cons, List.flatten_cons, List.length_append, List.sum_cons, ih,
      List.length_cons, List.length_nil]

theorem request_size_eq_length (req : request) :
    request_size req = (request_string req).length := by
  unfold request_size request_string
  have h8 : "HTTP/1.1".toList.length = 8 := rfl
  rw [List.length_append, List.length_append, header_lines_length]
  simp only [List.length_append, List.length_cons, List.length_nil, h8]

theorem request_string_eq_wire_form (req : request) :
    request_string req
      = wire_form req.method req.arg (req.headers.map (fun h => (h.name, h.value))) ++ [NUL] := by
  unfold request_string wire_form
  have h1 : " HTTP/1.1".toList = [' '] ++ "HTTP/1.1".toList := rfl
  rw [h1]
  simp only [List.map_map, List.append_assoc, List.cons_append, List.nil_append, Function.comp_def]

theorem request_send_buffer (req : request) :
    (request_string req).take (request_size req - 1)
      = wire_form req.method req.arg (req.headers.map (fun h => (h.name, h.value))) := by
  rw [request_size_eq_length, request_string_eq_wire_form]
  simp

/-- C2 (as amended): request_send hands fd_write, in a single call, exactly the bytes
METHOD SP target SP HTTP/1.1 CR LF, then NAME ": " VALUE CR LF for every header in
list order, then CR LF, without a trailing NUL; the same bytes are written to the
mirror, in one fwrite call, exactly when a mirror is given and fd_write did not
fail. -/
theorem request_send_wire_form (req : request) (fd_write_ret : List Char → Int)
    (warc_tmp : Option (List Char → Int)) :
    (request_send req fd_write_ret warc_tmp).fd_writes
        = [wire_form req.method req.arg (req.headers.map (fun h => (h.name, h.value)))]
      ∧ (request_send req fd_write_ret warc_tmp).warc_writes
        = if warc_tmp.isSome
              ∧ 0 ≤ fd_write_ret
                  (wire_form req.method req.arg (req.headers.map (fun h => (h.name, h.value))))
          then [wire_form req.method req.arg (req.headers.map (fun h => (h.name, h.value)))]
          else [] := by
  unfold request_send
  simp only [request_send_buffer]
  by_cases h : fd_write_ret
      (wire_form req.method req.arg (req.headers.map (fun h => (h.name, h.value)))) < 0
  · rw [if_pos h]
    refine ⟨rfl, ?_⟩
    rw [if_neg]
    intro hh; omega
  · rw [if_neg h]
    cases warc_tmp with
    | none => simp
    | some f =>
      refine ⟨rfl, ?_⟩
      rw [if_pos]
      exact ⟨rfl, by omega⟩

/-- C2 (counterexample): with a mirror given and an fd_write that fails, request_send
writes nothing to the mirror. -/
theorem request_send_mirror_skipped :
    (request_send (request_new "GET".toList "/".toList) (fun _ => -1)
        (some (fun b => (b.length : Int)))).warc_writes = []
      ∧ (request_send (request_new "GET".toList "/".toList) (fun _ => -1)
        (some (fun b => (b.length : Int)))).warc_writes
          ≠ [wire_form "GET".toList "/".toList []] := by
  decide

theorem wget_base64_encode_length (l : List Char) :
    (wget_base64_encode l).length = BASE64_LENGTH l.length := by
  induction l using wget_base64_encode.induct with
  | case1 a b c rest ih =>
    simp only [wget_base64_encode, List.length_cons, ih, BASE64_LENGTH]
    omega
  | case2 a b => simp [wget_base64_encode, BASE64_LENGTH]
  | case3 a => simp [wget_base64_encode, BASE64_LENGTH]
  | case4 => simp [wget_base64_encode, BASE64_LENGTH]

theorem basic_authentication_encode_eq (user passwd : List Char) :
    basic_authentication_encode user passwd
      = some ("Basic ".toList ++ wget_base64_encode (user ++ [':'] ++ passwd)) := by
  unfold basic_authentication_encode
  have hlen : (user ++ [':'] ++ passwd).length = user.length + 1 + passwd.length := by
    simp only [List.length_append, List.length_cons, List.length_nil]
  have htake : (user ++ [':'] ++ passwd).take (user.length + 1 + passwd.length)
      = user ++ [':'] ++ passwd := by
    rw [← hlen]; exact List.take_length _
  simp only [htake, wget_base64_encode_length, hlen]
  rw [if_neg, if_neg]
  · split_ifs <;> omega
  · split_ifs <;> omega

/-- C3: on a Basic challenge (a challenge whose first letter is B or b)
create_authorization_line returns, for every user name and password of any length,
exactly "Basic " followed by the base64 encoding of user ':' password, sets the
finished flag and leaves the error code as it was. -/
theorem create_authorization_line_basic (md5 : List Char → List Nat) (rnd : Nat)
    (ntlm_input : List Char → Bool)
    (ntlm_output : List Char → List Char → Option (List Char) × Bool)
    (au user passwd method path : List Char) (auth_err : uerr_t)
    (hau : c_toupper (charAt au 0) = 'B') :
    create_authorization_line md5 rnd ntlm_input ntlm_output au user passwd method path auth_err
      = some (some ("Basic ".toList ++ wget_base64_encode (user ++ [':'] ++ passwd)), true,
          auth_err) := by
  unfold create_authorization_line
  rw [if_pos hau, basic_authentication_encode_eq]

/-- C3 (witness): the Basic challenge of a realm x, user alice, password secret. -/
theorem create_authorization_line_basic_witness :
    c_toupper (charAt "Basic realm=x".toList 0) = 'B'
      ∧ create_authorization_line (fun _ => []) 0 (fun _ => false) (fun _ _ => (none, true))
          "Basic realm=x".toList "alice".toList "secret".toList "GET".toList "/secret".toList
          uerr_t.RETROK
        = some (some "Basic YWxpY2U6c2VjcmV0".toList, true, uerr_t.RETROK) :=
  ⟨by decide, create_authorization_line_basic _ _ _ _ _ _ _ _ _ _ (by decide)⟩

/-! ## Parameter tokenizer: progress -/

theorem scan_ge (s : List Char) (p : Nat) (f : Char → Bool) : p ≤ scan s p f :=
  Nat.le_add_right _ _

theorem scan_le (s : List Char) (p : Nat) (f : Char → Bool) (h : p ≤ s.length) :
    scan s p f ≤ s.length := by
  unfold scan
  have h1 : ((s.drop p).takeWhile f).length ≤ (s.drop p).length :=
    (List.takeWhile_sublist f).length_le
  rw [List.length_drop] at h1
  omega

theorem charAt_lt (s : List Char) (p : Nat) (h : charAt s p ≠ NUL) : p < s.length := by
  by_contra hp
  apply h
  unfold charAt
  rw [List.getD_eq_getElem?_getD, List.getElem?_eq_none (by omega)]
  rfl

theorem extract_param_finish_ok (s : List Char) (p : Nat) (n v : param_token) :
    (extract_param_finish s p n v).ok = true ∧ (extract_param_finish s p n v).source = p := by
  unfold extract_param_finish
  simp only []
  split_ifs <;> exact ⟨rfl, rfl⟩

theorem extract_param_progress (s : List Char) (src : Nat) (sep : Char) (hsep : sep ≠ NUL)
    (hok : (extract_param s src sep).ok = true) :
    src < (extract_param s src sep).source ∧ (extract_param s src sep).source ≤ s.length := by
  unfold extract_param at hok ⊢
  simp only [] at hok ⊢
  have g0 := scan_ge s src c_isspace
  generalize scan s src c_isspace = p0 at hok g0 ⊢
  by_cases c0 : charAt s p0 = NUL
  · rw [if_pos c0] at hok; exact absurd hok (by simp)
  rw [if_neg c0] at hok ⊢
  have l0 := charAt_lt s p0 c0
  have g1 := scan_ge s p0 (fun c => c ≠ NUL && !c_isspace c && c ≠ '=' && c ≠ sep)
  have l1 := scan_le s p0 (fun c => c ≠ NUL && !c_isspace c && c ≠ '=' && c ≠ sep) (by omega)
  generalize scan s p0 (fun c => c ≠ NUL && !c_isspace c && c ≠ '=' && c ≠ sep) = p1
    at hok g1 l1 ⊢
  by_cases c1 : p0 = p1
  · rw [if_pos c1] at hok; exact absurd hok (by simp)
  rw [if_neg c1] at hok ⊢
  have g2 := scan_ge s p1 c_isspace
  have l2 := scan_le s p1 c_isspace l1
  generalize scan s p1 c_isspace = p2 at hok g2 l2 ⊢
  by_cases c2 : (charAt s p2 = sep || charAt s p2 = NUL) = true
  · rw [if_pos c2]
    simp only
    by_cases c3 : charAt s p2 = sep
    · rw [if_pos c3]
      have := charAt_lt s p2 (by rw [c3]; exact hsep)
      omega
    · rw [if_neg c3]; omega
  rw [if_neg c2] at hok ⊢
  by_cases c4 : charAt s p2 ≠ '='
  · rw [if_pos c4] at hok; exact absurd hok (by simp)
  rw [if_neg c4] at hok ⊢
  have l2b : p2 < s.length := charAt_lt s p2 (by
    intro h; apply c2; simp [h])
  have g3 := scan_ge s (p2 + 1) c_isspace
  have l3 := scan_le s (p2 + 1) c_isspace (by omega)
  generalize scan s (p2 + 1) c_isspace = p3 at hok g3 l3 ⊢
  by_cases c5 : charAt s p3 = DQUOTE
  · rw [if_pos c5] at hok ⊢
    have l3b : p3 < s.length := charAt_lt s p3 (by rw [c5]; decide)
    have g4 := scan_ge s (p3 + 1) (fun c => c ≠ NUL && c ≠ DQUOTE)
    have l4 := scan_le s (p3 + 1) (fun c => c ≠ NUL && c ≠ DQUOTE) (by omega)
    generalize scan s (p3 + 1) (fun c => c ≠ NUL && c ≠ DQUOTE) = p4 at hok g4 l4 ⊢
    by_cases c6 : charAt s p4 = NUL
    · rw [if_pos c6] at hok; exact absurd hok (by simp)
    rw [if_neg c6] at hok ⊢
    have l4b := charAt_lt s p4 c6
    have g5 := scan_ge s (p4 + 1) c_isspace
    have l5 := scan_le s (p4 + 1) c_isspace (by omega)
    generalize scan s (p4 + 1) c_isspace = p5 at hok g5 l5 ⊢
    have g6 := scan_ge s p5 (fun c => c ≠ NUL && c ≠ sep)
    have l6 := scan_le s p5 (fun c => c ≠ NUL && c ≠ sep) l5
    generalize scan s p5 (fun c => c ≠ NUL && c ≠ sep) = p6 at hok g6 l6 ⊢
    by_cases c7 : charAt s p6 = sep
    · rw [if_pos c7, (extract_param_finish_ok _ _ _ _).2]
      have := charAt_lt s p6 (by rw [c7]; exact hsep)
      omega
    rw [if_neg c7] at hok ⊢
    by_cases c8 : charAt s p6 ≠ NUL
    · rw [if_pos c8] at hok; exact absurd hok (by simp)
    rw [if_neg c8, (extract_param_finish_ok _ _ _ _).2]
    omega
  · rw [if_neg c5, (extract_param_finish_ok _ _ _ _).2]
    have g4 := scan_ge s p3 (fun c => c ≠ NUL && c ≠ sep)
    have l4 := scan_le s p3 (fun c => c ≠ NUL && c ≠ sep) l3
    generalize scan s p3 (fun c => c ≠ NUL && c ≠ sep) = p4 at g4 l4 ⊢
    by_cases c7 : charAt s p4 = sep
    · rw [if_pos c7]
      have := charAt_lt s p4 (by rw [c7]; exact hsep)
      omega
    · rw [if_neg c7]; omega

theorem digest_params_loop_total (s : List Char) (fuel source : Nat) (ps : digest_params)
    (h : s.length < fuel + source) (hs : source ≤ s.length) :
    ∃ r, digest_params_loop s fuel source ps = some r := by
  induction fuel generalizing source ps with
  | zero => omega
  | succ n ih =>
    simp only [digest_params_loop]
    by_cases hok : (extract_param s source ',').ok = true
    · rw [if_pos hok]
      have hp := extract_param_progress s source ',' (by decide) hok
      exact ih _ _ (by omega) hp.2
    · rw [if_neg hok]; exact ⟨_, rfl⟩

theorem digest_parse_total (au : List Char) (h : 6 ≤ au.length) :
    ∃ ps, digest_parse au = some ps :=
  digest_params_loop_total au _ 6 _ (by omega) h

/-! ## Digest authentication -/

theorem dump_hash_length (h : List Nat) : (dump_hash h).length = 32 := rfl

theorem snprintf_at_fits (res : List Char) (res_size res_len : Nat) (text : List Char)
    (h1 : res.length = res_len) (h2 : res_len + text.length < res_size) :
    snprintf_at res res_size res_len text = some (res ++ text, text.length) := by
  unfold snprintf_at
  rw [if_neg (by omega)]
  have e1 : res.take res_len = res := by rw [← h1]; exact List.take_length _
  have e2 : text.take (res_size - res_len - 1) = text := List.take_of_length_le (by omega)
  rw [e1, e2]

theorem fmt_08x_nonempty (n : Nat) : ((fmt_08x n).take 15).isEmpty = false := by
  have h : 8 ≤ (fmt_08x n).length := by
    unfold fmt_08x
    simp only [List.length_append, List.length_replicate]
    omega
  cases hl : (fmt_08x n).take 15 with
  | nil =>
    have := congrArg List.length hl
    rw [List.length_take] at this
    simp only [List.length_nil] at this
    omega
  | cons a t => rfl

theorem digest_emit_fits (res_size : Nat) (text : List Char)
    (opaq algorithm : Option (List Char)) (auth_err : uerr_t)
    (h : text.length
        + (match opaq with | some o => o.length + 11 | none => 0)
        + (match algorithm with | some a => a.length + 14 | none => 0) < res_size) :
    digest_emit res_size text opaq algorithm auth_err
      = some (some (text
          ++ (match opaq with
              | some o => ", opaque=".toList ++ [DQUOTE] ++ o ++ [DQUOTE]
              | none => [])
          ++ (match algorithm with
              | some a => ", algorithm=".toList ++ [DQUOTE] ++ a ++ [DQUOTE]
              | none => [])), auth_err) := by
  have ho : ", opaque=".toList.length = 9 := rfl
  have ha : ", algorithm=".toList.length = 12 := rfl
  unfold digest_emit
  cases opaq with
  | none =>
    cases algorithm with
    | none =>
      simp only at h
      rw [snprintf_at_fits [] res_size 0 text rfl (by omega)]
      simp
    | some a =>
      simp only at h
      rw [snprintf_at_fits [] res_size 0 text rfl (by omega)]
      simp only [List.nil_append]
      rw [snprintf_at_fits text res_size text.length _ rfl (by
        simp only [List.length_append, List.length_cons, List.length_nil, ha]; omega)]
      simp
  | some o =>
    cases algorithm with
    | none =>
      simp only at h
      rw [snprintf_at_fits [] res_size 0 text rfl (by omega)]
      simp only [List.nil_append]
      rw [snprintf_at_fits text res_size text.length _ rfl (by
        simp only [List.length_append, List.length_cons, List.length_nil, ho]; omega)]
      simp
    | some a =>
      simp only at h
      rw [snprintf_at_fits [] res_size 0 text rfl (by omega)]
      simp only [List.nil_append]
      rw [snprintf_at_fits text res_size text.length _ rfl (by
        simp only [List.length_append, List.length_cons, List.length_nil, ho]; omega)]
      simp only
      rw [snprintf_at_fits _ res_size _ _ (by
        simp only [List.length_append, List.length_cons, List.length_nil, ho]) (by
        simp only [List.length_append, List.length_cons, List.length_nil, ho, ha]; omega)]

theorem md5_hex_length (md5 : List Char → List Nat) (m : List Char) :
    (md5_hex md5 m).length = 32 := rfl

/-! ## Choice of the scheme, redirect dispatch -/

/-- C5 (what the code does): for a 401 response that offers a Digest challenge on its
first WWW-Authenticate line and a Basic challenge on its second, and no NTLM
challenge, check_auth installs the Basic answer; with the same two lines in the
other order it installs a Digest answer. -/
theorem check_auth_digest_then_basic (md5 : List Char → List Nat) (rnd : Nat)
    (ntlm_input : List Char → Bool)
    (ntlm_output : List Char → List Char → Option (List Char) × Bool) :
    check_auth_answer md5 rnd ntlm_input ntlm_output head_digest_then_basic
        = some ["Basic YWxpY2U6c2VjcmV0".toList]
      ∧ (check_auth_answer md5 rnd ntlm_input ntlm_output head_basic_then_digest).map
          (fun vs => vs.map (fun v => v.take 7)) = some ["Digest ".toList] := by
  exact ⟨rfl, rfl⟩

/-- C6 (what the code does): on 301 and 302 the redirect block of gethttp returns
NEWLOCATION when the method is POST and NEWLOCATION_KEEP_POST when the method is
PUT. -/
theorem gethttp_redirect_post :
    gethttp_redirect 301 (some "/b".toList) (some "POST".toList) none = some uerr_t.NEWLOCATION
      ∧ gethttp_redirect 302 (some "/b".toList) (some "POST".toList) none
          = some uerr_t.NEWLOCATION
      ∧ gethttp_redirect 301 (some "/b".toList) (some "PUT".toList) none
          = some uerr_t.NEWLOCATION_KEEP_POST
      ∧ gethttp_redirect 302 (some "/b".toList) (some "PUT".toList) none
          = some uerr_t.NEWLOCATION_KEEP_POST := by
  decide

/-! ## Response head: the index built by resp_new -/

theorem charAt_eq_getD_drop (s : List Char) (p k : Nat) :
    charAt s (p + k) = (s.drop p).getD k NUL := by
  unfold charAt
  rw [List.getD_eq_getElem?_getD, List.getD_eq_getElem?_getD, List.getElem?_drop]

theorem getD_takeWhile_length (l : List Char) (f : Char → Bool) :
    (l.takeWhile f).length = l.length ∨ f (l.getD (l.takeWhile f).length NUL) = false := by
  induction l with
  | nil => left; rfl
  | cons a t ih =>
    by_cases ha : f a = true
    · rw [List.takeWhile_cons_of_pos ha]
      rcases ih with h | h
      · left; simp [h]
      · right; simpa using h
    · right
      rw [List.takeWhile_cons_of_neg ha]
      simpa using ha

theorem scan_stop (s : List Char) (p : Nat) (f : Char → Bool) :
    s.length ≤ scan s p f ∨ f (charAt s (scan s p f)) = false := by
  unfold scan
  rw [charAt_eq_getD_drop]
  rcases getD_takeWhile_length (s.drop p) f with h | h
  · left; rw [h, List.length_drop]; omega
  · right; exact h

theorem charAt_of_le (s : List Char) (p : Nat) (h : s.length ≤ p) : charAt s p = NUL := by
  unfold charAt
  rw [List.getD_eq_getElem?_getD, List.getElem?_eq_none h]
  rfl

theorem scan_gt (s : List Char) (p : Nat) (f : Char → Bool) (h1 : charAt s p ≠ NUL)
    (h2 : f (charAt s p) = true) : p < scan s p f := by
  have hp := charAt_lt s p h1
  unfold scan
  have hd : s.drop p = s[p] :: s.drop (p + 1) := List.drop_eq_getElem_cons hp
  have hc : charAt s p = s[p] := by
    unfold charAt
    rw [List.getD_eq_getElem?_getD, List.getElem?_eq_getElem hp]
    rfl
  rw [hc] at h2
  rw [hd, List.takeWhile_cons_of_pos h2]
  simp

theorem charAt_set_ne (s : List Char) (i j : Nat) (c : Char) (h : i ≠ j) :
    charAt (s.set i c) j = charAt s j := by
  unfold charAt
  rw [List.getD_eq_getElem?_getD, List.getD_eq_getElem?_getD, List.getElem?_set_ne h]

theorem resp_fold_line_spec (fuel : Nat) (data : List Char) (hdr : Nat)
    (hf : data.length + 1 ≤ fuel + hdr) (h1 : charAt data hdr ≠ NUL) (h2 : charAt data hdr ≠ LF)
    (h3 : ¬ (charAt data hdr = CR ∧ charAt data (hdr + 1) = LF)) :
    ∃ data1 hdr1, resp_fold_line fuel data hdr = some (data1, hdr1)
      ∧ data1.length = data.length ∧ hdr < hdr1 ∧ hdr1 ≤ data.length
      ∧ (∀ j, j ≤ hdr → charAt data1 j = charAt data j)
      ∧ (starts_line data1 hdr1 ∨ charAt data1 hdr1 = NUL) := by
  induction fuel generalizing data hdr with
  | zero =>
    have := charAt_lt data hdr h1
    omega
  | succ n ih =>
    have hlt := charAt_lt data hdr h1
    simp only [resp_fold_line]
    have hgt : hdr < scan data hdr (fun c => c ≠ NUL && c ≠ LF) :=
      scan_gt data hdr _ h1 (by simp [h1, h2])
    have hle := scan_le data hdr (fun c => c ≠ NUL && c ≠ LF) (by omega)
    have hstop := scan_stop data hdr (fun c => c ≠ NUL && c ≠ LF)
    generalize scan data hdr (fun c => c ≠ NUL && c ≠ LF) = e at hgt hle hstop ⊢
    by_cases c1 : charAt data e ≠ LF
    · rw [if_pos c1]
      refine ⟨data, e, rfl, rfl, hgt, hle, fun _ _ => rfl, Or.inr ?_⟩
      rcases hstop with h | h
      · exact charAt_of_le _ _ h
      · simp only [Bool.and_eq_false_iff, bne_eq_false_iff_eq, ne_eq, decide_eq_false_iff_not,
          not_not] at h
        rcases h with h | h
        · simpa using h
        · exact absurd (by simpa using h) c1
    · rw [if_neg c1]
      have c1' : charAt data e = LF := not_not.1 c1
      have he : e < data.length := charAt_lt data e (by rw [c1']; decide)
      by_cases c2 : (charAt data (e + 1) ≠ ' ' && charAt data (e + 1) ≠ TAB) = true
      · rw [if_pos c2]
        refine ⟨data, e + 1, rfl, rfl, by omega, by omega, fun _ _ => rfl, Or.inl ?_⟩
        simp only [Bool.and_eq_true, bne_iff_ne, ne_eq, decide_eq_true_eq] at c2
        exact ⟨by omega, by simpa using c1', by simpa using c2.1, by simpa using c2.2⟩
      · rw [if_neg c2]
        have hsp : charAt data (e + 1) = ' ' ∨ charAt data (e + 1) = TAB := by
          by_contra hh
          push_neg at hh
          apply c2
          simp [hh.1, hh.2]
        -- the data after the fold
        have hset : ∀ (d : List Char), d.length = data.length →
            (∀ j, j ≤ hdr → charAt d j = charAt data j) →
            charAt d (e + 1) = charAt data (e + 1) →
            ∃ data1 hdr1, resp_fold_line n d (e + 1) = some (data1, hdr1)
              ∧ data1.length = data.length ∧ hdr < hdr1 ∧ hdr1 ≤ data.length
              ∧ (∀ j, j ≤ hdr → charAt data1 j = charAt data j)
              ∧ (starts_line data1 hdr1 ∨ charAt data1 hdr1 = NUL) := by
          intro d hd1 hd2 hd3
          have hne : charAt d (e + 1) ≠ NUL ∧ charAt d (e + 1) ≠ LF ∧ charAt d (e + 1) ≠ CR := by
            rw [hd3]
            rcases hsp with h | h <;> rw [h] <;> decide
          obtain ⟨data1, hdr1, r1, r2, r3, r4, r5, r6⟩ :=
            ih d (e + 1) (by omega) hne.1 hne.2.1 (fun hh => hne.2.2 hh.1)
          exact ⟨data1, hdr1, r1, by omega, by omega, by omega,
            fun j hj => (r5 j (by omega)).trans (hd2 j hj), r6⟩
        split_ifs with c3
        · apply hset
          · simp
          · intro j hj
            have hcr : e - 1 ≠ hdr := by
              intro heq
              simp only [Bool.and_eq_true, decide_eq_true_eq] at c3
              apply h3
              have h4 : charAt (data.set e ' ') (e - 1) = charAt data (e - 1) :=
                charAt_set_ne _ _ _ _ (by omega)
              rw [h4, heq] at c3
              refine ⟨by simpa using c3.2, ?_⟩
              have : hdr + 1 = e := by omega
              rw [this]; exact c1'
            rw [charAt_set_ne _ _ _ _ (by omega), charAt_set_ne _ _ _ _ (by omega)]
          · rw [charAt_set_ne _ _ _ _ (by omega), charAt_set_ne _ _ _ _ (by omega)]
        · apply hset
          · simp
          · intro j hj
            rw [charAt_set_ne _ _ _ _ (by omega)]
          · rw [charAt_set_ne _ _ _ _ (by omega)]

theorem starts_line_congr (d1 d2 : List Char) (h : Nat)
    (hc : ∀ j, j ≤ h → charAt d1 j = charAt d2 j) (hs : starts_line d2 h) : starts_line d1 h := by
  obtain ⟨a, b, c, d⟩ := hs
  exact ⟨a, by rw [hc _ (by omega)]; exact b, by rw [hc _ (le_refl _)]; exact c,
    by rw [hc _ (le_refl _)]; exact d⟩

theorem resp_new_loop_spec (fuel : Nat) (data : List Char) (hdr : Nat) (acc : List Nat)
    (hf : data.length + 1 ≤ fuel + hdr) (hl : hdr ≤ data.length) :
    ∃ data1 hs, resp_new_loop fuel data hdr acc = some (data1, acc ++ hdr :: hs)
      ∧ data1.length = data.length
      ∧ (∀ j, j ≤ hdr → charAt data1 j = charAt data j)
      ∧ (hdr :: hs).Pairwise (fun a b => a < b)
      ∧ (∀ h ∈ hs, h ≤ data.length)
      ∧ (∀ h ∈ hs, starts_line data1 h
          ∨ ((hdr :: hs).getLast? = some h ∧ charAt data1 h = NUL))
      ∧ (∀ l, (hdr :: hs).getLast? = some l → ends_head data1 l)
      ∧ (charAt data hdr = NUL → hs = []) := by
  induction fuel generalizing data hdr acc with
  | zero => omega
  | succ n ih =>
    simp only [resp_new_loop]
    by_cases c : (decide (charAt data hdr = NUL)
        || (decide (charAt data hdr = CR) && decide (charAt data (hdr + 1) = LF))
        || decide (charAt data hdr = LF)) = true
    · rw [if_pos c]
      refine ⟨data, [], rfl, rfl, fun _ _ => rfl, List.pairwise_singleton _ _,
        fun h hh => absurd hh (List.not_mem_nil _), fun h hh => absurd hh (List.not_mem_nil _),
        ?_, fun _ => rfl⟩
      intro l hlast
      simp only [List.getLast?_singleton, Option.some.injEq] at hlast
      subst hlast
      simp only [Bool.or_eq_true, Bool.and_eq_true, decide_eq_true_eq] at c
      unfold ends_head
      tauto
    · rw [if_neg c]
      simp only [Bool.or_eq_true, Bool.and_eq_true, decide_eq_true_eq, not_or] at c
      obtain ⟨⟨c1, c2⟩, c3⟩ := c
      obtain ⟨d1, h1, f1, f2, f3, f4, f5, f6⟩ :=
        resp_fold_line_spec (data.length + 1) data hdr (by omega) c1 c3 c2
      rw [f1]
      simp only
      obtain ⟨d2, hs2, g1, g2, g3, g4, g5, g6, g7, g8⟩ :=
        ih d1 h1 (acc ++ [hdr]) (by omega) (by omega)
      refine ⟨d2, h1 :: hs2, ?_, by omega, ?_, ?_, ?_, ?_, ?_, fun hh => absurd hh c1⟩
      · rw [g1]; simp
      · intro j hj
        rw [g3 j (by omega), f5 j hj]
      · rw [List.pairwise_cons]
        refine ⟨?_, g4⟩
        intro b hb
        rcases List.mem_cons.1 hb with rfl | hb
        · exact f3
        · exact lt_trans f3 ((List.pairwise_cons.1 g4).1 b hb)
      · intro h hh
        rcases List.mem_cons.1 hh with rfl | hh
        · exact f4
        · have := g5 h hh; omega
      · intro h hh
        rw [List.getLast?_cons_cons]
        rcases List.mem_cons.1 hh with rfl | hh
        · rcases f6 with s | z
          · exact Or.inl (starts_line_congr d2 d1 h g3 s)
          · right
            have hnil := g8 z
            subst hnil
            exact ⟨rfl, by rw [g3 h (le_refl _)]; exact z⟩
        · exact g6 h hh
      · intro l hlast
        rw [List.getLast?_cons_cons] at hlast
        exact g7 l hlast

theorem resp_new_in_order (head : List Char) (resp : response) (h : resp_new head = some resp) :
    index_in_order resp := by
  unfold resp_new at h
  by_cases h0 : charAt head 0 = NUL
  · rw [if_pos h0] at h
    injection h with h
    subst h
    intro i hi
    simp at hi
  · rw [if_neg h0] at h
    obtain ⟨d, hs, g1, _, _, g4, g5, _, _, _⟩ :=
      resp_new_loop_spec (head.length + 1) head 0 [] (by omega) (by omega)
    rw [g1] at h
    injection h with h
    subst h
    intro i hi
    simp only [Option.getD_some, List.nil_append] at hi ⊢
    rw [List.getD_eq_getElem _ _ (by omega), List.getD_eq_getElem _ _ hi]
    refine ⟨le_of_lt (List.pairwise_iff_getElem.1 g4 i (i + 1) (by omega) hi (by omega)), ?_⟩
    have hi2 : i < hs.length := by simpa using hi
    have : (0 :: hs)[i + 1] = hs[i] := by simp
    rw [this]
    have := g5 _ (List.getElem_mem hi2)
    omega

/-- C20 (as amended): for an empty head resp_new builds no index.  For every non-empty
head resp_new terminates and builds an index whose entry 0 is the start of the head,
whose entries are strictly increasing, whose every entry after the first points just
past a line feed and not at a space or tab, except that the last entry of a
truncated head may be the end of the text, and whose last entry points at the
terminating empty line or at the end of the text; the head keeps its length. -/
theorem resp_new_index (head : List Char) :
    (charAt head 0 = NUL → resp_new head = some ⟨head, none⟩)
      ∧ (charAt head 0 ≠ NUL →
          ∃ data hs, resp_new head = some ⟨data, some (0 :: hs)⟩
            ∧ data.length = head.length
            ∧ (0 :: hs).Pairwise (fun a b => a < b)
            ∧ (∀ h ∈ hs, h ≤ data.length)
            ∧ (∀ h ∈ hs, starts_line data h
                ∨ ((0 :: hs).getLast? = some h ∧ charAt data h = NUL))
            ∧ (∀ l, (0 :: hs).getLast? = some l → ends_head data l)) := by
  constructor
  · intro h
    unfold resp_new
    rw [if_pos h]
  · intro h
    unfold resp_new
    rw [if_neg h]
    obtain ⟨d, hs, g1, g2, _, g4, g5, g6, g7, _⟩ :=
      resp_new_loop_spec (head.length + 1) head 0 [] (by omega) (by omega)
    rw [g1]
    exact ⟨d, hs, rfl, g2, g4, fun h hh => by have := g5 h hh; omega, g6, g7⟩

/-- C20 (witness): a head with a folded header. -/
theorem resp_new_index_witness :
    resp_new ("HTTP/1.1 200 OK".toList ++ [CR, LF] ++ "A: b".toList ++ [CR, LF, ' ', 'c', CR, LF]
        ++ [CR, LF])
      = some ⟨"HTTP/1.1 200 OK".toList ++ [CR, LF] ++ "A: b".toList ++ [' ', ' ', ' ', 'c', CR, LF]
          ++ [CR, LF], some [0, 17, 27]⟩ := by
  obtain ⟨d, hs, g1, _⟩ := (resp_new_index ("HTTP/1.1 200 OK".toList ++ [CR, LF]
    ++ "A: b".toList ++ [CR, LF, ' ', 'c', CR, LF] ++ [CR, LF])).2 (by decide)
  rw [g1]
  exact g1.symm.trans (by decide)

/-- C20 (counterexample): for a head without any line feed the index is [0, 15]; its
entry 1 is the end of the text and does not point just past a line feed. -/
theorem resp_new_index_truncated :
    resp_new "HTTP/1.1 200 OK".toList = some ⟨"HTTP/1.1 200 OK".toList, some [0, 15]⟩
      ∧ charAt "HTTP/1.1 200 OK".toList (15 - 1) ≠ LF := by
  decide

/-! ## Response head: header lookup -/

theorem char_toNat_inj (a b : Char) (h : a.toNat = b.toNat) : a = b :=
  Char.ext (UInt32.ext (by simpa [Char.toNat, UInt32.toNat] using h))

theorem c_strncasecmp_eq_zero_iff (a name : List Char) (hn : ∀ c ∈ name, c.toNat ≠ 0) :
    c_strncasecmp a name name.length = 0
      ↔ (a.take name.length).map c_tolower = name.map c_tolower := by
  induction name generalizing a with
  | nil => simp [c_strncasecmp]
  | cons c t ih =>
    have hc : (c_tolower c).toNat ≠ 0 := fun h =>
      hn c (List.mem_cons_self _ _) ((c_tolower_toNat_eq_zero c).1 h)
    have ht : ∀ x ∈ t, x.toNat ≠ 0 := fun x hx => hn x (List.mem_cons_of_mem _ hx)
    cases a with
    | nil =>
      simp only [List.length_cons, c_strncasecmp, List.headD_cons, List.take_nil, List.map_nil,
        List.map_cons]
      constructor
      · intro h; exfalso; omega
      · intro h; exact absurd h (by simp)
    | cons x s =>
      simp only [List.length_cons, c_strncasecmp, List.headD_cons, List.tail_cons,
        List.take_succ_cons, List.map_cons, List.cons.injEq]
      by_cases hx : (c_tolower x).toNat = 0
      · rw [if_pos hx]
        constructor
        · intro h; exfalso; omega
        · intro h; exfalso; apply hc; rw [← h.1]; exact hx
      · rw [if_neg hx]
        by_cases hxc : c_tolower x = c_tolower c
        · rw [if_pos hxc, ih s ht]
          simp [hxc]
        · rw [if_neg hxc]
          constructor
          · intro h
            exfalso
            apply hxc
            exact char_toNat_inj _ _ (by omega)
          · intro h; exact absurd h.1 hxc

theorem span_add (data : List Char) (b e k : Nat) :
    span data (b + k) e = (span data b e).drop k := by
  unfold span
  rw [List.drop_take, List.drop_drop]
  congr 1
  omega

theorem span_length (data : List Char) (b e : Nat) (h1 : b ≤ e) (h2 : e ≤ data.length) :
    (span data b e).length = e - b := by
  unfold span
  rw [List.length_take, List.length_drop]
  omega

theorem dropWhile_eq_drop (l : List Char) (f : Char → Bool) :
    l.dropWhile f = l.drop (l.takeWhile f).length := by
  induction l with
  | nil => rfl
  | cons a t ih =>
    by_cases ha : f a = true
    · rw [List.dropWhile_cons_of_pos ha, List.takeWhile_cons_of_pos ha]
      simpa using ih
    · rw [List.dropWhile_cons_of_neg ha, List.takeWhile_cons_of_neg ha]
      rfl

theorem reverse_dropWhile_reverse (l : List Char) (f : Char → Bool) :
    (l.reverse.dropWhile f).reverse = l.take (l.reverse.dropWhile f).length := by
  have h1 : l.reverse = l.reverse.takeWhile f ++ l.reverse.dropWhile f :=
    (List.takeWhile_append_dropWhile f l.reverse).symm
  have h2 : l = (l.reverse.dropWhile f).reverse ++ (l.reverse.takeWhile f).reverse := by
    have := congrArg List.reverse h1
    rw [List.reverse_reverse, List.reverse_append] at this
    exact this
  have hlen : (l.reverse.dropWhile f).length = (l.reverse.dropWhile f).reverse.length := by
    simp
  rw [hlen]
  calc (l.reverse.dropWhile f).reverse
      = ((l.reverse.dropWhile f).reverse ++ (l.reverse.takeWhile f).reverse).take
          (l.reverse.dropWhile f).reverse.length := by simp
    _ = l.take (l.reverse.dropWhile f).reverse.length := by rw [← h2]

theorem span_trim (data : List Char) (p e : Nat) (f : Char → Bool) :
    span data (p + ((span data p e).takeWhile f).length)
        (p + ((span data p e).takeWhile f).length
          + ((span data (p + ((span data p e).takeWhile f).length) e).reverse.dropWhile f).length)
      = (((span data p e).dropWhile f).reverse.dropWhile f).reverse := by
  have hr2 : span data (p + ((span data p e).takeWhile f).length) e
      = (span data p e).dropWhile f := by
    rw [span_add, ← dropWhile_eq_drop]
  generalize p + ((span data p e).takeWhile f).length = q at hr2 ⊢
  generalize (span data p e).dropWhile f = r at hr2 ⊢
  rw [hr2, reverse_dropWhile_reverse]
  have hm : (r.reverse.dropWhile f).length ≤ r.length := by
    have := (List.dropWhile_sublist f (l := r.reverse)).length_le
    simpa using this
  generalize (r.reverse.dropWhile f).length = m at hm ⊢
  subst hr2
  unfold span at hm ⊢
  rw [List.take_take]
  congr 1
  rw [List.length_take] at hm
  omega

theorem span_cons_charAt (data : List Char) (q e : Nat) (c : Char) (t : List Char)
    (h : span data q e = c :: t) : charAt data q = c ∧ q < e ∧ span data (q + 1) e = t := by
  have h1 : span data (q + 1) e = t := by rw [span_add, h]; rfl
  unfold span at h
  have hq : q < e := by
    by_contra hh
    have : e - q = 0 := by omega
    rw [this] at h
    simp at h
  refine ⟨?_, hq, h1⟩
  unfold charAt
  cases hd : data.drop q with
  | nil => rw [hd] at h; simp at h
  | cons x xs =>
    rw [hd] at h
    have hpos : e - q = (e - q - 1) + 1 := by omega
    rw [hpos, List.take_succ_cons] at h
    injection h with h2 _
    subst h2
    have := congrArg (fun l => l.getD 0 NUL) hd
    simp only [List.getD_eq_getElem?_getD, List.getElem?_drop, List.getElem?_cons_zero] at this
    rw [List.getD_eq_getElem?_getD]
    simpa using this

theorem locate_match (data : List Char) (b e : Nat) (name : List Char)
    (hn : ∀ c ∈ name, c.toNat ≠ 0) (hbe : b ≤ e) (hed : e ≤ data.length) :
    (decide (e - b > name.length) && decide (charAt data (b + name.length) = ':')
        && decide (c_strncasecmp (data.drop b) name name.length = 0))
      = spec_header_named (span data b e) name := by
  unfold spec_header_named
  have hiff := c_strncasecmp_eq_zero_iff (data.drop b) name hn
  simp only [hiff]
  have hlen : (span data b e).length = e - b := span_length data b e hbe hed
  by_cases hlt : e - b > name.length
  · have htake : (span data b e).take name.length = (data.drop b).take name.length := by
      unfold span
      rw [List.take_take, Nat.min_eq_left (by omega)]
    have hdrop : (span data b e).drop name.length = span data (b + name.length) e :=
      (span_add data b e name.length).symm
    have hne : span data (b + name.length) e ≠ [] := by
      intro h0
      have := congrArg List.length h0
      rw [span_length data _ e (by omega) hed] at this
      simp at this
      omega
    rw [htake, hdrop]
    cases hs : span data (b + name.length) e with
    | nil => exact absurd hs hne
    | cons c t =>
      have := (span_cons_charAt data _ e c t hs).1
      rw [this]
      simp [hlt, Bool.and_comm]
  · have h0 : (span data b e).drop name.length = [] := by
      apply List.drop_eq_nil_of_le
      omega
    rw [h0]
    simp [hlt]

theorem locate_value (data : List Char) (b e n : Nat) :
    span data (b + n + 1 + ((span data (b + n + 1) e).takeWhile c_isspace).length)
        (b + n + 1 + ((span data (b + n + 1) e).takeWhile c_isspace).length
          + ((span data (b + n + 1 + ((span data (b + n + 1) e).takeWhile c_isspace).length)
              e).reverse.dropWhile c_isspace).length)
      = trim_ws ((span data b e).drop (n + 1)) := by
  rw [span_trim]
  unfold trim_ws
  rw [Nat.add_assoc b n 1, span_add]

theorem resp_header_locate_loop_spec (data : List Char) (hs : List Nat) (name : List Char)
    (hn : ∀ c ∈ name, c.toNat ≠ 0)
    (hord : ∀ i, i + 1 < hs.length → hs.getD i 0 ≤ hs.getD (i + 1) 0
      ∧ hs.getD (i + 1) 0 ≤ data.length)
    (fuel i : Nat) (hi : i + 1 ≤ hs.length) (hf : hs.length ≤ fuel + i) :
    (resp_header_locate_loop data hs name fuel i).map
        (Option.map (fun x => (x.1, span data x.2.1 x.2.2)))
      = some (((List.range' i (hs.length - 1 - i)).find?
          (fun j => spec_header_named (span data (hs.getD j 0) (hs.getD (j + 1) 0)) name)).map
          (fun j => (j, spec_header_value (span data (hs.getD j 0) (hs.getD (j + 1) 0)) name))) := by
  induction fuel generalizing i with
  | zero => omega
  | succ n ih =>
    unfold resp_header_locate_loop
    rw [if_neg (by omega)]
    by_cases hlast : hs.length = i + 1
    · rw [if_pos hlast]
      have : hs.length - 1 - i = 0 := by omega
      rw [this]
      rfl
    · rw [if_neg hlast]
      have hlt : i + 1 < hs.length := by omega
      have hr : hs.length - 1 - i = (hs.length - 1 - (i + 1)) + 1 := by omega
      rw [hr, List.range'_succ, List.find?_cons]
      have hm := locate_match data (hs.getD i 0) (hs.getD (i + 1) 0) name hn
        (hord i hlt).1 (hord i hlt).2
      simp only []
      rw [hm]
      cases hc : spec_header_named (span data (hs.getD i 0) (hs.getD (i + 1) 0)) name with
      | true =>
        simp only [if_true, Option.map_some']
        rw [locate_value]
        rfl
      | false =>
        simp only [Bool.false_eq_true, if_false]
        exact ih (i + 1) (by omega) (by omega)

theorem find_filter_range (p : Nat → Bool) (n s : Nat) :
    ((List.range' s n).find? p = none → (List.range' s n).filter p = [])
      ∧ (∀ i, (List.range' s n).find? p = some i →
          s ≤ i ∧ i < s + n
            ∧ (List.range' s n).filter p = i :: (List.range' (i + 1) (s + n - (i + 1))).filter p) := by
  induction n generalizing s with
  | zero => simp
  | succ k ih =>
    rw [List.range'_succ, List.find?_cons, List.filter_cons]
    cases hp : p s with
    | true =>
      simp only [if_true]
      refine ⟨fun h => by simp at h, ?_⟩
      intro i hi
      injection hi with hi
      subst hi
      refine ⟨le_refl _, by omega, ?_⟩
      have : s + (k + 1) - (s + 1) = k := by omega
      rw [this]
    | false =>
      simp only [Bool.false_eq_true, if_false]
      obtain ⟨h1, h2⟩ := ih (s + 1)
      refine ⟨h1, ?_⟩
      intro i hi
      obtain ⟨a, b, c⟩ := h2 i hi
      refine ⟨by omega, by omega, ?_⟩
      rw [c]
      have : s + 1 + k - (i + 1) = s + (k + 1) - (i + 1) := by omega
      rw [this]

theorem resp_header_locate_find (resp : response) (name : List Char)
    (hn : ∀ c ∈ name, c.toNat ≠ 0) (hord : index_in_order resp) (start : Nat)
    (hstart : start ≤ (resp.headers.getD []).length - 1) :
    (resp_header_locate resp name start).map
        (Option.map (fun x => (x.1, span resp.data x.2.1 x.2.2)))
      = some (((List.range' (max start 1) ((resp.headers.getD []).length - 1 - max start 1)).find?
          (fun j => spec_header_named (header_line resp j) name)).map
          (fun j => (j, spec_header_value (header_line resp j) name))) := by
  obtain ⟨data, headers⟩ := resp
  cases headers with
  | none =>
    simp [resp_header_locate]
  | some hs =>
    simp only [Option.getD_some] at hstart ⊢
    unfold resp_header_locate
    simp only []
    by_cases hl : hs.length ≤ 1
    · rw [if_pos hl]
      have : hs.length - 1 - max start 1 = 0 := by omega
      rw [this]
      rfl
    · rw [if_neg hl]
      have hmax : (if start > 0 then start else 1) = max start 1 := by
        split_ifs <;> omega
      rw [hmax]
      have := resp_header_locate_loop_spec data hs name hn
        (fun i hi => by have := hord i (by simpa using hi); simpa using this)
        (hs.length + 1) (max start 1) (by omega) (by omega)
      rw [this]
      rfl

theorem locate_all_loop_spec (resp : response) (name : List Char)
    (hn : ∀ c ∈ name, c.toNat ≠ 0) (hord : index_in_order resp) (fuel pos : Nat)
    (hpos : pos ≤ (resp.headers.getD []).length - 1)
    (hf : (resp.headers.getD []).length + 1 ≤ fuel + pos) :
    (locate_all_loop resp name fuel pos).map
        (List.map (fun x => (x.1, span resp.data x.2.1 x.2.2)))
      = some (((List.range' (max pos 1) ((resp.headers.getD []).length - 1 - max pos 1)).filter
          (fun j => spec_header_named (header_line resp j) name)).map
          (fun j => (j, spec_header_value (header_line resp j) name))) := by
  induction fuel generalizing pos with
  | zero => omega
  | succ n ih =>
    unfold locate_all_loop
    have hA := resp_header_locate_find resp name hn hord pos hpos
    obtain ⟨f1, f2⟩ := find_filter_range (fun j => spec_header_named (header_line resp j) name)
      ((resp.headers.getD []).length - 1 - max pos 1) (max pos 1)
    cases hr : resp_header_locate resp name pos with
    | none => rw [hr] at hA; simp at hA
    | some r =>
      cases r with
      | none =>
        rw [hr] at hA
        simp only [Option.map_some', Option.map_none', Option.some.injEq] at hA
        have hnone := Option.map_eq_none'.1 hA.symm
        rw [f1 hnone]
        rfl
      | some x =>
        obtain ⟨i, b, e⟩ := x
        rw [hr] at hA
        simp only [Option.map_some', Option.some.injEq] at hA
        obtain ⟨j, hj1, hj2⟩ := Option.map_eq_some'.1 hA.symm
        simp only [Prod.mk.injEq] at hj2
        obtain ⟨hji, hval⟩ := hj2
        subst hji
        obtain ⟨g1, g2, g3⟩ := f2 j hj1
        have hIH := ih (j + 1) (by omega) (by omega)
        have hmax : max (j + 1) 1 = j + 1 := by omega
        have hcnt : max pos 1 + ((resp.headers.getD []).length - 1 - max pos 1) - (j + 1)
            = (resp.headers.getD []).length - 1 - (j + 1) := by omega
        rw [hmax] at hIH
        rw [g3, hcnt]
        simp only []
        cases hrest : locate_all_loop resp name n (j + 1) with
        | none => rw [hrest] at hIH; simp at hIH
        | some rest =>
          rw [hrest] at hIH
          simp only [Option.map_some', Option.some.injEq] at hIH
          simp only [Option.map_some', List.map_cons, Option.some.injEq]
          rw [hIH, hval]

/-- C18: for a response built by resp_new and a header name without NUL,
resp_header_locate called with a start inside the index returns the smallest header
index i with max(start, 1) <= i whose line begins with the name, compared ignoring
ASCII case, immediately followed by a colon, with the span of the rest of that line
trimmed of leading and trailing whitespace, and returns -1 when there is no such
header; and the loop of the callers visits the headers of that name, each once, in
the order of the index. -/
theorem resp_header_locate_spec (head : List Char) (resp : response) (name : List Char)
    (hresp : resp_new head = some resp) (hn : ∀ c ∈ name, c.toNat ≠ 0) :
    (∀ start, start ≤ (resp.headers.getD []).length - 1 →
        (resp_header_locate resp name start).map
            (Option.map (fun x => (x.1, span resp.data x.2.1 x.2.2)))
          = some (((List.range' (max start 1)
                ((resp.headers.getD []).length - 1 - max start 1)).find?
              (fun j => spec_header_named (header_line resp j) name)).map
              (fun j => (j, spec_header_value (header_line resp j) name))))
      ∧ (locate_all resp name).map (List.map (fun x => (x.1, span resp.data x.2.1 x.2.2)))
          = some (((List.range' 1 ((resp.headers.getD []).length - 2)).filter
              (fun j => spec_header_named (header_line resp j) name)).map
              (fun j => (j, spec_header_value (header_line resp j) name))) := by
  have hord := resp_new_in_order head resp hresp
  refine ⟨fun start hstart => resp_header_locate_find resp name hn hord start hstart, ?_⟩
  have := locate_all_loop_spec resp name hn hord ((resp.headers.getD []).length + 1) 0
    (Nat.zero_le _) (by omega)
  unfold locate_all
  rw [this]
  have h1 : max 0 1 = 1 := rfl
  rw [h1, Nat.sub_sub]

/-- C18 (witness): a head with two Set-Cookie headers around another header; the
loop visits header 1 with the value a=1 and then header 3 with the value b=2. -/
theorem resp_header_locate_spec_witness :
    (locate_all ⟨head_two_cookies, some [0, 17, 35, 44, 60]⟩ "set-cookie".toList).map
        (List.map (fun x => (x.1, span head_two_cookies x.2.1 x.2.2)))
      = some [(1, "a=1".toList), (3, "b=2".toList)] :=
  ((resp_header_locate_spec head_two_cookies ⟨head_two_cookies, some [0, 17, 35, 44, 60]⟩
      "set-cookie".toList (by decide) (by decide)).2).trans (by decide)

/-! ## Response head: status line -/

theorem span_append_drop (data : List Char) (q e : Nat) (a b : List Char)
    (h : span data q e = a ++ b) : span data (q + a.length) e = b := by
  rw [span_add, h, List.drop_left]

theorem span_length_le (data : List Char) (q e : Nat) : (span data q e).length ≤ e - q := by
  unfold span
  rw [List.length_take]
  omega

theorem span_take (data : List Char) (q e n : Nat) (h : n ≤ e - q) :
    (span data q e).take n = (data.drop q).take n := by
  unfold span
  rw [List.take_take, Nat.min_eq_left h]

theorem takeWhile_append_stop (f : Char → Bool) (a : List Char) (c : Char) (t : List Char)
    (ha : a.all f = true) (hc : f c = false) : (a ++ c :: t).takeWhile f = a := by
  induction a with
  | nil => simp [List.takeWhile_cons, hc]
  | cons x xs ih =>
    simp only [List.all_cons, Bool.and_eq_true] at ha
    rw [List.cons_append, List.takeWhile_cons_of_pos ha.1, ih ha.2]

theorem scan_to_append (data : List Char) (q e : Nat) (f : Char → Bool) (a : List Char)
    (c : Char) (t : List Char) (h : span data q e = a ++ c :: t) (ha : a.all f = true)
    (hc : f c = false) :
    scan_to data q e f = q + a.length ∧ span data (q + a.length) e = c :: t := by
  refine ⟨?_, span_append_drop data q e a (c :: t) h⟩
  unfold scan_to
  rw [h, takeWhile_append_stop f a c t ha hc]

theorem c_isdigit_not_space (c : Char) (h : c_isdigit c = true) : c_isspace c = false := by
  unfold c_isdigit at h
  unfold c_isspace
  simp only [Bool.and_eq_true, decide_eq_true_eq] at h
  have h32 : c.toNat ≠ 32 := by omega
  have h13 : ¬ (c.toNat ≤ 13) := by omega
  simp [h32, h13]

theorem c_isspace_not_digit (c : Char) (h : c_isspace c = true) : c_isdigit c = false := by
  cases hd : c_isdigit c with
  | false => rfl
  | true => rw [c_isdigit_not_space c hd] at h; exact absurd h (by decide)

/-- The position reached by the version scan of resp_status. -/
theorem version_scan (data : List Char) (p e : Nat) (ver : List Char) (c : Char)
    (t : List Char) (h : span data p e = ver ++ c :: t) (hv : http_version ver)
    (h1 : ver = [] → c ≠ '/') (h2 : ver ≠ [] → c_isdigit c = false ∧ c ≠ '.') :
    (if p < e ∧ charAt data p = '/' then
        scan_to data
          (if scan_to data (p + 1) e c_isdigit < e
              ∧ charAt data (scan_to data (p + 1) e c_isdigit) = '.'
            then scan_to data (p + 1) e c_isdigit + 1 else scan_to data (p + 1) e c_isdigit)
          e c_isdigit
      else p) = p + ver.length := by
  rcases hv with rfl | ⟨ds1, rfl, hd1⟩ | ⟨ds1, ds2, rfl, hd1, hd2⟩
  · obtain ⟨a, _, _⟩ := span_cons_charAt data p e c t (by simpa using h)
    rw [if_neg (by rw [a]; exact fun hh => h1 rfl hh.2)]
    rfl
  · obtain ⟨hc1, hc2⟩ := h2 (by simp)
    obtain ⟨a, b, r⟩ := span_cons_charAt data p e '/' (ds1 ++ c :: t) (by simpa using h)
    rw [if_pos ⟨b, a⟩]
    obtain ⟨s1, r1⟩ := scan_to_append data (p + 1) e c_isdigit ds1 c t r hd1 hc1
    rw [s1]
    obtain ⟨a2, b2, _⟩ := span_cons_charAt data _ e c t r1
    rw [if_neg (by rw [a2]; exact fun hh => hc2 hh.2)]
    obtain ⟨s2, _⟩ := scan_to_append data (p + 1 + ds1.length) e c_isdigit [] c t
      (by simpa using r1) rfl hc1
    rw [s2]
    simp only [List.length_nil, List.length_cons]
    omega
  · obtain ⟨hc1, hc2⟩ := h2 (by simp)
    obtain ⟨a, b, r⟩ := span_cons_charAt data p e '/' (ds1 ++ '.' :: ds2 ++ c :: t)
      (by simpa using h)
    rw [if_pos ⟨b, a⟩]
    obtain ⟨s1, r1⟩ := scan_to_append data (p + 1) e c_isdigit ds1 '.' (ds2 ++ c :: t)
      (by simpa using r) hd1 (by decide)
    rw [s1]
    obtain ⟨a2, b2, r2⟩ := span_cons_charAt data _ e '.' (ds2 ++ c :: t) r1
    rw [if_pos ⟨b2, a2⟩]
    obtain ⟨s2, _⟩ := scan_to_append data (p + 1 + ds1.length + 1) e c_isdigit ds2 c t
      r2 hd2 hc1
    rw [s2]
    simp only [List.length_cons, List.length_append]
    omega

theorem c_isdigit_ne (c : Char) (h : c_isdigit c = true) : c ≠ '/' ∧ c ≠ '.' := by
  constructor <;> rintro rfl <;> revert h <;> decide

theorem c_isspace_ne (c : Char) (h : c_isspace c = true) : c ≠ '/' ∧ c ≠ '.' := by
  constructor <;> rintro rfl <;> revert h <;> decide

theorem resp_status_line (data : List Char) (hs : List Nat) (ver ws : List Char)
    (d1 d2 d3 : Char) (rest : List Char) (hl : 2 ≤ hs.length)
    (h : span data (hs.getD 0 0) (hs.getD 1 0)
      = "HTTP".toList ++ ver ++ ws ++ d1 :: d2 :: d3 :: rest)
    (hv : http_version ver) (hw : ws.all c_isspace = true) (hd1 : c_isdigit d1 = true)
    (hd2 : c_isdigit d2 = true) (hd3 : c_isdigit d3 = true) (hvw : ver ≠ [] → ws ≠ []) :
    resp_status ⟨data, some hs⟩ true
      = (100 * digit_value d1 + 10 * digit_value d2 + digit_value d3, some (trim_ws rest)) := by
  unfold resp_status
  simp only []
  rw [if_neg (by omega)]
  generalize hs.getD 0 0 = p at h ⊢
  generalize hs.getD 1 0 = e at h ⊢
  have hlen : 4 ≤ e - p := by
    have h1 := span_length_le data p e
    rw [h] at h1
    simp only [List.length_append, List.length_cons] at h1
    have : "HTTP".toList.length = 4 := rfl
    omega
  have htake : (data.drop p).take 4 = "HTTP".toList := by
    rw [← span_take data p e 4 hlen, h]
    simp
  rw [if_neg (not_or.2 ⟨by omega, by simp [htake]⟩)]
  have r1 : span data (p + 4) e = ver ++ (ws ++ d1 :: d2 :: d3 :: rest) :=
    span_append_drop data p e "HTTP".toList _ (by simpa [List.append_assoc] using h)
  have hP2 : (if p + 4 < e ∧ charAt data (p + 4) = '/' then
        scan_to data
          (if scan_to data (p + 4 + 1) e c_isdigit < e
              ∧ charAt data (scan_to data (p + 4 + 1) e c_isdigit) = '.'
            then scan_to data (p + 4 + 1) e c_isdigit + 1
            else scan_to data (p + 4 + 1) e c_isdigit)
          e c_isdigit
      else p + 4) = p + 4 + ver.length := by
    cases ws with
    | nil =>
      exact version_scan data (p + 4) e ver d1 _ (by simpa using r1) hv
        (fun _ => (c_isdigit_ne d1 hd1).1) (fun hne => absurd rfl (hvw hne))
    | cons w ws1 =>
      simp only [List.all_cons, Bool.and_eq_true] at hw
      exact version_scan data (p + 4) e ver w _ (by simpa using r1) hv
        (fun _ => (c_isspace_ne w hw.1).1)
        (fun _ => ⟨c_isspace_not_digit w hw.1, (c_isspace_ne w hw.1).2⟩)
  rw [hP2]
  have r2 : span data (p + 4 + ver.length) e = ws ++ d1 :: d2 :: d3 :: rest :=
    span_append_drop data (p + 4) e ver _ r1
  obtain ⟨s3, r3⟩ := scan_to_append data (p + 4 + ver.length) e c_isspace ws d1
    (d2 :: d3 :: rest) r2 hw (c_isdigit_not_space d1 hd1)
  rw [s3]
  generalize p + 4 + ver.length + ws.length = q at r3 ⊢
  obtain ⟨a1, b1, t1⟩ := span_cons_charAt data q e d1 _ r3
  obtain ⟨a2, b2, t2⟩ := span_cons_charAt data (q + 1) e d2 _ t1
  obtain ⟨a3, b3, t3⟩ := span_cons_charAt data (q + 1 + 1) e d3 _ t2
  rw [a1, a2, show q + 2 = q + 1 + 1 from rfl, a3, hd1, hd2, hd3]
  rw [if_neg (by
    simp only [Bool.true_eq_false, or_false, not_lt]
    omega)]
  rw [if_pos trivial]
  unfold scan_to
  rw [show q + 3 = q + 1 + 1 + 1 from rfl, span_trim, t3]
  rfl

theorem span_split (data : List Char) (a b c : Nat) (h1 : a ≤ b) (h2 : b ≤ c) :
    span data a c = span data a b ++ span data b c := by
  unfold span
  have hc : c - a = (b - a) + (c - b) := by omega
  rw [hc, List.take_add, List.drop_drop]
  have : a + (b - a) = b := by omega
  rw [this]

theorem span_scan_to (data : List Char) (q e : Nat) (f : Char → Bool) :
    span data q (scan_to data q e f) = (span data q e).takeWhile f := by
  have h1 : (span data q e).takeWhile f <+: data.drop q :=
    (List.takeWhile_prefix f).trans (List.take_prefix _ _)
  have h2 := List.prefix_iff_eq_take.1 h1
  unfold scan_to
  conv_lhs => unfold span
  rw [Nat.add_sub_cancel_left]
  exact h2.symm

theorem scan_to_ge (data : List Char) (q e : Nat) (f : Char → Bool) :
    q ≤ scan_to data q e f := Nat.le_add_right _ _

theorem scan_to_le (data : List Char) (q e : Nat) (f : Char → Bool) (h : q ≤ e) :
    scan_to data q e f ≤ e := by
  unfold scan_to
  have h1 : ((span data q e).takeWhile f).length ≤ (span data q e).length :=
    (List.takeWhile_sublist f).length_le
  have h2 := span_length_le data q e
  omega

theorem span_cons_of_lt (data : List Char) (q e : Nat) (h1 : q < e) (h2 : q < data.length) :
    span data q e = charAt data q :: span data (q + 1) e := by
  have hd : data.drop q = data[q] :: data.drop (q + 1) := List.drop_eq_getElem_cons h2
  have hc : charAt data q = data[q] := by
    unfold charAt
    rw [List.getD_eq_getElem?_getD, List.getElem?_eq_getElem h2]
    rfl
  unfold span
  rw [hd, hc]
  have : e - q = (e - (q + 1)) + 1 := by omega
  rw [this, List.take_succ_cons]

theorem span_getD (data : List Char) (x e k : Nat) (h : k < (span data x e).length) :
    (span data x e).getD k NUL = charAt data (x + k) := by
  have hk : k < e - x := lt_of_lt_of_le h (span_length_le data x e)
  unfold span charAt
  rw [List.getD_eq_getElem?_getD, List.getD_eq_getElem?_getD, List.getElem?_take_of_lt hk,
    List.getElem?_drop]

theorem scan_to_stop (data : List Char) (x e : Nat) (f : Char → Bool) (hx : x ≤ e)
    (hN : f NUL = false) (hlt : scan_to data x e f < e) :
    f (charAt data (scan_to data x e f)) = false := by
  unfold scan_to at hlt ⊢
  have hle : ((span data x e).takeWhile f).length ≤ (span data x e).length :=
    (List.takeWhile_sublist f).length_le
  by_cases hk : ((span data x e).takeWhile f).length < (span data x e).length
  · rcases getD_takeWhile_length (span data x e) f with h | h
    · omega
    · rw [span_getD data x e _ hk] at h
      exact h
  · have heq : ((span data x e).takeWhile f).length = (span data x e).length := by omega
    have hlen : (span data x e).length = min (e - x) (data.length - x) := by
      unfold span
      rw [List.length_take, List.length_drop]
    rw [charAt_of_le]
    · exact hN
    · rw [heq, hlen] at hlt ⊢
      omega

theorem takeWhile_all (f : Char → Bool) (l : List Char) : (l.takeWhile f).all f = true := by
  rw [List.all_eq_true]
  intro x hx
  exact List.mem_takeWhile_imp hx

/-- What the version scan of resp_status has read when it stops. -/
theorem version_scan_form (data : List Char) (p e : Nat) (hpe : p ≤ e) (P2 : Nat)
    (hP2 : (if p < e ∧ charAt data p = '/' then
        scan_to data
          (if scan_to data (p + 1) e c_isdigit < e
              ∧ charAt data (scan_to data (p + 1) e c_isdigit) = '.'
            then scan_to data (p + 1) e c_isdigit + 1 else scan_to data (p + 1) e c_isdigit)
          e c_isdigit
      else p) = P2) :
    p ≤ P2 ∧ P2 ≤ e ∧ http_version (span data p P2)
      ∧ (span data p P2 ≠ [] → P2 < e → c_isdigit (charAt data P2) = false) := by
  by_cases c : p < e ∧ charAt data p = '/'
  · rw [if_pos c] at hP2
    have hpl : p < data.length := charAt_lt data p (by rw [c.2]; decide)
    have g1 := scan_to_ge data (p + 1) e c_isdigit
    have g2 := scan_to_le data (p + 1) e c_isdigit (by omega)
    have g3 := span_scan_to data (p + 1) e c_isdigit
    generalize scan_to data (p + 1) e c_isdigit = q1 at hP2 g1 g2 g3
    have hd1 : (span data (p + 1) q1).all c_isdigit = true := by
      rw [g3]; exact takeWhile_all _ _
    by_cases c2 : q1 < e ∧ charAt data q1 = '.'
    · rw [if_pos c2] at hP2
      have hql : q1 < data.length := charAt_lt data q1 (by rw [c2.2]; decide)
      have k1 := scan_to_ge data (q1 + 1) e c_isdigit
      have k2 := scan_to_le data (q1 + 1) e c_isdigit (by omega)
      have k3 := span_scan_to data (q1 + 1) e c_isdigit
      have k4 := scan_to_stop data (q1 + 1) e c_isdigit (by omega) (by decide)
      rw [hP2] at k1 k2 k3 k4
      have hd2 : (span data (q1 + 1) P2).all c_isdigit = true := by
        rw [k3]; exact takeWhile_all _ _
      refine ⟨by omega, k2, Or.inr (Or.inr ⟨span data (p + 1) q1, span data (q1 + 1) P2, ?_,
        hd1, hd2⟩), fun _ h => k4 h⟩
      rw [span_split data p q1 P2 (by omega) (by omega),
        span_cons_of_lt data p q1 (by omega) hpl, c.2,
        span_cons_of_lt data q1 P2 (by omega) hql, c2.2]
    · rw [if_neg c2] at hP2
      have k1 := scan_to_ge data q1 e c_isdigit
      have k2 := scan_to_le data q1 e c_isdigit g2
      have k3 := span_scan_to data q1 e c_isdigit
      have k4 := scan_to_stop data q1 e c_isdigit g2 (by decide)
      rw [hP2] at k1 k2 k3 k4
      have hd2 : (span data q1 P2).all c_isdigit = true := by
        rw [k3]; exact takeWhile_all _ _
      refine ⟨by omega, k2, Or.inr (Or.inl ⟨span data (p + 1) q1 ++ span data q1 P2, ?_, ?_⟩),
        fun _ h => k4 h⟩
      · rw [span_cons_of_lt data p P2 (by omega) hpl, c.2,
          span_split data (p + 1) q1 P2 g1 k1]
      · rw [List.all_append, hd1, hd2]
        rfl
  · rw [if_neg c] at hP2
    subst hP2
    refine ⟨le_refl _, hpe, Or.inl ?_, fun h => absurd ?_ h⟩ <;>
    · unfold span
      simp

theorem resp_status_form (data : List Char) (hs : List Nat) (hl : 2 ≤ hs.length)
    (h : (resp_status ⟨data, some hs⟩ true).1 ≠ -1) :
    ∃ ver ws d1 d2 d3 rest,
      span data (hs.getD 0 0) (hs.getD 1 0)
          = "HTTP".toList ++ ver ++ ws ++ d1 :: d2 :: d3 :: rest
        ∧ http_version ver ∧ ws.all c_isspace = true ∧ c_isdigit d1 = true
        ∧ c_isdigit d2 = true ∧ c_isdigit d3 = true ∧ (ver ≠ [] → ws ≠ []) := by
  unfold resp_status at h
  simp only [] at h
  rw [if_neg (by omega)] at h
  generalize hs.getD 0 0 = p at h ⊢
  generalize hs.getD 1 0 = e at h ⊢
  by_cases c1 : (e : Int) - (p : Int) < 4 ∨ (data.drop p).take 4 ≠ "HTTP".toList
  · rw [if_pos c1] at h
    exact absurd rfl h
  · rw [if_neg c1] at h
    rw [not_or, not_not] at c1
    obtain ⟨c1a, c1b⟩ := c1
    have hpe : p + 4 ≤ e := by omega
    generalize hP2 : (if p + 4 < e ∧ charAt data (p + 4) = '/' then
        scan_to data
          (if scan_to data (p + 4 + 1) e c_isdigit < e
              ∧ charAt data (scan_to data (p + 4 + 1) e c_isdigit) = '.'
            then scan_to data (p + 4 + 1) e c_isdigit + 1
            else scan_to data (p + 4 + 1) e c_isdigit)
          e c_isdigit
      else p + 4) = P2 at h
    obtain ⟨v1, v2, v3, v4⟩ := version_scan_form data (p + 4) e hpe P2 hP2
    have w1 := scan_to_ge data P2 e c_isspace
    have w2 := scan_to_le data P2 e c_isspace v2
    have w3 := span_scan_to data P2 e c_isspace
    have w4 : span data P2 (scan_to data P2 e c_isspace) = [] →
        scan_to data P2 e c_isspace = P2 := by
      intro h0
      rw [w3] at h0
      unfold scan_to
      rw [h0]
      rfl
    generalize scan_to data P2 e c_isspace = P3 at h w1 w2 w3 w4
    by_cases c2 : (e : Int) - (P3 : Int) < 3 ∨ c_isdigit (charAt data P3) = false
        ∨ c_isdigit (charAt data (P3 + 1)) = false ∨ c_isdigit (charAt data (P3 + 2)) = false
    · rw [if_pos c2] at h
      exact absurd rfl h
    · simp only [not_or, Bool.not_eq_false, not_lt] at c2
      obtain ⟨e3, x1, x2, x3⟩ := c2
      have l1 : P3 < data.length := charAt_lt data P3 (by rintro hh; rw [hh] at x1; revert x1; decide)
      have l2 : P3 + 1 < data.length :=
        charAt_lt data _ (by rintro hh; rw [hh] at x2; revert x2; decide)
      have l3 : P3 + 2 < data.length :=
        charAt_lt data _ (by rintro hh; rw [hh] at x3; revert x3; decide)
      refine ⟨span data (p + 4) P2, span data P2 P3, charAt data P3, charAt data (P3 + 1),
        charAt data (P3 + 2), span data (P3 + 3) e, ?_, v3, ?_, x1, x2, x3, ?_⟩
      · rw [span_split data p (p + 4) e (by omega) hpe,
          span_split data (p + 4) P2 e v1 v2, span_split data P2 P3 e w1 w2,
          span_cons_of_lt data P3 e (by omega) l1,
          span_cons_of_lt data (P3 + 1) e (by omega) l2,
          span_cons_of_lt data (P3 + 1 + 1) e (by omega) l3]
        have h4 : span data p (p + 4) = "HTTP".toList := by
          unfold span
          rw [Nat.add_sub_cancel_left]
          exact c1b
        rw [h4]
        simp only [List.append_assoc]
      · rw [w3]
        exact takeWhile_all _ _
      · intro hv hw
        have h23 := w4 hw
        subst h23
        have := v4 hv (by omega)
        rw [this] at x1
        exact absurd x1 (by decide)

/-- C19 (as amended): resp_status returns 200 with the message "No headers, assuming
HTTP/0.9" for a headerless response (no index, as resp_new builds for an empty
head), and the same status without a message when the caller asks for none.  For a
response with an index, when the status line has the form HTTP, an optional version
(a slash, digits, optionally a dot and digits), whitespace, three digits d1 d2 d3
and a rest, where a version that is present is followed by at least one whitespace
character, it returns 100*d1 + 10*d2 + d3 and the rest trimmed of whitespace;
whenever it does not return -1 the status line has that form; so it returns -1 when
the line does not start with HTTP. -/
theorem resp_status_spec (resp : response) :
    (resp.headers = none →
        resp_status resp true = (200, some "No headers, assuming HTTP/0.9".toList))
      ∧ (∀ head, charAt head 0 = NUL → ∃ r, resp_new head = some r ∧ r.headers = none)
      ∧ resp_status resp false = ((resp_status resp true).1, none)
      ∧ (∀ hs, resp.headers = some hs → 2 ≤ hs.length →
          (∀ ver ws d1 d2 d3 rest,
              header_line resp 0 = "HTTP".toList ++ ver ++ ws ++ d1 :: d2 :: d3 :: rest →
              http_version ver → ws.all c_isspace = true → c_isdigit d1 = true →
              c_isdigit d2 = true → c_isdigit d3 = true → (ver ≠ [] → ws ≠ []) →
              resp_status resp true
                = (100 * digit_value d1 + 10 * digit_value d2 + digit_value d3,
                    some (trim_ws rest)))
            ∧ ((resp_status resp true).1 ≠ -1 →
                ∃ ver ws d1 d2 d3 rest,
                  header_line resp 0 = "HTTP".toList ++ ver ++ ws ++ d1 :: d2 :: d3 :: rest
                    ∧ http_version ver ∧ ws.all c_isspace = true ∧ c_isdigit d1 = true
                    ∧ c_isdigit d2 = true ∧ c_isdigit d3 = true ∧ (ver ≠ [] → ws ≠ []))
            ∧ ((header_line resp 0).take 4 ≠ "HTTP".toList → (resp_status resp true).1 = -1)) := by
  obtain ⟨data, headers⟩ := resp
  refine ⟨?_, ?_, ?_, ?_⟩
  · intro h
    simp only at h
    subst h
    rfl
  · intro head h
    refine ⟨⟨head, none⟩, ?_, rfl⟩
    unfold resp_new
    rw [if_pos h]
  · unfold resp_status
    cases headers with
    | none => rfl
    | some hs =>
      simp only [Bool.false_eq_true, if_false, if_true]
      split_ifs <;> rfl
  · intro hs hh hl
    simp only at hh
    subst hh
    have hform := resp_status_form data hs hl
    refine ⟨?_, hform, ?_⟩
    · intro ver ws d1 d2 d3 rest h hv hw hd1 hd2 hd3 hvw
      exact resp_status_line data hs ver ws d1 d2 d3 rest hl h hv hw hd1 hd2 hd3 hvw
    · intro ht
      by_contra hne
      obtain ⟨ver, ws, d1, d2, d3, rest, g, _⟩ := hform hne
      apply ht
      unfold header_line
      simp only [Option.getD_some]
      rw [g]
      simp

/-- C19 (witness): the status line HTTP/1.1 200 OK gives 200 and the message OK. -/
theorem resp_status_spec_witness :
    resp_status ⟨"HTTP/1.1 200 OK".toList ++ [CR, LF, CR, LF], some [0, 17]⟩ true
      = (200, some "OK".toList) :=
  (((resp_status_spec ⟨"HTTP/1.1 200 OK".toList ++ [CR, LF, CR, LF], some [0, 17]⟩).2.2.2
      [0, 17] rfl (by decide)).1 "/1.1".toList " ".toList '2' '0' '0'
      (" OK".toList ++ [CR, LF]) (by decide)
      (Or.inr (Or.inr ⟨"1".toList, "1".toList, rfl, rfl, rfl⟩)) rfl rfl rfl rfl
      (fun _ => by decide)).trans (by decide)

/-- C19 (counterexample): the status line HTTP/1.1200 OK has the form HTTP, the
version /1.1, no whitespace, the digits 2 0 0 and a rest, and resp_status returns -1
for it: the scan of the version takes the digits 1200. -/
theorem resp_status_version_glued :
    resp_new ("HTTP/1.1200 OK".toList ++ [CR, LF, CR, LF])
        = some ⟨"HTTP/1.1200 OK".toList ++ [CR, LF, CR, LF], some [0, 16]⟩
      ∧ resp_status ⟨"HTTP/1.1200 OK".toList ++ [CR, LF, CR, LF], some [0, 16]⟩ true
        = (-1, none)
      ∧ header_line ⟨"HTTP/1.1200 OK".toList ++ [CR, LF, CR, LF], some [0, 16]⟩ 0
        = "HTTP".toList ++ "/1.1".toList ++ [] ++ '2' :: '0' :: '0' :: (" OK".toList ++ [CR, LF])
      ∧ http_version "/1.1".toList :=
  ⟨by decide, by decide, by decide, Or.inr (Or.inr ⟨"1".toList, "1".toList, rfl, rfl, rfl⟩)⟩

/-! ## Tokenizer: one call on a written parameter -/

theorem charAt_of_drop (s : List Char) (q : Nat) (t : List Char) (h : s.drop q = t) :
    charAt s q = t.headD NUL := by
  have := charAt_eq_getD_drop s q 0
  rw [Nat.add_zero, h] at this
  rw [this]
  cases t <;> rfl

theorem scan_drop (s : List Char) (q : Nat) (f : Char → Bool) (a t : List Char)
    (h : s.drop q = a ++ t) (ha : a.all f = true) (ht : f (t.headD NUL) = false) :
    scan s q f = q + a.length ∧ s.drop (q + a.length) = t := by
  constructor
  · unfold scan
    rw [h]
    cases t with
    | nil =>
      rw [List.append_nil, List.takeWhile_eq_self_iff.2 (fun x hx => List.all_eq_true.1 ha x hx)]
    | cons c t => rw [takeWhile_append_stop f a c t ha (by simpa using ht)]
  · rw [← List.drop_drop, h, List.drop_left]

theorem headD_append_ws (f : Char → Bool) (ws t : List Char) (hws : ws.all c_isspace = true)
    (hf : ∀ c, c_isspace c = true → f c = false) (ht : f (t.headD NUL) = false) :
    f ((ws ++ t).headD NUL) = false := by
  cases ws with
  | nil => simpa using ht
  | cons w ws =>
    simp only [List.all_cons, Bool.and_eq_true] at hws
    simpa using hf w hws.1

theorem span_of_drop (s : List Char) (q : Nat) (a t : List Char) (h : s.drop q = a ++ t) :
    span s q (q + a.length) = a := by
  unfold span
  rw [h, Nat.add_sub_cancel_left, List.take_left]

theorem separator_ok_iff (sep : Char) :
    separator_ok sep = true ↔ sep ≠ NUL ∧ c_isspace sep = false ∧ sep ≠ '=' ∧ sep ≠ DQUOTE := by
  unfold separator_ok
  simp only [Bool.and_eq_true, decide_eq_true_eq, Bool.not_eq_true', and_assoc]

theorem name_head (sep : Char) (name : List Char) (hne : name ≠ [])
    (hn : name.all (fun c => decide (c ≠ NUL) && !c_isspace c && decide (c ≠ '=')
        && decide (c ≠ sep)) = true) :
    name.headD NUL ≠ NUL ∧ c_isspace (name.headD NUL) = false := by
  obtain ⟨c, t, rfl⟩ := List.exists_cons_of_ne_nil hne
  simp only [List.all_cons, Bool.and_eq_true, decide_eq_true_eq, Bool.not_eq_true'] at hn
  exact ⟨hn.1.1.1.1, hn.1.1.1.2⟩

theorem tail_head (sep : Char) (tail : List Char) (htail : tail = [] ∨ tail.head? = some sep) :
    tail.headD NUL = NUL ∨ tail.headD NUL = sep := by
  rcases htail with rfl | h
  · left; rfl
  · right
    cases tail with
    | nil => simp at h
    | cons c t => simpa using h

theorem c_isspace_NUL : c_isspace NUL = false := by decide

/-- One call on a written parameter without a value. -/
theorem extract_param_no_value (s : List Char) (sep : Char) (src : Nat) (ws0 name ws1 tail : List Char)
    (hsep : separator_ok sep = true) (hws0 : ws0.all c_isspace = true)
    (hws1 : ws1.all c_isspace = true) (hne : name ≠ [])
    (hn : name.all (fun c => decide (c ≠ NUL) && !c_isspace c && decide (c ≠ '=')
        && decide (c ≠ sep)) = true)
    (hdrop : s.drop src = ws0 ++ (name ++ (ws1 ++ tail)))
    (htail : tail = [] ∨ tail.head? = some sep) :
    extract_param s src sep
      = { ok := true,
          source := src + ws0.length + name.length + ws1.length + (if tail = [] then 0 else 1),
          name := ⟨src + ws0.length, src + ws0.length + name.length⟩, value := none,
          is_url_encoded := false } := by
  obtain ⟨s1, s2, s3, s4⟩ := (separator_ok_iff sep).1 hsep
  obtain ⟨n1, n2⟩ := name_head sep name hne hn
  have hth := tail_head sep tail htail
  have hts : c_isspace (tail.headD NUL) = false := by
    rcases hth with h | h <;> rw [h]
    · exact c_isspace_NUL
    · exact s2
  -- white space in front of the name
  have a0 := scan_drop s src c_isspace ws0 _ hdrop hws0
    (by
      cases name with
      | nil => exact absurd rfl hne
      | cons c t => simpa using n2)
  have c0 := charAt_of_drop s _ _ a0.2
  have c0' : charAt s (src + ws0.length) ≠ NUL := by
    rw [c0]
    cases name with
    | nil => exact absurd rfl hne
    | cons c t => simpa using n1
  -- the name
  have a1 := scan_drop s (src + ws0.length)
    (fun c => decide (c ≠ NUL) && !c_isspace c && decide (c ≠ '=') && decide (c ≠ sep))
    name _ a0.2 hn
    (headD_append_ws (fun c => decide (c ≠ NUL) && !c_isspace c && decide (c ≠ '=')
        && decide (c ≠ sep)) ws1 tail hws1 (fun c hc => by simp [hc])
      (by rcases hth with h | h <;> rw [h] <;> simp))
  -- white space behind the name
  have a2 := scan_drop s (src + ws0.length + name.length) c_isspace ws1 tail a1.2 hws1 hts
  have c2 := charAt_of_drop s _ _ a2.2
  unfold extract_param
  simp only []
  rw [a0.1, if_neg c0', a1.1]
  have hlen : 0 < name.length := List.length_pos.2 hne
  rw [if_neg (by omega), a2.1, c2]
  have s1' : ¬ NUL = sep := fun h => s1 h.symm
  rcases htail with rfl | h
  · simp [s1']
  · have hne2 : tail ≠ [] := by rintro rfl; simp at h
    simp [h, hne2]

/-- One call on a written parameter with a quoted value. -/
theorem extract_param_quoted (s : List Char) (sep : Char) (src : Nat)
    (ws0 name ws1 ws2 text ws3 tail : List Char)
    (hsep : separator_ok sep = true) (hws0 : ws0.all c_isspace = true)
    (hws1 : ws1.all c_isspace = true) (hws2 : ws2.all c_isspace = true)
    (hws3 : ws3.all c_isspace = true) (hne : name ≠ [])
    (hn : name.all (fun c => decide (c ≠ NUL) && !c_isspace c && decide (c ≠ '=')
        && decide (c ≠ sep)) = true)
    (htext : text.all (fun c => decide (c ≠ NUL) && decide (c ≠ DQUOTE)) = true)
    (hdrop : s.drop src = ws0 ++ (name ++ (ws1 ++ ('=' :: (ws2 ++ (DQUOTE :: (text
      ++ (DQUOTE :: (ws3 ++ tail)))))))))
    (htail : tail = [] ∨ tail.head? = some sep) :
    extract_param s src sep
      = extract_param_finish s
          (src + ws0.length + name.length + ws1.length + 1 + ws2.length + 1 + text.length + 1
            + ws3.length + (if tail = [] then 0 else 1))
          ⟨src + ws0.length, src + ws0.length + name.length⟩
          ⟨src + ws0.length + name.length + ws1.length + 1 + ws2.length + 1,
            src + ws0.length + name.length + ws1.length + 1 + ws2.length + 1 + text.length⟩ := by
  obtain ⟨s1, s2, s3, s4⟩ := (separator_ok_iff sep).1 hsep
  obtain ⟨n1, n2⟩ := name_head sep name hne hn
  have hth := tail_head sep tail htail
  have hts : c_isspace (tail.headD NUL) = false := by
    rcases hth with h | h <;> rw [h]
    · exact c_isspace_NUL
    · exact s2
  have a0 := scan_drop s src c_isspace ws0 _ hdrop hws0
    (by
      cases name with
      | nil => exact absurd rfl hne
      | cons c t => simpa using n2)
  have c0 := charAt_of_drop s _ _ a0.2
  have c0' : charAt s (src + ws0.length) ≠ NUL := by
    rw [c0]
    cases name with
    | nil => exact absurd rfl hne
    | cons c t => simpa using n1
  have a1 := scan_drop s (src + ws0.length)
    (fun c => decide (c ≠ NUL) && !c_isspace c && decide (c ≠ '=') && decide (c ≠ sep))
    name _ a0.2 hn
    (headD_append_ws (fun c => decide (c ≠ NUL) && !c_isspace c && decide (c ≠ '=')
        && decide (c ≠ sep)) ws1 _ hws1 (fun c hc => by simp [hc]) (by simp))
  have a2 := scan_drop s (src + ws0.length + name.length) c_isspace ws1 _ a1.2 hws1
    (by simp only [List.headD_cons]; decide)
  have c2 := charAt_of_drop s _ _ a2.2
  simp only [List.headD_cons] at c2
  have d3 : s.drop (src + ws0.length + name.length + ws1.length + 1)
      = ws2 ++ (DQUOTE :: (text ++ (DQUOTE :: (ws3 ++ tail)))) := by
    rw [← List.drop_drop, a2.2]
    rfl
  have a3 := scan_drop s _ c_isspace ws2 _ d3 hws2
    (by simp only [List.headD_cons]; decide)
  have c3 := charAt_of_drop s _ _ a3.2
  simp only [List.headD_cons] at c3
  have d4 : s.drop (src + ws0.length + name.length + ws1.length + 1 + ws2.length + 1)
      = text ++ (DQUOTE :: (ws3 ++ tail)) := by
    rw [← List.drop_drop, a3.2]
    rfl
  have a4 := scan_drop s _ (fun c => decide (c ≠ NUL) && decide (c ≠ DQUOTE)) text _ d4
    htext (by simp)
  have c4 := charAt_of_drop s _ _ a4.2
  simp only [List.headD_cons] at c4
  have d5 : s.drop (src + ws0.length + name.length + ws1.length + 1 + ws2.length + 1
      + text.length + 1) = ws3 ++ tail := by
    rw [← List.drop_drop, a4.2]
    rfl
  have a5 := scan_drop s _ c_isspace ws3 _ d5 hws3 hts
  have a6 := scan_drop s (src + ws0.length + name.length + ws1.length + 1 + ws2.length + 1
      + text.length + 1 + ws3.length) (fun c => decide (c ≠ NUL) && decide (c ≠ sep)) [] tail
    (by simpa using a5.2) rfl (by rcases hth with h | h <;> rw [h] <;> simp)
  have c6 := charAt_of_drop s _ _ a5.2
  simp only [List.length_nil, Nat.add_zero] at a6
  have hlen : 0 < name.length := List.length_pos.2 hne
  have s1' : ¬ NUL = sep := fun h => s1 h.symm
  have q1 : ¬ ('=' = sep) := fun h => s3 h.symm
  have q2 : ¬ ('=' = NUL) := by decide
  have q3 : ¬ (DQUOTE = NUL) := by decide
  unfold extract_param
  simp only []
  rw [a0.1, if_neg c0', a1.1, if_neg (by omega), a2.1, c2]
  rw [if_neg (by simp [q1, q2]), if_neg (by simp), a3.1, c3, if_pos rfl, a4.1, c4,
    if_neg q3, a5.1, a6.1, c6]
  rcases htail with rfl | h
  · simp [s1']
  · have hne2 : tail ≠ [] := by rintro rfl; simp at h
    simp [h, hne2]

theorem dropWhile_prefix_all (f : Char → Bool) (a t : List Char) (ha : a.all f = true)
    (ht : f (t.headD NUL) = false) (hne : t ≠ []) : (a ++ t).dropWhile f = t := by
  obtain ⟨c, t1, rfl⟩ := List.exists_cons_of_ne_nil hne
  induction a with
  | nil =>
    have ht' : f c = false := by simpa using ht
    rw [List.nil_append, List.dropWhile_cons_of_neg (by simp [ht'])]
  | cons x xs ih =>
    simp only [List.all_cons, Bool.and_eq_true] at ha
    rw [List.cons_append, List.dropWhile_cons_of_pos ha.1, ih ha.2]

theorem c_isspace_ne_sep (w sep : Char) (hw : c_isspace w = true) (hs : c_isspace sep = false) :
    w ≠ NUL ∧ w ≠ sep := by
  constructor
  · rintro rfl; revert hw; decide
  · rintro rfl; rw [hs] at hw; exact absurd hw (by decide)

/-- One call on a written parameter with a bare value. -/
theorem extract_param_bare (s : List Char) (sep : Char) (src : Nat)
    (ws0 name ws1 ws2 text ws3 tail : List Char)
    (hsep : separator_ok sep = true) (hws0 : ws0.all c_isspace = true)
    (hws1 : ws1.all c_isspace = true) (hws2 : ws2.all c_isspace = true)
    (hws3 : ws3.all c_isspace = true) (hne : name ≠ [])
    (hn : name.all (fun c => decide (c ≠ NUL) && !c_isspace c && decide (c ≠ '=')
        && decide (c ≠ sep)) = true)
    (htne : text ≠ [])
    (htext : text.all (fun c => decide (c ≠ NUL) && decide (c ≠ sep)) = true)
    (hth1 : c_isspace (text.headD NUL) = false) (hth2 : text.headD NUL ≠ DQUOTE)
    (htl : c_isspace (text.reverse.headD NUL) = false)
    (hdrop : s.drop src = ws0 ++ (name ++ (ws1 ++ ('=' :: (ws2 ++ (text ++ (ws3 ++ tail)))))))
    (htail : tail = [] ∨ tail.head? = some sep) :
    extract_param s src sep
      = extract_param_finish s
          (src + ws0.length + name.length + ws1.length + 1 + ws2.length + text.length
            + ws3.length + (if tail = [] then 0 else 1))
          ⟨src + ws0.length, src + ws0.length + name.length⟩
          ⟨src + ws0.length + name.length + ws1.length + 1 + ws2.length,
            src + ws0.length + name.length + ws1.length + 1 + ws2.length + text.length⟩ := by
  obtain ⟨s1, s2, s3, s4⟩ := (separator_ok_iff sep).1 hsep
  obtain ⟨n1, n2⟩ := name_head sep name hne hn
  have hth := tail_head sep tail htail
  have a0 := scan_drop s src c_isspace ws0 _ hdrop hws0
    (by
      cases name with
      | nil => exact absurd rfl hne
      | cons c t => simpa using n2)
  have c0 := charAt_of_drop s _ _ a0.2
  have c0' : charAt s (src + ws0.length) ≠ NUL := by
    rw [c0]
    cases name with
    | nil => exact absurd rfl hne
    | cons c t => simpa using n1
  have a1 := scan_drop s (src + ws0.length)
    (fun c => decide (c ≠ NUL) && !c_isspace c && decide (c ≠ '=') && decide (c ≠ sep))
    name _ a0.2 hn
    (headD_append_ws (fun c => decide (c ≠ NUL) && !c_isspace c && decide (c ≠ '=')
        && decide (c ≠ sep)) ws1 _ hws1 (fun c hc => by simp [hc]) (by simp))
  have a2 := scan_drop s (src + ws0.length + name.length) c_isspace ws1 _ a1.2 hws1
    (by simp only [List.headD_cons]; decide)
  have c2 := charAt_of_drop s _ _ a2.2
  simp only [List.headD_cons] at c2
  have d3 : s.drop (src + ws0.length + name.length + ws1.length + 1)
      = ws2 ++ (text ++ (ws3 ++ tail)) := by
    rw [← List.drop_drop, a2.2]
    rfl
  obtain ⟨t0, t1, rfl⟩ := List.exists_cons_of_ne_nil htne
  simp only [List.headD_cons] at hth1 hth2
  have a3 := scan_drop s _ c_isspace ws2 _ d3 hws2 (by simpa using hth1)
  have c3 := charAt_of_drop s _ _ a3.2
  simp only [List.cons_append, List.headD_cons] at c3
  have d4 : s.drop (src + ws0.length + name.length + ws1.length + 1 + ws2.length)
      = ((t0 :: t1) ++ ws3) ++ tail := by
    rw [a3.2, List.append_assoc]
  have hall : ((t0 :: t1) ++ ws3).all (fun c => decide (c ≠ NUL) && decide (c ≠ sep)) = true := by
    rw [List.all_append, htext, Bool.true_and, List.all_eq_true]
    intro w hw
    have := c_isspace_ne_sep w sep (List.all_eq_true.1 hws3 w hw) s2
    simp [this.1, this.2]
  have a4 := scan_drop s _ (fun c => decide (c ≠ NUL) && decide (c ≠ sep)) _ tail d4 hall
    (by rcases hth with h | h <;> rw [h] <;> simp)
  have c4 := charAt_of_drop s _ _ a4.2
  have hspan := span_of_drop s _ _ _ d4
  have htrim : (((t0 :: t1) ++ ws3).reverse.dropWhile c_isspace).length = (t0 :: t1).length := by
    rw [List.reverse_append, dropWhile_prefix_all c_isspace ws3.reverse (t0 :: t1).reverse
      (by simpa using hws3) htl (by simp), List.length_reverse]
  have hlen : 0 < name.length := List.length_pos.2 hne
  have s1' : ¬ NUL = sep := fun h => s1 h.symm
  have q1 : ¬ ('=' = sep) := fun h => s3 h.symm
  have q2 : ¬ ('=' = NUL) := by decide
  unfold extract_param
  simp only []
  rw [a0.1, if_neg c0', a1.1, if_neg (by omega), a2.1, c2]
  rw [if_neg (by simp [q1, q2]), if_neg (by simp), a3.1, c3, if_neg hth2, a4.1, c4, hspan, htrim]
  have e1 : src + ws0.length + name.length + ws1.length + 1 + ws2.length
      + (t0 :: t1 ++ ws3).length
      = src + ws0.length + name.length + ws1.length + 1 + ws2.length + (t0 :: t1).length
        + ws3.length := by
    rw [List.length_append]; omega
  rw [e1]
  rcases htail with rfl | h
  · simp [s1']
  · have hne2 : tail ≠ [] := by rintro rfl; simp at h
    simp [h, hne2]

theorem spec_param_wf_name (sep : Char) (p : spec_param) (h : p.wf sep = true) :
    p.ws0.all c_isspace = true ∧ p.ws1.all c_isspace = true ∧ p.name ≠ []
      ∧ p.name.all (fun c => decide (c ≠ NUL) && !c_isspace c && decide (c ≠ '=')
        && decide (c ≠ sep)) = true := by
  unfold spec_param.wf at h
  simp only [Bool.and_eq_true, decide_eq_true_eq] at h
  exact ⟨h.1.1.1.1, h.1.1.1.2, h.1.1.2, h.1.2⟩

theorem spec_param_wf_value (sep : Char) (p : spec_param) (v : spec_value)
    (h : p.wf sep = true) (hv : p.value = some v) : v.wf sep = true := by
  unfold spec_param.wf at h
  rw [hv] at h
  simp only [Bool.and_eq_true] at h
  exact h.2

/-- One call on a written parameter without a value: the call returns true, leaves the
cursor behind the separator or at the end, and delivers the name. -/
theorem extract_param_written_none (s : List Char) (sep : Char) (src : Nat) (p : spec_param)
    (tail : List Char) (hsep : separator_ok sep = true) (hwf : p.wf sep = true)
    (hv : p.value = none) (hdrop : s.drop src = p.bytes ++ tail)
    (htail : tail = [] ∨ tail.head? = some sep) :
    ∃ nb, extract_param s src sep
        = { ok := true, source := src + p.bytes.length + (if tail = [] then 0 else 1),
            name := ⟨nb, nb + p.name.length⟩, value := none, is_url_encoded := false }
      ∧ span s nb (nb + p.name.length) = p.name := by
  obtain ⟨h0, h1, hne, hn⟩ := spec_param_wf_name sep p hwf
  have hb : p.bytes = p.ws0 ++ (p.name ++ (p.ws1 ++ [])) := by
    unfold spec_param.bytes
    rw [hv]
  have hd : s.drop src = p.ws0 ++ (p.name ++ (p.ws1 ++ tail)) := by
    rw [hdrop, hb]
    simp only [List.append_assoc, List.append_nil]
  refine ⟨src + p.ws0.length, ?_, ?_⟩
  · rw [extract_param_no_value s sep src p.ws0 p.name p.ws1 tail hsep h0 h1 hne hn hd htail, hb]
    simp only [List.length_append, List.length_nil]
    congr 1
    omega
  · have : s.drop (src + p.ws0.length) = p.name ++ (p.ws1 ++ tail) := by
      rw [← List.drop_drop, hd, List.drop_left]
    exact span_of_drop s _ _ _ this

/-- One call on a written parameter with a value: the call goes through to the
adjustment for RFC 2231 with the cursor behind the separator or at the end, the span
of the name and the span of the text of the value. -/
theorem extract_param_written_value (s : List Char) (sep : Char) (src : Nat) (p : spec_param)
    (v : spec_value) (tail : List Char) (hsep : separator_ok sep = true)
    (hwf : p.wf sep = true) (hv : p.value = some v) (hdrop : s.drop src = p.bytes ++ tail)
    (htail : tail = [] ∨ tail.head? = some sep) :
    ∃ nb vb, extract_param s src sep
        = extract_param_finish s (src + p.bytes.length + (if tail = [] then 0 else 1))
            ⟨nb, nb + p.name.length⟩ ⟨vb, vb + v.text.length⟩
      ∧ span s nb (nb + p.name.length) = p.name
      ∧ span s vb (vb + v.text.length) = v.text := by
  obtain ⟨h0, h1, hne, hn⟩ := spec_param_wf_name sep p hwf
  have hvw := spec_param_wf_value sep p v hwf hv
  unfold spec_value.wf at hvw
  simp only [Bool.and_eq_true] at hvw
  obtain ⟨⟨h2, h3⟩, hq⟩ := hvw
  have hname : s.drop (src + p.ws0.length) = p.name ++ (p.ws1 ++ (v.bytes ++ tail)) := by
    rw [← List.drop_drop, hdrop]
    unfold spec_param.bytes
    rw [hv]
    simp only [List.append_assoc, List.drop_left]
  cases hquoted : v.quoted with
  | true =>
    rw [hquoted] at hq
    simp only [if_true] at hq
    have hb : p.bytes = p.ws0 ++ (p.name ++ (p.ws1 ++ ('=' :: (v.ws2 ++ (DQUOTE :: (v.text
        ++ (DQUOTE :: (v.ws3 ++ []))))))))  := by
      unfold spec_param.bytes spec_value.bytes
      rw [hv]
      simp only [hquoted, if_true, List.append_assoc, List.cons_append, List.nil_append,
        List.append_nil]
    have hd : s.drop src = p.ws0 ++ (p.name ++ (p.ws1 ++ ('=' :: (v.ws2 ++ (DQUOTE :: (v.text
        ++ (DQUOTE :: (v.ws3 ++ tail)))))))) := by
      rw [hdrop, hb]
      simp only [List.append_assoc, List.cons_append, List.nil_append, List.append_nil]
    refine ⟨src + p.ws0.length,
      src + p.ws0.length + p.name.length + p.ws1.length + 1 + v.ws2.length + 1, ?_, ?_, ?_⟩
    · rw [extract_param_quoted s sep src p.ws0 p.name p.ws1 v.ws2 v.text v.ws3 tail hsep h0 h1
        h2 h3 hne hn hq hd htail, hb]
      simp only [List.length_append, List.length_cons, List.length_nil]
      congr 1
      omega
    · exact span_of_drop s _ _ _ hname
    · have : s.drop (src + p.ws0.length + p.name.length + p.ws1.length + 1 + v.ws2.length + 1)
          = v.text ++ (DQUOTE :: (v.ws3 ++ tail)) := by
        have e : src + p.ws0.length + p.name.length + p.ws1.length + 1 + v.ws2.length + 1
            = src + (p.ws0.length + p.name.length + p.ws1.length + 1 + v.ws2.length + 1) := by
          omega
        rw [e, ← List.drop_drop, hd]
        simp only [← List.drop_drop, List.drop_left, List.drop_succ_cons, List.drop_zero]
      exact span_of_drop s _ _ _ this
  | false =>
    rw [hquoted] at hq
    simp only [Bool.false_eq_true, if_false, Bool.and_eq_true, decide_eq_true_eq,
      Bool.not_eq_true'] at hq
    obtain ⟨⟨⟨⟨ht0, ht1⟩, ht2⟩, ht3⟩, ht4⟩ := hq
    have hb : p.bytes = p.ws0 ++ (p.name ++ (p.ws1 ++ ('=' :: (v.ws2 ++ (v.text
        ++ (v.ws3 ++ []))))))  := by
      unfold spec_param.bytes spec_value.bytes
      rw [hv]
      simp only [hquoted, Bool.false_eq_true, if_false, List.append_assoc, List.cons_append,
        List.nil_append, List.append_nil]
    have hd : s.drop src = p.ws0 ++ (p.name ++ (p.ws1 ++ ('=' :: (v.ws2 ++ (v.text
        ++ (v.ws3 ++ tail)))))) := by
      rw [hdrop, hb]
      simp only [List.append_assoc, List.cons_append, List.nil_append, List.append_nil]
    refine ⟨src + p.ws0.length,
      src + p.ws0.length + p.name.length + p.ws1.length + 1 + v.ws2.length, ?_, ?_, ?_⟩
    · rw [extract_param_bare s sep src p.ws0 p.name p.ws1 v.ws2 v.text v.ws3 tail hsep h0 h1
        h2 h3 hne hn ht0 ht1 ht2 ht3 ht4 hd htail, hb]
      simp only [List.length_append, List.length_cons, List.length_nil]
      congr 1
      omega
    · exact span_of_drop s _ _ _ hname
    · have : s.drop (src + p.ws0.length + p.name.length + p.ws1.length + 1 + v.ws2.length)
          = v.text ++ (v.ws3 ++ tail) := by
        have e : src + p.ws0.length + p.name.length + p.ws1.length + 1 + v.ws2.length
            = src + (p.ws0.length + p.name.length + p.ws1.length + 1 + v.ws2.length) := by
          omega
        rw [e, ← List.drop_drop, hd]
        simp only [← List.drop_drop, List.drop_left, List.drop_succ_cons, List.drop_zero]
      exact span_of_drop s _ _ _ this

theorem findIdx?_none_of_all (f : Char → Bool) (l : List Char) (h : ∀ c ∈ l, f c = false) :
    l.findIdx? f = none := by
  rw [List.findIdx?_eq_none_iff]
  exact h

theorem extract_param_finish_plain (s : List Char) (p : Nat) (n v : param_token)
    (h : ∀ c ∈ span s n.b n.e, c ≠ '*') :
    extract_param_finish s p n v
      = { ok := true, source := p, name := n, value := some v, is_url_encoded := false } := by
  have h1 : (span s n.b n.e).findIdx? (fun c => decide (c = '*')) = none :=
    findIdx?_none_of_all _ _ (fun c hc => by simpa using h c hc)
  have h2 : modify_param_name s n = (NOT_RFC2231, n) := by
    unfold modify_param_name
    simp only []
    rw [h1]
  unfold extract_param_finish
  simp only []
  rw [h2]
  simp

/-- Successive calls on written parameters whose names have no asterisk. -/
theorem extract_params_loop_written (s : List Char) (sep : Char)
    (hsep : separator_ok sep = true) (ps : List spec_param)
    (hwf : ∀ p ∈ ps, p.wf sep = true ∧ ∀ c ∈ p.name, c ≠ '*') (src fuel : Nat)
    (hdrop : s.drop src = spec_header sep ps) (hsrc : src ≤ s.length)
    (hfuel : ps.length < fuel) :
    extract_params_loop s sep fuel src = some (spec_results src ps, s.length) := by
  induction ps generalizing src fuel with
  | nil =>
    obtain ⟨n, rfl⟩ : ∃ n, fuel = n + 1 := ⟨fuel - 1, by simp at hfuel; omega⟩
    have hlen : s.length = src := by
      have := congrArg List.length hdrop
      simp only [spec_header, List.length_drop, List.length_nil] at this
      omega
    have a0 := scan_drop s src c_isspace [] [] (by simpa [spec_header] using hdrop) rfl
      (by decide)
    have c0 := charAt_of_drop s src [] (by simpa [spec_header] using hdrop)
    simp only [List.length_nil, Nat.add_zero] at a0
    have hr : extract_param s src sep
        = { ok := false, source := src, name := ⟨0, 0⟩, value := none,
            is_url_encoded := false } := by
      unfold extract_param
      simp only []
      rw [a0.1, c0, if_pos (by rfl)]
    unfold extract_params_loop
    simp only []
    rw [hr]
    simp [spec_results, hlen]
  | cons p rest ih =>
    obtain ⟨n, rfl⟩ : ∃ n, fuel = n + 1 := ⟨fuel - 1, by simp at hfuel; omega⟩
    obtain ⟨hpwf, hpstar⟩ := hwf p (List.mem_cons_self _ _)
    have hrest : ∀ q ∈ rest, q.wf sep = true ∧ ∀ c ∈ q.name, c ≠ '*' :=
      fun q hq => hwf q (List.mem_cons_of_mem _ hq)
    -- the text behind the parameter
    obtain ⟨tail, htl, hhdr, hnext⟩ : ∃ tail, (tail = [] ∨ tail.head? = some sep)
        ∧ spec_header sep (p :: rest) = p.bytes ++ tail
        ∧ tail.drop (if tail = [] then 0 else 1) = spec_header sep rest := by
      cases rest with
      | nil => exact ⟨[], Or.inl rfl, by simp [spec_header], by simp [spec_header]⟩
      | cons q r =>
        exact ⟨sep :: spec_header sep (q :: r), Or.inr rfl, by simp [spec_header], by simp⟩
    have hd : s.drop src = p.bytes ++ tail := by rw [hdrop, hhdr]
    have hcur : s.drop (src + p.bytes.length + (if tail = [] then 0 else 1))
        = spec_header sep rest := by
      rw [Nat.add_assoc, ← List.drop_drop, hd, ← List.drop_drop, List.drop_left, hnext]
    have hle : src + p.bytes.length + (if tail = [] then 0 else 1) ≤ s.length := by
      have := congrArg List.length hd
      rw [List.length_drop, List.length_append] at this
      split_ifs with ht
      · omega
      · have : 0 < tail.length := List.length_pos.2 ht
        omega
    have hres : spec_results src (p :: rest)
        = (p.name, p.value.map (fun v => v.text), false,
            src + p.bytes.length + (if tail = [] then 0 else 1))
          :: spec_results (src + p.bytes.length + (if tail = [] then 0 else 1)) rest := by
      cases rest with
      | nil =>
        have : tail = [] := by
          have := congrArg List.length hhdr
          simp only [spec_header, List.length_append] at this
          exact List.length_eq_zero.1 (by omega)
        simp [spec_results, this]
      | cons q r =>
        have : tail ≠ [] := by
          rintro rfl
          have := congrArg List.length hhdr
          simp [spec_header] at this
        simp [spec_results, this]
    have hih := ih hrest (src + p.bytes.length + (if tail = [] then 0 else 1)) n hcur hle
      (by simp at hfuel; omega)
    unfold extract_params_loop
    simp only []
    cases hv : p.value with
    | none =>
      obtain ⟨nb, hr, hn⟩ := extract_param_written_none s sep src p tail hsep hpwf hv hd htl
      rw [hr]
      simp only [if_true, Option.map_none']
      rw [hih, hres, hn, hv]
      rfl
    | some v =>
      obtain ⟨nb, vb, hr, hn, hvs⟩ :=
        extract_param_written_value s sep src p v tail hsep hpwf hv hd htl
      rw [hr, extract_param_finish_plain s _ _ _ (by
        simp only []
        rw [hn]
        exact hpstar)]
      simp only [if_true, Option.map_some']
      rw [hih, hres, hn, hvs, hv]
      rfl

/-- C23: for a header value made of well-formed written parameters (name, or name =
value with a bare or double-quoted value, names without an asterisk) separated by a
separator that is not NUL, white space, the equals sign or the double quote, with
optional white space around the equals sign and around the separators, successive
extract_param calls from the start return true once per parameter, in order, with
the name, with the text of the value (the bare text without the white space behind
it, or the text between the quotes) or a zeroed value when there is none, with
is_url_encoded false, and with the cursor just behind the separator that follows the
parameter or at the end; the next call returns false with the cursor at the end of
the string. -/
theorem extract_param_written_parameters (separator : Char) (ps : List spec_param)
    (fuel : Nat) (hsep : separator_ok separator = true)
    (hwf : ∀ p ∈ ps, p.wf separator = true ∧ ∀ c ∈ p.name, c ≠ '*')
    (hfuel : ps.length < fuel) :
    extract_params_loop (spec_header separator ps) separator fuel 0
      = some (spec_results 0 ps, (spec_header separator ps).length) :=
  extract_params_loop_written (spec_header separator ps) separator hsep ps hwf 0 fuel rfl
    (Nat.zero_le _) hfuel

/-- C23 (witness): the header value attachment; filename="foo bar" yields attachment
without a value, then filename with the value foo bar, then false. -/
theorem extract_param_written_parameters_witness :
    extract_params_loop
        ("attachment; filename=".toList ++ [DQUOTE] ++ "foo bar".toList ++ [DQUOTE]) ';' 3 0
      = some ([("attachment".toList, none, false, 11),
          ("filename".toList, some "foo bar".toList, false, 30)], 30) :=
  extract_param_written_parameters ';'
    [⟨[], "attachment".toList, [], none⟩,
      ⟨[' '], "filename".toList, [], some ⟨[], true, "foo bar".toList, []⟩⟩] 3
    (by decide) (by decide) (by decide)

/-! ## Tokenizer: names with an asterisk (RFC 2231) -/

theorem findIdx?_first_match (f : Char → Bool) (a : List Char) (c : Char) (t : List Char)
    (ha : ∀ x ∈ a, f x = false) (hc : f c = true) :
    (a ++ c :: t).findIdx? f = some a.length := by
  rw [List.findIdx?_eq_some_iff_findIdx_eq]
  have h := List.findIdx_append f a (c :: t)
  have h1 : a.findIdx f = a.length := List.findIdx_eq_length_of_false ha
  rw [h1, if_neg (by omega), List.findIdx_cons, hc] at h
  simp only [cond_true, Nat.zero_add] at h
  rw [h]
  simp

theorem lastIdx_last_match (f : Char → Bool) (a : List Char) (c : Char) (t : List Char)
    (ht : ∀ x ∈ t, f x = false) (hc : f c = true) :
    lastIdx f (a ++ c :: t) = some a.length := by
  unfold lastIdx
  have hr : (a ++ c :: t).reverse = t.reverse ++ c :: a.reverse := by simp
  rw [hr, findIdx?_first_match f t.reverse c a.reverse (fun x hx => ht x (by simpa using hx)) hc]
  simp only [List.length_append, List.length_cons, List.length_reverse]
  congr 1
  omega

theorem lastIdx_none (f : Char → Bool) (l : List Char) (h : ∀ x ∈ l, f x = false) :
    lastIdx f l = none := by
  unfold lastIdx
  rw [findIdx?_none_of_all f l.reverse (fun x hx => h x (by simpa using hx))]

/-- The name of the form base*: the value is encoded. -/
theorem modify_param_name_star (s : List Char) (n : param_token) (base : List Char)
    (hb : ∀ c ∈ base, c ≠ '*') (hs : span s n.b n.e = base ++ ['*'])
    (he : n.e = n.b + (base.length + 1)) :
    modify_param_name s n = (RFC2231_ENCODING, ⟨n.b, n.b + base.length⟩) := by
  unfold modify_param_name
  simp only []
  rw [hs, findIdx?_first_match _ base '*' [] (fun x hx => by simpa using hb x hx) (by simp),
    lastIdx_last_match _ base '*' [] (fun x hx => by simp at hx) (by simp)]
  simp only [if_true]
  rw [if_pos (by omega)]

/-- The name of the form base*N: a segment that is not encoded. -/
theorem modify_param_name_segment (s : List Char) (n : param_token) (base seg : List Char)
    (hb : ∀ c ∈ base, c ≠ '*') (hseg : ∀ c ∈ seg, c ≠ '*') (hne : seg ≠ [])
    (hs : span s n.b n.e = base ++ '*' :: seg)
    (he : n.e = n.b + (base.length + 1 + seg.length)) :
    modify_param_name s n = (RFC2231_NOENCODING, ⟨n.b, n.b + base.length⟩) := by
  have hl : 0 < seg.length := List.length_pos.2 hne
  unfold modify_param_name
  simp only []
  rw [hs, findIdx?_first_match _ base '*' seg (fun x hx => by simpa using hb x hx) (by simp),
    lastIdx_last_match _ base '*' seg (fun x hx => by simpa using hseg x hx) (by simp)]
  simp only [if_true]
  rw [if_neg (by omega)]

/-- The name of the form base*N*: a segment that is encoded. -/
theorem modify_param_name_segment_star (s : List Char) (n : param_token)
    (base seg : List Char) (hb : ∀ c ∈ base, c ≠ '*')
    (hs : span s n.b n.e = base ++ '*' :: (seg ++ ['*'])) :
    modify_param_name s n = (RFC2231_ENCODING, ⟨n.b, n.b + base.length⟩) := by
  unfold modify_param_name
  simp only []
  have h2 : base ++ '*' :: (seg ++ ['*']) = (base ++ '*' :: seg) ++ '*' :: [] := by simp
  rw [hs, findIdx?_first_match _ base '*' (seg ++ ['*']) (fun x hx => by simpa using hb x hx)
    (by simp)]
  rw [h2, lastIdx_last_match _ (base ++ '*' :: seg) '*' [] (fun x hx => by simp at hx) (by simp)]
  simp only []
  rw [if_neg (by simp)]

/-- The value of an encoded parameter: what follows the last apostrophe. -/
theorem modify_param_value_encoded (s : List Char) (v : param_token) (cs data : List Char)
    (hd : ∀ c ∈ data, c ≠ SQUOTE) (hs : span s v.b v.e = cs ++ SQUOTE :: data) :
    span s (modify_param_value s v RFC2231_ENCODING).b (modify_param_value s v RFC2231_ENCODING).e
      = data := by
  unfold modify_param_value
  rw [if_pos rfl, hs, lastIdx_last_match _ cs SQUOTE data (fun x hx => by simpa using hd x hx)
    (by simp)]
  simp only []
  have h1 : span s (v.b + (cs.length + 1)) v.e = (span s v.b v.e).drop (cs.length + 1) :=
    span_add s v.b v.e (cs.length + 1)
  rw [Nat.add_assoc, h1, hs]
  have : cs ++ SQUOTE :: data = (cs ++ [SQUOTE]) ++ data := by simp
  rw [this]
  have hl : (cs ++ [SQUOTE]).length = cs.length + 1 := by simp
  rw [← hl, List.drop_left]

theorem modify_param_value_plain (s : List Char) (v : param_token)
    (h : ∀ c ∈ span s v.b v.e, c ≠ SQUOTE) :
    modify_param_value s v RFC2231_ENCODING = v := by
  unfold modify_param_value
  rw [if_pos rfl, lastIdx_none _ _ (fun x hx => by simpa using h x hx)]

theorem span_prefix (s : List Char) (b k e : Nat) (h : b + k ≤ e) :
    span s b (b + k) = (span s b e).take k := by
  unfold span
  rw [List.take_take, Nat.add_sub_cancel_left, Nat.min_eq_left (by omega)]

/-- One extract_param call on a well-formed written parameter with a value.  For a
name without an asterisk the name and the value are delivered as written and
is_url_encoded is false.  For the forms base* and base*N* the name is cut in front of
the first asterisk, is_url_encoded is true and the value is delivered from behind its
last apostrophe on (as written when it has no apostrophe).  For the form base*N the
name is cut in front of the asterisk, is_url_encoded is false and the value is
delivered as written. -/
theorem extract_param_rfc2231_cut (s : List Char) (separator : Char) (src : Nat) (p : spec_param)
    (v : spec_value) (tail base : List Char) (hsep : separator_ok separator = true)
    (hwf : p.wf separator = true) (hv : p.value = some v)
    (hdrop : s.drop src = p.bytes ++ tail)
    (htail : tail = [] ∨ tail.head? = some separator) (hbase : ∀ c ∈ base, c ≠ '*') :
    (extract_param s src separator).ok = true
      ∧ (p.name = base →
          span s (extract_param s src separator).name.b (extract_param s src separator).name.e
            = base
          ∧ (extract_param s src separator).value.map (fun x => span s x.b x.e) = some v.text
          ∧ (extract_param s src separator).is_url_encoded = false)
      ∧ ((p.name = base ++ ['*'] ∨ ∃ seg, p.name = base ++ '*' :: (seg ++ ['*'])) →
          span s (extract_param s src separator).name.b (extract_param s src separator).name.e
            = base
          ∧ (extract_param s src separator).is_url_encoded = true
          ∧ (∀ cs data, v.text = cs ++ SQUOTE :: data → (∀ c ∈ data, c ≠ SQUOTE) →
              (extract_param s src separator).value.map (fun x => span s x.b x.e) = some data)
          ∧ ((∀ c ∈ v.text, c ≠ SQUOTE) →
              (extract_param s src separator).value.map (fun x => span s x.b x.e)
                = some v.text))
      ∧ (∀ seg, seg ≠ [] → (∀ c ∈ seg, c ≠ '*') → p.name = base ++ '*' :: seg →
          span s (extract_param s src separator).name.b (extract_param s src separator).name.e
            = base
          ∧ (extract_param s src separator).value.map (fun x => span s x.b x.e) = some v.text
          ∧ (extract_param s src separator).is_url_encoded = false) := by
  obtain ⟨nb, vb, hr, hn, hvs⟩ :=
    extract_param_written_value s separator src p v tail hsep hwf hv hdrop htail
  rw [hr]
  refine ⟨(extract_param_finish_ok _ _ _ _).1, ?_, ?_, ?_⟩
  · intro hname
    rw [extract_param_finish_plain s _ _ _ (by
      simp only []
      rw [hn, hname]
      exact hbase)]
    simp only [Option.map_some']
    rw [hn, hvs, hname]
    exact ⟨rfl, rfl, trivial⟩
  · intro hname
    have hcut : span s nb (nb + base.length) = base := by
      rw [ span_prefix s nb base.length (nb + p.name.length) (by
        rcases hname with h | ⟨seg, h⟩ <;> rw [h] <;> simp), hn]
      rcases hname with h | ⟨seg, h⟩ <;> rw [h] <;> simp
    have hm : modify_param_name s ⟨nb, nb + p.name.length⟩
        = (RFC2231_ENCODING, ⟨nb, nb + base.length⟩) := by
      rcases hname with h | ⟨seg, h⟩
      · exact modify_param_name_star s _ base hbase (by simp only []; rw [hn, h])
          (by simp only []; rw [h]; simp)
      · exact modify_param_name_segment_star s _ base seg hbase (by simp only []; rw [hn, h])
    unfold extract_param_finish
    simp only []
    rw [hm]
    simp only []
    rw [if_pos (by decide)]
    simp only [Option.map_some', decide_True]
    refine ⟨hcut, trivial, ?_, ?_⟩
    · intro cs data hvt hdata
      rw [modify_param_value_encoded s _ cs data hdata (by simp only []; rw [hvs, hvt])]
    · intro hplain
      rw [modify_param_value_plain s _ (by simp only []; rw [hvs]; exact hplain)]
      simp only []
      rw [hvs]
  · intro seg hne hseg hname
    have hcut : span s nb (nb + base.length) = base := by
      rw [ span_prefix s nb base.length (nb + p.name.length) (by rw [hname]; simp), hn, hname]
      simp
    have hm := modify_param_name_segment s ⟨nb, nb + p.name.length⟩ base seg hbase hseg hne
      (by simp only []; rw [hn, hname]) (by simp only []; rw [hname]; simp; omega)
    unfold extract_param_finish
    simp only []
    rw [hm]
    simp only []
    rw [if_pos (by decide)]
    simp only [Option.map_some']
    refine ⟨hcut, ?_, decide_eq_false (by decide)⟩
    unfold modify_param_value
    rw [if_neg (by decide)]
    rw [hvs]

/-! ## Tokenizer: text after a closing quote -/

/-- C24 (what the code does): for foo="bar"baz extract_param skips the text baz that
follows the closing quote and returns true, with the name foo and the value bar. -/
theorem extract_param_garbage_after_quote :
    extract_param ("foo=".toList ++ [DQUOTE] ++ "bar".toList ++ [DQUOTE] ++ "baz".toList) 0 ';'
      = { ok := true, source := 12, name := ⟨0, 3⟩, value := some ⟨5, 8⟩,
          is_url_encoded := false } := by
  decide

/-! ## Persistent connection -/

/-- C30 (as amended): when the active record already holds the socket fd,
register_persistent changes nothing.  Otherwise the record is afterwards active and
holds the socket fd, a copy of host and the port, and its authorized flag is false;
a record that was active, with a different socket, has been closed and cleared
first. -/
theorem register_persistent_spec (st : pconn_state) (host : List Char) (port fd : Int)
    (ssl : Bool) :
    (st.pconn_active = true ∧ st.pconn.socket = fd →
        register_persistent st host port fd ssl = st)
      ∧ (¬ (st.pconn_active = true ∧ st.pconn.socket = fd) →
          (register_persistent st host port fd ssl).pconn_active = true
          ∧ (register_persistent st host port fd ssl).pconn.socket = fd
          ∧ (register_persistent st host port fd ssl).pconn.host = some host
          ∧ (register_persistent st host port fd ssl).pconn.port = port
          ∧ (register_persistent st host port fd ssl).pconn.authorized = false
          ∧ (st.pconn_active = true →
              (register_persistent st host port fd ssl).closed = st.closed ++ [st.pconn.socket]
              ∧ (register_persistent st host port fd ssl).pconn.ntlm = 0)
          ∧ (st.pconn_active = false →
              (register_persistent st host port fd ssl).closed = st.closed
              ∧ (register_persistent st host port fd ssl).pconn.ntlm = st.pconn.ntlm)) := by
  constructor
  · intro h
    unfold register_persistent
    rw [if_pos h]
  · intro h
    unfold register_persistent
    rw [if_neg h]
    cases ha : st.pconn_active <;> simp [invalidate_persistent]

/-- C30 (witness): a record for host a on socket 5 is active when host b is
registered on socket 6. -/
theorem register_persistent_spec_witness :
    register_persistent ⟨true, ⟨5, some "a".toList, 80, false, true, 3⟩, []⟩ "b".toList 443 6 true
      = ⟨true, ⟨6, some "b".toList, 443, false, false, 0⟩, [5]⟩ := by
  have h := (register_persistent_spec ⟨true, ⟨5, some "a".toList, 80, false, true, 3⟩, []⟩
    "b".toList 443 6 true).2 (by decide)
  exact h.1.symm ▸ (by decide)

/-- C30 (counterexample): the active record holds socket 5 for host a, port 80, and is
authorized; registering host b, port 443 on socket 5 leaves the record as it was: it
holds host a and port 80 and its authorized flag is true. -/
theorem register_persistent_same_socket :
    register_persistent ⟨true, ⟨5, some "a".toList, 80, false, true, 3⟩, []⟩ "b".toList 443 5 true
      = ⟨true, ⟨5, some "a".toList, 80, false, true, 3⟩, []⟩ := by
  decide

/-! ## Content-Range -/

theorem wgint_wrap_eq (x : Int) (h1 : 0 ≤ x) (h2 : x < 2 ^ 63) : wgint_wrap x = x := by
  unfold wgint_wrap
  rw [Int.emod_eq_of_lt (by omega) (by omega)]
  omega

theorem digit_toNat (c : Char) (h : c_isdigit c = true) : 48 ≤ c.toNat ∧ c.toNat ≤ 57 := by
  unfold c_isdigit at h
  simpa using h

theorem foldl_digits_ge (ds : List Char) (acc : Nat) :
    acc ≤ ds.foldl (fun acc c => acc * 10 + (c.toNat - 48)) acc := by
  induction ds generalizing acc with
  | nil => exact le_refl _
  | cons c t ih =>
    rw [List.foldl_cons]
    exact le_trans (by omega) (ih _)

theorem wgint_fold_eq (ds : List Char) (acc : Nat) (hd : ds.all c_isdigit = true)
    (h : ds.foldl (fun acc c => acc * 10 + (c.toNat - 48)) acc < 2 ^ 63) :
    ds.foldl (fun num c => wgint_wrap (10 * num + ((c.toNat : Int) - 48))) (acc : Int)
      = ((ds.foldl (fun acc c => acc * 10 + (c.toNat - 48)) acc : Nat) : Int) := by
  induction ds generalizing acc with
  | nil => rfl
  | cons c t ih =>
    simp only [List.all_cons, Bool.and_eq_true] at hd
    have hc := digit_toNat c hd.1
    rw [List.foldl_cons, List.foldl_cons] at *
    have hge := foldl_digits_ge t (acc * 10 + (c.toNat - 48))
    have hstep : wgint_wrap (10 * (acc : Int) + ((c.toNat : Int) - 48))
        = ((acc * 10 + (c.toNat - 48) : Nat) : Int) := by
      rw [wgint_wrap_eq _ (by omega) (by omega)]
      push_cast
      omega
    rw [hstep]
    exact ih _ hd.2 h

theorem wgint_digits_eq (hdr : List Char) (p : Nat) (ds t : List Char)
    (h : hdr.drop p = ds ++ t) (hd : ds.all c_isdigit = true)
    (ht : c_isdigit (t.headD NUL) = false) (hv : Hsts.digits_value ds < 2 ^ 63) :
    wgint_digits hdr p = ((Hsts.digits_value ds : Int), p + ds.length)
      ∧ hdr.drop (p + ds.length) = t := by
  obtain ⟨a, b⟩ := scan_drop hdr p c_isdigit ds t h hd ht
  refine ⟨?_, b⟩
  unfold wgint_digits
  rw [a, h]
  have htw : (ds ++ t).takeWhile c_isdigit = ds := by
    cases t with
    | nil =>
      rw [List.append_nil, List.takeWhile_eq_self_iff.2 (fun x hx => List.all_eq_true.1 hd x hx)]
    | cons c t => exact takeWhile_append_stop c_isdigit ds c t hd (by simpa using ht)
  rw [htw]
  have := wgint_fold_eq ds 0 hd hv
  simp only [Nat.cast_zero] at this
  rw [this]
  rfl

theorem digits_headD (ds t : List Char) (h : ds.all c_isdigit = true) (hne : ds ≠ []) :
    c_isdigit ((ds ++ t).headD NUL) = true := by
  obtain ⟨c, r, rfl⟩ := List.exists_cons_of_ne_nil hne
  simp only [List.all_cons, Bool.and_eq_true] at h
  simpa using h.1

theorem c_isdigit_ne_NUL (c : Char) (h : c_isdigit c = true) : c ≠ NUL := by
  rintro rfl; revert h; decide

/-- The body of parse_content_range from the first digit on, with a total. -/
theorem parse_content_range_total (hdr : List Char) (p0 : Nat) (F L T rest : List Char)
    (hp : (if c_strncasecmp hdr "bytes".toList 5 = 0 then
        scan hdr (if charAt hdr 5 = ':' then 5 + 1 else 5) c_isspace else 0) = p0)
    (hdrop : hdr.drop p0 = F ++ ('-' :: (L ++ ('/' :: (T ++ rest)))))
    (hF : F.all c_isdigit = true) (hFne : F ≠ []) (hFv : Hsts.digits_value F < 2 ^ 63)
    (hL : L.all c_isdigit = true) (hLne : L ≠ []) (hLv : Hsts.digits_value L < 2 ^ 63)
    (hT : T.all c_isdigit = true) (hTne : T ≠ []) (hTv : Hsts.digits_value T < 2 ^ 63)
    (hrest : c_isdigit (rest.headD NUL) = false) :
    parse_content_range hdr
      = if Hsts.digits_value L < Hsts.digits_value F then
          ⟨false, some (Hsts.digits_value F : Int), some (Hsts.digits_value L : Int), none⟩
        else if Hsts.digits_value T ≤ Hsts.digits_value L then
          ⟨false, some (Hsts.digits_value F : Int), some (Hsts.digits_value L : Int),
            some (Hsts.digits_value T : Int)⟩
        else
          ⟨true, some (Hsts.digits_value F : Int), some (Hsts.digits_value L : Int),
            some (Hsts.digits_value T : Int)⟩ := by
  have c0 := charAt_of_drop hdr p0 _ hdrop
  have c0d : c_isdigit (charAt hdr p0) = true := by rw [c0]; exact digits_headD F _ hF hFne
  obtain ⟨w1, d1⟩ := wgint_digits_eq hdr p0 F _ hdrop hF (by simp only [List.headD_cons]; decide)
    hFv
  have c1 := charAt_of_drop hdr _ _ d1
  simp only [List.headD_cons] at c1
  have d1' : hdr.drop (p0 + F.length + 1) = L ++ ('/' :: (T ++ rest)) := by
    rw [← List.drop_drop, d1]; rfl
  have c1' := charAt_of_drop hdr _ _ d1'
  have c1d : c_isdigit (charAt hdr (p0 + F.length + 1)) = true := by
    rw [c1']; exact digits_headD L _ hL hLne
  obtain ⟨w2, d2⟩ := wgint_digits_eq hdr (p0 + F.length + 1) L _ d1' hL
    (by simp only [List.headD_cons]; decide) hLv
  have c2 := charAt_of_drop hdr _ _ d2
  simp only [List.headD_cons] at c2
  have d2' : hdr.drop (p0 + F.length + 1 + L.length + 1) = T ++ rest := by
    rw [← List.drop_drop, d2]; rfl
  have c2' := charAt_of_drop hdr _ _ d2'
  have c2d : c_isdigit (charAt hdr (p0 + F.length + 1 + L.length + 1)) = true := by
    rw [c2']; exact digits_headD T _ hT hTne
  have c2s : charAt hdr (p0 + F.length + 1 + L.length + 1) ≠ '*' := by
    intro hh; rw [hh] at c2d; revert c2d; decide
  obtain ⟨w3, _⟩ := wgint_digits_eq hdr (p0 + F.length + 1 + L.length + 1) T _ d2' hT hrest hTv
  unfold parse_content_range
  simp only []
  rw [hp, if_neg (fun hh => c_isdigit_ne_NUL _ c0d hh.2), if_neg (by rw [c0d]; decide), w1]
  simp only []
  rw [c1, c1d, if_neg (by simp), w2]
  simp only []
  rw [c2, if_neg (by simp), c2d, if_neg (by simp), if_neg c2s, w3]
  simp only []
  by_cases h1 : Hsts.digits_value L < Hsts.digits_value F
  · rw [if_pos h1, if_pos (by exact_mod_cast h1)]
  · rw [if_neg h1, if_neg (by exact_mod_cast h1)]
    by_cases h2 : Hsts.digits_value T ≤ Hsts.digits_value L
    · rw [if_pos h2, if_pos ⟨by exact_mod_cast h2, by omega⟩]
    · rw [if_neg h2, if_neg (fun hh => h2 (by exact_mod_cast hh.1))]

/-- The body of parse_content_range from the first digit on, with an asterisk for the
total. -/
theorem parse_content_range_star (hdr : List Char) (p0 : Nat) (F L rest : List Char)
    (hp : (if c_strncasecmp hdr "bytes".toList 5 = 0 then
        scan hdr (if charAt hdr 5 = ':' then 5 + 1 else 5) c_isspace else 0) = p0)
    (hdrop : hdr.drop p0 = F ++ ('-' :: (L ++ ('/' :: ('*' :: rest)))))
    (hF : F.all c_isdigit = true) (hFne : F ≠ []) (hFv : Hsts.digits_value F < 2 ^ 63)
    (hL : L.all c_isdigit = true) (hLne : L ≠ []) (hLv : Hsts.digits_value L < 2 ^ 63) :
    parse_content_range hdr
      = if Hsts.digits_value L < Hsts.digits_value F then
          ⟨false, some (Hsts.digits_value F : Int), some (Hsts.digits_value L : Int), none⟩
        else
          ⟨true, some (Hsts.digits_value F : Int), some (Hsts.digits_value L : Int),
            some (-1)⟩ := by
  have c0 := charAt_of_drop hdr p0 _ hdrop
  have c0d : c_isdigit (charAt hdr p0) = true := by rw [c0]; exact digits_headD F _ hF hFne
  obtain ⟨w1, d1⟩ := wgint_digits_eq hdr p0 F _ hdrop hF (by simp only [List.headD_cons]; decide)
    hFv
  have c1 := charAt_of_drop hdr _ _ d1
  simp only [List.headD_cons] at c1
  have d1' : hdr.drop (p0 + F.length + 1) = L ++ ('/' :: ('*' :: rest)) := by
    rw [← List.drop_drop, d1]; rfl
  have c1' := charAt_of_drop hdr _ _ d1'
  have c1d : c_isdigit (charAt hdr (p0 + F.length + 1)) = true := by
    rw [c1']; exact digits_headD L _ hL hLne
  obtain ⟨w2, d2⟩ := wgint_digits_eq hdr (p0 + F.length + 1) L _ d1' hL
    (by simp only [List.headD_cons]; decide) hLv
  have c2 := charAt_of_drop hdr _ _ d2
  simp only [List.headD_cons] at c2
  have d2' : hdr.drop (p0 + F.length + 1 + L.length + 1) = '*' :: rest := by
    rw [← List.drop_drop, d2]; rfl
  have c2' := charAt_of_drop hdr _ _ d2'
  simp only [List.headD_cons] at c2'
  unfold parse_content_range
  simp only []
  rw [hp, if_neg (fun hh => c_isdigit_ne_NUL _ c0d hh.2), if_neg (by rw [c0d]; decide), w1]
  simp only []
  rw [c1, c1d, if_neg (by simp), w2]
  simp only []
  rw [c2, if_neg (by simp), c2', if_neg (by simp), if_pos rfl]
  by_cases h1 : Hsts.digits_value L < Hsts.digits_value F
  · rw [if_pos h1, if_pos (by exact_mod_cast h1)]
  · rw [if_neg h1, if_neg (by exact_mod_cast h1), if_neg (by simp)]

theorem c_tolower_digit (c : Char) (h : c_isdigit c = true) : c_tolower c = c := by
  have := digit_toNat c h
  unfold c_tolower
  rw [if_neg (by omega)]

theorem bytes_iff (hdr : List Char) :
    c_strncasecmp hdr "bytes".toList 5 = 0 ↔ (hdr.take 5).map c_tolower = "bytes".toList :=
  c_strncasecmp_eq_zero_iff hdr "bytes".toList (by decide)

/-- The start of the numbers when the value begins with a digit. -/
theorem content_range_start_plain (hdr : List Char) (h : c_isdigit (hdr.headD NUL) = true) :
    (if c_strncasecmp hdr "bytes".toList 5 = 0 then
        scan hdr (if charAt hdr 5 = ':' then 5 + 1 else 5) c_isspace else 0) = 0 := by
  rw [if_neg]
  rw [bytes_iff]
  cases hdr with
  | nil => simp
  | cons d r =>
    simp only [List.headD_cons] at h
    intro hh
    have h1 : c_tolower d = 'b' := by
      have := congrArg (fun l => l.headD NUL) hh
      simpa using this
    rw [c_tolower_digit d h] at h1
    rw [h1] at h
    revert h
    decide

/-- The start of the numbers behind the word bytes. -/
theorem content_range_start_bytes (hdr b colon ws t : List Char)
    (hhdr : hdr = b ++ (colon ++ (ws ++ t))) (hb : b.map c_tolower = "bytes".toList)
    (hc : colon = [] ∨ colon = [':']) (hws : ws.all c_isspace = true)
    (ht : c_isdigit (t.headD NUL) = true) :
    (if c_strncasecmp hdr "bytes".toList 5 = 0 then
        scan hdr (if charAt hdr 5 = ':' then 5 + 1 else 5) c_isspace else 0)
      = (b ++ (colon ++ ws)).length
    ∧ hdr.drop (b ++ (colon ++ ws)).length = t := by
  have hlen : b.length = 5 := by
    have := congrArg List.length hb
    simpa using this
  have htake : hdr.take 5 = b := by
    rw [hhdr, ← hlen, List.take_left]
  have hd5 : hdr.drop 5 = colon ++ (ws ++ t) := by
    rw [hhdr, ← hlen, List.drop_left]
  have hts : c_isspace (t.headD NUL) = false := c_isdigit_not_space _ ht
  have htc : t.headD NUL ≠ ':' := by
    intro hh; rw [hh] at ht; revert ht; decide
  rw [if_pos ((bytes_iff hdr).2 (by rw [htake, hb]))]
  have c5 := charAt_of_drop hdr 5 _ hd5
  rcases hc with rfl | rfl
  · have hne : charAt hdr 5 ≠ ':' := by
      rw [c5, List.nil_append]
      cases ws with
      | nil => simpa using htc
      | cons w r =>
        simp only [List.all_cons, Bool.and_eq_true] at hws
        simp only [List.cons_append, List.headD_cons]
        intro hh; rw [hh] at hws; exact absurd hws.1 (by decide)
    rw [if_neg hne]
    obtain ⟨a, d⟩ := scan_drop hdr 5 c_isspace ws t (by simpa using hd5) hws hts
    simp only [List.nil_append, List.length_append, hlen]
    exact ⟨a, d⟩
  · have he : charAt hdr 5 = ':' := by rw [c5]; rfl
    rw [if_pos he]
    have hd6 : hdr.drop (5 + 1) = ws ++ t := by
      rw [← List.drop_drop, hd5]; rfl
    obtain ⟨a, d⟩ := scan_drop hdr (5 + 1) c_isspace ws t hd6 hws hts
    simp only [List.length_append, List.length_cons, List.length_nil, hlen]
    have e : 5 + (0 + 1 + ws.length) = 5 + 1 + ws.length := by omega
    rw [e]
    exact ⟨a, d⟩

theorem drop_split_scan (s : List Char) (q : Nat) (f : Char → Bool) (hN : f NUL = false) :
    s.drop q = (s.drop q).takeWhile f ++ s.drop (scan s q f)
      ∧ f ((s.drop (scan s q f)).headD NUL) = false := by
  constructor
  · have h := (List.takeWhile_append_dropWhile f (s.drop q)).symm
    rw [dropWhile_eq_drop, List.drop_drop] at h
    unfold scan
    exact h
  · rw [← charAt_of_drop s (scan s q f) _ rfl]
    rcases scan_stop s q f with h | h
    · rw [charAt_of_le s _ h]; exact hN
    · exact h

theorem drop_cons_charAt (s : List Char) (q : Nat) (c : Char) (h : charAt s q = c)
    (hc : c ≠ NUL) : s.drop q = c :: s.drop (q + 1) := by
  have hlt : q < s.length := charAt_lt s q (by rw [h]; exact hc)
  have hd : s.drop q = s[q] :: s.drop (q + 1) := List.drop_eq_getElem_cons hlt
  have := charAt_of_drop s q _ hd
  simp only [List.headD_cons] at this
  rw [hd, ← this, h]

theorem takeWhile_ne_nil (f : Char → Bool) (l : List Char) (h : f (l.headD NUL) = true)
    (hN : f NUL = false) : l.takeWhile f ≠ [] := by
  cases l with
  | nil => simp [hN] at h
  | cons c t =>
    simp only [List.headD_cons] at h
    rw [List.takeWhile_cons_of_pos h]
    simp

theorem take_takeWhile_length (f : Char → Bool) (l : List Char) :
    l.take (l.takeWhile f).length = l.takeWhile f :=
  (List.prefix_iff_eq_take.1 (List.takeWhile_prefix f)).symm

/-- What stands in front of the position at which parse_content_range expects the
first number. -/
theorem content_range_start_form (hdr : List Char) :
    content_range_prefix (hdr.take (if c_strncasecmp hdr "bytes".toList 5 = 0 then
        scan hdr (if charAt hdr 5 = ':' then 5 + 1 else 5) c_isspace else 0)) := by
  by_cases hB : c_strncasecmp hdr "bytes".toList 5 = 0
  · rw [if_pos hB]
    have hb := (bytes_iff hdr).1 hB
    right
    by_cases hc : charAt hdr 5 = ':'
    · rw [if_pos hc]
      have hd := drop_cons_charAt hdr 5 ':' hc (by decide)
      refine ⟨hdr.take 5, [':'], (hdr.drop (5 + 1)).takeWhile c_isspace, ?_, hb, Or.inr rfl,
        takeWhile_all _ _⟩
      unfold scan
      rw [List.take_add, take_takeWhile_length, List.take_add, hd]
      simp
    · rw [if_neg hc]
      refine ⟨hdr.take 5, [], (hdr.drop 5).takeWhile c_isspace, ?_, hb, Or.inl rfl,
        takeWhile_all _ _⟩
      unfold scan
      rw [List.take_add, take_takeWhile_length]
      simp
  · rw [if_neg hB]
    left
    rfl

/-- Whenever parse_content_range returns true the value has the form it parses. -/
theorem parse_content_range_form (hdr : List Char) (h : (parse_content_range hdr).ok = true) :
    ∃ pre F L tot rest : List Char, content_range_prefix pre
      ∧ F.all c_isdigit = true ∧ F ≠ [] ∧ L.all c_isdigit = true ∧ L ≠ []
      ∧ (tot = ['*']
          ∨ (tot.all c_isdigit = true ∧ tot ≠ [] ∧ c_isdigit (rest.headD NUL) = false))
      ∧ hdr = pre ++ (F ++ ('-' :: (L ++ ('/' :: (tot ++ rest))))) := by
  have hpre := content_range_start_form hdr
  unfold parse_content_range at h
  simp only [] at h
  generalize (if c_strncasecmp hdr "bytes".toList 5 = 0 then
      scan hdr (if charAt hdr 5 = ':' then 5 + 1 else 5) c_isspace else 0) = p0 at h hpre
  split_ifs at h with g1 g2 g3 g4 g5 g6 g7
  all_goals
    -- the digits of the first number
    have e0 : c_isdigit (charAt hdr p0) = true := by simpa using g2
    obtain ⟨sF, nF⟩ := drop_split_scan hdr p0 c_isdigit (by decide)
    have hFne : (hdr.drop p0).takeWhile c_isdigit ≠ [] :=
      takeWhile_ne_nil _ _ (by rw [← charAt_of_drop hdr p0 _ rfl]; exact e0) (by decide)
    have hp : ∀ p, (wgint_digits hdr p).2 = scan hdr p c_isdigit := fun _ => rfl
    simp only [hp] at g3 g4 g5
    clear h
    generalize scan hdr p0 c_isdigit = p1 at sF nF g3 g4 g5
    simp only [not_or, not_not, Bool.not_eq_false] at g3
    obtain ⟨m1, e1⟩ := g3
    have d1 := drop_cons_charAt hdr p1 '-' m1 (by decide)
    -- the digits of the last number
    obtain ⟨sL, nL⟩ := drop_split_scan hdr (p1 + 1) c_isdigit (by decide)
    have hLne : (hdr.drop (p1 + 1)).takeWhile c_isdigit ≠ [] :=
      takeWhile_ne_nil _ _ (by rw [← charAt_of_drop hdr _ _ rfl]; exact e1) (by decide)
    generalize scan hdr (p1 + 1) c_isdigit = p2 at sL nL g4 g5
    have m2 : charAt hdr p2 = '/' := not_not.1 g4
    have d2 := drop_cons_charAt hdr p2 '/' m2 (by decide)
    have g5' : c_isdigit (charAt hdr (p2 + 1)) = true ∨ charAt hdr (p2 + 1) = '*' := g5
    have hall : hdr = hdr.take p0 ++ ((hdr.drop p0).takeWhile c_isdigit
        ++ ('-' :: ((hdr.drop (p1 + 1)).takeWhile c_isdigit ++ ('/' :: hdr.drop (p2 + 1))))) := by
      conv_lhs => rw [← List.take_append_drop p0 hdr, sF, d1, sL, d2]
    by_cases hs : charAt hdr (p2 + 1) = '*'
    · have d3 := drop_cons_charAt hdr (p2 + 1) '*' hs (by decide)
      refine ⟨hdr.take p0, _, _, ['*'], hdr.drop (p2 + 1 + 1), hpre, takeWhile_all _ _, hFne,
        takeWhile_all _ _, hLne, Or.inl rfl, ?_⟩
      rw [d3] at hall
      exact hall
    · have e3 : c_isdigit (charAt hdr (p2 + 1)) = true := by
        rcases g5' with h' | h'
        · exact h'
        · exact absurd h' hs
      obtain ⟨sT, nT⟩ := drop_split_scan hdr (p2 + 1) c_isdigit (by decide)
      have hTne : (hdr.drop (p2 + 1)).takeWhile c_isdigit ≠ [] :=
        takeWhile_ne_nil _ _ (by rw [← charAt_of_drop hdr _ _ rfl]; exact e3) (by decide)
      refine ⟨hdr.take p0, _, _, (hdr.drop (p2 + 1)).takeWhile c_isdigit,
        hdr.drop (scan hdr (p2 + 1) c_isdigit), hpre, takeWhile_all _ _, hFne,
        takeWhile_all _ _, hLne, Or.inr ⟨takeWhile_all _ _, hTne, nT⟩, ?_⟩
      rw [← sT]
      exact hall

theorem content_range_start (hdr pre t : List Char) (hhdr : hdr = pre ++ t)
    (hpre : content_range_prefix pre) (ht : c_isdigit (t.headD NUL) = true) :
    (if c_strncasecmp hdr "bytes".toList 5 = 0 then
        scan hdr (if charAt hdr 5 = ':' then 5 + 1 else 5) c_isspace else 0) = pre.length
    ∧ hdr.drop pre.length = t := by
  rcases hpre with rfl | ⟨b, colon, ws, rfl, hb, hc, hws⟩
  · rw [List.nil_append] at hhdr
    subst hhdr
    exact ⟨content_range_start_plain hdr ht, rfl⟩
  · exact content_range_start_bytes hdr b colon ws t
      (by rw [hhdr]; simp only [List.append_assoc]) hb hc hws ht

/-- What parse_content_range does on every string: for a header of the form
F '-' L '/' (T or '*'), alone or behind the word bytes, an optional colon and white
space, with decimal numbers F, L, T that fit in wgint, it returns true exactly when
F <= L and (the total is '*' or T > L), and then yields first = F, last = L and the
entity length T, or -1 for '*'; and whenever it returns true the header has that
form. -/
theorem parse_content_range_prefixed (hdr : List Char) :
    (∀ pre F L T rest : List Char, hdr = pre ++ (F ++ ('-' :: (L ++ ('/' :: (T ++ rest))))) →
        content_range_prefix pre →
        F.all c_isdigit = true → F ≠ [] → Hsts.digits_value F < 2 ^ 63 →
        L.all c_isdigit = true → L ≠ [] → Hsts.digits_value L < 2 ^ 63 →
        T.all c_isdigit = true → T ≠ [] → Hsts.digits_value T < 2 ^ 63 →
        c_isdigit (rest.headD NUL) = false →
        ((parse_content_range hdr).ok = true
            ↔ Hsts.digits_value F ≤ Hsts.digits_value L
              ∧ Hsts.digits_value L < Hsts.digits_value T)
          ∧ ((parse_content_range hdr).ok = true →
              parse_content_range hdr
                = ⟨true, some (Hsts.digits_value F : Int), some (Hsts.digits_value L : Int),
                    some (Hsts.digits_value T : Int)⟩))
      ∧ (∀ pre F L rest : List Char, hdr = pre ++ (F ++ ('-' :: (L ++ ('/' :: ('*' :: rest))))) →
          content_range_prefix pre →
          F.all c_isdigit = true → F ≠ [] → Hsts.digits_value F < 2 ^ 63 →
          L.all c_isdigit = true → L ≠ [] → Hsts.digits_value L < 2 ^ 63 →
          ((parse_content_range hdr).ok = true ↔ Hsts.digits_value F ≤ Hsts.digits_value L)
            ∧ ((parse_content_range hdr).ok = true →
                parse_content_range hdr
                  = ⟨true, some (Hsts.digits_value F : Int), some (Hsts.digits_value L : Int),
                      some (-1)⟩))
      ∧ ((parse_content_range hdr).ok = true →
          ∃ pre F L tot rest : List Char, content_range_prefix pre
            ∧ F.all c_isdigit = true ∧ F ≠ [] ∧ L.all c_isdigit = true ∧ L ≠ []
            ∧ (tot = ['*']
                ∨ (tot.all c_isdigit = true ∧ tot ≠ [] ∧ c_isdigit (rest.headD NUL) = false))
            ∧ hdr = pre ++ (F ++ ('-' :: (L ++ ('/' :: (tot ++ rest)))))) := by
  refine ⟨?_, ?_, parse_content_range_form hdr⟩
  · intro pre F L T rest hhdr hpre hF hFne hFv hL hLne hLv hT hTne hTv hrest
    obtain ⟨hp, hd⟩ := content_range_start hdr pre _ hhdr hpre (digits_headD F _ hF hFne)
    rw [parse_content_range_total hdr pre.length F L T rest hp hd hF hFne hFv hL hLne hLv hT
      hTne hTv hrest]
    by_cases h1 : Hsts.digits_value L < Hsts.digits_value F
    · rw [if_pos h1]
      exact ⟨⟨fun h => absurd h (by simp), fun h => by omega⟩, fun h => absurd h (by simp)⟩
    · rw [if_neg h1]
      by_cases h2 : Hsts.digits_value T ≤ Hsts.digits_value L
      · rw [if_pos h2]
        exact ⟨⟨fun h => absurd h (by simp), fun h => by omega⟩, fun h => absurd h (by simp)⟩
      · rw [if_neg h2]
        exact ⟨⟨fun _ => ⟨by omega, by omega⟩, fun _ => rfl⟩, fun _ => rfl⟩
  · intro pre F L rest hhdr hpre hF hFne hFv hL hLne hLv
    obtain ⟨hp, hd⟩ := content_range_start hdr pre _ hhdr hpre (digits_headD F _ hF hFne)
    rw [parse_content_range_star hdr pre.length F L rest hp hd hF hFne hFv hL hLne hLv]
    by_cases h1 : Hsts.digits_value L < Hsts.digits_value F
    · rw [if_pos h1]
      exact ⟨⟨fun h => absurd h (by simp), fun h => by omega⟩, fun h => absurd h (by simp)⟩
    · rw [if_neg h1]
      exact ⟨⟨fun _ => by omega, fun _ => rfl⟩, fun _ => rfl⟩

/-- A string with white space in front of the numbers and without the word bytes,
which resp_header_copy never hands over, is rejected by parse_content_range, while
the same numbers without the blank are accepted. -/
theorem parse_content_range_leading_blank :
    (parse_content_range (" ".toList ++ "0".toList ++ ['-'] ++ "5".toList ++ ['/']
        ++ "10".toList)).ok = false
      ∧ (" ".toList).all c_isspace = true
      ∧ Hsts.digits_value "0".toList ≤ Hsts.digits_value "5".toList
      ∧ Hsts.digits_value "5".toList < Hsts.digits_value "10".toList
      ∧ parse_content_range "0-5/10".toList = ⟨true, some 0, some 5, some 10⟩ := by
  decide

/-! ## Strict-Transport-Security -/

/-- The two shapes of what a call of extract_param that returns true leaves behind. -/
theorem extract_param_cases (s : List Char) (src : Nat) (sep : Char)
    (hok : (extract_param s src sep).ok = true) :
    ∃ nb ne cur, nb ≤ ne ∧ ne ≤ s.length
      ∧ (extract_param s src sep
            = { ok := true, source := cur, name := ⟨nb, ne⟩, value := none,
                is_url_encoded := false }
          ∨ ∃ v, extract_param s src sep = extract_param_finish s cur ⟨nb, ne⟩ v) := by
  unfold extract_param at hok ⊢
  simp only [] at hok ⊢
  generalize scan s src c_isspace = p0 at hok ⊢
  by_cases c0 : charAt s p0 = NUL
  · rw [if_pos c0] at hok; exact absurd hok (by simp)
  rw [if_neg c0] at hok ⊢
  have l0 := charAt_lt s p0 c0
  have g1 := scan_ge s p0 (fun c => c ≠ NUL && !c_isspace c && c ≠ '=' && c ≠ sep)
  have l1 := scan_le s p0 (fun c => c ≠ NUL && !c_isspace c && c ≠ '=' && c ≠ sep) (by omega)
  generalize scan s p0 (fun c => c ≠ NUL && !c_isspace c && c ≠ '=' && c ≠ sep) = p1
    at hok g1 l1 ⊢
  by_cases c1 : p0 = p1
  · rw [if_pos c1] at hok; exact absurd hok (by simp)
  rw [if_neg c1] at hok ⊢
  generalize scan s p1 c_isspace = p2 at hok ⊢
  by_cases c2 : (charAt s p2 = sep || charAt s p2 = NUL) = true
  · rw [if_pos c2]
    exact ⟨p0, p1, _, g1, l1, Or.inl rfl⟩
  rw [if_neg c2] at hok ⊢
  by_cases c4 : charAt s p2 ≠ '='
  · rw [if_pos c4] at hok; exact absurd hok (by simp)
  rw [if_neg c4] at hok ⊢
  generalize scan s (p2 + 1) c_isspace = p3 at hok ⊢
  by_cases c5 : charAt s p3 = DQUOTE
  · rw [if_pos c5] at hok ⊢
    generalize scan s (p3 + 1) (fun c => c ≠ NUL && c ≠ DQUOTE) = p4 at hok ⊢
    by_cases c6 : charAt s p4 = NUL
    · rw [if_pos c6] at hok; exact absurd hok (by simp)
    rw [if_neg c6] at hok ⊢
    generalize scan s (scan s (p4 + 1) c_isspace) (fun c => c ≠ NUL && c ≠ sep) = p6 at hok ⊢
    by_cases c7 : charAt s p6 = sep
    · rw [if_pos c7]
      exact ⟨p0, p1, _, g1, l1, Or.inr ⟨_, rfl⟩⟩
    rw [if_neg c7] at hok ⊢
    by_cases c8 : charAt s p6 ≠ NUL
    · rw [if_pos c8] at hok; exact absurd hok (by simp)
    rw [if_neg c8]
    exact ⟨p0, p1, _, g1, l1, Or.inr ⟨_, rfl⟩⟩
  · rw [if_neg c5]
    exact ⟨p0, p1, _, g1, l1, Or.inr ⟨_, rfl⟩⟩

theorem modify_param_name_bounds (s : List Char) (n : param_token) (h : n.b ≤ n.e) :
    (modify_param_name s n).2.b = n.b ∧ n.b ≤ (modify_param_name s n).2.e
      ∧ (modify_param_name s n).2.e ≤ n.e := by
  unfold modify_param_name
  simp only []
  cases h1 : (span s n.b n.e).findIdx? (fun c => decide (c = '*')) with
  | none => exact ⟨rfl, h, le_refl _⟩
  | some d1 =>
    have hd : d1 < (span s n.b n.e).length := by
      have := (List.findIdx?_eq_some_iff_findIdx_eq.1 h1).1
      exact this
    have hl := span_length_le s n.b n.e
    cases h2 : lastIdx (fun c => decide (c = '*')) (span s n.b n.e) with
    | none => exact ⟨rfl, h, le_refl _⟩
    | some d2 =>
      simp only []
      split_ifs <;> exact ⟨rfl, by simp, by simp; omega⟩

theorem extract_param_name_bounds (s : List Char) (src : Nat) (sep : Char)
    (hok : (extract_param s src sep).ok = true) :
    (extract_param s src sep).name.b ≤ (extract_param s src sep).name.e
      ∧ (extract_param s src sep).name.e ≤ s.length := by
  obtain ⟨nb, ne, cur, h1, h2, h | ⟨v, h⟩⟩ := extract_param_cases s src sep hok
  · rw [h]; exact ⟨h1, h2⟩
  · rw [h]
    obtain ⟨a, b, c⟩ := modify_param_name_bounds s ⟨nb, ne⟩ h1
    unfold extract_param_finish
    simp only [] at a b c ⊢
    split_ifs <;> simp only [] <;> omega

theorem span_length_of_le (s : List Char) (b e : Nat) (h1 : b ≤ e) (h2 : e ≤ s.length) :
    (span s b e).length = e - b := span_length s b e h1 h2

/-- The macro compares the text of the span with the literal, ignoring case. -/
theorem BOUNDED_EQUAL_NO_CASE_iff (s : List Char) (b e : Nat) (lit : List Char)
    (hlit : ∀ c ∈ lit, c.toNat ≠ 0) (h1 : b ≤ e) (h2 : e ≤ s.length) :
    BOUNDED_EQUAL_NO_CASE s b e lit
      = decide ((span s b e).map c_tolower = lit.map c_tolower) := by
  unfold BOUNDED_EQUAL_NO_CASE
  have hlen := span_length s b e h1 h2
  by_cases hn : e - b = lit.length
  · have hs : span s b e = (s.drop b).take lit.length := by
      unfold span; rw [hn]
    have := c_strncasecmp_eq_zero_iff (s.drop b) lit hlit
    rw [hs]
    simp only [hn, decide_True, Bool.true_and]
    exact decide_eq_decide.2 this
  · have : ¬ ((span s b e).map c_tolower = lit.map c_tolower) := by
      intro hh
      have := congrArg List.length hh
      simp only [List.length_map] at this
      omega
    simp [hn, this]

theorem extract_params_loop_total (s : List Char) (sep : Char) (hsep : sep ≠ NUL)
    (fuel src : Nat) (h : s.length < fuel + src) (hs : src ≤ s.length) :
    ∃ ps last, extract_params_loop s sep fuel src = some (ps, last) := by
  induction fuel generalizing src with
  | zero => omega
  | succ n ih =>
    unfold extract_params_loop
    simp only []
    by_cases hok : (extract_param s src sep).ok = true
    · rw [if_pos hok]
      have hp := extract_param_progress s src sep hsep hok
      obtain ⟨ps, last, e⟩ := ih _ (by omega) hp.2
      rw [e]
      exact ⟨_, _, rfl⟩
    · rw [if_neg hok]
      exact ⟨_, _, rfl⟩

/-- The loop of parse_strict_transport_security, seen as a pass over the parameters
that the successive extract_param calls deliver. -/
theorem parse_strict_transport_security_loop_eq (header : List Char) (fuel src : Nat)
    (c_max_age : Option (List Char)) (is : Bool) :
    parse_strict_transport_security_loop header fuel src c_max_age is
      = (extract_params_loop header ';' fuel src).map (fun pl =>
          pl.1.foldl (fun (acc : Option (List Char) × Bool) q =>
            if q.1.map c_tolower = "max-age".toList then (some (q.2.1.getD []), acc.2)
            else if q.1.map c_tolower = "includesubdomains".toList then (acc.1, true)
            else acc) (c_max_age, is)) := by
  induction fuel generalizing src c_max_age is with
  | zero => rfl
  | succ n ih =>
    unfold parse_strict_transport_security_loop extract_params_loop
    simp only []
    by_cases hok : (extract_param header src ';').ok = true
    · rw [if_pos hok, if_pos hok]
      obtain ⟨hb, he⟩ := extract_param_name_bounds header src ';' hok
      rw [BOUNDED_EQUAL_NO_CASE_iff header _ _ "max-age".toList (by decide) hb he,
        BOUNDED_EQUAL_NO_CASE_iff header _ _ "includeSubDomains".toList (by decide) hb he]
      have e1 : "max-age".toList.map c_tolower = "max-age".toList := by decide
      have e2 : "includeSubDomains".toList.map c_tolower = "includesubdomains".toList := by
        decide
      rw [e1, e2]
      clear e1 e2
      generalize "max-age".toList = A at ih ⊢
      generalize "includesubdomains".toList = B at ih ⊢
      generalize extract_param header src ';' = r at hok hb he ⊢
      obtain ⟨rok, rsource, rname, rvalue, renc⟩ := r
      simp only [] at hb he ⊢
      have hval : (match rvalue with
          | some v => span header v.b v.e
          | none => []) = (rvalue.map (fun v => span header v.b v.e)).getD [] := by
        cases rvalue <;> rfl
      by_cases m1 : (span header rname.b rname.e).map c_tolower = A
      · simp only [m1, decide_True, if_true]
        rw [ih]
        cases extract_params_loop header ';' n rsource with
        | none => rfl
        | some pl => cases rvalue <;> simp [m1]
      · simp only [m1, decide_False, Bool.false_eq_true, if_false]
        by_cases m2 : (span header rname.b rname.e).map c_tolower = B
        · simp only [m2, decide_True, if_true]
          rw [ih]
          have hBA : ¬ B = A := fun h => m1 (by rw [m2, h])
          cases extract_params_loop header ';' n rsource with
          | none => rfl
          | some pl => simp [m2, hBA]
        · simp only [m2, decide_False, Bool.false_eq_true, if_false]
          rw [ih]
          cases extract_params_loop header ';' n rsource with
          | none => rfl
          | some pl => simp [m1, m2]
    · rw [if_neg hok, if_neg hok]
      rfl

/-- The pass keeps the value of the last max-age parameter and notes whether an
includeSubDomains parameter was seen. -/
theorem sts_pass_eq (ps : List (List Char × Option (List Char) × Bool × Nat))
    (c_max_age : Option (List Char)) (is : Bool) :
    ps.foldl (fun (acc : Option (List Char) × Bool) q =>
        if q.1.map c_tolower = "max-age".toList then (some (q.2.1.getD []), acc.2)
        else if q.1.map c_tolower = "includesubdomains".toList then (acc.1, true)
        else acc) (c_max_age, is)
      = (match (ps.filter (fun q => decide (q.1.map c_tolower = "max-age".toList))).getLast? with
          | some m => some (m.2.1.getD [])
          | none => c_max_age,
         is || ps.any (fun q => decide (q.1.map c_tolower = "includesubdomains".toList))) := by
  have hAB : "max-age".toList ≠ "includesubdomains".toList := by decide
  generalize "max-age".toList = A at hAB ⊢
  generalize "includesubdomains".toList = B at hAB ⊢
  induction ps using List.reverseRecOn with
  | nil => simp
  | append_singleton init q ih =>
    rw [List.foldl_append, ih, List.filter_append, List.any_append]
    simp only [List.foldl_cons, List.foldl_nil, List.filter_cons, List.filter_nil,
      List.any_cons, List.any_nil, Bool.or_false]
    by_cases m1 : q.1.map c_tolower = A
    · have m2 : ¬ (q.1.map c_tolower = B) := by
        rw [m1]; exact hAB
      simp [m1, m2, hAB]
    · by_cases m2 : q.1.map c_tolower = B
      · have hBA : ¬ B = A := fun h => hAB h.symm
        simp [m1, m2, hBA]
      · simp [m1, m2]

/-- The strtol model on a run of digits within the range of long, bare or behind a
minus sign. -/
theorem strtol10_digits (ds : List Char) (hd : ds.all c_isdigit = true)
    (hv : Hsts.digits_value ds < 2 ^ 63) :
    strtol10 ds = (Hsts.digits_value ds : Int)
      ∧ strtol10 ('-' :: ds) = -(Hsts.digits_value ds : Int) := by
  have hall : ∀ c ∈ ds, c_isdigit c = true := by simpa using hd
  have htw : ds.takeWhile c_isdigit = ds := List.takeWhile_eq_self_iff.2 hall
  have hdw : ds.dropWhile c_isspace = ds := by
    cases ds with
    | nil => rfl
    | cons c t =>
      have hc : c_isspace c = false := c_isdigit_not_space c (hall c (List.mem_cons_self _ _))
      simp [List.dropWhile_cons, hc]
  have hm : ds.head? ≠ some '-' := by
    cases ds with
    | nil => simp
    | cons c t =>
      have hc := hall c (List.mem_cons_self _ _)
      intro h
      simp only [List.head?_cons, Option.some.injEq] at h
      subst h
      revert hc
      decide
  have hp : ds.head? ≠ some '+' := by
    cases ds with
    | nil => simp
    | cons c t =>
      have hc := hall c (List.mem_cons_self _ _)
      intro h
      simp only [List.head?_cons, Option.some.injEq] at h
      subst h
      revert hc
      decide
  have hv' : ((Hsts.digits_value ds : Nat) : Int) < 2 ^ 63 := by exact_mod_cast hv
  constructor
  · unfold strtol10
    simp only [hdw, hm, hp, or_self, if_false, decide_False, Bool.false_eq_true, htw]
    change min ((Hsts.digits_value ds : Nat) : Int) (2 ^ 63 - 1) = _
    omega
  · have hs : c_isspace '-' = false := by decide
    unfold strtol10
    simp only [List.dropWhile_cons, hs, Bool.false_eq_true, if_false, List.head?_cons, true_or,
      if_true, decide_True, List.tail_cons, htw]
    change max (-((Hsts.digits_value ds : Nat) : Int)) (-(2 ^ 63)) = _
    omega

/-- C28 (amended): parse_strict_transport_security fails on a NULL header; on a header
it always returns, and it succeeds exactly when one of the parameters that the
successive extract_param calls deliver (up to the first call that returns false) is
named max-age, ignoring case, whatever its value and also without one; max_age is
then strtol of the value of the last such parameter, which is the signed decimal
value when the value is a run of digits within the range of long, bare or behind a
minus sign; include_subdomains is true exactly when one of these parameters is named
includeSubDomains, ignoring case. -/
theorem parse_strict_transport_security_spec (header : List Char) :
    parse_strict_transport_security none = some none
    ∧ (∃ ps last, extract_params_loop header ';' (header.length + 1) 0 = some (ps, last)
        ∧ parse_strict_transport_security (some header)
          = some (((ps.filter
                (fun q => decide (q.1.map c_tolower = "max-age".toList))).getLast?).map
              (fun m => (strtol10 (m.2.1.getD []),
                ps.any (fun q => decide (q.1.map c_tolower = "includesubdomains".toList))))))
    ∧ (∀ ds : List Char, ds.all c_isdigit = true → Hsts.digits_value ds < 2 ^ 63 →
        strtol10 ds = (Hsts.digits_value ds : Int)
          ∧ strtol10 ('-' :: ds) = -(Hsts.digits_value ds : Int)) := by
  refine ⟨rfl, ?_, strtol10_digits⟩
  obtain ⟨ps, last, e⟩ := extract_params_loop_total header ';' (by decide)
    (header.length + 1) 0 (by omega) (Nat.zero_le _)
  refine ⟨ps, last, e, ?_⟩
  unfold parse_strict_transport_security
  simp only []
  rw [parse_strict_transport_security_loop_eq, e, Option.map_some', sts_pass_eq]
  simp only [Bool.false_or]
  cases (ps.filter (fun q => decide (q.1.map c_tolower = "max-age".toList))).getLast? with
  | none => rfl
  | some m => rfl

/-- C28 (witness): max-age=31536000; includeSubDomains gives 31536000 and true, and
31536000 is the value that the strtol model reads from these digits. -/
theorem parse_strict_transport_security_spec_witness :
    parse_strict_transport_security (some "max-age=31536000; includeSubDomains".toList)
        = some (some (31536000, true))
      ∧ strtol10 "31536000".toList = 31536000 :=
  ⟨by decide,
    ((parse_strict_transport_security_spec []).2.2 "31536000".toList (by decide)
      (by decide)).1.trans (by decide)⟩

/-- C28 (counterexample): the header max-age=abc has no max-age=<decimal> parameter,
and parse_strict_transport_security succeeds on it, with max_age 0. -/
theorem parse_strict_transport_security_not_decimal :
    parse_strict_transport_security (some "max-age=abc".toList) = some (some (0, false))
      ∧ parse_strict_transport_security (some "max-age".toList) = some (some (0, false))
      ∧ parse_strict_transport_security (some "includeSubDomains".toList) = some none := by
  decide

/-! ## Content-Disposition -/

theorem lastIdx_lt (f : Char → Bool) (l : List Char) (d : Nat) (h : lastIdx f l = some d) :
    d < l.length := by
  unfold lastIdx at h
  cases h1 : l.reverse.findIdx? f with
  | none => rw [h1] at h; exact absurd h (by simp)
  | some i =>
    rw [h1] at h
    have hi : i < l.reverse.length := (List.findIdx?_eq_some_iff_findIdx_eq.1 h1).1
    rw [List.length_reverse] at hi
    simp only [Option.some.injEq] at h
    omega

theorem modify_param_value_bounds (s : List Char) (v : param_token) (k : Nat)
    (h1 : v.b ≤ v.e) :
    (modify_param_value s v k).b ≤ (modify_param_value s v k).e
      ∧ (modify_param_value s v k).e = v.e := by
  unfold modify_param_value
  by_cases hk : k = RFC2231_ENCODING
  · rw [if_pos hk]
    cases hl : lastIdx (fun c => decide (c = SQUOTE)) (span s v.b v.e) with
    | none => exact ⟨h1, rfl⟩
    | some d =>
      have := lastIdx_lt _ _ _ hl
      have := span_length_le s v.b v.e
      simp only []
      exact ⟨by omega, trivial⟩
  · rw [if_neg hk]
    exact ⟨h1, rfl⟩

theorem extract_param_finish_value (s : List Char) (cur : Nat) (n v : param_token)
    (h1 : v.b ≤ v.e) (h2 : v.e ≤ s.length) :
    ∀ w, (extract_param_finish s cur n v).value = some w → w.b ≤ w.e ∧ w.e ≤ s.length := by
  intro w hw
  unfold extract_param_finish at hw
  simp only [] at hw
  split_ifs at hw
  · simp only [Option.some.injEq] at hw
    subst hw
    obtain ⟨a, b⟩ := modify_param_value_bounds s v (modify_param_name s n).1 h1
    exact ⟨a, by rw [b]; exact h2⟩
  · simp only [Option.some.injEq] at hw
    subst hw
    exact ⟨h1, h2⟩

/-- The value token of a call of extract_param that returns true lies inside the
string. -/
theorem extract_param_value_bounds (s : List Char) (src : Nat) (sep : Char)
    (hok : (extract_param s src sep).ok = true) :
    ∀ w, (extract_param s src sep).value = some w → w.b ≤ w.e ∧ w.e ≤ s.length := by
  unfold extract_param at hok ⊢
  simp only [] at hok ⊢
  generalize scan s src c_isspace = p0 at hok ⊢
  by_cases c0 : charAt s p0 = NUL
  · rw [if_pos c0] at hok; exact absurd hok (by simp)
  rw [if_neg c0] at hok ⊢
  generalize scan s p0 (fun c => c ≠ NUL && !c_isspace c && c ≠ '=' && c ≠ sep) = p1
    at hok ⊢
  by_cases c1 : p0 = p1
  · rw [if_pos c1] at hok; exact absurd hok (by simp)
  rw [if_neg c1] at hok ⊢
  generalize scan s p1 c_isspace = p2 at hok ⊢
  by_cases c2 : (charAt s p2 = sep || charAt s p2 = NUL) = true
  · rw [if_pos c2]
    intro w hw
    exact absurd hw (by simp)
  rw [if_neg c2] at hok ⊢
  by_cases c4 : charAt s p2 ≠ '='
  · rw [if_pos c4] at hok; exact absurd hok (by simp)
  rw [if_neg c4] at hok ⊢
  have l2 : p2 < s.length := charAt_lt s p2 (by
    intro h
    simp only [Bool.or_eq_true, decide_eq_true_eq, not_or] at c2
    exact c2.2 h)
  have l3 := scan_le s (p2 + 1) c_isspace (by omega)
  generalize scan s (p2 + 1) c_isspace = p3 at hok l3 ⊢
  by_cases c5 : charAt s p3 = DQUOTE
  · rw [if_pos c5] at hok ⊢
    have g4 := scan_ge s (p3 + 1) (fun c => c ≠ NUL && c ≠ DQUOTE)
    generalize scan s (p3 + 1) (fun c => c ≠ NUL && c ≠ DQUOTE) = p4 at hok g4 ⊢
    by_cases c6 : charAt s p4 = NUL
    · rw [if_pos c6] at hok; exact absurd hok (by simp)
    rw [if_neg c6] at hok ⊢
    have l4 := charAt_lt s p4 c6
    generalize scan s (scan s (p4 + 1) c_isspace) (fun c => c ≠ NUL && c ≠ sep) = p6 at hok ⊢
    by_cases c7 : charAt s p6 = sep
    · rw [if_pos c7]
      exact extract_param_finish_value s _ _ ⟨p3 + 1, p4⟩ g4 (by simp only []; omega)
    rw [if_neg c7] at hok ⊢
    by_cases c8 : charAt s p6 ≠ NUL
    · rw [if_pos c8] at hok; exact absurd hok (by simp)
    rw [if_neg c8]
    exact extract_param_finish_value s _ _ ⟨p3 + 1, p4⟩ g4 (by simp only []; omega)
  · rw [if_neg c5]
    have g5 := scan_ge s p3 (fun c => c ≠ NUL && c ≠ sep)
    have l5 := scan_le s p3 (fun c => c ≠ NUL && c ≠ sep) l3
    generalize scan s p3 (fun c => c ≠ NUL && c ≠ sep) = p5 at g5 l5 ⊢
    have hd : ((span s p3 p5).reverse.dropWhile c_isspace).length ≤ p5 - p3 := by
      have a := ((span s p3 p5).reverse.dropWhile_sublist c_isspace).length_le
      have b := span_length_le s p3 p5
      rw [List.length_reverse] at a
      omega
    exact extract_param_finish_value s _ _ ⟨p3, _⟩ (by simp only []; omega)
      (by simp only []; omega)

theorem lastIdx_append_false (f : Char → Bool) (a r : List Char)
    (hr : ∀ x ∈ r, f x = false) : lastIdx f (a ++ r) = lastIdx f a := by
  unfold lastIdx
  rw [List.reverse_append, List.findIdx?_append,
    findIdx?_none_of_all f r.reverse (fun x hx => hr x (by simpa using hx))]
  simp only [Option.none_orElse, List.length_reverse, List.length_append, HOrElse.hOrElse,
    OrElse.orElse, Option.orElse]
  cases h : a.reverse.findIdx? f with
  | none => rfl
  | some i =>
    have hi : i < a.reverse.length := (List.findIdx?_eq_some_iff_findIdx_eq.1 h).1
    rw [List.length_reverse] at hi
    show some (a.length + r.length - 1 - (i + r.length)) = some (a.length - 1 - i)
    congr 1
    omega

theorem dropWhile_head_false (p : Char → Bool) (l : List Char) (c : Char) (r : List Char)
    (h : l.dropWhile p = c :: r) : p c = false := by
  induction l with
  | nil => simp at h
  | cons x t ih =>
    rw [List.dropWhile_cons] at h
    by_cases hx : p x = true
    · rw [if_pos hx] at h; exact ih h
    · rw [if_neg hx] at h
      simp only [List.cons.injEq] at h
      rw [← h.1]
      simpa using hx

/-- The index arithmetic of the two memrchr calls gives the length of what stands in
front of the text behind the last slash or backslash. -/
theorem basename_idx (t : List Char) :
    (match lastIdx (fun c => c = '/') t, lastIdx (fun c => c = BACKSLASH) t with
      | some last_slash, some last_bs => 1 + max last_slash last_bs
      | some last_slash, none => 1 + last_slash
      | none, some last_bs => 1 + last_bs
      | none, none => 0) + (spec_basename t).length = t.length := by
  have hsplit : t.reverse.takeWhile (fun c => c ≠ '/' && c ≠ BACKSLASH)
      ++ t.reverse.dropWhile (fun c => c ≠ '/' && c ≠ BACKSLASH) = t.reverse :=
    List.takeWhile_append_dropWhile _ _
  have hrest : ∀ x ∈ spec_basename t, (x ≠ '/' && x ≠ BACKSLASH) = true := by
    intro x hx
    unfold spec_basename at hx
    rw [List.mem_reverse] at hx
    have := List.mem_takeWhile_imp hx
    exact this
  have ht : t = (t.reverse.dropWhile (fun c => c ≠ '/' && c ≠ BACKSLASH)).reverse
      ++ spec_basename t := by
    unfold spec_basename
    rw [← List.reverse_append, hsplit, List.reverse_reverse]
  generalize spec_basename t = rest at hrest ht
  have hs : ∀ x ∈ rest, decide (x = '/') = false := by
    intro x hx
    have := hrest x hx
    simp only [Bool.and_eq_true, decide_eq_true_eq, ne_eq, decide_not,
      Bool.not_eq_true', decide_eq_false_iff_not] at this ⊢
    exact this.1
  have hb : ∀ x ∈ rest, decide (x = BACKSLASH) = false := by
    intro x hx
    have := hrest x hx
    simp only [Bool.and_eq_true, decide_eq_true_eq, ne_eq, decide_not,
      Bool.not_eq_true', decide_eq_false_iff_not] at this ⊢
    exact this.2
  cases hd : t.reverse.dropWhile (fun c => c ≠ '/' && c ≠ BACKSLASH) with
  | nil =>
    rw [hd] at ht
    simp only [List.reverse_nil, List.nil_append] at ht
    subst ht
    rw [lastIdx_none _ t hs, lastIdx_none _ t hb]
    simp
  | cons c a' =>
    have hc : (c ≠ '/' && c ≠ BACKSLASH) = false :=
      dropWhile_head_false (fun c => c ≠ '/' && c ≠ BACKSLASH) t.reverse c a' hd
    rw [hd] at ht
    simp only [List.reverse_cons, List.append_assoc, List.singleton_append] at ht
    generalize a'.reverse = a at ht
    subst ht
    by_cases h1 : c = '/'
    · subst h1
      rw [lastIdx_last_match _ a '/' rest hs (by decide),
        lastIdx_append_false _ a ('/' :: rest) (by
          intro x hx
          rcases List.mem_cons.1 hx with h | h
          · subst h; decide
          · exact hb x h)]
      cases h2 : lastIdx (fun c => decide (c = BACKSLASH)) a with
      | none =>
        show 1 + a.length + rest.length = (a ++ '/' :: rest).length
        simp only [List.length_append, List.length_cons]
        omega
      | some j =>
        have hj := lastIdx_lt _ _ _ h2
        show 1 + max a.length j + rest.length = (a ++ '/' :: rest).length
        rw [max_eq_left (le_of_lt hj)]
        simp only [List.length_append, List.length_cons]
        omega
    · have h2 : c = BACKSLASH := by
        simp only [ne_eq, decide_not, Bool.and_eq_false_imp, Bool.not_eq_true',
          decide_eq_false_iff_not, not_not, Bool.not_eq_eq_eq_not, Bool.not_true,
          decide_eq_true_eq] at hc
        by_contra h3
        simp [h1, h3] at hc
      subst h2
      rw [lastIdx_last_match _ a BACKSLASH rest hb (by decide),
        lastIdx_append_false _ a (BACKSLASH :: rest) (by
          intro x hx
          rcases List.mem_cons.1 hx with h | h
          · subst h; decide
          · exact hs x h)]
      cases h2 : lastIdx (fun c => decide (c = '/')) a with
      | none =>
        show 1 + a.length + rest.length = (a ++ BACKSLASH :: rest).length
        simp only [List.length_append, List.length_cons]
        omega
      | some j =>
        have hj := lastIdx_lt _ _ _ h2
        show 1 + max j a.length + rest.length = (a ++ BACKSLASH :: rest).length
        rw [max_eq_right (le_of_lt hj)]
        simp only [List.length_append, List.length_cons]
        omega

theorem spec_basename_suffix (t : List Char) : ∃ pre, t = pre ++ spec_basename t := by
  refine ⟨(t.reverse.dropWhile (fun c => c ≠ '/' && c ≠ BACKSLASH)).reverse, ?_⟩
  unfold spec_basename
  rw [← List.reverse_append, List.takeWhile_append_dropWhile, List.reverse_reverse]

/-- The pointer arithmetic of parse_content_disposition leaves the text behind the
last slash or backslash of the value. -/
theorem basename_start_spec (hdr : List Char) (v : param_token) (h1 : v.b ≤ v.e)
    (h2 : v.e ≤ hdr.length) :
    span hdr (basename_start hdr v) v.e = spec_basename (span hdr v.b v.e)
      ∧ (basename_start hdr v = v.e ↔ spec_basename (span hdr v.b v.e) = []) := by
  have hi := basename_idx (span hdr v.b v.e)
  have hl := span_length hdr v.b v.e h1 h2
  obtain ⟨pre, hpre⟩ := spec_basename_suffix (span hdr v.b v.e)
  have hlen : pre.length + (spec_basename (span hdr v.b v.e)).length = v.e - v.b := by
    rw [← hl]
    conv_rhs => rw [hpre]
    rw [List.length_append]
  have hk : ∃ K, basename_start hdr v = v.b + K
      ∧ K + (spec_basename (span hdr v.b v.e)).length = v.e - v.b := by
    unfold basename_start
    rw [hl] at hi
    cases a : lastIdx (fun c => decide (c = '/')) (span hdr v.b v.e) with
    | none =>
      cases b : lastIdx (fun c => decide (c = BACKSLASH)) (span hdr v.b v.e) with
      | none =>
        rw [a, b] at hi
        exact ⟨0, rfl, hi⟩
      | some y =>
        rw [a, b] at hi
        exact ⟨1 + y, by simp only []; omega, hi⟩
    | some x =>
      cases b : lastIdx (fun c => decide (c = BACKSLASH)) (span hdr v.b v.e) with
      | none =>
        rw [a, b] at hi
        exact ⟨1 + x, by simp only []; omega, hi⟩
      | some y =>
        rw [a, b] at hi
        exact ⟨1 + max x y, by simp only []; omega, hi⟩
  obtain ⟨K, e1, e2⟩ := hk
  have hK : pre.length = K := by omega
  constructor
  · rw [e1, span_add]
    conv_lhs => rw [hpre]
    rw [← hK, List.drop_left]
  · rw [e1]
    constructor
    · intro h
      exact List.length_eq_zero.1 (by omega)
    · intro h
      rw [h, List.length_nil] at e2
      omega

/-- The pieces are found for every header, with the fuel that parse_content_disposition
is given. -/
theorem spec_filename_pieces_total (hdr : List Char) (fuel src : Nat)
    (h : hdr.length < fuel + src) (hs : src ≤ hdr.length) :
    ∃ ps, spec_filename_pieces hdr fuel src = some ps := by
  induction fuel generalizing src with
  | zero => omega
  | succ n ih =>
    unfold spec_filename_pieces
    simp only []
    by_cases hok : (extract_param hdr src ';').ok = true
    · rw [if_pos hok]
      have hp := extract_param_progress hdr src ';' (by decide) hok
      obtain ⟨ps, e⟩ := ih _ (by omega) hp.2
      rw [e]
      exact ⟨_, rfl⟩
    · rw [if_neg hok]
      exact ⟨_, rfl⟩

/-- The loop of parse_content_disposition adds the pieces of each kind, in order, to
the file name of that kind. -/
theorem parse_content_disposition_loop_eq (hdr : List Char) (fuel src : Nat)
    (e u : Option (List Char)) :
    parse_content_disposition_loop hdr fuel src e u
      = (spec_filename_pieces hdr fuel src).map (fun ps =>
          (if ps.filter (fun p => p.1) = [] then e
            else some (e.getD [] ++ ((ps.filter (fun p => p.1)).map (fun p => p.2)).flatten),
           if ps.filter (fun p => !p.1) = [] then u
            else some (u.getD []
              ++ ((ps.filter (fun p => !p.1)).map (fun p => p.2)).flatten))) := by
  induction fuel generalizing src e u with
  | zero => rfl
  | succ n ih =>
    unfold parse_content_disposition_loop spec_filename_pieces
    simp only []
    by_cases hok : (extract_param hdr src ';').ok = true
    · rw [if_pos hok, if_pos hok]
      obtain ⟨hb, he⟩ := extract_param_name_bounds hdr src ';' hok
      have hv := extract_param_value_bounds hdr src ';' hok
      rw [BOUNDED_EQUAL_NO_CASE_iff hdr _ _ "filename".toList (by decide) hb he]
      have e1 : "filename".toList.map c_tolower = "filename".toList := by decide
      rw [e1]
      clear e1
      generalize "filename".toList = A at ih ⊢
      generalize extract_param hdr src ';' = r at hok hb he hv ⊢
      obtain ⟨rok, rsource, rname, rvalue, renc⟩ := r
      simp only [] at hb he hv ⊢
      cases rvalue with
      | none =>
        simp only []
        rw [ih]
        cases spec_filename_pieces hdr n rsource <;> rfl
      | some v =>
        obtain ⟨v1, v2⟩ := hv v rfl
        obtain ⟨b1, b2⟩ := basename_start_spec hdr v v1 v2
        simp only []
        by_cases m1 : (span hdr rname.b rname.e).map c_tolower = A
        · simp only [m1, decide_True, if_true, true_and]
          by_cases m2 : spec_basename (span hdr v.b v.e) = []
          · rw [if_pos (b2.2 m2), ih]
            simp only [m2, ne_eq, not_true_eq_false, if_false]
            cases spec_filename_pieces hdr n rsource <;> rfl
          · rw [if_neg (fun h => m2 (b2.1 h)), b1]
            simp only [ne_eq, m2, not_false_eq_true, if_true]
            by_cases m3 : (decide (charAt hdr rname.e = '*')
                && !c_isdigit (charAt hdr (rname.e + 1))) = true
            · rw [if_pos m3, ih]
              cases spec_filename_pieces hdr n rsource with
              | none => rfl
              | some rest =>
                simp only [Option.map_some', m3, List.filter_cons, if_true,
                  Bool.not_true, Bool.false_eq_true, if_false, append_value_to_filename,
                  Option.getD_some, List.map_cons, List.flatten_cons, reduceCtorEq]
                by_cases m4 : rest.filter (fun p => p.1) = []
                · simp [m4]
                · simp [m4]
            · rw [if_neg m3, ih]
              have m3' : (decide (charAt hdr rname.e = '*')
                && !c_isdigit (charAt hdr (rname.e + 1))) = false := by simpa using m3
              cases spec_filename_pieces hdr n rsource with
              | none => rfl
              | some rest =>
                simp only [Option.map_some', m3', List.filter_cons, if_true,
                  Bool.not_false, Bool.false_eq_true, if_false, append_value_to_filename,
                  Option.getD_some, List.map_cons, List.flatten_cons, reduceCtorEq]
                by_cases m4 : rest.filter (fun p => !p.1) = []
                · simp [m4]
                · simp [m4]
        · simp only [m1, decide_False, Bool.false_eq_true, if_false, false_and]
          rw [ih]
          cases spec_filename_pieces hdr n rsource <;> rfl
    · rw [if_neg hok, if_neg hok]
      rfl

theorem filter_not_of_filter_nil (ps : List (Bool × List Char))
    (h : ps.filter (fun p => p.1) = []) : ps.filter (fun p => !p.1) = ps := by
  rw [List.filter_eq_self]
  intro p hp
  rw [List.filter_eq_nil_iff] at h
  have := h p hp
  simpa using this

/-- C27 (amended): parse_content_disposition always returns, and what it returns is
chosen from the file name pieces of the header (the basenames of the values that the
successive extract_param calls deliver under the name filename, those with an empty
basename left out): the pieces of the encoded kind, concatenated in order of
appearance, when there is one; otherwise the pieces of the unencoded kind,
concatenated in order of appearance; and false when there is no piece. -/
theorem parse_content_disposition_spec (hdr : List Char) :
    ∃ ps, spec_filename_pieces hdr (hdr.length + 1) 0 = some ps
      ∧ parse_content_disposition hdr = some (spec_filename ps) := by
  obtain ⟨ps, e⟩ := spec_filename_pieces_total hdr (hdr.length + 1) 0 (by omega)
    (Nat.zero_le _)
  refine ⟨ps, e, ?_⟩
  unfold parse_content_disposition spec_filename
  rw [parse_content_disposition_loop_eq, e]
  simp only [Option.map_some', Option.getD_none, List.nil_append]
  by_cases h1 : ps.filter (fun p => p.1) = []
  · rw [if_pos h1, filter_not_of_filter_nil ps h1]
    simp only [h1, ne_eq, not_true_eq_false, if_false]
    by_cases h2 : ps = []
    · simp [h2]
    · simp [h2]
  · rw [if_neg h1]
    simp only [ne_eq, h1, not_false_eq_true, if_true]

/-- C27 (counterexample): for attachment; filename=a.txt; filename=b.txt the result
is a.txtb.txt, not b.txt. -/
theorem parse_content_disposition_two_filenames :
    parse_content_disposition "attachment; filename=a.txt; filename=b.txt".toList
        = some (some "a.txtb.txt".toList)
      ∧ "a.txtb.txt".toList ≠ "b.txt".toList := by
  refine ⟨by decide, by decide⟩

/-- C26: for the header attachment; filename*=UTF-8''a%2Fb.txt the function returns
true with the file name a/b.txt, which contains a slash: the basename is taken from
the value as written, and the percent-encoded slash is decoded afterwards.  The
header attachment; filename="dir/" makes it return false. -/
theorem parse_content_disposition_encoded_slash :
    parse_content_disposition
        ("attachment; filename*=UTF-8".toList ++ [SQUOTE, SQUOTE] ++ "a%2Fb.txt".toList)
      = some (some "a/b.txt".toList)
    ∧ '/' ∈ "a/b.txt".toList
    ∧ parse_content_disposition
        ("attachment; filename=".toList ++ [DQUOTE] ++ "dir/".toList ++ [DQUOTE])
      = some none := by
  refine ⟨by decide, by decide, by decide⟩

/-! ## Response head: reads of the index -/

/-- From an index inside the array the loop of resp_header_locate ends without a read
past the terminator, and a header it finds has a following entry. -/
theorem resp_header_locate_loop_defined (data : List Char) (hs : List Nat) (name : List Char)
    (fuel i : Nat) (hi : i + 1 ≤ hs.length) (hf : hs.length ≤ fuel + i) :
    ∃ r, resp_header_locate_loop data hs name fuel i = some r
      ∧ ∀ j b e, r = some (j, b, e) → i ≤ j ∧ j + 1 < hs.length := by
  induction fuel generalizing i with
  | zero => omega
  | succ n ih =>
    unfold resp_header_locate_loop
    rw [if_neg (by omega)]
    by_cases hlast : hs.length = i + 1
    · rw [if_pos hlast]
      exact ⟨none, rfl, fun j b e h => absurd h (by simp)⟩
    · rw [if_neg hlast]
      simp only []
      split_ifs with hm
      · refine ⟨_, rfl, ?_⟩
        intro j b e h
        simp only [Option.some.injEq, Prod.mk.injEq] at h
        omega
      · obtain ⟨r, h1, h2⟩ := ih (i + 1) (by omega) (by omega)
        refine ⟨r, h1, ?_⟩
        intro j b e h
        have := h2 j b e h
        omega

theorem resp_header_locate_loop_reads_le (data : List Char) (hs : List Nat)
    (name : List Char) (fuel i : Nat) (hi : i + 1 ≤ hs.length) :
    ∀ k ∈ resp_header_locate_loop_reads data hs name fuel i, k ≤ hs.length := by
  induction fuel generalizing i with
  | zero =>
    intro k hk
    simp [resp_header_locate_loop_reads] at hk
  | succ n ih =>
    intro k hk
    unfold resp_header_locate_loop_reads at hk
    by_cases hlast : hs.length ≤ i + 1
    · rw [if_pos hlast] at hk
      simp only [List.mem_singleton] at hk
      omega
    · rw [if_neg hlast] at hk
      simp only [] at hk
      split_ifs at hk with hm
      · simp only [List.mem_cons, List.mem_singleton, List.not_mem_nil, or_false] at hk
        omega
      · simp only [List.cons_append, List.nil_append, List.mem_cons] at hk
        rcases hk with h | h | h | h
        · omega
        · omega
        · omega
        · exact ih (i + 1) (by omega) k h

/-- The index that resp_new builds holds at least one entry in front of its
terminator. -/
theorem resp_new_total (head : List Char) :
    ∃ resp, resp_new head = some resp ∧ ∀ hs, resp.headers = some hs → 1 ≤ hs.length := by
  unfold resp_new
  by_cases h0 : charAt head 0 = NUL
  · rw [if_pos h0]
    exact ⟨_, rfl, fun hs h => absurd h (by simp)⟩
  · rw [if_neg h0]
    obtain ⟨d, hs, g1, _⟩ := resp_new_loop_spec (head.length + 1) head 0 [] (by omega) (by omega)
    rw [g1]
    refine ⟨_, rfl, ?_⟩
    intro hs2 h
    simp only [List.nil_append, Option.some.injEq] at h
    subst h
    simp

theorem resp_header_locate_defined (resp : response) (hs : List Nat) (name : List Char)
    (start : Nat) (hh : resp.headers = some hs) (h1 : 1 ≤ hs.length)
    (hstart : start + 1 ≤ hs.length) :
    (∀ k ∈ resp_header_locate_reads resp name start, k ≤ hs.length)
      ∧ ∃ r, resp_header_locate resp name start = some r
          ∧ ∀ j b e, r = some (j, b, e) → j + 1 < hs.length := by
  obtain ⟨data, headers⟩ := resp
  simp only [] at hh
  subst hh
  unfold resp_header_locate_reads resp_header_locate
  simp only []
  by_cases hl : hs.length ≤ 1
  · rw [if_pos hl, if_pos hl]
    refine ⟨?_, none, rfl, fun j b e h => absurd h (by simp)⟩
    intro k hk
    simp only [List.mem_singleton] at hk
    omega
  · rw [if_neg hl, if_neg hl]
    have hi : (if start > 0 then start else 1) + 1 ≤ hs.length := by
      split_ifs <;> omega
    constructor
    · intro k hk
      rcases List.mem_cons.1 hk with h | h
      · omega
      · exact resp_header_locate_loop_reads_le data hs name _ _ hi k h
    · obtain ⟨r, e1, e2⟩ := resp_header_locate_loop_defined data hs name (hs.length + 1)
        (if start > 0 then start else 1) hi (by omega)
      exact ⟨r, e1, fun j b e h => (e2 j b e h).2⟩

/-- C22: for every head text resp_new returns a response, and when it has an index the
index holds at least one entry in front of its NULL terminator, so that: the reads
of resp_status (entries 0 and 1) stay within the array and its terminator; a call
of resp_header_locate with start 0, or with one more than an index that a call
returned, is defined and reads no entry past the terminator; a header that such a
call finds always has a following entry; and when the first entry has no following
entry resp_status returns -1 and resp_header_locate returns -1. -/
theorem resp_index_reads_in_bounds (head : List Char) :
    ∃ resp, resp_new head = some resp
      ∧ ∀ hs, resp.headers = some hs →
          1 ≤ hs.length
          ∧ (∀ k ∈ resp_status_reads resp, k ≤ hs.length)
          ∧ (∀ name, (∀ k ∈ resp_header_locate_reads resp name 0, k ≤ hs.length)
              ∧ ∃ r, resp_header_locate resp name 0 = some r)
          ∧ (∀ name start i b e, resp_header_locate resp name start = some (some (i, b, e)) →
              i + 1 < hs.length
                ∧ ∀ next, (∀ k ∈ resp_header_locate_reads resp next (i + 1), k ≤ hs.length)
                    ∧ ∃ r, resp_header_locate resp next (i + 1) = some r)
          ∧ (hs.length = 1 →
              (∀ want_message, resp_status resp want_message = (-1, none))
                ∧ ∀ name start, resp_header_locate resp name start = some none) := by
  obtain ⟨resp, hr, hlen⟩ := resp_new_total head
  refine ⟨resp, hr, ?_⟩
  intro hs hh
  have h1 := hlen hs hh
  refine ⟨h1, ?_, ?_, ?_, ?_⟩
  · intro k hk
    unfold resp_status_reads at hk
    rw [hh] at hk
    simp only [List.mem_cons, List.mem_singleton, List.not_mem_nil, or_false] at hk
    omega
  · intro name
    obtain ⟨a, r, b, _⟩ := resp_header_locate_defined resp hs name 0 hh h1 (by omega)
    exact ⟨a, r, b⟩
  · intro name start i b e hfound
    have hi : i + 1 < hs.length := by
      obtain ⟨data, headers⟩ := resp
      simp only [] at hh
      subst hh
      unfold resp_header_locate at hfound
      simp only [] at hfound
      by_cases hl : hs.length ≤ 1
      · rw [if_pos hl] at hfound
        exact absurd hfound (by simp)
      · rw [if_neg hl] at hfound
        by_cases hst : (if start > 0 then start else 1) + 1 ≤ hs.length
        · obtain ⟨r, e1, e2⟩ := resp_header_locate_loop_defined data hs name (hs.length + 1)
            (if start > 0 then start else 1) hst (by omega)
          rw [e1] at hfound
          simp only [Option.some.injEq] at hfound
          exact (e2 i b e hfound).2
        · unfold resp_header_locate_loop at hfound
          rw [if_pos (by omega)] at hfound
          exact absurd hfound (by simp)
    refine ⟨hi, ?_⟩
    intro next
    obtain ⟨a, r, c, _⟩ := resp_header_locate_defined resp hs next (i + 1) hh h1 (by omega)
    exact ⟨a, r, c⟩
  · intro hone
    obtain ⟨data, headers⟩ := resp
    simp only [] at hh
    subst hh
    constructor
    · intro want_message
      unfold resp_status
      simp only []
      rw [if_pos (by omega)]
    · intro name start
      unfold resp_header_locate
      simp only []
      rw [if_pos (by omega)]

/-- C22 (witness): the head HTTP/1.1 200 OK, which has no line feed, gets the index
0, 15; resp_header_locate with start 0 reads the entries 1 and 2 of the array, the
second being the terminator, and returns -1. -/
theorem resp_index_reads_in_bounds_witness :
    resp_new "HTTP/1.1 200 OK".toList = some ⟨"HTTP/1.1 200 OK".toList, some [0, 15]⟩
      ∧ resp_header_locate_reads ⟨"HTTP/1.1 200 OK".toList, some [0, 15]⟩ "Host".toList 0
          = [1, 2]
      ∧ (∀ k ∈ resp_header_locate_reads ⟨"HTTP/1.1 200 OK".toList, some [0, 15]⟩
          "Host".toList 0, k ≤ 2)
      ∧ resp_header_locate ⟨"HTTP/1.1 200 OK".toList, some [0, 15]⟩ "Host".toList 0
          = some none := by
  have hnew : resp_new "HTTP/1.1 200 OK".toList
      = some ⟨"HTTP/1.1 200 OK".toList, some [0, 15]⟩ := by decide
  obtain ⟨resp, hr, h⟩ := resp_index_reads_in_bounds "HTTP/1.1 200 OK".toList
  rw [hnew] at hr
  injection hr with hr
  subst hr
  exact ⟨hnew, by decide, ((h [0, 15] rfl).2.2.1 "Host".toList).1, by decide⟩

/-! ## Response head: folded lines -/

theorem getD_takeWhile_lt (l : List Char) (f : Char → Bool) (k : Nat)
    (h : k < (l.takeWhile f).length) : f (l.getD k NUL) = true := by
  induction l generalizing k with
  | nil => simp at h
  | cons a t ih =>
    by_cases ha : f a = true
    · rw [List.takeWhile_cons_of_pos ha] at h
      cases k with
      | zero => simpa using ha
      | succ n =>
        simp only [List.length_cons, Nat.add_lt_add_iff_right] at h
        simpa using ih n h
    · rw [List.takeWhile_cons_of_neg ha] at h
      simp at h

/-- Every byte that a scan passes satisfies the predicate. -/
theorem scan_all (s : List Char) (p : Nat) (f : Char → Bool) (j : Nat) (h1 : p ≤ j)
    (h2 : j < scan s p f) : f (charAt s j) = true := by
  unfold scan at h2
  obtain ⟨k, rfl⟩ : ∃ k, j = p + k := ⟨j - p, by omega⟩
  rw [charAt_eq_getD_drop]
  exact getD_takeWhile_lt _ f k (by omega)

/-- C31: persistent_available_p answers yes only for an active record with the same
port whose cached host equals the host ignoring case, or whose socket has a peer
address among the addresses the host resolves to, and whose liveness probe succeeds,
and it then leaves the record alone; it answers no, leaving the record alone, when
no record is active or the port differs; and when the probe is reached and fails it
answers no and the record has been invalidated (inactive, cleared, socket closed).
For an active record with a cached host the call always returns. -/
theorem persistent_available_p_spec (socket_ip_address : Int → Option Nat)
    (lookup_host : List Char → Option (List Nat)) (test_socket_open : Int → Bool)
    (st : pconn_state) (host : List Char) (port : Int) :
    (∀ st2 failed, persistent_available_p socket_ip_address lookup_host test_socket_open
          st host port = some (true, st2, failed) →
        st.pconn_active = true ∧ port = st.pconn.port
          ∧ (∃ h, st.pconn.host = some h
              ∧ (c_strcasecmp host h = 0
                ∨ ∃ ip al, socket_ip_address st.pconn.socket = some ip
                    ∧ lookup_host host = some al ∧ ip ∈ al))
          ∧ test_socket_open st.pconn.socket = true ∧ st2 = st)
      ∧ (st.pconn_active = false ∨ port ≠ st.pconn.port →
          persistent_available_p socket_ip_address lookup_host test_socket_open st host port
            = some (false, st, false))
      ∧ (∀ h, st.pconn_active = true → port = st.pconn.port → st.pconn.host = some h →
          (c_strcasecmp host h = 0
            ∨ ∃ ip al, socket_ip_address st.pconn.socket = some ip
                ∧ lookup_host host = some al ∧ ip ∈ al) →
          test_socket_open st.pconn.socket = false →
          persistent_available_p socket_ip_address lookup_host test_socket_open st host port
            = some (false, invalidate_persistent st, false)
          ∧ (invalidate_persistent st).pconn_active = false
          ∧ (invalidate_persistent st).pconn = ⟨0, none, 0, false, false, 0⟩)
      ∧ (∀ h, st.pconn.host = some h →
          ∃ r, persistent_available_p socket_ip_address lookup_host test_socket_open
            st host port = some r) := by
  refine ⟨?_, ?_, ?_, ?_⟩
  · intro st2 failed hr
    unfold persistent_available_p at hr
    by_cases a : st.pconn_active = false
    · rw [if_pos a] at hr; simp at hr
    rw [if_neg a] at hr
    by_cases b : port ≠ st.pconn.port
    · rw [if_pos b] at hr; simp at hr
    rw [if_neg b] at hr
    cases hh : st.pconn.host with
    | none => rw [hh] at hr; simp at hr
    | some h =>
      rw [hh] at hr
      simp only [] at hr
      have hprobe : ∀ (x : Bool × pconn_state × Bool),
          (if test_socket_open st.pconn.socket = false then
              (false, invalidate_persistent st, false) else (true, st, false)) = x →
          x = (true, st2, failed) → test_socket_open st.pconn.socket = true ∧ st2 = st := by
        intro x hx hx2
        by_cases c : test_socket_open st.pconn.socket = false
        · rw [if_pos c] at hx; rw [← hx] at hx2; simp at hx2
        · rw [if_neg c] at hx; rw [← hx] at hx2
          simp only [Prod.mk.injEq, true_and] at hx2
          exact ⟨by simpa using c, hx2.1.symm⟩
      by_cases d : c_strcasecmp host h ≠ 0
      · rw [if_pos d] at hr
        cases hip : socket_ip_address st.pconn.socket with
        | none => rw [hip] at hr; simp at hr
        | some ip =>
          rw [hip] at hr
          simp only [] at hr
          cases hal : lookup_host host with
          | none => rw [hal] at hr; simp at hr
          | some al =>
            rw [hal] at hr
            simp only [] at hr
            by_cases e : al.contains ip = false
            · rw [if_pos e] at hr; simp at hr
            · rw [if_neg e] at hr
              obtain ⟨p1, p2⟩ := hprobe _ rfl (Option.some.inj hr)
              refine ⟨by simpa using a, not_not.1 b, ⟨h, rfl, Or.inr ⟨ip, al, rfl, rfl, ?_⟩⟩,
                p1, p2⟩
              simpa using e
      · rw [if_neg d] at hr
        obtain ⟨p1, p2⟩ := hprobe _ rfl (Option.some.inj hr)
        exact ⟨by simpa using a, not_not.1 b, ⟨h, rfl, Or.inl (not_not.1 d)⟩, p1, p2⟩
  · intro h
    unfold persistent_available_p
    by_cases a : st.pconn_active = false
    · rw [if_pos a]
    · rw [if_neg a]
      rcases h with h | h
      · exact absurd h a
      · rw [if_pos h]
  · intro h ha hp hh hm hprobe
    refine ⟨?_, rfl, rfl⟩
    unfold persistent_available_p
    rw [if_neg (by simp [ha]), if_neg (by simp [hp]), hh]
    simp only [hprobe, if_true]
    by_cases d : c_strcasecmp host h ≠ 0
    · rw [if_pos d]
      rcases hm with hm | ⟨ip, al, h1, h2, h3⟩
      · exact absurd hm d
      · rw [h1]
        simp only []
        rw [h2]
        simp only []
        rw [if_neg (by simpa using h3)]
    · rw [if_neg d]
  · intro h hh
    unfold persistent_available_p
    rw [hh]
    simp only []
    by_cases a : st.pconn_active = false
    · rw [if_pos a]; exact ⟨_, rfl⟩
    rw [if_neg a]
    by_cases b : port ≠ st.pconn.port
    · rw [if_pos b]; exact ⟨_, rfl⟩
    rw [if_neg b]
    by_cases d : c_strcasecmp host h ≠ 0
    · rw [if_pos d]
      cases socket_ip_address st.pconn.socket with
      | none => exact ⟨_, rfl⟩
      | some ip =>
        cases lookup_host host with
        | none => exact ⟨_, rfl⟩
        | some al =>
          simp only []
          by_cases e : al.contains ip = false
          · rw [if_pos e]; exact ⟨_, rfl⟩
          · rw [if_neg e]; exact ⟨_, rfl⟩
    · rw [if_neg d]; exact ⟨_, rfl⟩

/-- C31 (witness): the record holds socket 5 for host a, port 80.  A request for
host A, port 80 is answered yes when the probe succeeds; when the probe fails the
answer is no and the record is cleared with the socket closed. -/
theorem persistent_available_p_spec_witness :
    persistent_available_p (fun _ => none) (fun _ => none) (fun _ => false)
        ⟨true, ⟨5, some "a".toList, 80, false, false, 0⟩, []⟩ "A".toList 80
      = some (false, ⟨false, ⟨0, none, 0, false, false, 0⟩, [5]⟩, false)
    ∧ persistent_available_p (fun _ => none) (fun _ => none) (fun _ => true)
        ⟨true, ⟨5, some "a".toList, 80, false, false, 0⟩, []⟩ "A".toList 80
      = some (true, ⟨true, ⟨5, some "a".toList, 80, false, false, 0⟩, []⟩, false) :=
  ⟨((persistent_available_p_spec (fun _ => none) (fun _ => none) (fun _ => false)
      ⟨true, ⟨5, some "a".toList, 80, false, false, 0⟩, []⟩ "A".toList 80).2.2.1
      "a".toList rfl rfl rfl (Or.inl (by decide)) rfl).1,
    by decide⟩

/-! ## Digest authentication: unsupported qop and algorithm -/

/-- C35 (counterexample): for the challenge Digest realm=r, nonce=n1, qop=auth-int
the function returns an Authorization value (the RFC 2069 header, without qop) and
leaves the error code alone. -/
theorem digest_unsupported_qop_answered :
    digest_authentication_encode (fun _ => []) 48879
        "Digest realm=r, nonce=n1, qop=auth-int".toList
        (some "u".toList) (some "p".toList) (some "GET".toList) (some "/x".toList)
        uerr_t.RETROK
      = some (some ("Digest username=".toList ++ [DQUOTE] ++ "u".toList ++ [DQUOTE]
            ++ ", realm=".toList ++ [DQUOTE] ++ "r".toList ++ [DQUOTE]
            ++ ", nonce=".toList ++ [DQUOTE] ++ "n1".toList ++ [DQUOTE]
            ++ ", uri=".toList ++ [DQUOTE] ++ "/x".toList ++ [DQUOTE]
            ++ ", response=".toList ++ [DQUOTE]
            ++ md5_hex (fun _ => []) [] ++ [DQUOTE]), uerr_t.RETROK) := by
  rfl

/-- The header that the function composes when the challenge has realm and nonce and
no usable qop fits the result buffer, so a value is returned. -/
theorem digest_rfc2069_value (md5 : List Char → List Nat) (rnd : Nat)
    (au user passwd method path : List Char) (auth_err : uerr_t) (ps : digest_params)
    (realm nonce : List Char) (hlen : 6 ≤ au.length) (hps : digest_parse au = some ps)
    (hrealm : ps.realm = some realm) (hnonce : ps.nonce = some nonce)
    (hqop : ps.qop ≠ some "auth".toList) :
    ∃ v, digest_authentication_encode md5 rnd au (some user) (some passwd) (some method)
        (some path) auth_err = some (some v, auth_err) := by
  obtain ⟨prealm, popq, pnonce, pqop, palg⟩ := ps
  simp only at hrealm hnonce hqop
  subst hrealm hnonce
  unfold digest_authentication_encode
  rw [if_neg (by omega), hps]
  have e1 : "Digest username=".toList.length = 16 := rfl
  have e2 : ", realm=".toList.length = 8 := rfl
  have e3 : ", nonce=".toList.length = 8 := rfl
  have e4 : ", uri=".toList.length = 6 := rfl
  have e5 : ", response=".toList.length = 11 := rfl
  have fits : ∀ (text : List Char) (alg : Option (List Char)) (cn : List Char),
      text.length = user.length + realm.length + nonce.length + path.length + 91 →
      ∃ v, digest_emit (user.length + realm.length + nonce.length + path.length
          + 2 * MD5_DIGEST_SIZE
          + (match popq with | some o => o.length | none => 0)
          + (match alg with | some a => a.length | none => 0) + 0 + cn.length + 128)
        text popq alg auth_err = some (some v, auth_err) := by
    intro text alg cn htext
    rw [digest_emit_fits _ _ _ _ _ (by
      rw [htext]
      simp only [MD5_DIGEST_SIZE]
      cases popq <;> cases alg <;> simp only <;> omega)]
    exact ⟨_, rfl⟩
  generalize "auth".toList = A at hqop ⊢
  cases pqop with
  | none =>
    simp only [Bool.false_eq_true, if_false, reduceCtorEq, decide_False, Bool.false_and,
      Option.isSome_none]
    refine fits _ _ _ ?_
    simp only [List.length_append, List.length_cons, List.length_nil, md5_hex_length,
      e1, e2, e3, e4, e5]
    omega
  | some q =>
    have h1 : decide (q ≠ A) = true := by simpa using hqop
    simp only [h1, if_true, Bool.false_eq_true, if_false, reduceCtorEq, decide_False,
      Bool.false_and, Option.isSome_none]
    refine fits _ _ _ ?_
    simp only [List.length_append, List.length_cons, List.length_nil, md5_hex_length,
      e1, e2, e3, e4, e5]
    omega

/-! ## The retry loop: the preliminary HEAD request -/

theorem set_file_timestamp_ok (b : Bool) (stat : List Char → Option (Int × Int × Bool))
    (hs : http_stat) : (set_file_timestamp b stat hs).1 = uerr_t.RETROK := by
  unfold set_file_timestamp
  simp only []
  split <;> rfl

/-- C36 (amended): when http_loop enters its loop, send_head_first is true exactly
when spider mode is on, or content_disposition and always_rest are both on, or
timestamping is on, the conditional GET is not chosen (it is chosen when
if_modified_since is on, neither of the two conditions before holds, the file name
is known and the destination file exists), and content_disposition is on or the
destination file exists. -/
theorem http_loop_send_head_first (E : http_loop_env) (dt0 : dt_flags) (S : http_loop_state)
    (h : http_loop_prelude E dt0 = .enter S) :
    S.send_head_first
      = (E.opt.spider || (E.opt.content_disposition && E.opt.always_rest)
          || (E.opt.timestamping
              && !(E.opt.if_modified_since
                    && !(E.opt.spider || (E.opt.content_disposition && E.opt.always_rest))
                    && (E.opt.output_document.isSome || !E.opt.content_disposition)
                    && E.file_exists_p (E.opt.output_document.getD E.url_file_name))
              && (E.opt.content_disposition
                    || E.file_exists_p (E.opt.output_document.getD E.url_file_name)))) := by
  obtain ⟨opt, proxy, ufn, fe, hh, st, gh, atm, u8⟩ := E
  obtain ⟨warc, od, cd, nc, sp, ar, ts, ims, bc, spos, ac, ntry, rhe, rhh, rec⟩ := opt
  unfold http_loop_prelude at h
  simp only [set_file_timestamp_ok, ne_eq, not_true_eq_false, if_false] at h ⊢
  cases od with
  | some d =>
    simp only [Option.getD_some] at h ⊢
    generalize fe d = ex at h ⊢
    cases cd <;> cases sp <;> cases ar <;> cases ts <;> cases ims <;> cases ex <;>
      simp at h <;> (subst h; rfl)
  | none =>
    cases cd with
    | false =>
      simp only [Option.getD_none, Bool.not_false, if_true, Option.getD_some] at h ⊢
      generalize fe ufn = ex at h ⊢
      cases nc <;> cases sp <;> cases ar <;> cases ts <;> cases ims <;> cases ex <;>
        simp at h <;> (subst h; rfl)
    | true =>
      simp only [Option.getD_none, Bool.not_true, Bool.false_eq_true, if_false] at h ⊢
      generalize fe ufn = ex at h ⊢
      generalize fe [] = ex0 at h ⊢
      cases sp <;> cases ar <;> cases ts <;> cases ims <;> cases ex <;> cases ex0 <;>
        simp at h <;> (subst h; rfl)

/-- C36 (witness): with timestamping on, if_modified_since off and the destination
file present, the loop starts with send_head_first true. -/
theorem http_loop_send_head_first_witness :
    (match http_loop_prelude (http_loop_env_example true false 20 uerr_t.HERR)
        ⟨false, false, false, false, false, false, false⟩ with
      | .enter S => some S.send_head_first
      | .returned _ _ => none) = some true := by
  have h : ∃ S, http_loop_prelude (http_loop_env_example true false 20 uerr_t.HERR)
      ⟨false, false, false, false, false, false, false⟩ = .enter S := ⟨_, rfl⟩
  obtain ⟨S, hS⟩ := h
  rw [hS]
  simp only []
  rw [http_loop_send_head_first _ _ S hS]
  rfl

/-- C36 (counterexample): with timestamping and if_modified_since on and the
destination file present (no spider mode, no content_disposition), the loop starts
with send_head_first false: a conditional GET is sent instead of a HEAD request. -/
theorem http_loop_conditional_get_no_head :
    (match http_loop_prelude (http_loop_env_example true true 20 uerr_t.HERR)
        ⟨false, false, false, false, false, false, false⟩ with
      | .enter S => some (S.send_head_first, S.dt.IF_MODIFIED_SINCE)
      | .returned _ _ => none) = some (false, true)
    ∧ (http_loop_env_example true true 20 uerr_t.HERR).opt.timestamping = true
    ∧ (http_loop_env_example true true 20 uerr_t.HERR).file_exists_p "index.html".toList
        = true := by
  refine ⟨by rfl, rfl, rfl⟩

/-! ## The retry loop: dispatch on the result of gethttp -/

/-- One pass of the loop whose gethttp call leads the switch to `continue`. -/
theorem http_loop_run_retry (E : http_loop_env) (S : http_loop_state) (fuel : Nat)
    (S1 : http_loop_state) (h : http_loop_body E S = .again S1) :
    http_loop_run E (fuel + 1) S
      = if E.opt.ntry = 0 ∨ S1.count < E.opt.ntry then http_loop_run E fuel S1
        else some (.leave uerr_t.TRYLIMEXC S1) := by
  rw [http_loop_run, h]

/-- Two codes that gethttp never returns: the switch has a label for CONSOCKERR, which
leads to `continue`, and none for TIMECONV_ERR, which ends in abort ().  If every
attempt gave CONSOCKERR, http_loop with two tries would make two attempts and return
TRYLIMEXC. -/
theorem http_loop_dispatch_other_codes :
    http_loop_dispatch false none uerr_t.CONSOCKERR = .retry
      ∧ http_loop_dispatch false none uerr_t.TIMECONV_ERR = .aborts
      ∧ http_loop (http_loop_env_example false false 2 uerr_t.CONSOCKERR)
          ⟨false, false, false, false, false, false, false⟩ 5
        = some (.returned uerr_t.TRYLIMEXC ⟨false, false, false, false, false, false, false⟩ 2)
      ∧ http_loop (http_loop_env_example false false 2 uerr_t.TIMECONV_ERR)
          ⟨false, false, false, false, false, false, false⟩ 5
        = some .aborted :=
  ⟨rfl, rfl, by rfl, by rfl⟩

/-! ## The retry loop: the number of attempts -/

/-- A pass whose gethttp call returns a code that leads the switch to `continue`
counts one more try and one more call. -/
theorem http_loop_body_retry (E : http_loop_env) (S : http_loop_state)
    (h : ∀ k hs dt c, http_loop_dispatch E.opt.retry_on_host_error
        (if (E.gethttp k hs dt c).2.1.newloc.isSome then (E.gethttp k hs dt c).2.1.newloc
          else S.newloc) (E.gethttp k hs dt c).1 = .retry) :
    ∃ S1, http_loop_body E S = .again S1 ∧ S1.count = S.count + 1
      ∧ S1.calls = S.calls + 1 := by
  unfold http_loop_body
  simp only []
  rw [h]
  exact ⟨_, rfl, rfl, rfl⟩

/-- Whether the switch leads to `continue` does not depend on `*newloc`. -/
theorem http_loop_dispatch_retry_newloc (r : Bool) (n1 n2 : Option (List Char)) (err : uerr_t)
    (h : http_loop_dispatch r n1 err = .retry) : http_loop_dispatch r n2 err = .retry := by
  cases err <;> cases r <;> cases n1 <;> cases n2 <;> simp_all [http_loop_dispatch]

theorem http_loop_run_all_retry (E : http_loop_env) (n : Int)
    (hn : E.opt.ntry = n)
    (h : ∀ k hs dt c, http_loop_dispatch E.opt.retry_on_host_error none
        (E.gethttp k hs dt c).1 = .retry)
    (fuel : Nat) (S : http_loop_state) (hc : 0 ≤ S.count) (hlt : S.count < n)
    (hf : n - S.count ≤ fuel) :
    ∃ S1, http_loop_run E fuel S = some (.leave uerr_t.TRYLIMEXC S1)
      ∧ S1.count = n ∧ (S1.calls : Int) = S.calls + (n - S.count) := by
  induction fuel generalizing S with
  | zero => omega
  | succ m ih =>
    obtain ⟨S1, b1, b2, b3⟩ := http_loop_body_retry E S (fun k hs dt c =>
      http_loop_dispatch_retry_newloc _ _ _ _ (h k hs dt c))
    rw [http_loop_run_retry E S m S1 b1]
    by_cases hlast : S1.count < n
    · rw [if_pos (Or.inr (by rw [hn]; exact hlast))]
      obtain ⟨S2, c1, c2, c3⟩ := ih S1 (by omega) hlast (by omega)
      refine ⟨S2, c1, c2, ?_⟩
      rw [c3, b2, b3]
      push_cast
      omega
    · have hne : ¬ (E.opt.ntry = 0 ∨ S1.count < E.opt.ntry) := by
        rw [hn]
        intro hh
        rcases hh with hh | hh
        · omega
        · exact hlast hh
      rw [if_neg hne]
      refine ⟨S1, rfl, by omega, ?_⟩
      rw [b3]
      push_cast
      omega

theorem http_loop_run_forever (E : http_loop_env) (hn : E.opt.ntry = 0)
    (h : ∀ k hs dt c, http_loop_dispatch E.opt.retry_on_host_error none
        (E.gethttp k hs dt c).1 = .retry)
    (fuel : Nat) (S : http_loop_state) : http_loop_run E fuel S = none := by
  induction fuel generalizing S with
  | zero => rfl
  | succ m ih =>
    obtain ⟨S1, b1, _, _⟩ := http_loop_body_retry E S (fun k hs dt c =>
      http_loop_dispatch_retry_newloc _ _ _ _ (h k hs dt c))
    rw [http_loop_run_retry E S m S1 b1, if_pos (Or.inl hn)]
    exact ih S1

theorem http_loop_prelude_count (E : http_loop_env) (dt0 : dt_flags) (S : http_loop_state)
    (h : http_loop_prelude E dt0 = .enter S) : S.count = 0 ∧ S.calls = 0 := by
  unfold http_loop_prelude at h
  simp only [set_file_timestamp, ne_eq] at h
  split_ifs at h <;> (injection h with h; subst h; exact ⟨rfl, rfl⟩)

/-- C33: when every gethttp attempt returns a code that the switch of http_loop sends
to `continue` (HERR, HEOF, CONSOCKERR, CONERROR, READERR, WRITEFAILED, RANGEERR,
FOPEN_EXCL_ERR, GATEWAYTIMEOUT, or HOSTERR with retry_on_host_error set) and
http_loop reaches its loop, then with ntry = n > 0 it makes exactly n calls of
gethttp and returns TRYLIMEXC, and with ntry = 0 the loop never ends, however many
passes are allowed. -/
theorem http_loop_try_limit (E : http_loop_env) (dt0 : dt_flags) (S : http_loop_state)
    (henter : http_loop_prelude E dt0 = .enter S)
    (h : ∀ k hs dt c, (E.gethttp k hs dt c).1 ∈ [uerr_t.HERR, uerr_t.HEOF, uerr_t.CONSOCKERR,
          uerr_t.CONERROR, uerr_t.READERR, uerr_t.WRITEFAILED, uerr_t.RANGEERR,
          uerr_t.FOPEN_EXCL_ERR, uerr_t.GATEWAYTIMEOUT]
        ∨ ((E.gethttp k hs dt c).1 = uerr_t.HOSTERR ∧ E.opt.retry_on_host_error = true)) :
    (∀ n : Nat, 0 < n → E.opt.ntry = n → ∀ fuel, n ≤ fuel →
        ∃ dt, http_loop E dt0 fuel = some (.returned uerr_t.TRYLIMEXC dt n))
      ∧ (E.opt.ntry = 0 → ∀ fuel, http_loop E dt0 fuel = none) := by
  have hd : ∀ k hs dt c, http_loop_dispatch E.opt.retry_on_host_error none
      (E.gethttp k hs dt c).1 = .retry := by
    intro k hs dt c
    rcases h k hs dt c with hh | ⟨hh, hr⟩
    · simp only [List.mem_cons, List.mem_singleton, List.not_mem_nil, or_false] at hh
      rcases hh with hh | hh | hh | hh | hh | hh | hh | hh | hh <;> rw [hh] <;> rfl
    · rw [hh, hr]; rfl
  obtain ⟨c0, k0⟩ := http_loop_prelude_count E dt0 S henter
  constructor
  · intro n hpos hn fuel hf
    obtain ⟨S1, r1, r2, r3⟩ := http_loop_run_all_retry E n hn hd fuel S
      (by omega) (by rw [c0]; exact_mod_cast hpos) (by rw [c0]; simp; exact hf)
    unfold http_loop
    rw [henter]
    simp only []
    rw [r1]
    simp only []
    have : S1.calls = n := by
      rw [k0, c0] at r3
      have : (S1.calls : Int) = (n : Int) := by rw [r3]; simp
      exact_mod_cast this
    rw [this]
    exact ⟨_, rfl⟩
  · intro hn fuel
    unfold http_loop
    rw [henter]
    simp only []
    rw [http_loop_run_forever E hn hd fuel S]

/-- C33 (witness): with three tries and HERR from every attempt http_loop makes three
calls of gethttp and returns TRYLIMEXC. -/
theorem http_loop_try_limit_witness :
    ∃ dt, http_loop (http_loop_env_example false false 3 uerr_t.HERR)
        ⟨false, false, false, false, false, false, false⟩ 3
      = some (.returned uerr_t.TRYLIMEXC dt 3) :=
  (http_loop_try_limit (http_loop_env_example false false 3 uerr_t.HERR)
    ⟨false, false, false, false, false, false, false⟩ _ rfl
    (fun _ _ _ _ => Or.inl (List.mem_cons_self _ _))).1 3 (by decide) rfl 3 (le_refl _)

/-- C38: with the head "HTTP/1.0 200 OK" LF already read and a single LF peeked,
the bytes [start, peeked + peeklen) hold the empty line LF LF across `peeked`, yet
response_head_terminator returns NULL; the same head ended by CR LF CR LF, with
the last LF peeked alone, is found. -/
theorem response_head_terminator_misses_lf_lf :
    response_head_terminator ("HTTP/1.0 200 OK".toList ++ [LF, LF]) 16 1 = none ∧
    charAt ("HTTP/1.0 200 OK".toList ++ [LF, LF]) 15 = LF ∧
    charAt ("HTTP/1.0 200 OK".toList ++ [LF, LF]) 16 = LF ∧
    response_head_terminator ("HTTP/1.0 200 OK".toList ++ [CR, LF, CR, LF]) 18 1 = some 19 ∧
    response_head_terminator ("HTTP/1.0 200 OK".toList ++ [LF, LF]) 15 2 = some 17 := by
  refine ⟨by decide, by decide, by decide, by decide, by decide⟩

/-- A line that ends with the first line feed of the input is what fd_read_line
delivers. -/
theorem fd_read_line_lf (l rest : List Char) (h : ∀ c ∈ l, c ≠ LF) :
    fd_read_line (l ++ LF :: rest) = some (l ++ [LF], rest) := by
  have h1 : (l ++ LF :: rest).takeWhile (fun c => c ≠ LF) = l := by
    induction l with
    | nil => simp
    | cons a t ih =>
      have ha : a ≠ LF := h a (List.mem_cons_self _ _)
      simp only [List.cons_append]
      rw [List.takeWhile_cons_of_pos (by simpa using ha)]
      rw [ih (fun c hc => h c (List.mem_cons_of_mem _ hc))]
  have h2 : (l ++ LF :: rest).dropWhile (fun c => c ≠ LF) = LF :: rest := by
    clear h1
    induction l with
    | nil => simp
    | cons a t ih =>
      have ha : a ≠ LF := h a (List.mem_cons_self _ _)
      simp only [List.cons_append]
      rw [List.dropWhile_cons_of_pos (by simpa using ha)]
      exact ih (fun c hc => h c (List.mem_cons_of_mem _ hc))
  unfold fd_read_line
  rw [h1, h2]
  cases l <;> simp

/-- Inside a chunk of 512 * (q + 1) bytes that the connection delivers in full, the
loop of skip_short_body reads the whole chunk, whatever its size, and goes on behind
the line that ends it. -/
theorem skip_short_body_loop_chunk (q : Nat) :
    ∀ (fuel : Nat) (data rest l rest' : List Char) (contlen : Int) (d : Nat),
      data.length = 512 * (q + 1) → fd_read_line rest = some (l, rest') →
      skip_short_body_loop (fuel + (q + 1)) (data ++ rest) contlen true
          ((512 * (q + 1) : Nat) : Int) d
        = skip_short_body_loop fuel rest' 0 true 0 (d + 512 * (q + 1)) := by
  induction q with
  | zero =>
    intro fuel data rest l rest' contlen d hlen hline
    have htake : (List.take 512 (data ++ rest)).length = 512 := by
      simp [List.length_take, hlen]
    have hdrop : List.drop 512 (data ++ rest) = rest := by
      rw [List.drop_append_of_le_length (by omega)]
      rw [List.drop_of_length_le (by omega)]
      rfl
    show skip_short_body_loop (fuel + 1) (data ++ rest) contlen true 512 d = _
    conv_lhs => unfold skip_short_body_loop
    simp [SKIP_SIZE, fd_read, htake, hdrop, hline]
  | succ q ih =>
    intro fuel data rest l rest' contlen d hlen hline
    have htake : (List.take 512 (data ++ rest)).length = 512 := by
      simp [List.length_take, hlen]; omega
    have hdrop : List.drop 512 (data ++ rest) = List.drop 512 data ++ rest := by
      rw [List.drop_append_of_le_length (by omega)]
    have hlen2 : (List.drop 512 data).length = 512 * (q + 1) := by
      simp [hlen]; omega
    have key := ih fuel (List.drop 512 data) rest l rest' 0 (d + 512) hlen2 hline
    have hrd : fd_read (data ++ rest) 512 = (512, List.drop 512 data ++ rest) := by
      unfold fd_read
      show ((((List.take 512 (data ++ rest)).length : Nat) : Int), List.drop 512 (data ++ rest)) = _
      rw [htake, hdrop]
      rfl
    have e1 : ((512 * (q + 1 + 1) : Nat) : Int) ≠ 0 := by omega
    have e2 : min ((512 * (q + 1 + 1) : Nat) : Int) 512 = 512 := by omega
    have e3 : ((512 * (q + 1 + 1) : Nat) : Int) - 512 = ((512 * (q + 1) : Nat) : Int) := by
      omega
    have e4 : ((512 * (q + 1) : Nat) : Int) ≠ 0 := by omega
    have e5 : d + 512 + 512 * (q + 1) = d + 512 * (q + 1 + 1) := by omega
    have e6 : min (512 : Int) 512 = 512 := by omega
    have e7 : ¬ ((512 : Int) ≤ 0) := by omega
    rw [← e5, ← key]
    show skip_short_body_loop (fuel + (q + 1) + 1) (data ++ rest) contlen true
      ((512 * (q + 1 + 1) : Nat) : Int) d = _
    conv_lhs => unfold skip_short_body_loop
    simp only [SKIP_SIZE, e1, e2, e6, hrd, e3, e4, e7, or_true, if_true, if_false,
      Int.toNat_ofNat]
    rfl

/-- A chunk of 512 * (q + 2) bytes, announced by its size line and delivered in full,
is read to its end by the loop of skip_short_body. -/
theorem skip_short_body_loop_first (q fuel : Nat) (input line data rest l rest' : List Char)
    (contlen : Int) (d : Nat)
    (hsize : fd_read_line input = some (line, data ++ rest))
    (hval : strtol16 line = ((512 * (q + 1 + 1) : Nat) : Int))
    (hlen : data.length = 512 * (q + 1 + 1)) (hline : fd_read_line rest = some (l, rest')) :
    skip_short_body_loop (fuel + (q + 1) + 1) input contlen true 0 d
      = skip_short_body_loop fuel rest' 0 true 0 (d + 512 * (q + 1 + 1)) := by
  have htake : (List.take 512 (data ++ rest)).length = 512 := by
    simp [List.length_take, hlen]; omega
  have hdrop : List.drop 512 (data ++ rest) = List.drop 512 data ++ rest := by
    rw [List.drop_append_of_le_length (by omega)]
  have hlen2 : (List.drop 512 data).length = 512 * (q + 1) := by
    simp [hlen]; omega
  have key := skip_short_body_loop_chunk q fuel (List.drop 512 data) rest l rest' 0 (d + 512)
    hlen2 hline
  have hrd : fd_read (data ++ rest) 512 = (512, List.drop 512 data ++ rest) := by
    unfold fd_read
    show ((((List.take 512 (data ++ rest)).length : Nat) : Int), List.drop 512 (data ++ rest)) = _
    rw [htake, hdrop]
    rfl
  have e0 : ¬ (((512 * (q + 1 + 1) : Nat) : Int) < 0) := by omega
  have e1 : ((512 * (q + 1 + 1) : Nat) : Int) ≠ 0 := by omega
  have e2 : min ((512 * (q + 1 + 1) : Nat) : Int) 512 = 512 := by omega
  have e3 : ((512 * (q + 1 + 1) : Nat) : Int) - 512 = ((512 * (q + 1) : Nat) : Int) := by
    omega
  have e4 : ((512 * (q + 1) : Nat) : Int) ≠ 0 := by omega
  have e5 : d + 512 + 512 * (q + 1) = d + 512 * (q + 1 + 1) := by omega
  have e6 : min (512 : Int) 512 = 512 := by omega
  have e7 : ¬ ((512 : Int) ≤ 0) := by omega
  rw [← e5, ← key]
  conv_lhs => unfold skip_short_body_loop
  simp only [SKIP_SIZE, hsize, hval, e0, e1, e2, e6, hrd, e3, e4, e7, or_true, if_true,
    if_false, Int.toNat_ofNat]
  rfl

/-- C37: a chunked body whose single chunk holds 4608 bytes is drained completely
by skip_short_body, which reads all 4608 body bytes, more than SKIP_THRESHOLD, and
returns true. -/
theorem skip_short_body_drains_large_chunk :
    skip_short_body ("1200\r\n".toList ++ (List.replicate 4608 'a' ++ "\r\n0\r\n\r\n".toList))
      (-1) true = some (true, 4608, []) ∧ (4608 : Int) > SKIP_THRESHOLD := by
  refine ⟨?_, by decide⟩
  have hlit : "1200\r\n".toList = "1200\r".toList ++ [LF] := by decide
  have hsize : fd_read_line ("1200\r\n".toList ++ (List.replicate 4608 'a' ++ "\r\n0\r\n\r\n".toList))
      = some ("1200\r\n".toList, List.replicate 4608 'a' ++ "\r\n0\r\n\r\n".toList) := by
    rw [hlit, List.append_assoc, List.singleton_append]
    exact fd_read_line_lf _ _ (by decide)
  have hval : strtol16 "1200\r\n".toList = ((512 * (7 + 1 + 1) : Nat) : Int) := by decide
  have hline : fd_read_line "\r\n0\r\n\r\n".toList = some ("\r\n".toList, "0\r\n\r\n".toList) := by
    decide
  have hend : skip_short_body_loop 4614 "0\r\n\r\n".toList 0 true 0 (0 + 512 * (7 + 1 + 1))
      = some (true, 4608, []) := by decide
  have hfuel : ("1200\r\n".toList ++ (List.replicate 4608 'a' ++ "\r\n0\r\n\r\n".toList)).length + 2
      = 4614 + (7 + 1) + 1 := by
    rw [List.length_append, List.length_append, List.length_replicate]
    rfl
  have hgt : ¬ ((-1 : Int) > SKIP_THRESHOLD) := by decide
  unfold skip_short_body
  rw [if_neg hgt, hfuel]
  rw [skip_short_body_loop_first 7 4614 _ _ _ _ _ _ (-1) 0 hsize hval
    (List.length_replicate _ _) hline]
  exact hend

/-- A call of extract_param that returns false leaves the cursor where it was, or
behind the white space that it skipped. -/
theorem extract_param_fail_source (s : List Char) (src : Nat) (sep : Char)
    (hok : ¬ (extract_param s src sep).ok = true) :
    (extract_param s src sep).source = src
      ∨ (extract_param s src sep).source = scan s src c_isspace := by
  unfold extract_param at hok ⊢
  simp only [] at hok ⊢
  generalize scan s src c_isspace = p0 at hok ⊢
  by_cases c0 : charAt s p0 = NUL
  · rw [if_pos c0]; exact Or.inr rfl
  rw [if_neg c0] at hok ⊢
  generalize scan s p0 (fun c => c ≠ NUL && !c_isspace c && c ≠ '=' && c ≠ sep) = p1
    at hok ⊢
  by_cases c1 : p0 = p1
  · rw [if_pos c1]; exact Or.inl rfl
  rw [if_neg c1] at hok ⊢
  generalize scan s p1 c_isspace = p2 at hok ⊢
  by_cases c2 : (charAt s p2 = sep || charAt s p2 = NUL) = true
  · rw [if_pos c2] at hok; exact absurd rfl hok
  rw [if_neg c2] at hok ⊢
  by_cases c4 : charAt s p2 ≠ '='
  · rw [if_pos c4]; exact Or.inl rfl
  rw [if_neg c4] at hok ⊢
  generalize scan s (p2 + 1) c_isspace = p3 at hok ⊢
  by_cases c5 : charAt s p3 = DQUOTE
  · rw [if_pos c5] at hok ⊢
    generalize scan s (p3 + 1) (fun c => c ≠ NUL && c ≠ DQUOTE) = p4 at hok ⊢
    by_cases c6 : charAt s p4 = NUL
    · rw [if_pos c6]; exact Or.inl rfl
    rw [if_neg c6] at hok ⊢
    generalize scan s (p4 + 1) c_isspace = p5 at hok ⊢
    generalize scan s p5 (fun c => c ≠ NUL && c ≠ sep) = p6 at hok ⊢
    by_cases c7 : charAt s p6 = sep
    · rw [if_pos c7] at hok
      exact absurd (extract_param_finish_ok _ _ _ _).1 hok
    rw [if_neg c7] at hok ⊢
    by_cases c8 : charAt s p6 ≠ NUL
    · rw [if_pos c8]; exact Or.inl rfl
    rw [if_neg c8] at hok
    exact absurd (extract_param_finish_ok _ _ _ _).1 hok
  · rw [if_neg c5] at hok
    exact absurd (extract_param_finish_ok _ _ _ _).1 hok

/-- Every call of extract_param, whatever it returns, leaves the cursor inside the
string when it was inside before, and nowhere before its old position. -/
theorem extract_param_source_bounds (s : List Char) (src : Nat) (sep : Char)
    (hsep : sep ≠ NUL) (hsrc : src ≤ s.length) :
    src ≤ (extract_param s src sep).source ∧ (extract_param s src sep).source ≤ s.length := by
  by_cases hok : (extract_param s src sep).ok = true
  · have := extract_param_progress s src sep hsep hok
    omega
  · have g0 := scan_ge s src c_isspace
    have l0 := scan_le s src c_isspace hsrc
    rcases extract_param_fail_source s src sep hok with e | e <;> rw [e] <;> omega

/-- The parameter loop of check_auth ends, and it ends with the cursor nowhere before
its start and inside the string. -/
theorem auth_params_loop_total (line : List Char) (fuel www : Nat)
    (h : line.length < fuel + www) (hs : www ≤ line.length) :
    ∃ r, auth_params_loop line fuel www = some r ∧ www ≤ r ∧ r ≤ line.length := by
  induction fuel generalizing www with
  | zero => omega
  | succ n ih =>
    unfold auth_params_loop
    simp only []
    have hb := extract_param_source_bounds line www ',' (by decide) hs
    by_cases hok : (extract_param line www ',').ok = true
    · have hp := extract_param_progress line www ',' (by decide) hok
      by_cases hv : (extract_param line www ',').value.isSome = true
      · rw [hok, hv]
        simp only [Bool.and_self, if_true]
        obtain ⟨r, e, h1, h2⟩ := ih _ (by omega) hp.2
        exact ⟨r, e, by omega, h2⟩
      · rw [hok]
        simp only [Bool.true_and, hv, if_false]
        exact ⟨_, rfl, hb.1, hb.2⟩
    · simp only [hok, Bool.false_and, if_false]
      exact ⟨_, rfl, hb.1, hb.2⟩

/-- The scan over the challenges of one header value ends. -/
theorem auth_scheme_loop_total (line : List Char) (region : auth_region) (fuel www : Nat)
    (ps : auth_ptrs) (h : line.length < fuel + www) (hs : www ≤ line.length) :
    ∃ r, auth_scheme_loop line region fuel www ps = some r := by
  induction fuel generalizing www ps with
  | zero => omega
  | succ n ih =>
    unfold auth_scheme_loop
    simp only []
    by_cases c0 : ps.ntlm.isSome = true
    · rw [if_pos c0]; exact ⟨_, rfl⟩
    rw [if_neg c0]
    have g0 := scan_ge line www c_isspace
    have l0 := scan_le line www c_isspace hs
    generalize scan line www c_isspace = nb at g0 l0 ⊢
    have g1 := scan_ge line nb (fun c => c ≠ NUL && !c_isspace c)
    have l1 := scan_le line nb (fun c => c ≠ NUL && !c_isspace c) l0
    generalize scan line nb (fun c => c ≠ NUL && !c_isspace c) = ne at g1 l1 ⊢
    by_cases c1 : nb = ne
    · rw [if_pos c1]; exact ⟨_, rfl⟩
    rw [if_neg c1]
    split_ifs
    · exact ⟨_, rfl⟩
    all_goals
      obtain ⟨r, e, h1, h2⟩ := auth_params_loop_total line (line.length + 1) ne (by omega) l1
      rw [e]
      exact ih _ _ (by omega) h2

/-- C40: a call of extract_param that returns true leaves the cursor strictly after
its old position, every call leaves it at or before the terminating NUL, and the
loops that repeat extract_param (parse_content_disposition,
parse_strict_transport_security, the parameter loop of digest_authentication_encode on a
challenge that holds the six bytes it skips) and the scheme scan of check_auth, whose
every continuing round starts at a non-blank byte and moves the cursor behind it,
all end with a result on every header value. -/
theorem extract_param_loops_terminate (s : List Char) (src : Nat) (sep : Char)
    (hsep : sep ≠ NUL) (hsrc : src ≤ s.length) :
    ((extract_param s src sep).ok = true → src < (extract_param s src sep).source)
    ∧ (extract_param s src sep).source ≤ s.length
    ∧ (∃ r, parse_content_disposition s = some r)
    ∧ (∃ r, parse_strict_transport_security (some s) = some r)
    ∧ (6 ≤ s.length → ∃ r, digest_parse s = some r)
    ∧ (∀ region ps, ∃ r, auth_scheme_loop s region (s.length + 1) 0 ps = some r)
    ∧ (∀ www, www ≤ s.length →
        scan s www c_isspace ≠ scan s (scan s www c_isspace) (fun c => c ≠ NUL && !c_isspace c) →
        (charAt s (scan s www c_isspace) ≠ NUL
          ∧ c_isspace (charAt s (scan s www c_isspace)) = false)
        ∧ ∃ next, auth_params_loop s (s.length + 1)
              (scan s (scan s www c_isspace) (fun c => c ≠ NUL && !c_isspace c)) = some next
            ∧ scan s www c_isspace < next ∧ next ≤ s.length) := by
  refine ⟨fun hok => (extract_param_progress s src sep hsep hok).1,
    (extract_param_source_bounds s src sep hsep hsrc).2, ?_, ?_, ?_, ?_, ?_⟩
  · unfold parse_content_disposition
    rw [parse_content_disposition_loop_eq]
    obtain ⟨ps, e⟩ := spec_filename_pieces_total s (s.length + 1) 0 (by omega) (Nat.zero_le _)
    rw [e]
    simp only [Option.map_some']
    split <;> first | exact ⟨_, rfl⟩ | (rename_i h; cases h)
  · unfold parse_strict_transport_security
    simp only []
    rw [parse_strict_transport_security_loop_eq]
    obtain ⟨ps, last, e⟩ := extract_params_loop_total s ';' (by decide) (s.length + 1) 0
      (by omega) (Nat.zero_le _)
    rw [e]
    simp only [Option.map_some']
    split <;> first | exact ⟨_, rfl⟩ | (rename_i h; cases h)
  · exact fun h => digest_parse_total s h
  · exact fun region ps =>
      auth_scheme_loop_total s region (s.length + 1) 0 ps (by omega) (Nat.zero_le _)
  · intro www hw hne
    have g0 := scan_ge s www c_isspace
    have l0 := scan_le s www c_isspace hw
    generalize scan s www c_isspace = nb at hne g0 l0 ⊢
    have g1 := scan_ge s nb (fun c => c ≠ NUL && !c_isspace c)
    have l1 := scan_le s nb (fun c => c ≠ NUL && !c_isspace c) l0
    have hall := scan_all s nb (fun c => c ≠ NUL && !c_isspace c) nb (le_refl _)
      (by omega)
    generalize scan s nb (fun c => c ≠ NUL && !c_isspace c) = ne at hne g1 l1 hall ⊢
    obtain ⟨r, e, h1, h2⟩ := auth_params_loop_total s (s.length + 1) ne (by omega) l1
    refine ⟨?_, r, e, by omega, h2⟩
    simpa using hall

theorem extract_param_loops_terminate_witness :
    (',' ≠ NUL ∧ 6 ≤ "Digest realm=\"a\", qop=auth".toList.length)
    ∧ (extract_param "Digest realm=\"a\", qop=auth".toList 6 ',').ok = true
    ∧ 6 < (extract_param "Digest realm=\"a\", qop=auth".toList 6 ',').source
    ∧ (∃ r, digest_parse "Digest realm=\"a\", qop=auth".toList = some r) :=
  ⟨⟨by decide, by decide⟩, by decide,
    (extract_param_loops_terminate "Digest realm=\"a\", qop=auth".toList 6 ','
      (by decide) (by decide)).1 (by decide),
    (extract_param_loops_terminate "Digest realm=\"a\", qop=auth".toList 6 ','
      (by decide) (by decide)).2.2.2.2.1 (by decide)⟩

theorem CLOSE_FINISH_dt (st : gethttp_state) : (CLOSE_FINISH st).dt = st.dt := by
  unfold CLOSE_FINISH
  split_ifs <;> rfl

theorem CLOSE_FINISH_events (st : gethttp_state) :
    (CLOSE_FINISH st).events = st.events ++ [gethttp_event.close_finish] := by
  unfold CLOSE_FINISH
  split_ifs <;> rfl

/-- With noclobber off or an output document given, check_file_output returns
RETROK. -/
theorem check_file_output_ok (opt : options) (io : gethttp_io) (r : response_facts)
    (hs : http_stat) (hclob : opt.noclobber = true → opt.output_document.isSome = true) :
    (check_file_output opt io r hs).1 = uerr_t.RETROK := by
  have hc : (opt.noclobber && opt.output_document.isNone) = false := by
    cases hn : opt.noclobber
    · rfl
    · have := hclob hn
      cases hd : opt.output_document
      · rw [hd] at this; cases this
      · rfl
  unfold check_file_output
  lift_lets
  intro local_file hs1 temporary hs2 is_there hs3 hs4
  have hc2 : (is_there && opt.noclobber && opt.output_document.isNone) = false := by
    rw [Bool.and_assoc, hc, Bool.and_false]
  rw [hc2]
  simp only [Bool.false_eq_true, if_false]
  split_ifs
  · exact set_file_timestamp_ok _ _ _
  · rfl

/-- When http_loop enters its loop with IF_MODIFIED_SINCE set, noclobber is off or an
output document is given: otherwise it has returned before. -/
theorem http_loop_prelude_conditional_get (E : http_loop_env) (dt0 : dt_flags)
    (st : http_loop_state) (h : http_loop_prelude E dt0 = .enter st)
    (hc : st.dt.IF_MODIFIED_SINCE = true) :
    E.opt.noclobber = true → E.opt.output_document.isSome = true := by
  intro hn
  cases hd : E.opt.output_document with
  | some d => rfl
  | none =>
    exfalso
    unfold http_loop_prelude at h
    simp only [hd, hn, Option.isSome_none, Option.isNone_none, Bool.false_or, Bool.and_true,
      set_file_timestamp_ok, ne_eq, not_true_eq_false, if_false] at h
    generalize E.file_exists_p _ = fe at h
    cases hcd : E.opt.content_disposition <;> cases fe <;> cases hts : E.opt.timestamping <;>
      cases hims : E.opt.if_modified_since <;> cases hsp : E.opt.spider <;>
      cases har : E.opt.always_rest <;>
      simp [hcd, hts, hims, hsp, har] at h <;> (subst h; simp at hc)

theorem CLOSE_INVALIDATE_inactive (st : gethttp_state) (h : st.pc.pconn_active = false) :
    (CLOSE_INVALIDATE st).pc.pconn_active = false := by
  unfold CLOSE_INVALIDATE
  simp [h]

theorem CLOSE_FINISH_inactive (st : gethttp_state) (h : st.pc.pconn_active = false) :
    (CLOSE_FINISH st).pc.pconn_active = false := by
  unfold CLOSE_FINISH
  split_ifs <;> simp [h, invalidate_persistent]

theorem gethttp_warc_body_inactive (io : gethttp_io) (c : Int) (k : Bool) (st : gethttp_state)
    (h : st.pc.pconn_active = false) :
    (gethttp_warc_body io c k st).2.pc.pconn_active = false := by
  unfold gethttp_warc_body
  simp only []
  split_ifs
  · exact CLOSE_INVALIDATE_inactive _ h
  · exact CLOSE_FINISH_inactive _ h

theorem gethttp_skip_body_inactive (io : gethttp_io) (b : Bool) (c : Int) (k : Bool)
    (st : gethttp_state) (h : st.pc.pconn_active = false) :
    (gethttp_skip_body io b c k st).pc.pconn_active = false := by
  unfold gethttp_skip_body
  simp only []
  split_ifs
  · exact CLOSE_FINISH_inactive _ h
  · exact CLOSE_INVALIDATE_inactive _ h
  · exact CLOSE_INVALIDATE_inactive _ h

/-- A property holds of a conditional value when it holds of both alternatives. -/
theorem prop_of_ite {α : Type} (P : α → Prop) (c : Prop) [Decidable c] (a b : α)
    (ha : c → P a) (hb : ¬ c → P b) : P (if c then a else b) := by
  split_ifs with hc
  · exact ha hc
  · exact hb hc

/-- The connection cache that a step of gethttp leaves. -/
theorem gethttp_response_inactive (opt : options) (io : gethttp_io) (ho cg : Bool)
    (r : response_facts) (st : gethttp_state) (h : st.pc.pconn_active = false) :
    (match gethttp_response opt io ho cg r st with
      | .retry st' => st'.pc
      | .done _ st' => st'.pc).pconn_active = false := by
  show (fun s : gethttp_step => (match s with
      | .retry st' => st'.pc
      | .done _ st' => st'.pc).pconn_active = false) (gethttp_response opt io ho cg r st)
  generalize hP : (fun s : gethttp_step => (match s with
      | .retry st' => st'.pc
      | .done _ st' => st'.pc).pconn_active = false) = P
  unfold gethttp_response
  lift_lets
  intro warc_enabled inhibit_keep_alive statcode contlen0 sa chunked d src_d src_dpc src_dpconn
    st_1 src_sapc src_sapconn sb cfo sc src_schs st_2 range contrange contlen src_2dt st_3 d_1
    src_3dt st_4 src_4dt st_5 adj st_6 up_to_date src_6dt src_6hs st_7 hs_contlen st_8 d_2 st_9
    rb st_10
  have ha : sa.pc.pconn_active = false := by
    unfold sa; split_ifs <;> exact h
  have hd : d.2.pc.pconn_active = false := by
    unfold d
    split_ifs
    · exact gethttp_warc_body_inactive _ _ _ _ ha
    · exact gethttp_skip_body_inactive _ _ _ _ _ ha
  have h1 : st_1.pc.pconn_active = false := hd
  have hb : sb.pc.pconn_active = false := by
    unfold sb; split_ifs <;> exact ha
  have hc : sc.pc.pconn_active = false := hb
  have h3 : st_3.pc.pconn_active = false := by
    unfold st_3; split_ifs <;> exact hb
  have h3n : st_3.no_body.pc.pconn_active = false := h3
  have hd1 : d_1.2.pc.pconn_active = false := by
    unfold d_1
    split_ifs
    · exact gethttp_warc_body_inactive _ _ _ _ h3n
    · exact gethttp_skip_body_inactive _ _ _ _ _ h3n
  have h4 : st_4.pc.pconn_active = false := by
    unfold st_4; split_ifs <;> exact h3
  have h6 : st_6.pc.pconn_active = false := h4
  have h7 : st_7.pc.pconn_active = false := h4
  have h8n : st_8.no_body.pc.pconn_active = false := h4
  have hd2 : d_2.2.pc.pconn_active = false := by
    unfold d_2
    split_ifs
    · exact gethttp_warc_body_inactive _ _ _ _ h8n
    · exact CLOSE_FINISH_inactive _ h8n
    · exact CLOSE_INVALIDATE_inactive _ h8n
    · exact gethttp_skip_body_inactive _ _ _ _ _ h8n
  have h9 : st_9.pc.pconn_active = false := h4
  have h10 : st_10.pc.pconn_active = false := h4
  clear_value sa d st_1 sb sc st_2 st_3 d_1 st_4 st_5 st_6 st_7 st_8 d_2 st_9 st_10 rb adj cfo
  refine prop_of_ite P _ _ _ (fun _ => ?_) (fun _ => ?_)
  · obtain ⟨_ | err, d2⟩ := d
    · dsimp only
      refine prop_of_ite P _ _ _ (fun _ => ?_) (fun _ => ?_)
      · subst hP; exact h1
      · refine prop_of_ite P _ _ _ (fun _ => ?_) (fun _ => ?_) <;> (subst hP; exact h1)
    · subst hP; exact hd
  refine prop_of_ite P _ _ _ (fun _ => ?_) (fun _ => ?_)
  · subst hP; exact hc
  refine prop_of_ite P _ _ _ (fun _ => ?_) (fun _ => ?_)
  · subst hP; exact CLOSE_FINISH_inactive _ h3n
  refine prop_of_ite P _ _ _ (fun _ => ?_) (fun _ => ?_)
  · obtain ⟨_ | err, d2⟩ := d_1
    · dsimp only
      refine prop_of_ite P _ _ _ (fun _ => ?_) (fun _ => ?_)
      · subst hP; exact hd1
      · refine prop_of_ite P _ _ _ (fun _ => ?_) (fun _ => ?_) <;> (subst hP; exact hd1)
    · subst hP; exact hd1
  refine prop_of_ite P _ _ _ (fun _ => ?_) (fun _ => ?_)
  · subst hP; exact CLOSE_FINISH_inactive _ h4
  refine prop_of_ite P _ _ _ (fun _ => ?_) (fun _ => ?_)
  · subst hP; exact CLOSE_INVALIDATE_inactive _ h6
  refine prop_of_ite P _ _ _ (fun _ => ?_) (fun _ => ?_)
  · subst hP; exact gethttp_skip_body_inactive _ _ _ _ _ h7
  refine prop_of_ite P _ _ _ (fun _ => ?_) (fun _ => ?_)
  · subst hP; exact CLOSE_INVALIDATE_inactive _ h6
  refine prop_of_ite P _ _ _ (fun _ => ?_) (fun _ => ?_)
  · obtain ⟨_ | err, d2⟩ := d_2
    · dsimp only
      refine prop_of_ite P _ _ _ (fun _ => ?_) (fun _ => ?_) <;> (subst hP; exact hd2)
    · subst hP; exact hd2
  refine prop_of_ite P _ _ _ (fun _ => ?_) (fun _ => ?_)
  · subst hP; exact CLOSE_INVALIDATE_inactive _ h9
  refine prop_of_ite P _ _ _ (fun _ => ?_) (fun _ => ?_)
  · subst hP; exact CLOSE_FINISH_inactive _ h10
  · subst hP; exact CLOSE_INVALIDATE_inactive _ h10

/-- With no persistent connection registered, establish_connection leaves the cache
as it is. -/
theorem establish_connection_inactive (io : gethttp_io) (host : List Char) (port : Int)
    (inhibit : Bool) (pc : pconn_state) (sock0 : Int) (h : pc.pconn_active = false)
    (r : uerr_t × pconn_state × Int)
    (hr : establish_connection io host port inhibit pc sock0 = some r) : r.2.1 = pc := by
  have hp : persistent_available_p io.socket_ip_address io.lookup_host io.test_socket_open
      pc host port = some (false, pc, false) := by
    unfold persistent_available_p
    rw [if_pos h]
  unfold establish_connection at hr
  rw [hp] at hr
  cases inhibit <;> simp only [Bool.not_false, Bool.not_true, if_true, Bool.false_eq_true,
    if_false] at hr <;> split_ifs at hr <;> (injection hr with hr; subst hr; rfl)

/-- A pass of gethttp that starts with no persistent connection registered ends with
none registered. -/
theorem gethttp_pass_inactive (E : gethttp_env) (io : gethttp_io) (ho cg : Bool)
    (st : gethttp_state) (h : st.pc.pconn_active = false) (s : gethttp_step)
    (hs : gethttp_pass E io ho cg st = some s) :
    (match s with
      | .retry st' => st'.pc
      | .done _ st' => st'.pc).pconn_active = false := by
  unfold gethttp_pass at hs
  simp only [] at hs
  cases hc : establish_connection io E.host E.port (!E.opt.http_keep_alive || E.opt.ignore_length)
      st.pc st.sock with
  | none => rw [hc] at hs; cases hs
  | some r =>
    obtain ⟨conn_err, pc, sock⟩ := r
    have hpc : pc = st.pc := establish_connection_inactive _ _ _ _ _ _ h _ hc
    subst hpc
    rw [hc] at hs
    simp only [] at hs
    split_ifs at hs
    · injection hs with hs; subst hs; exact h
    · injection hs with hs; subst hs; exact CLOSE_INVALIDATE_inactive _ h
    · injection hs with hs; subst hs; exact CLOSE_INVALIDATE_inactive _ h
    · injection hs with hs; subst hs; exact CLOSE_INVALIDATE_inactive _ h
    · injection hs with hs; subst hs; exact CLOSE_INVALIDATE_inactive _ h
    · cases hh : gethttp_read_head io.errno_zero io.heads with
      | none => rw [hh] at hs; cases hs
      | some x =>
        rw [hh] at hs
        cases x with
        | error err =>
          injection hs with hs; subst hs; exact CLOSE_INVALIDATE_inactive _ h
        | ok r =>
          injection hs with hs; subst hs
          exact gethttp_response_inactive E.opt io ho cg r _ h

/-- No pass of gethttp registers a persistent connection. -/
theorem gethttp_passes_inactive (E : gethttp_env) (ho cg : Bool) (ios : List gethttp_io) :
    ∀ (st : gethttp_state), st.pc.pconn_active = false →
      ∀ r, gethttp_passes E ho cg ios st = some r → r.2.pc.pconn_active = false := by
  induction ios with
  | nil => intro st _ r hr; cases hr
  | cons io ios ih =>
    intro st h r hr
    unfold gethttp_passes at hr
    cases hp : gethttp_pass E io ho cg st with
    | none => rw [hp] at hr; cases hr
    | some s =>
      have := gethttp_pass_inactive E io ho cg st h s hp
      rw [hp] at hr
      cases s with
      | retry st' => exact ih st' this r hr
      | done ret st' => injection hr with hr; subst hr; exact this

/-- A call of gethttp never registers a persistent connection: when none is
registered at the call, none is registered when gethttp returns, whatever the
response was. -/
theorem gethttp_never_registers (E : gethttp_env) (hs : http_stat) (dt : dt_flags)
    (pc : pconn_state) (ios : List gethttp_io) (h : pc.pconn_active = false)
    (r : uerr_t × gethttp_state) (hr : gethttp E hs dt pc ios = some r) :
    r.2.pc.pconn_active = false := by
  unfold gethttp at hr
  simp only [] at hr
  cases hi : E.initialize_request with
  | some ret => rw [hi] at hr; injection hr with hr; subst hr; exact h
  | none => rw [hi] at hr; exact gethttp_passes_inactive E _ _ ios _ h r hr

/-- C39: at the start of the program, a GET that the server answers with 200 and
without `Connection: close`, keep-alive being allowed, is completed by gethttp with
RETRFINISHED and RETROKF; keep_alive holds at the end and socket 5 is left open, yet
the persistent connection record is as it was, not active, and
persistent_available_p for the same host and port answers no. -/
theorem gethttp_keep_alive_not_registered :
    ∃ st', gethttp gethttp_env_example http_stat_example
        ⟨false, false, false, false, false, false, false⟩ pconn_state_start
        [gethttp_io_example 200 none] = some (uerr_t.RETRFINISHED, st')
      ∧ st'.dt.RETROKF = true ∧ st'.keep_alive = true ∧ st'.sock = 5
      ∧ st'.hs.res = 0 ∧ st'.hs.len = 3
      ∧ st'.events = [gethttp_event.open_output_stream, gethttp_event.read_response_body true,
          gethttp_event.close_finish]
      ∧ st'.pc = pconn_state_start
      ∧ st'.pc.pconn_active = false
      ∧ persistent_available_p (fun _ => none) (fun _ => none) (fun _ => true) st'.pc
          "example.com".toList 80 = some (false, pconn_state_start, false) := by
  refine ⟨_, rfl, ?_⟩
  decide

/-! ## Digest authentication: the response for qop=auth -/

theorem XNUM_TO_digit_spec (d : Nat) (h : d < 16) : XNUM_TO_digit d = spec_hex_digit d := by
  interval_cases d <;> rfl

/-- The digits that dump_hash writes for the first `n` bytes of a hash are their
lowercase-hex text. -/
theorem dump_bytes_spec (n : Nat) : ∀ (h : List Nat), n ≤ h.length → (∀ b ∈ h, b < 256) →
    ((List.range n).map (fun i =>
        [XNUM_TO_digit (h.getD i 0 % 256 / 16), XNUM_TO_digit (h.getD i 0 % 256 % 16)])).flatten
      = spec_lowercase_hex (h.take n) := by
  induction n with
  | zero => intro h _ _; rfl
  | succ n ih =>
    intro h hlen hb
    cases h with
    | nil => simp at hlen
    | cons b t =>
      have hb0 : b < 256 := hb b (List.mem_cons_self _ _)
      have ht := ih t (by simpa using hlen) (fun x hx => hb x (List.mem_cons_of_mem _ hx))
      rw [List.range_succ_eq_map, List.map_cons, List.map_map, List.flatten_cons, List.take_succ_cons]
      have e : ((fun i => [XNUM_TO_digit ((b :: t).getD i 0 % 256 / 16),
            XNUM_TO_digit ((b :: t).getD i 0 % 256 % 16)]) ∘ Nat.succ)
          = (fun i => [XNUM_TO_digit (t.getD i 0 % 256 / 16),
            XNUM_TO_digit (t.getD i 0 % 256 % 16)]) := by
        funext i
        rfl
      rw [e, ht]
      show [XNUM_TO_digit (b % 256 / 16), XNUM_TO_digit (b % 256 % 16)] ++ _ = _
      rw [Nat.mod_eq_of_lt hb0, XNUM_TO_digit_spec _ (by omega), XNUM_TO_digit_spec _ (by omega)]
      rfl

/-- For a hash of sixteen bytes dump_hash writes the lowercase-hex text of the
hash. -/
theorem dump_hash_spec (h : List Nat) (hlen : h.length = 16) (hb : ∀ b ∈ h, b < 256) :
    dump_hash h = spec_lowercase_hex h := by
  have := dump_bytes_spec 16 h (by omega) hb
  rw [List.take_of_length_le (by omega)] at this
  exact this

/-- C4: for a hash function that yields sixteen bytes and a Digest challenge whose
parameters carry realm, nonce and qop=auth, digest_authentication_encode returns the
header whose response field is the lowercase-hex MD5 of
A1:nonce:00000001:cnonce:auth:A2, with A1 = H(user:realm:password) (for MD5-sess
H(H(user:realm:password):nonce:cnonce)), A2 = H(method:path), H being the
lowercase-hex text of the hash, and whose cnonce field carries the very cnonce used
in the response (and in A1); the opaque field and a supported algorithm are
appended. -/
theorem digest_response_qop_auth (md5 : List Char → List Nat) (rnd : Nat)
    (au user passwd method path : List Char) (auth_err : uerr_t) (ps : digest_params)
    (realm nonce : List Char)
    (hmd5 : ∀ m, (md5 m).length = 16 ∧ ∀ b ∈ md5 m, b < 256)
    (hlen : 6 ≤ au.length) (hps : digest_parse au = some ps)
    (hrealm : ps.realm = some realm) (hnonce : ps.nonce = some nonce)
    (hqop : ps.qop = some "auth".toList) :
    digest_authentication_encode md5 rnd au (some user) (some passwd) (some method) (some path)
        auth_err
      = some (some (spec_digest_header user realm nonce path
            (spec_digest_response md5
              (spec_digest_A1 md5 user realm passwd nonce ((fmt_08x rnd).take 15) ps.algorithm)
              nonce ((fmt_08x rnd).take 15) (spec_digest_A2 md5 method path))
            ((fmt_08x rnd).take 15) ps.opaq
            (if ps.algorithm = some "MD5".toList ∨ ps.algorithm = some "MD5-sess".toList
              then ps.algorithm else none)),
          auth_err) := by
  have hx : ∀ m, spec_md5_hex md5 m = md5_hex md5 m := fun m =>
    (dump_hash_spec (md5 m) (hmd5 m).1 (hmd5 m).2).symm
  obtain ⟨prealm, popq, pnonce, pqop, palg⟩ := ps
  simp only at hrealm hnonce hqop
  subst hrealm hnonce hqop
  unfold digest_authentication_encode
  rw [if_neg (by omega), hps]
  have hauth : decide ("auth".toList ≠ "auth".toList) = false := by decide
  have hfm := fmt_08x_nonempty rnd
  have e1 : "Digest username=".toList.length = 16 := rfl
  have e2 : ", realm=".toList.length = 8 := rfl
  have e3 : ", nonce=".toList.length = 8 := rfl
  have e4 : ", uri=".toList.length = 6 := rfl
  have e5 : ", response=".toList.length = 11 := rfl
  have e6 : ", qop=auth, nc=00000001, cnonce=".toList.length = 32 := rfl
  have hms : decide ("MD5-sess".toList ≠ "MD5".toList) = true := by decide
  generalize (fmt_08x rnd).take 15 = cnonce at hfm ⊢
  cases palg with
  | none =>
    simp only [hauth, Bool.false_eq_true, if_false, Option.isSome_some, if_true, decide_True,
      Bool.true_and, reduceCtorEq, decide_False, List.isEmpty_nil, Option.getD_some,
      spec_digest_A1, spec_digest_A2, spec_digest_response, spec_digest_header, or_self, hx]
    rw [digest_emit_fits _ _ _ _ _ (by
      simp only [List.length_append, List.length_cons, List.length_nil, md5_hex_length,
        e1, e2, e3, e4, e5, e6, MD5_DIGEST_SIZE]
      cases popq <;> simp only <;> omega)]
    cases popq <;> rfl
  | some a =>
    by_cases h1 : a = "MD5-sess".toList
    · subst h1
      simp only [hauth, Bool.false_eq_true, if_false, Option.isSome_some, if_true, decide_True,
        Bool.true_and, reduceCtorEq, decide_False, List.isEmpty_nil, Option.getD_some,
        spec_digest_A1, spec_digest_A2, spec_digest_response, spec_digest_header, or_self, hx,
        hms, decide_not, Bool.not_true, Bool.and_false, Bool.not_false, hfm, or_true,
        Bool.and_true, Bool.and_self]
      rw [digest_emit_fits _ _ _ _ _ (by
        simp only [List.length_append, List.length_cons, List.length_nil, md5_hex_length,
          e1, e2, e3, e4, e5, e6, MD5_DIGEST_SIZE]
        cases popq <;> simp only <;> omega)]
      cases popq <;> rfl
    · by_cases h2 : a = "MD5".toList
      · subst h2
        simp only [hauth, Bool.false_eq_true, if_false, Option.isSome_some, if_true, decide_True,
          Bool.true_and, reduceCtorEq, decide_False, List.isEmpty_nil, Option.getD_some,
          spec_digest_A1, spec_digest_A2, spec_digest_response, spec_digest_header, or_self, hx,
          decide_not, Bool.not_true, Bool.and_false, Bool.not_false, hfm, true_or,
          Bool.and_true, Bool.and_self, Bool.false_and, Option.some.injEq, h1]
        rw [digest_emit_fits _ _ _ _ _ (by
          simp only [List.length_append, List.length_cons, List.length_nil, md5_hex_length,
            e1, e2, e3, e4, e5, e6, MD5_DIGEST_SIZE]
          cases popq <;> simp only <;> omega)]
        cases popq <;> rfl
      · simp only [hauth, Bool.false_eq_true, if_false, Option.isSome_some, if_true, decide_True,
          Bool.true_and, reduceCtorEq, decide_False, List.isEmpty_nil, Option.getD_some,
          spec_digest_A1, spec_digest_A2, spec_digest_response, spec_digest_header, or_self, hx,
          decide_not, Bool.not_true, Bool.and_false, Bool.not_false, hfm,
          Bool.and_true, Bool.and_self, Bool.false_and, Option.some.injEq, h1, h2, ne_eq,
          not_false_eq_true]
        rw [digest_emit_fits _ _ _ _ _ (by
          simp only [List.length_append, List.length_cons, List.length_nil, md5_hex_length,
            e1, e2, e3, e4, e5, e6, MD5_DIGEST_SIZE]
          cases popq <;> simp only <;> omega)]
        cases popq <;> rfl

theorem md5_example_bytes (m : List Char) :
    (md5_example m).length = 16 ∧ ∀ b ∈ md5_example m, b < 256 := by
  unfold md5_example
  refine ⟨by simp, ?_⟩
  intro b hb
  simp only [List.mem_map] at hb
  obtain ⟨i, _, rfl⟩ := hb
  exact Nat.mod_lt _ (by decide)

set_option maxRecDepth 8000 in
/-- The header of the example, spelled out: the response is written in lowercase
hexadecimal digits. -/
theorem digest_header_example_text :
    spec_digest_header "u".toList "r".toList "n1".toList "/x".toList
        (spec_digest_response md5_example
          (spec_digest_A1 md5_example "u".toList "r".toList "p".toList "n1".toList
            ((fmt_08x 48879).take 15) (some "MD5-sess".toList))
          "n1".toList ((fmt_08x 48879).take 15) (spec_digest_A2 md5_example "GET".toList "/x".toList))
        ((fmt_08x 48879).take 15) (some "xyz".toList) (some "MD5-sess".toList)
      = "Digest username=\"u\", realm=\"r\", nonce=\"n1\", uri=\"/x\", ".toList
          ++ "response=\"b3c4d5e6f708192a3b4c5d6e7f90a1b2\", qop=auth, nc=00000001, ".toList
          ++ "cnonce=\"0000beef\", opaque=\"xyz\", algorithm=\"MD5-sess\"".toList := by
  decide

/-- C4 (witness): a challenge with realm r, nonce n1, qop auth, an opaque value and
the algorithm MD5-sess, with md5_example for the hash: the response field is written
in lowercase hexadecimal digits. -/
theorem digest_response_qop_auth_witness :
    digest_authentication_encode md5_example 48879
        ("Digest realm=r, nonce=n1, qop=auth, opaque=xyz, algorithm=MD5-sess".toList)
        (some "u".toList) (some "p".toList) (some "GET".toList) (some "/x".toList)
        uerr_t.RETROK
      = some (some ("Digest username=\"u\", realm=\"r\", nonce=\"n1\", uri=\"/x\", ".toList
            ++ "response=\"b3c4d5e6f708192a3b4c5d6e7f90a1b2\", qop=auth, nc=00000001, ".toList
            ++ "cnonce=\"0000beef\", opaque=\"xyz\", algorithm=\"MD5-sess\"".toList),
          uerr_t.RETROK) :=
  (digest_response_qop_auth md5_example 48879
    ("Digest realm=r, nonce=n1, qop=auth, opaque=xyz, algorithm=MD5-sess".toList)
    "u".toList "p".toList "GET".toList "/x".toList uerr_t.RETROK
    ⟨some "r".toList, some "xyz".toList, some "n1".toList, some "auth".toList,
      some "MD5-sess".toList⟩
    "r".toList "n1".toList md5_example_bytes (by decide) (by rfl) rfl rfl rfl).trans
    (congrArg (fun t => some (some t, uerr_t.RETROK)) digest_header_example_text)

/-! ## RFC 2231 parameters: the value behind the charset and language -/

theorem dropWhile_ne_stop (c : Char) (a t : List Char) (h : ∀ x ∈ a, x ≠ c) :
    (a ++ c :: t).dropWhile (fun x => x ≠ c) = c :: t := by
  induction a with
  | nil => simp
  | cons x xs ih =>
    have hx : x ≠ c := h x (List.mem_cons_self _ _)
    rw [List.cons_append, List.dropWhile_cons_of_pos (by simpa using hx)]
    exact ih (fun y hy => h y (List.mem_cons_of_mem _ hy))

/-- For a value written charset'lang'data the text behind the second apostrophe is
data. -/
theorem spec_rfc2231_data_prefix (charset lang data : List Char)
    (hc : ∀ x ∈ charset, x ≠ SQUOTE) (hl : ∀ x ∈ lang, x ≠ SQUOTE) :
    spec_rfc2231_data (charset ++ SQUOTE :: (lang ++ SQUOTE :: data)) = data := by
  unfold spec_rfc2231_data
  rw [dropWhile_ne_stop SQUOTE charset _ hc]
  show ((lang ++ SQUOTE :: data).dropWhile (fun c => c ≠ SQUOTE)).drop 1 = data
  rw [dropWhile_ne_stop SQUOTE lang _ hl]
  rfl

/-- C25 (amended): one extract_param call on a well-formed written parameter with a
value.  For a name without an asterisk the name and the value are delivered as
written and is_url_encoded is false.  For the forms base* and base*N* the name is
cut in front of the first asterisk, is_url_encoded is true and the value is
delivered from behind its last apostrophe on (as written when it has no apostrophe):
for a value written charset'lang'data whose data holds no apostrophe that is the
value with its prefix charset'lang' removed.  For the form base*N the name is cut in
front of the asterisk, is_url_encoded is false and the value is delivered as
written. -/
theorem extract_param_rfc2231 (s : List Char) (separator : Char) (src : Nat) (p : spec_param)
    (v : spec_value) (tail base : List Char) (hsep : separator_ok separator = true)
    (hwf : p.wf separator = true) (hv : p.value = some v)
    (hdrop : s.drop src = p.bytes ++ tail)
    (htail : tail = [] ∨ tail.head? = some separator) (hbase : ∀ c ∈ base, c ≠ '*') :
    (extract_param s src separator).ok = true
      ∧ (p.name = base →
          span s (extract_param s src separator).name.b (extract_param s src separator).name.e
            = base
          ∧ (extract_param s src separator).value.map (fun x => span s x.b x.e) = some v.text
          ∧ (extract_param s src separator).is_url_encoded = false)
      ∧ ((p.name = base ++ ['*'] ∨ ∃ seg, p.name = base ++ '*' :: (seg ++ ['*'])) →
          span s (extract_param s src separator).name.b (extract_param s src separator).name.e
            = base
          ∧ (extract_param s src separator).is_url_encoded = true
          ∧ (∀ cs data, v.text = cs ++ SQUOTE :: data → (∀ c ∈ data, c ≠ SQUOTE) →
              (extract_param s src separator).value.map (fun x => span s x.b x.e) = some data)
          ∧ ((∀ c ∈ v.text, c ≠ SQUOTE) →
              (extract_param s src separator).value.map (fun x => span s x.b x.e)
                = some v.text)
          ∧ (∀ charset lang data, v.text = charset ++ SQUOTE :: (lang ++ SQUOTE :: data) →
              (∀ c ∈ charset, c ≠ SQUOTE) → (∀ c ∈ lang, c ≠ SQUOTE) →
              (∀ c ∈ data, c ≠ SQUOTE) →
              (extract_param s src separator).value.map (fun x => span s x.b x.e)
                = some (spec_rfc2231_data v.text)))
      ∧ (∀ seg, seg ≠ [] → (∀ c ∈ seg, c ≠ '*') → p.name = base ++ '*' :: seg →
          span s (extract_param s src separator).name.b (extract_param s src separator).name.e
            = base
          ∧ (extract_param s src separator).value.map (fun x => span s x.b x.e) = some v.text
          ∧ (extract_param s src separator).is_url_encoded = false) := by
  obtain ⟨h1, h2, h3, h4⟩ :=
    extract_param_rfc2231_cut s separator src p v tail base hsep hwf hv hdrop htail hbase
  refine ⟨h1, h2, ?_, h4⟩
  intro hname
  obtain ⟨g1, g2, g3, g4⟩ := h3 hname
  refine ⟨g1, g2, g3, g4, ?_⟩
  intro charset lang data hvt hc hl hd
  rw [g3 (charset ++ SQUOTE :: lang) data (by rw [hvt]; simp) hd, hvt,
    spec_rfc2231_data_prefix charset lang data hc hl]

/-- C25 (witness): the parameter filename*=UTF-8''na%C3%AFve.txt is delivered with
the name filename, the value na%C3%AFve.txt and is_url_encoded true. -/
theorem extract_param_rfc2231_witness :
    span ("filename*=UTF-8".toList ++ [SQUOTE, SQUOTE] ++ "na%C3%AFve.txt".toList)
        (extract_param ("filename*=UTF-8".toList ++ [SQUOTE, SQUOTE] ++ "na%C3%AFve.txt".toList)
          0 ';').name.b
        (extract_param ("filename*=UTF-8".toList ++ [SQUOTE, SQUOTE] ++ "na%C3%AFve.txt".toList)
          0 ';').name.e = "filename".toList
      ∧ (extract_param ("filename*=UTF-8".toList ++ [SQUOTE, SQUOTE]
          ++ "na%C3%AFve.txt".toList) 0 ';').is_url_encoded = true
      ∧ (extract_param ("filename*=UTF-8".toList ++ [SQUOTE, SQUOTE]
          ++ "na%C3%AFve.txt".toList) 0 ';').value.map
            (fun x => span ("filename*=UTF-8".toList ++ [SQUOTE, SQUOTE]
              ++ "na%C3%AFve.txt".toList) x.b x.e) = some "na%C3%AFve.txt".toList := by
  have h := (extract_param_rfc2231
    ("filename*=UTF-8".toList ++ [SQUOTE, SQUOTE] ++ "na%C3%AFve.txt".toList) ';' 0
    ⟨[], "filename*".toList, [],
      some ⟨[], false, "UTF-8".toList ++ [SQUOTE, SQUOTE] ++ "na%C3%AFve.txt".toList, []⟩⟩
    ⟨[], false, "UTF-8".toList ++ [SQUOTE, SQUOTE] ++ "na%C3%AFve.txt".toList, []⟩
    [] "filename".toList (by decide) (by decide) rfl (by decide) (Or.inl rfl)
    (by decide)).2.2.1 (Or.inl rfl)
  exact ⟨h.1, h.2.1, (h.2.2.2.2 "UTF-8".toList [] "na%C3%AFve.txt".toList (by decide)
    (by decide) (by decide) (by decide)).trans (by decide)⟩

/-- C25 (counterexample): for the parameter filename*=UTF-8'en'a'b.txt the value
without its prefix UTF-8'en' is a'b.txt, but extract_param delivers b.txt, the text
behind the last apostrophe; the name is cut to filename and is_url_encoded is
true. -/
theorem extract_param_rfc2231_apostrophe_in_data :
    (extract_param ("filename*=UTF-8".toList ++ [SQUOTE] ++ "en".toList ++ [SQUOTE]
        ++ "a".toList ++ [SQUOTE] ++ "b.txt".toList) 0 ';').value.map
          (fun x => span ("filename*=UTF-8".toList ++ [SQUOTE] ++ "en".toList ++ [SQUOTE]
            ++ "a".toList ++ [SQUOTE] ++ "b.txt".toList) x.b x.e) = some "b.txt".toList
      ∧ spec_rfc2231_data ("UTF-8".toList ++ [SQUOTE] ++ "en".toList ++ [SQUOTE]
          ++ "a".toList ++ [SQUOTE] ++ "b.txt".toList)
          = "a".toList ++ [SQUOTE] ++ "b.txt".toList
      ∧ (extract_param ("filename*=UTF-8".toList ++ [SQUOTE] ++ "en".toList ++ [SQUOTE]
          ++ "a".toList ++ [SQUOTE] ++ "b.txt".toList) 0 ';').value.map
            (fun x => span ("filename*=UTF-8".toList ++ [SQUOTE] ++ "en".toList ++ [SQUOTE]
              ++ "a".toList ++ [SQUOTE] ++ "b.txt".toList) x.b x.e)
          ≠ some (spec_rfc2231_data ("UTF-8".toList ++ [SQUOTE] ++ "en".toList ++ [SQUOTE]
              ++ "a".toList ++ [SQUOTE] ++ "b.txt".toList))
      ∧ (extract_param ("filename*=UTF-8".toList ++ [SQUOTE] ++ "en".toList ++ [SQUOTE]
          ++ "a".toList ++ [SQUOTE] ++ "b.txt".toList) 0 ';').is_url_encoded = true
      ∧ (extract_param ("filename*=UTF-8".toList ++ [SQUOTE] ++ "en".toList ++ [SQUOTE]
          ++ "a".toList ++ [SQUOTE] ++ "b.txt".toList) 0 ';').ok = true := by
  refine ⟨by decide, by decide, by decide, by decide, by decide⟩

/-! ## Content-Range: the values that gethttp hands to parse_content_range -/

/-- A trimmed text does not begin with white space. -/
theorem trim_ws_head (l : List Char) : c_isspace ((trim_ws l).headD NUL) = false := by
  unfold trim_ws
  rw [reverse_dropWhile_reverse]
  generalize ((l.dropWhile c_isspace).reverse.dropWhile c_isspace).length = k
  cases hr : l.dropWhile c_isspace with
  | nil => rw [List.take_nil]; exact c_isspace_NUL
  | cons c r =>
    have hc := dropWhile_head_false c_isspace l c r hr
    cases k with
    | zero => exact c_isspace_NUL
    | succ k => exact hc

/-- The span that the loop of resp_header_locate delivers is a trimmed text. -/
theorem resp_header_locate_loop_trimmed (data : List Char) (hs : List Nat) (name : List Char)
    (fuel : Nat) : ∀ (i j b e : Nat),
      resp_header_locate_loop data hs name fuel i = some (some (j, b, e)) →
      ∃ X, span data b e = trim_ws X := by
  induction fuel with
  | zero => intro i j b e h; cases h
  | succ n ih =>
    intro i j b e h
    unfold resp_header_locate_loop at h
    simp only [] at h
    split_ifs at h with h1 h2 h3
    all_goals first
      | exact ih _ _ _ _ h
      | (simp only [Option.some.injEq, Prod.mk.injEq] at h
         obtain ⟨_, hb, he⟩ := h
         subst hb he
         exact ⟨_, locate_value data _ _ _⟩)
      | simp at h

/-- The string that resp_header_copy leaves in the buffer does not begin with white
space. -/
theorem resp_header_copy_no_leading_space (resp : response) (name buf : List Char)
    (bufsize : Nat) (hdr : List Char) (hsize : bufsize ≠ 0)
    (h : resp_header_copy resp name buf bufsize = some (true, hdr)) :
    c_isspace (hdr.headD NUL) = false := by
  unfold resp_header_copy resp_header_get at h
  cases hl : resp_header_locate resp name 0 with
  | none => rw [hl] at h; cases h
  | some r =>
    rw [hl] at h
    cases r with
    | none => simp at h
    | some x =>
      obtain ⟨j, b, e⟩ := x
      simp only [ne_eq, hsize, not_false_eq_true, if_true, Option.some.injEq,
        Prod.mk.injEq, true_and] at h
      subst h
      have hX : ∃ X, span resp.data b e = trim_ws X := by
        unfold resp_header_locate at hl
        cases hh : resp.headers with
        | none => rw [hh] at hl; simp at hl
        | some headers =>
          rw [hh] at hl
          simp only [] at hl
          split_ifs at hl
          all_goals first
            | exact resp_header_locate_loop_trimmed _ _ _ _ _ _ _ _ hl
            | simp at hl
      obtain ⟨X, hX⟩ := hX
      rw [hX]
      have := trim_ws_head X
      cases hm : min (e - b) (bufsize - 1) with
      | zero => exact c_isspace_NUL
      | succ m =>
        cases ht : trim_ws X with
        | nil => exact c_isspace_NUL
        | cons c r => rw [ht] at this; exact this

/-- On a string that does not begin with white space, the prefixes that the spec
allows in front of the first number are those that parse_content_range skips. -/
theorem spec_content_range_prefix_iff (pre t : List Char)
    (hns : c_isspace ((pre ++ t).headD NUL) = false) :
    spec_content_range_prefix pre ↔ content_range_prefix pre := by
  constructor
  · rintro ⟨b, colon, ws, rfl, hb, hws⟩
    rcases hb with ⟨rfl, rfl⟩ | ⟨hb, hc⟩
    · cases ws with
      | nil => exact Or.inl rfl
      | cons w ws =>
        exfalso
        simp only [List.all_cons, Bool.and_eq_true] at hws
        simp only [List.nil_append, List.cons_append, List.headD_cons] at hns
        rw [hws.1] at hns
        cases hns
    · exact Or.inr ⟨b, colon, ws, rfl, hb, hc, hws⟩
  · rintro (rfl | ⟨b, colon, ws, rfl, hb, hc, hws⟩)
    · exact ⟨[], [], [], rfl, Or.inl ⟨rfl, rfl⟩, rfl⟩
    · exact ⟨b, colon, ws, rfl, Or.inr ⟨hb, hc⟩, hws⟩

/-- C29: for every value that resp_header_copy hands over, as the one that gethttp
passes to parse_content_range, of the form [bytes[:]] whitespace* F '-' L '/'
(T or '*') with decimal numbers F, L, T that fit in wgint, parse_content_range
returns true exactly when F <= L and (the total is '*' or T > L), and then yields
first = F, last = L and the entity length T, or -1 for '*'; and whenever it returns
true the value has that form, so that it returns false when a digit run, the '-' or
the '/' is missing. -/
theorem parse_content_range_spec (resp : response) (name buf : List Char) (bufsize : Nat)
    (hdr : List Char) (hsize : bufsize ≠ 0)
    (hcopy : resp_header_copy resp name buf bufsize = some (true, hdr)) :
    (∀ pre F L T rest : List Char, hdr = pre ++ (F ++ ('-' :: (L ++ ('/' :: (T ++ rest))))) →
        spec_content_range_prefix pre →
        F.all c_isdigit = true → F ≠ [] → Hsts.digits_value F < 2 ^ 63 →
        L.all c_isdigit = true → L ≠ [] → Hsts.digits_value L < 2 ^ 63 →
        T.all c_isdigit = true → T ≠ [] → Hsts.digits_value T < 2 ^ 63 →
        c_isdigit (rest.headD NUL) = false →
        ((parse_content_range hdr).ok = true
            ↔ Hsts.digits_value F ≤ Hsts.digits_value L
              ∧ Hsts.digits_value L < Hsts.digits_value T)
          ∧ ((parse_content_range hdr).ok = true →
              parse_content_range hdr
                = ⟨true, some (Hsts.digits_value F : Int), some (Hsts.digits_value L : Int),
                    some (Hsts.digits_value T : Int)⟩))
      ∧ (∀ pre F L rest : List Char, hdr = pre ++ (F ++ ('-' :: (L ++ ('/' :: ('*' :: rest))))) →
          spec_content_range_prefix pre →
          F.all c_isdigit = true → F ≠ [] → Hsts.digits_value F < 2 ^ 63 →
          L.all c_isdigit = true → L ≠ [] → Hsts.digits_value L < 2 ^ 63 →
          ((parse_content_range hdr).ok = true ↔ Hsts.digits_value F ≤ Hsts.digits_value L)
            ∧ ((parse_content_range hdr).ok = true →
                parse_content_range hdr
                  = ⟨true, some (Hsts.digits_value F : Int), some (Hsts.digits_value L : Int),
                      some (-1)⟩))
      ∧ ((parse_content_range hdr).ok = true →
          ∃ pre F L tot rest : List Char, spec_content_range_prefix pre
            ∧ F.all c_isdigit = true ∧ F ≠ [] ∧ L.all c_isdigit = true ∧ L ≠ []
            ∧ (tot = ['*']
                ∨ (tot.all c_isdigit = true ∧ tot ≠ [] ∧ c_isdigit (rest.headD NUL) = false))
            ∧ hdr = pre ++ (F ++ ('-' :: (L ++ ('/' :: (tot ++ rest)))))) := by
  have hns := resp_header_copy_no_leading_space resp name buf bufsize hdr hsize hcopy
  obtain ⟨c1, c2, c3⟩ := parse_content_range_prefixed hdr
  refine ⟨?_, ?_, ?_⟩
  · intro pre F L T rest hhdr hpre
    exact c1 pre F L T rest hhdr
      ((spec_content_range_prefix_iff pre _ (by rw [← hhdr]; exact hns)).1 hpre)
  · intro pre F L rest hhdr hpre
    exact c2 pre F L rest hhdr
      ((spec_content_range_prefix_iff pre _ (by rw [← hhdr]; exact hns)).1 hpre)
  · intro hok
    obtain ⟨pre, F, L, tot, rest, hpre, hF, hFne, hL, hLne, htot, hhdr⟩ := c3 hok
    exact ⟨pre, F, L, tot, rest,
      (spec_content_range_prefix_iff pre _ (by rw [← hhdr]; exact hns)).2 hpre,
      hF, hFne, hL, hLne, htot, hhdr⟩

/-- C29 (witness): from the response that resp_new builds for a head with the header
Content-Range:  bytes 100-199/200, resp_header_copy hands over bytes 100-199/200,
which gives first 100, last 199 and the entity length 200. -/
theorem parse_content_range_spec_witness :
    resp_new "HTTP/1.1 206 OK\r\nContent-Range:  bytes 100-199/200\r\n\r\n".toList
        = some ⟨"HTTP/1.1 206 OK\r\nContent-Range:  bytes 100-199/200\r\n\r\n".toList,
            some [0, 17, 52]⟩
      ∧ resp_header_copy
        ⟨"HTTP/1.1 206 OK\r\nContent-Range:  bytes 100-199/200\r\n\r\n".toList, some [0, 17, 52]⟩
        "Content-Range".toList [] 512 = some (true, "bytes 100-199/200".toList)
      ∧ parse_content_range "bytes 100-199/200".toList
          = ⟨true, some 100, some 199, some 200⟩ :=
  ⟨by decide, by decide,
    (((parse_content_range_spec
        ⟨"HTTP/1.1 206 OK\r\nContent-Range:  bytes 100-199/200\r\n\r\n".toList,
          some [0, 17, 52]⟩
        "Content-Range".toList [] 512 "bytes 100-199/200".toList (by decide) (by decide)).1
      "bytes ".toList "100".toList "199".toList "200".toList [] (by decide)
      ⟨"bytes".toList, [], " ".toList, rfl, Or.inr ⟨by decide, Or.inl rfl⟩, by decide⟩
      (by decide) (by decide) (by decide) (by decide) (by decide) (by decide) (by decide)
      (by decide) (by decide) (by decide)).2
    (by decide)).trans (by decide)⟩

/-! ## gethttp: a conditional GET answered with 304 -/

theorem CLOSE_FINISH_keep_alive (st : gethttp_state) :
    (CLOSE_FINISH st).keep_alive = st.keep_alive := by
  unfold CLOSE_FINISH
  split_ifs <;> rfl

/-- What the macro CLOSE_FINISH does to the socket and the connection cache: with
keep_alive nothing, and without it the socket is closed, through
invalidate_persistent when it is the socket of the active persistent connection, and
`sock` becomes -1. -/
theorem CLOSE_FINISH_effect (st : gethttp_state) :
    (st.keep_alive = true → (CLOSE_FINISH st).sock = st.sock ∧ (CLOSE_FINISH st).pc = st.pc)
      ∧ (st.keep_alive = false → (CLOSE_FINISH st).sock = -1
          ∧ (CLOSE_FINISH st).pc
              = (if st.pc.pconn_active = true ∧ st.sock = st.pc.pconn.socket then
                  invalidate_persistent st.pc
                else { st.pc with closed := st.pc.closed ++ [st.sock] })) := by
  unfold CLOSE_FINISH
  constructor
  · intro h
    rw [if_neg (by rw [h]; decide)]
    exact ⟨rfl, rfl⟩
  · intro h
    rw [if_pos h]
    exact ⟨rfl, rfl⟩

/-- A conditional request answered with 304 leaves gethttp_response with
RETRUNNEEDED through CLOSE_FINISH, with RETROKF set and no other call recorded. -/
theorem gethttp_response_not_modified (opt : options) (io : gethttp_io) (head_only : Bool)
    (r : response_facts) (st : gethttp_state) (h304 : r.statcode = 304)
    (hclob : opt.noclobber = true → opt.output_document.isSome = true) :
    ∃ X, gethttp_response opt io head_only true r st
        = .done uerr_t.RETRUNNEEDED (CLOSE_FINISH X)
      ∧ X.dt.RETROKF = true
      ∧ X.events = st.events
      ∧ X.sock = st.sock
      ∧ X.keep_alive = (st.keep_alive
          && !(!(!opt.http_keep_alive || opt.ignore_length)
              && decide (r.connection.map (fun v => c_strcasecmp v "Close".toList) = some 0)))
      ∧ X.pc = (if st.ntlm_seen = true then
          { st.pc with pconn := { st.pc.pconn with authorized := true } } else st.pc) := by
  have e1 : H_20X 304 = false := by decide
  have e2 : H_REDIRECTED 304 = false := by decide
  have e3 : ¬ ((304 : Int) = 401) := by decide
  have e4 : ¬ ((304 : Int) = 204) := by decide
  have e5 : decide ((304 : Int) = HTTP_STATUS_MULTIPLE_CHOICES) = false := by decide
  unfold gethttp_response
  lift_lets
  intro warc_enabled inhibit_keep_alive statcode contlen0 sa chunked d src_d src_dpc src_dpconn
    st_1 src_sapc src_sapconn sb cfo sc src_schs st_2 range contrange contlen src_2dt st_3 d_1
    src_3dt st_4 src_4dt st_5 adj st_6 up_to_date src_6dt src_6hs st_7 hs_contlen st_8 d_2 st_9
    rb st_10
  have hs : statcode = 304 := h304
  have hcfo : cfo.1 = uerr_t.RETROK := check_file_output_ok opt io r _ hclob
  rw [if_neg (by rw [hs]; decide), if_neg (not_not.mpr hcfo), if_neg (by rw [hs]; decide),
    if_neg (by rw [hs, e2, e5]; simp), if_pos ⟨rfl, hs⟩]
  refine ⟨_, rfl, rfl, ?_, ?_, ?_, ?_⟩
  · show st_4.events = st.events
    simp only [st_4, st_3, st_2, sc, sb, sa]
    split_ifs <;> rfl
  · show st_4.sock = st.sock
    simp only [st_4, st_3, st_2, sc, sb, sa]
    split_ifs <;> rfl
  · show st_4.keep_alive = _
    have h4 : st_4.keep_alive = sa.keep_alive := by
      simp only [st_4, st_3, st_2, sc, sb]
      split_ifs <;> rfl
    rw [h4]
    simp only [sa, inhibit_keep_alive]
    cases (!(!opt.http_keep_alive || opt.ignore_length)
      && decide (r.connection.map (fun v => c_strcasecmp v "Close".toList) = some 0))
    · simp
    · simp
  · show st_4.pc = _
    have h4 : st_4.pc = sb.pc := by
      simp only [st_4, st_3, st_2, sc]
      split_ifs <;> rfl
    have ha1 : sa.pc = st.pc := by
      simp only [sa]
      split_ifs <;> rfl
    have ha2 : sa.ntlm_seen = st.ntlm_seen := by
      simp only [sa]
      split_ifs <;> rfl
    rw [h4]
    simp only [sb, src_sapc, src_sapconn, ha2]
    split_ifs
    · show ({ sa.pc with pconn := { sa.pc.pconn with authorized := true } } : pconn_state) = _
      rw [ha1]
    · exact ha1

/-- C34: a pass of gethttp that sends a conditional request (IF_MODIFIED_SINCE) and
reads a response with status 304 returns RETRUNNEEDED with RETROKF set.  Of the calls
recorded it makes CLOSE_FINISH and no other: not CLOSE_INVALIDATE, not
open_output_stream, not read_response_body.  The connection is finished as
CLOSE_FINISH prescribes: keep_alive holds at the end exactly when keep-alive is not
inhibited and the response has no `Connection: close`; then the socket stays open and
the connection cache is as establish_connection left it (authorized when NTLM was
seen); otherwise the socket is closed, through invalidate_persistent when it is the
socket of the active persistent connection, and `sock` is -1. -/
theorem gethttp_not_modified (E : gethttp_env) (io : gethttp_io) (ios : List gethttp_io)
    (head_only : Bool) (st : gethttp_state) (pc : pconn_state) (sock : Int)
    (r : response_facts)
    (hconn : establish_connection io E.host E.port
      (!E.opt.http_keep_alive || E.opt.ignore_length) st.pc st.sock
        = some (uerr_t.RETROK, pc, sock))
    (hwarc : E.opt.warc_filename.isSome = true →
      io.warc_tempfile = true ∧ io.warc_write_request_record = true)
    (hwrite : 0 ≤ io.write_error)
    (hhead : gethttp_read_head io.errno_zero io.heads = some (.ok r))
    (h304 : r.statcode = 304)
    (hclob : E.opt.noclobber = true → E.opt.output_document.isSome = true) :
    ∃ st', gethttp_passes E head_only true (io :: ios) st = some (uerr_t.RETRUNNEEDED, st')
      ∧ st'.dt.RETROKF = true
      ∧ st'.events = st.events ++ [gethttp_event.close_finish]
      ∧ gethttp_event.close_invalidate ∉ st'.events.drop st.events.length
      ∧ gethttp_event.open_output_stream ∉ st'.events.drop st.events.length
      ∧ (∀ fp, gethttp_event.read_response_body fp ∉ st'.events.drop st.events.length)
      ∧ st'.keep_alive = (!(!E.opt.http_keep_alive || E.opt.ignore_length)
          && !decide (r.connection.map (fun v => c_strcasecmp v "Close".toList) = some 0))
      ∧ (st'.keep_alive = true → st'.sock = sock
          ∧ st'.pc = (if st.ntlm_seen = true then
              { pc with pconn := { pc.pconn with authorized := true } } else pc))
      ∧ (st'.keep_alive = false → st'.sock = -1
          ∧ st'.pc = (if pc.pconn_active = true ∧ sock = pc.pconn.socket then
              invalidate_persistent (if st.ntlm_seen = true then
                { pc with pconn := { pc.pconn with authorized := true } } else pc)
            else
              { (if st.ntlm_seen = true then
                  { pc with pconn := { pc.pconn with authorized := true } } else pc) with
                closed := pc.closed ++ [sock] })) := by
  have hw1 : (E.opt.warc_filename.isSome && !io.warc_tempfile) = false := by
    cases hw : E.opt.warc_filename.isSome
    · rfl
    · rw [(hwarc hw).1]; rfl
  have hw2 : (E.opt.warc_filename.isSome && !io.warc_write_request_record) = false := by
    cases hw : E.opt.warc_filename.isSome
    · rfl
    · rw [(hwarc hw).2]; rfl
  obtain ⟨X, e, h1, h2, h3, h4, h5⟩ := gethttp_response_not_modified E.opt io head_only r
    { st with keep_alive := !(!E.opt.http_keep_alive || E.opt.ignore_length), pc := pc,
              sock := sock, dt := { st.dt with RETROKF := false } } h304 hclob
  simp only [] at h2 h3 h4 h5
  have hev : (CLOSE_FINISH X).events = st.events ++ [gethttp_event.close_finish] := by
    rw [CLOSE_FINISH_events, h2]
  have hka : X.keep_alive = (!(!E.opt.http_keep_alive || E.opt.ignore_length)
      && !decide (r.connection.map (fun v => c_strcasecmp v "Close".toList) = some 0)) := by
    rw [h4]
    cases (!(!E.opt.http_keep_alive || E.opt.ignore_length)) <;>
      cases decide (r.connection.map (fun v => c_strcasecmp v "Close".toList) = some 0) <;> rfl
  refine ⟨CLOSE_FINISH X, ?_, ?_, hev, ?_, ?_, ?_, ?_, ?_, ?_⟩
  · unfold gethttp_passes gethttp_pass
    simp only [hconn, hw1, hw2, hhead, ne_eq, not_true_eq_false, if_false, not_lt.mpr hwrite,
      Bool.false_eq_true]
    rw [e]
  · rw [CLOSE_FINISH_dt]; exact h1
  · rw [hev, List.drop_left]; simp
  · rw [hev, List.drop_left]; simp
  · rw [hev, List.drop_left]; simp
  · rw [CLOSE_FINISH_keep_alive]; exact hka
  · intro hk
    rw [CLOSE_FINISH_keep_alive] at hk
    obtain ⟨g1, g2⟩ := (CLOSE_FINISH_effect X).1 hk
    rw [g1, g2, h3, h5]
    exact ⟨rfl, rfl⟩
  · intro hk
    rw [CLOSE_FINISH_keep_alive] at hk
    obtain ⟨g1, g2⟩ := (CLOSE_FINISH_effect X).2 hk
    rw [g1, g2, h3, h5]
    refine ⟨rfl, ?_⟩
    cases st.ntlm_seen <;> rfl

/-- C34 (witness): a conditional GET that a new connection on socket 5 answers with
304.  Without a Connection header gethttp returns RETRUNNEEDED with RETROKF set, the
only recorded call is CLOSE_FINISH, and the socket stays open; with
`Connection: close` the socket is closed. -/
theorem gethttp_not_modified_witness :
    (∃ st', gethttp gethttp_env_example http_stat_example
        ⟨false, true, false, false, false, false, false⟩ pconn_state_start
        [gethttp_io_example 304 none] = some (uerr_t.RETRUNNEEDED, st')
      ∧ st'.dt.RETROKF = true ∧ st'.events = [gethttp_event.close_finish]
      ∧ st'.sock = 5 ∧ st'.pc = pconn_state_start)
    ∧ (∃ st', gethttp gethttp_env_example http_stat_example
        ⟨false, true, false, false, false, false, false⟩ pconn_state_start
        [gethttp_io_example 304 (some "close".toList)] = some (uerr_t.RETRUNNEEDED, st')
      ∧ st'.dt.RETROKF = true ∧ st'.events = [gethttp_event.close_finish]
      ∧ st'.sock = -1 ∧ st'.pc = { pconn_state_start with closed := [5] }) := by
  constructor
  · obtain ⟨st', e, h1, h2, _, _, _, h6, h7, _⟩ := gethttp_not_modified gethttp_env_example
      (gethttp_io_example 304 none) [] false
      { hs := { http_stat_example with len := 0, contlen := -1, res := -1, newloc := none,
                                       remote_time := none },
        dt := ⟨false, true, false, false, false, false, false⟩, pc := pconn_state_start,
        sock := -1, keep_alive := false, ntlm_seen := false, events := [] }
      pconn_state_start 5 _ (by decide) (by decide) (by decide) rfl rfl (by decide)
    obtain ⟨g1, g2⟩ := h7 (h6.trans (by decide))
    exact ⟨st', e, h1, h2, g1, g2⟩
  · obtain ⟨st', e, h1, h2, _, _, _, h6, _, h8⟩ := gethttp_not_modified gethttp_env_example
      (gethttp_io_example 304 (some "close".toList)) [] false
      { hs := { http_stat_example with len := 0, contlen := -1, res := -1, newloc := none,
                                       remote_time := none },
        dt := ⟨false, true, false, false, false, false, false⟩, pc := pconn_state_start,
        sock := -1, keep_alive := false, ntlm_seen := false, events := [] }
      pconn_state_start 5 _ (by decide) (by decide) (by decide) rfl rfl (by decide)
    obtain ⟨g1, g2⟩ := h8 (h6.trans (by decide))
    exact ⟨st', e, h1, h2, g1, g2⟩

/-! ## Digest authentication: unsupported qop together with an unsupported algorithm -/

/-- A challenge whose qop is not auth and whose algorithm is neither MD5 nor MD5-sess
is answered like the challenge without qop and algorithm, with the algorithm field
appended: the test of the algorithm is not reached. -/
theorem digest_unsupported_both (md5 : List Char → List Nat) (rnd : Nat)
    (au au2 : List Char) (user passwd method path : Option (List Char)) (auth_err : uerr_t)
    (ps : digest_params) (hlen : 6 ≤ au.length) (hlen2 : 6 ≤ au2.length)
    (hps : digest_parse au = some ps) (q a : List Char)
    (hq : ps.qop = some q) (hne : q ≠ "auth".toList) (ha : ps.algorithm = some a)
    (hn2 : a ≠ "MD5-sess".toList)
    (hps2 : digest_parse au2 = some { ps with qop := none, algorithm := none }) :
    digest_authentication_encode md5 rnd au user passwd method path auth_err
      = (digest_authentication_encode md5 rnd au2 user passwd method path auth_err).map
          (fun res => (res.1.map (fun v =>
            v ++ (", algorithm=".toList ++ [DQUOTE] ++ a ++ [DQUOTE])), res.2)) := by
  obtain ⟨prealm, popq, pnonce, pqop, palg⟩ := ps
  simp only at hq ha hps2
  subst hq ha
  unfold digest_authentication_encode
  rw [if_neg (by omega), if_neg (by omega), hps, hps2]
  have e1 : "Digest username=".toList.length = 16 := rfl
  have e2 : ", realm=".toList.length = 8 := rfl
  have e3 : ", nonce=".toList.length = 8 := rfl
  have e4 : ", uri=".toList.length = 6 := rfl
  have e5 : ", response=".toList.length = 11 := rfl
  generalize "auth".toList = A at hne ⊢
  generalize "MD5-sess".toList = M2 at hn2 ⊢
  have h1 : decide (q ≠ A) = true := by simpa using hne
  simp only [h1, if_true, Bool.not_true, Bool.false_and, Bool.false_eq_true, if_false,
    reduceCtorEq, decide_False, Option.isSome_none, Option.some.injEq, hn2]
  cases prealm with
  | none => rfl
  | some realm =>
    cases pnonce with
    | none => rfl
    | some nonce =>
      cases user with
      | none => rfl
      | some user =>
        cases passwd with
        | none => rfl
        | some passwd =>
          cases path with
          | none => rfl
          | some path =>
            cases method with
            | none => rfl
            | some method =>
              simp only []
              rw [digest_emit_fits _ _ _ _ _ (by
                  simp only [List.length_append, List.length_cons, List.length_nil,
                    md5_hex_length, e1, e2, e3, e4, e5, MD5_DIGEST_SIZE]
                  cases popq <;> simp only <;> omega),
                digest_emit_fits _ _ _ _ _ (by
                  simp only [List.length_append, List.length_cons, List.length_nil,
                    md5_hex_length, e1, e2, e3, e4, e5, MD5_DIGEST_SIZE]
                  cases popq <;> simp only <;> omega)]
              cases popq <;> simp

/-- C35 (amended): a challenge whose qop is not auth, or whose algorithm is neither
MD5 nor MD5-sess, is not rejected.  An unsupported qop is discarded and the function
returns what it returns for the same challenge without qop when the algorithm is
absent, MD5 or MD5-sess; for any other algorithm, whose test is then not reached, it
returns what it returns for the challenge without qop and algorithm, with the
algorithm field appended.  With a qop that is absent or auth an unsupported
algorithm is discarded and the function returns what it returns for the same
challenge without algorithm.  With realm and nonce present a challenge whose qop is
not auth yields an Authorization value. -/
theorem digest_unsupported_discarded (md5 : List Char → List Nat) (rnd : Nat)
    (au au2 : List Char) (user passwd method path : Option (List Char)) (auth_err : uerr_t)
    (ps : digest_params) (hlen : 6 ≤ au.length) (hlen2 : 6 ≤ au2.length)
    (hps : digest_parse au = some ps) :
    (∀ q, ps.qop = some q → q ≠ "auth".toList →
        (ps.algorithm = none ∨ ps.algorithm = some "MD5".toList
          ∨ ps.algorithm = some "MD5-sess".toList) →
        digest_parse au2 = some { ps with qop := none } →
        digest_authentication_encode md5 rnd au user passwd method path auth_err
          = digest_authentication_encode md5 rnd au2 user passwd method path auth_err)
      ∧ (∀ q a, ps.qop = some q → q ≠ "auth".toList →
          ps.algorithm = some a → a ≠ "MD5".toList → a ≠ "MD5-sess".toList →
          digest_parse au2 = some { ps with qop := none, algorithm := none } →
          digest_authentication_encode md5 rnd au user passwd method path auth_err
            = (digest_authentication_encode md5 rnd au2 user passwd method path auth_err).map
                (fun res => (res.1.map (fun v =>
                  v ++ (", algorithm=".toList ++ [DQUOTE] ++ a ++ [DQUOTE])), res.2)))
      ∧ (∀ a, ps.algorithm = some a → a ≠ "MD5".toList → a ≠ "MD5-sess".toList →
          (ps.qop = none ∨ ps.qop = some "auth".toList) →
          digest_parse au2 = some { ps with algorithm := none } →
          digest_authentication_encode md5 rnd au user passwd method path auth_err
            = digest_authentication_encode md5 rnd au2 user passwd method path auth_err)
      ∧ (∀ q realm nonce u p m pth, ps.qop = some q → q ≠ "auth".toList →
          ps.realm = some realm → ps.nonce = some nonce →
          ∃ v, digest_authentication_encode md5 rnd au (some u) (some p) (some m) (some pth)
            auth_err = some (some v, auth_err)) := by
  have hboth := digest_unsupported_both md5 rnd au au2 user passwd method path auth_err ps
    hlen hlen2 hps
  obtain ⟨prealm, popq, pnonce, pqop, palg⟩ := ps
  refine ⟨?_, fun q a hq hne ha _ hn2 hps2 => hboth q a hq hne ha hn2 hps2, ?_, ?_⟩
  · intro q hq hne halg hps2
    simp only at hq halg hps2
    subst hq
    unfold digest_authentication_encode
    rw [if_neg (by omega), if_neg (by omega), hps, hps2]
    have hMM : "MD5-sess".toList ≠ "MD5".toList := by decide
    generalize "auth".toList = A at hne ⊢
    generalize "MD5".toList = M1 at halg hMM ⊢
    generalize "MD5-sess".toList = M2 at halg hMM ⊢
    rcases halg with h | h | h
    · subst h; simp [hne]
    · subst h; simp [hne]
    · subst h; simp [hne, hMM]
  · intro a ha hn1 hn2 hqop hps2
    simp only at ha hqop hps2
    subst ha
    unfold digest_authentication_encode
    rw [if_neg (by omega), if_neg (by omega), hps, hps2]
    generalize "auth".toList = A at hqop ⊢
    generalize "MD5".toList = M1 at hn1 ⊢
    generalize "MD5-sess".toList = M2 at hn2 ⊢
    rcases hqop with h | h
    · subst h; simp [hn1, hn2]
    · subst h; simp [hn1, hn2]
  · intro q realm nonce u p m pth hq hne hrealm hnonce
    simp only at hq
    exact digest_rfc2069_value md5 rnd au u p m pth auth_err _ realm nonce hlen hps
      hrealm hnonce (by
        simp only [hq, ne_eq, Option.some.injEq]
        exact hne)

/-- C35 (witness): the challenge with qop=auth-int is answered like the challenge
without qop, and the challenge with qop=auth-int and algorithm=SHA-256 like the
challenge without both, with the algorithm field appended. -/
theorem digest_unsupported_discarded_witness :
    digest_authentication_encode md5_example 48879
        "Digest realm=r, nonce=n1, qop=auth-int".toList
        (some "u".toList) (some "p".toList) (some "GET".toList) (some "/x".toList)
        uerr_t.RETROK
      = digest_authentication_encode md5_example 48879
        "Digest realm=r, nonce=n1".toList
        (some "u".toList) (some "p".toList) (some "GET".toList) (some "/x".toList)
        uerr_t.RETROK
    ∧ digest_authentication_encode md5_example 48879
        "Digest realm=r, nonce=n1, qop=auth-int, algorithm=SHA-256".toList
        (some "u".toList) (some "p".toList) (some "GET".toList) (some "/x".toList)
        uerr_t.RETROK
      = (digest_authentication_encode md5_example 48879
        "Digest realm=r, nonce=n1".toList
        (some "u".toList) (some "p".toList) (some "GET".toList) (some "/x".toList)
        uerr_t.RETROK).map
          (fun res => (res.1.map (fun v =>
            v ++ (", algorithm=".toList ++ [DQUOTE] ++ "SHA-256".toList ++ [DQUOTE])), res.2)) :=
  ⟨(digest_unsupported_discarded md5_example 48879
      "Digest realm=r, nonce=n1, qop=auth-int".toList "Digest realm=r, nonce=n1".toList
      (some "u".toList) (some "p".toList) (some "GET".toList) (some "/x".toList) uerr_t.RETROK
      ⟨some "r".toList, none, some "n1".toList, some "auth-int".toList, none⟩
      (by decide) (by decide) (by rfl)).1 "auth-int".toList rfl (by decide) (Or.inl rfl)
      (by rfl),
    (digest_unsupported_discarded md5_example 48879
      "Digest realm=r, nonce=n1, qop=auth-int, algorithm=SHA-256".toList
      "Digest realm=r, nonce=n1".toList
      (some "u".toList) (some "p".toList) (some "GET".toList) (some "/x".toList) uerr_t.RETROK
      ⟨some "r".toList, none, some "n1".toList, some "auth-int".toList,
        some "SHA-256".toList⟩
      (by decide) (by decide) (by rfl)).2.1 "auth-int".toList "SHA-256".toList rfl
      (by decide) rfl (by decide) (by decide) (by rfl)⟩

/-! ## The retry loop: the values that gethttp returns -/

end Http

namespace Hsts

open Http

/-! ## HSTS store -/

theorem hsts_cmp_func_iff (a b : hsts_kh) : hsts_cmp_func a b = true ↔ a = b := by
  cases a; cases b
  simp [hsts_cmp_func]

theorem hash_table_get_put_self (t : hash_table) (k : hsts_kh) (v : hsts_kh_info) :
    hash_table_get (hash_table_put t k v) k = some v := by
  induction t with
  | nil => simp [hash_table_put, hash_table_get, (hsts_cmp_func_iff k k).2 rfl]
  | cons a t ih =>
    obtain ⟨k0, v0⟩ := a
    simp only [hash_table_put]
    by_cases h : hsts_cmp_func k0 k = true
    · rw [if_pos h]; simp [hash_table_get, (hsts_cmp_func_iff k k).2 rfl]
    · rw [if_neg h]; simp only [hash_table_get]; rw [if_neg h]; exact ih

theorem hash_table_get_put_ne (t : hash_table) (k k2 : hsts_kh) (v : hsts_kh_info)
    (hne : k2 ≠ k) : hash_table_get (hash_table_put t k v) k2 = hash_table_get t k2 := by
  have hk : ¬ hsts_cmp_func k k2 = true := fun h => hne ((hsts_cmp_func_iff _ _).1 h).symm
  induction t with
  | nil => simp [hash_table_put, hash_table_get, hk]
  | cons a t ih =>
    obtain ⟨k0, v0⟩ := a
    simp only [hash_table_put]
    by_cases h : hsts_cmp_func k0 k = true
    · rw [if_pos h]
      have : k0 = k := (hsts_cmp_func_iff _ _).1 h
      subst this
      simp [hash_table_get, hk]
    · rw [if_neg h]
      simp only [hash_table_get]
      split_ifs
      · rfl
      · exact ih

theorem time_t_wrap_eq (x : Int) (h1 : -2 ^ 63 ≤ x) (h2 : x < 2 ^ 63) : time_t_wrap x = x := by
  unfold time_t_wrap
  rw [Int.emod_eq_of_lt (by omega) (by omega)]
  omega

theorem hsts_find_entry_key (store : hsts_store) (host : List Char) (p : Int) :
    (hsts_find_entry store host p).2.2 = ⟨xstrdup_lower host, p⟩ := by
  unfold hsts_find_entry
  simp only
  split
  · rfl
  · split <;> rfl

theorem hsts_find_entry_congruent (store : hsts_store) (host : List Char) (p : Int)
    (v : hsts_kh_info) (h : hash_table_get store.table ⟨xstrdup_lower host, p⟩ = some v) :
    hsts_find_entry store host p
      = (some v, hsts_kh_match.CONGRUENT_MATCH, ⟨xstrdup_lower host, p⟩) := by
  unfold hsts_find_entry
  simp only [h]

theorem hsts_find_entry_not_congruent (store : hsts_store) (host : List Char) (p : Int)
    (h : hash_table_get store.table ⟨xstrdup_lower host, p⟩ = none) :
    ((hsts_find_entry store host p).1 = none
        ∧ (hsts_find_entry store host p).2.1 = hsts_kh_match.NO_MATCH)
      ∨ ((hsts_find_entry store host p).1.isSome = true
        ∧ (hsts_find_entry store host p).2.1 = hsts_kh_match.SUPERDOMAIN_MATCH) := by
  unfold hsts_find_entry
  simp only [h]
  split
  · right; exact ⟨rfl, rfl⟩
  · left; exact ⟨rfl, rfl⟩

/-- The walk to the superdomains needs at most as many passes as the host has bytes:
with that much fuel or more, the result does not depend on the fuel. -/
theorem hsts_find_super_fuel (table : hash_table) (p : Int) (fuel1 fuel2 : Nat)
    (host : List Char) (h1 : host.length ≤ fuel1) (h2 : host.length ≤ fuel2) :
    hsts_find_super table p fuel1 host = hsts_find_super table p fuel2 host := by
  induction fuel1 generalizing fuel2 host with
  | zero =>
    have hnil : host = [] := List.eq_nil_of_length_eq_zero (by omega)
    subst hnil
    cases fuel2 with
    | zero => rfl
    | succ n => simp [hsts_find_super]
  | succ n ih =>
    cases fuel2 with
    | zero =>
      have hnil : host = [] := List.eq_nil_of_length_eq_zero (by omega)
      subst hnil
      simp [hsts_find_super]
    | succ m =>
      simp only [hsts_find_super]
      split_ifs with hc
      · cases hash_table_get table ⟨host.drop (host.findIdx (fun c => c = '.') + 1), p⟩ with
        | some khi => rfl
        | none =>
          simp only
          have hl : (host.drop (host.findIdx (fun c => c = '.') + 1)).length ≤ host.length - 1 := by
            rw [List.length_drop]; omega
          have hpos : 0 < host.length := by omega
          exact ih m _ (by omega) (by omega)
      · rfl

theorem MAKE_EXPLICIT_PORT_idem (p : Int) :
    MAKE_EXPLICIT_PORT url_scheme.SCHEME_HTTP (MAKE_EXPLICIT_PORT url_scheme.SCHEME_HTTP p)
      = MAKE_EXPLICIT_PORT url_scheme.SCHEME_HTTP p := by
  unfold MAKE_EXPLICIT_PORT DEFAULT_SSL_PORT
  simp only [if_true]
  split_ifs <;> rfl

theorem hsts_is_host_eligible_scheme (is_ip : List Char → Bool) (scheme : url_scheme)
    (host : List Char) (h : hsts_is_host_eligible is_ip scheme host = true) :
    scheme = url_scheme.SCHEME_HTTP := by
  unfold hsts_is_host_eligible hsts_is_scheme_valid at h
  simp only [Bool.and_eq_true, decide_eq_true_eq] at h
  exact h.1

/-- What hsts_store_entry does for a call that is not ignored when the store has no
exact entry, the clock is valid and the check of hsts_new_entry_internal passes: the
entry is put under (lowercased host, explicit port) and the changed flag is set. -/
theorem hsts_store_entry_adds (is_ip : List Char → Bool) (now : Int) (store : hsts_store)
    (scheme : url_scheme) (host : List Char) (port max_age : Int) (incl : Bool)
    (helig : hsts_is_host_eligible is_ip scheme host = true)
    (hage : 0 ≤ max_age) (hnow : now ≠ -1) (hlo : -2 ^ 63 ≤ now) (hhi : now + max_age < 2 ^ 63)
    (hnone : hash_table_get store.table
      ⟨xstrdup_lower host, MAKE_EXPLICIT_PORT scheme port⟩ = none) :
    hsts_store_entry is_ip now store scheme host port max_age incl
      = ({ store with
           table := hash_table_put store.table
             ⟨xstrdup_lower host, MAKE_EXPLICIT_PORT scheme port⟩ ⟨now, max_age, incl⟩
           changed := true }, true) := by
  have hs := hsts_is_host_eligible_scheme is_ip scheme host helig
  subst hs
  unfold hsts_store_entry
  rw [if_pos helig]
  simp only
  have hadd : hsts_add_entry is_ip now store host
      (MAKE_EXPLICIT_PORT url_scheme.SCHEME_HTTP port) max_age incl
      = ({ store with
           table := hash_table_put store.table
             ⟨xstrdup_lower host, MAKE_EXPLICIT_PORT url_scheme.SCHEME_HTTP port⟩
             ⟨now, max_age, incl⟩ }, true) := by
    unfold hsts_add_entry
    rw [if_neg hnow]
    unfold hsts_new_entry_internal
    simp only [Bool.false_and, Bool.false_eq_true, if_false, Bool.true_and, decide_eq_true_eq,
      MAKE_EXPLICIT_PORT_idem]
    rw [time_t_wrap_eq _ (by omega) hhi, if_neg (by omega)]
  rcases hsts_find_entry_not_congruent store host _ hnone with ⟨h1, h2⟩ | ⟨h1, h2⟩
  · rw [if_neg (by rw [h2]; simp), if_pos (by rw [h1]; simp), hadd]
    simp
  · rw [if_neg (by rw [h2]; simp), if_pos (Or.inr h2), hadd]
    simp

/-- C7 (what the code does): for every store, every clock value and every URL with
the plaintext http scheme, hsts_match returns false and leaves the URL and the store,
its changed flag included, exactly as they were. -/
theorem hsts_match_http_unchanged (now : Int) (store : hsts_store) (host : List Char)
    (port : Int) :
    hsts_match now store ⟨url_scheme.SCHEME_HTTP, host, port⟩
      = (store, ⟨url_scheme.SCHEME_HTTP, host, port⟩, false) := by
  unfold hsts_match
  simp [hsts_is_scheme_valid]

/-- C8 (what the code does): a call for the plaintext http scheme with a host name
that is not an IP literal adds an entry to an empty store, sets the changed flag and
returns true. -/
theorem hsts_store_entry_http_changes :
    hsts_store_entry (fun _ => false) 1000 ⟨[], 0, false⟩ url_scheme.SCHEME_HTTP
        "example.com".toList 80 3600 true
      = (⟨[(⟨"example.com".toList, 80⟩, ⟨1000, 3600, true⟩)], 0, true⟩, true) := by
  decide

/-- C9 (what the code does): for a call that is not ignored, with max_age = 0, a
valid clock and a store without an exact entry for the key, hsts_store_entry creates
an entry with max_age 0, and the lookup of the same host and explicit port
afterwards returns CONGRUENT_MATCH with that entry. -/
theorem hsts_store_entry_zero_max_age_adds (is_ip : List Char → Bool) (now : Int)
    (store : hsts_store) (scheme : url_scheme) (host : List Char) (port : Int) (incl : Bool)
    (helig : hsts_is_host_eligible is_ip scheme host = true)
    (hnow : now ≠ -1) (hlo : -2 ^ 63 ≤ now) (hhi : now < 2 ^ 63)
    (hnone : hash_table_get store.table
      ⟨xstrdup_lower host, MAKE_EXPLICIT_PORT scheme port⟩ = none) :
    hsts_find_entry (hsts_store_entry is_ip now store scheme host port 0 incl).1 host
        (MAKE_EXPLICIT_PORT scheme port)
      = (some ⟨now, 0, incl⟩, hsts_kh_match.CONGRUENT_MATCH,
          ⟨xstrdup_lower host, MAKE_EXPLICIT_PORT scheme port⟩) := by
  rw [hsts_store_entry_adds is_ip now store scheme host port 0 incl helig (le_refl _) hnow hlo
    (by omega) hnone]
  exact hsts_find_entry_congruent _ _ _ _ (hash_table_get_put_self _ _ _)

/-- C9 (witness): an empty store, the host example.com, max_age 0, clock 1000. -/
theorem hsts_store_entry_zero_max_age_adds_witness :
    hsts_find_entry (hsts_store_entry (fun _ => false) 1000 ⟨[], 0, false⟩
        url_scheme.SCHEME_HTTP "example.com".toList 443 0 true).1 "example.com".toList
        (MAKE_EXPLICIT_PORT url_scheme.SCHEME_HTTP 443)
      = (some ⟨1000, 0, true⟩, hsts_kh_match.CONGRUENT_MATCH,
          ⟨xstrdup_lower "example.com".toList, MAKE_EXPLICIT_PORT url_scheme.SCHEME_HTTP 443⟩) :=
  hsts_store_entry_zero_max_age_adds (fun _ => false) 1000 ⟨[], 0, false⟩ url_scheme.SCHEME_HTTP
    "example.com".toList 443 true (by decide) (by decide) (by decide) (by decide) (by decide)

/-- C10 (as amended): for a call that is not ignored, with max_age > 0 such that the
current time plus max_age does not exceed the largest time_t value, a valid clock,
and a store without an exact entry for (lowercased host, explicit port),
hsts_store_entry returns true and sets the changed flag; afterwards the lookup of the
host and explicit port returns CONGRUENT_MATCH with the entry (now, max_age,
include_subdomains), and what is stored under every other key, a superdomain's entry
included, is unchanged. -/
theorem hsts_store_entry_new (is_ip : List Char → Bool) (now : Int) (store : hsts_store)
    (scheme : url_scheme) (host : List Char) (port max_age : Int) (incl : Bool)
    (helig : hsts_is_host_eligible is_ip scheme host = true)
    (hage : 0 < max_age) (hnow : now ≠ -1) (hlo : -2 ^ 63 ≤ now) (hhi : now + max_age < 2 ^ 63)
    (hnone : hash_table_get store.table
      ⟨xstrdup_lower host, MAKE_EXPLICIT_PORT scheme port⟩ = none) :
    (hsts_store_entry is_ip now store scheme host port max_age incl).2 = true
      ∧ (hsts_store_entry is_ip now store scheme host port max_age incl).1.changed = true
      ∧ hsts_find_entry (hsts_store_entry is_ip now store scheme host port max_age incl).1 host
          (MAKE_EXPLICIT_PORT scheme port)
        = (some ⟨now, max_age, incl⟩, hsts_kh_match.CONGRUENT_MATCH,
            ⟨xstrdup_lower host, MAKE_EXPLICIT_PORT scheme port⟩)
      ∧ ∀ k : hsts_kh, k ≠ ⟨xstrdup_lower host, MAKE_EXPLICIT_PORT scheme port⟩ →
          hash_table_get (hsts_store_entry is_ip now store scheme host port max_age incl).1.table k
            = hash_table_get store.table k := by
  rw [hsts_store_entry_adds is_ip now store scheme host port max_age incl helig (le_of_lt hage)
    hnow hlo hhi hnone]
  refine ⟨rfl, rfl, ?_, ?_⟩
  · exact hsts_find_entry_congruent _ _ _ _ (hash_table_get_put_self _ _ _)
  · intro k hk
    exact hash_table_get_put_ne _ _ _ _ hk

/-- C10 (witness): a store that holds example.com, a call for sub.example.com. -/
theorem hsts_store_entry_new_witness :
    (hsts_store_entry (fun _ => false) 1000
        ⟨[(⟨"example.com".toList, 0⟩, ⟨990, 3600, true⟩)], 0, false⟩
        url_scheme.SCHEME_HTTP "sub.example.com".toList 443 7200 false).2 = true
      ∧ hash_table_get (hsts_store_entry (fun _ => false) 1000
          ⟨[(⟨"example.com".toList, 0⟩, ⟨990, 3600, true⟩)], 0, false⟩
          url_scheme.SCHEME_HTTP "sub.example.com".toList 443 7200 false).1.table
          ⟨"example.com".toList, 0⟩ = some ⟨990, 3600, true⟩ := by
  have h := hsts_store_entry_new (fun _ => false) 1000
    ⟨[(⟨"example.com".toList, 0⟩, ⟨990, 3600, true⟩)], 0, false⟩
    url_scheme.SCHEME_HTTP "sub.example.com".toList 443 7200 false
    (by decide) (by decide) (by decide) (by decide) (by decide) (by decide)
  exact ⟨h.1, (h.2.2.2 ⟨"example.com".toList, 0⟩ (by decide)).trans (by decide)⟩

/-- C10 (counterexample): a call that is not ignored, with max_age > 0, a valid clock
and an empty store, returns false and leaves the store unchanged when the current
time plus max_age exceeds the largest time_t value. -/
theorem hsts_store_entry_new_overflow :
    hsts_is_host_eligible (fun _ => false) url_scheme.SCHEME_HTTP "example.com".toList = true
      ∧ (0 : Int) < 2 ^ 63 - 1
      ∧ hsts_store_entry (fun _ => false) 1000 ⟨[], 0, false⟩ url_scheme.SCHEME_HTTP
          "example.com".toList 443 (2 ^ 63 - 1) true = (⟨[], 0, false⟩, false) := by
  decide

/-! ## HSTS store: existing entries, expiry, merge, lookup -/

theorem hash_table_get_remove_self (t : hash_table) (k : hsts_kh) :
    hash_table_get (hash_table_remove t k) k = none := by
  induction t with
  | nil => rfl
  | cons a t ih =>
    obtain ⟨k0, v0⟩ := a
    unfold hash_table_remove at ih ⊢
    rw [List.filter_cons]
    by_cases h : hsts_cmp_func k0 k = true
    · simp only [h, Bool.not_true, Bool.false_eq_true, if_false]; exact ih
    · simp only [h, Bool.not_false, if_true, hash_table_get, if_false]; exact ih

theorem hash_table_get_remove_ne (t : hash_table) (k k2 : hsts_kh) (hne : k2 ≠ k) :
    hash_table_get (hash_table_remove t k) k2 = hash_table_get t k2 := by
  induction t with
  | nil => rfl
  | cons a t ih =>
    obtain ⟨k0, v0⟩ := a
    unfold hash_table_remove at ih ⊢
    rw [List.filter_cons]
    by_cases h : hsts_cmp_func k0 k = true
    · have hk0 : k0 = k := (hsts_cmp_func_iff _ _).1 h
      have h2 : ¬ hsts_cmp_func k0 k2 = true := fun h3 =>
        hne (((hsts_cmp_func_iff _ _).1 h3).symm.trans hk0)
      simp only [h, Bool.not_true, Bool.false_eq_true, if_false, hash_table_get, h2]
      exact ih
    · simp only [h, Bool.not_false, if_true, hash_table_get]
      split_ifs
      · rfl
      · exact ih

theorem hash_table_remove_absent (t : hash_table) (k : hsts_kh)
    (h : hash_table_get t k = none) : hash_table_remove t k = t := by
  induction t with
  | nil => rfl
  | cons a t ih =>
    obtain ⟨k0, v0⟩ := a
    simp only [hash_table_get] at h
    split_ifs at h with hc
    unfold hash_table_remove at ih ⊢
    rw [List.filter_cons]
    simp only [hc, Bool.not_false, if_true]
    rw [ih h]

theorem hsts_find_entry_superdomain (store : hsts_store) (host : List Char) (p : Int)
    (h : (hsts_find_entry store host p).2.1 = hsts_kh_match.SUPERDOMAIN_MATCH) :
    hash_table_get store.table ⟨xstrdup_lower host, p⟩ = none := by
  unfold hsts_find_entry at h
  simp only at h
  cases hg : hash_table_get store.table ⟨xstrdup_lower host, p⟩ with
  | none => rfl
  | some v => rw [hg] at h; simp at h

/-- C11 (as amended): for a call that is not ignored, when an exact entry for
(lowercased host, explicit port) exists, hsts_store_entry returns false and leaves
every other key as it was; max_age = 0 removes the entry and sets the changed flag; a
max_age > 0, with a valid clock whose time differs from the created of the entry,
replaces the entry by (now, max_age, include_subdomains) and sets the changed flag; a
negative max_age, a failed clock, or a clock equal to the created of the entry leaves
the store, the changed flag included, as it was. -/
theorem hsts_store_entry_existing (is_ip : List Char → Bool) (now : Int) (store : hsts_store)
    (scheme : url_scheme) (host : List Char) (port max_age : Int) (incl : Bool)
    (e : hsts_kh_info)
    (helig : hsts_is_host_eligible is_ip scheme host = true)
    (hex : hash_table_get store.table
      ⟨xstrdup_lower host, MAKE_EXPLICIT_PORT scheme port⟩ = some e) :
    (hsts_store_entry is_ip now store scheme host port max_age incl).2 = false
      ∧ (∀ k : hsts_kh, k ≠ ⟨xstrdup_lower host, MAKE_EXPLICIT_PORT scheme port⟩ →
          hash_table_get (hsts_store_entry is_ip now store scheme host port max_age incl).1.table k
            = hash_table_get store.table k)
      ∧ (max_age = 0 →
          (hsts_store_entry is_ip now store scheme host port max_age incl).1.changed = true
          ∧ hash_table_get (hsts_store_entry is_ip now store scheme host port max_age incl).1.table
              ⟨xstrdup_lower host, MAKE_EXPLICIT_PORT scheme port⟩ = none)
      ∧ (0 < max_age → now ≠ -1 → now ≠ e.created →
          (hsts_store_entry is_ip now store scheme host port max_age incl).1.changed = true
          ∧ hash_table_get (hsts_store_entry is_ip now store scheme host port max_age incl).1.table
              ⟨xstrdup_lower host, MAKE_EXPLICIT_PORT scheme port⟩ = some ⟨now, max_age, incl⟩)
      ∧ (max_age < 0 ∨ (0 < max_age ∧ (now = -1 ∨ now = e.created)) →
          (hsts_store_entry is_ip now store scheme host port max_age incl).1 = store) := by
  unfold hsts_store_entry
  rw [if_pos helig]
  simp only [hsts_find_entry_congruent store host _ e hex, Option.isSome_some, true_and,
    if_true, Option.map_some', ne_eq, Option.some.injEq]
  by_cases h0 : max_age = 0
  · subst h0
    simp only [if_true, hsts_remove_entry]
    refine ⟨trivial, ?_, ?_, ?_, ?_⟩
    · intro k hk; exact hash_table_get_remove_ne _ _ _ hk
    · intro _; exact ⟨trivial, hash_table_get_remove_self _ _⟩
    · intro h; omega
    · intro h; omega
  · rw [if_neg h0]
    by_cases hp : max_age > 0
    · rw [if_pos hp]
      by_cases hu : ¬now = -1 ∧ ¬now = e.created
      · rw [if_pos hu]
        refine ⟨rfl, ?_, ?_, ?_, ?_⟩
        · intro k hk; exact hash_table_get_put_ne _ _ _ _ hk
        · intro h; exact absurd h h0
        · intro _ _ _; exact ⟨rfl, hash_table_get_put_self _ _ _⟩
        · intro h
          rcases h with h | ⟨_, h | h⟩
          · omega
          · exact absurd h hu.1
          · exact absurd h hu.2
      · rw [if_neg hu]
        refine ⟨rfl, fun _ _ => rfl, fun h => absurd h h0, ?_, fun _ => rfl⟩
        intro _ h1 h2; exact absurd ⟨h1, h2⟩ hu
    · rw [if_neg hp]
      refine ⟨rfl, fun _ _ => rfl, fun h => absurd h h0, ?_, fun _ => rfl⟩
      intro h; exact absurd h hp

/-- C11 (witness): the store holds example.com; the entry is removed by max_age 0 and
replaced by a positive max_age. -/
theorem hsts_store_entry_existing_witness :
    hash_table_get (hsts_store_entry (fun _ => false) 1000
        ⟨[(⟨"example.com".toList, 0⟩, ⟨990, 3600, true⟩)], 0, false⟩
        url_scheme.SCHEME_HTTP "Example.com".toList 443 0 false).1.table
        ⟨"example.com".toList, 0⟩ = none
      ∧ hash_table_get (hsts_store_entry (fun _ => false) 1000
        ⟨[(⟨"example.com".toList, 0⟩, ⟨990, 3600, true⟩)], 0, false⟩
        url_scheme.SCHEME_HTTP "Example.com".toList 443 7200 false).1.table
        ⟨"example.com".toList, 0⟩ = some ⟨1000, 7200, false⟩ :=
  ⟨((hsts_store_entry_existing (fun _ => false) 1000
      ⟨[(⟨"example.com".toList, 0⟩, ⟨990, 3600, true⟩)], 0, false⟩
      url_scheme.SCHEME_HTTP "Example.com".toList 443 0 false ⟨990, 3600, true⟩
      (by decide) (by decide)).2.2.1 rfl).2,
   ((hsts_store_entry_existing (fun _ => false) 1000
      ⟨[(⟨"example.com".toList, 0⟩, ⟨990, 3600, true⟩)], 0, false⟩
      url_scheme.SCHEME_HTTP "Example.com".toList 443 7200 false ⟨990, 3600, true⟩
      (by decide) (by decide)).2.2.2.1 (by decide) (by decide) (by decide)).2⟩

/-- C11 (counterexample): with an exact entry in the store, a call with a negative
max_age, and a call with a positive max_age made in the second in which the entry was
created, leave the entry and the changed flag as they were. -/
theorem hsts_store_entry_existing_not_updated :
    hsts_store_entry (fun _ => false) 1000
        ⟨[(⟨"example.com".toList, 0⟩, ⟨990, 3600, true⟩)], 0, false⟩
        url_scheme.SCHEME_HTTP "example.com".toList 443 (-5) false
      = (⟨[(⟨"example.com".toList, 0⟩, ⟨990, 3600, true⟩)], 0, false⟩, false)
    ∧ hsts_store_entry (fun _ => false) 990
        ⟨[(⟨"example.com".toList, 0⟩, ⟨990, 3600, true⟩)], 0, false⟩
        url_scheme.SCHEME_HTTP "example.com".toList 443 7200 false
      = (⟨[(⟨"example.com".toList, 0⟩, ⟨990, 3600, true⟩)], 0, false⟩, false) := by
  decide

/-- C13 (what the code does): for the scheme http the macro maps port 443 to 0 and
keeps port 80, and for https it maps port 80 to 0 and keeps port 443. -/
theorem MAKE_EXPLICIT_PORT_swapped :
    MAKE_EXPLICIT_PORT url_scheme.SCHEME_HTTP 80 = 80
      ∧ MAKE_EXPLICIT_PORT url_scheme.SCHEME_HTTP 443 = 0
      ∧ MAKE_EXPLICIT_PORT url_scheme.SCHEME_HTTPS 443 = 443
      ∧ MAKE_EXPLICIT_PORT url_scheme.SCHEME_HTTPS 80 = 0 := by
  decide

/-- C14 (as amended): for a URL that hsts_match examines and an entry that the lookup
finds, the entry is treated as live exactly when now <= created + max_age: then it
stays in the store and the URL is rewritten on a congruent match, or on a
superdomain match with include_subdomains; when created + max_age < now the entry is
treated as expired: the URL is not rewritten, hsts_match returns false and sets the
changed flag. -/
theorem hsts_match_live_iff (now : Int) (store : hsts_store) (u : url)
    (entry : hsts_kh_info) (m : hsts_kh_match) (kh : hsts_kh)
    (hs : hsts_is_scheme_valid u.scheme = false)
    (hf : hsts_find_entry store u.host (MAKE_EXPLICIT_PORT u.scheme u.port) = (some entry, m, kh))
    (hlo : -2 ^ 63 ≤ entry.created + entry.max_age)
    (hhi : entry.created + entry.max_age < 2 ^ 63) :
    (now ≤ entry.created + entry.max_age →
        (hsts_match now store u).1.table = store.table
        ∧ ((hsts_match now store u).2.2 = true ↔
            (m = hsts_kh_match.CONGRUENT_MATCH
              ∨ (m = hsts_kh_match.SUPERDOMAIN_MATCH ∧ entry.include_subdomains = true))))
      ∧ (entry.created + entry.max_age < now →
        hsts_match now store u = ({ hsts_remove_entry store kh with changed := true }, u, false)) := by
  unfold hsts_match
  simp only [hs, Bool.not_false, if_true, hf, time_t_wrap_eq _ hlo hhi]
  constructor
  · intro hle
    rw [if_pos (by omega)]
    by_cases hc : m = hsts_kh_match.CONGRUENT_MATCH
        ∨ (m = hsts_kh_match.SUPERDOMAIN_MATCH ∧ entry.include_subdomains = true)
    · rw [if_pos hc]
      exact ⟨rfl, fun _ => hc, fun _ => rfl⟩
    · rw [if_neg hc]
      exact ⟨rfl, fun h => absurd h (by simp), fun h => absurd h hc⟩
  · intro hlt
    rw [if_neg (by omega)]

/-- C14 (witness): an https URL whose host has an entry created at 1000 with max_age
3600, looked at in second 4000 and in second 4601. -/
theorem hsts_match_live_iff_witness :
    (hsts_match 4000 ⟨[(⟨"example.com".toList, 443⟩, ⟨1000, 3600, true⟩)], 0, false⟩
        ⟨url_scheme.SCHEME_HTTPS, "example.com".toList, 443⟩).2.2 = true
      ∧ hsts_match 4601 ⟨[(⟨"example.com".toList, 443⟩, ⟨1000, 3600, true⟩)], 0, false⟩
          ⟨url_scheme.SCHEME_HTTPS, "example.com".toList, 443⟩
        = (⟨[], 0, true⟩, ⟨url_scheme.SCHEME_HTTPS, "example.com".toList, 443⟩, false) :=
  ⟨(((hsts_match_live_iff 4000 ⟨[(⟨"example.com".toList, 443⟩, ⟨1000, 3600, true⟩)], 0, false⟩
        ⟨url_scheme.SCHEME_HTTPS, "example.com".toList, 443⟩ ⟨1000, 3600, true⟩
        hsts_kh_match.CONGRUENT_MATCH ⟨"example.com".toList, 443⟩
        (by decide) (by decide) (by decide) (by decide)).1 (by decide)).2).2 (Or.inl rfl),
   (hsts_match_live_iff 4601 ⟨[(⟨"example.com".toList, 443⟩, ⟨1000, 3600, true⟩)], 0, false⟩
        ⟨url_scheme.SCHEME_HTTPS, "example.com".toList, 443⟩ ⟨1000, 3600, true⟩
        hsts_kh_match.CONGRUENT_MATCH ⟨"example.com".toList, 443⟩
        (by decide) (by decide) (by decide) (by decide)).2 (by decide)⟩

/-- C14 (counterexample): at now = created + max_age the entry found is treated as
live: it stays in the store and hsts_match rewrites the URL and returns true. -/
theorem hsts_match_live_at_boundary :
    hsts_match (1000 + 3600) ⟨[(⟨"example.com".toList, 443⟩, ⟨1000, 3600, true⟩)], 0, false⟩
        ⟨url_scheme.SCHEME_HTTPS, "example.com".toList, 443⟩
      = (⟨[(⟨"example.com".toList, 443⟩, ⟨1000, 3600, true⟩)], 0, true⟩,
          ⟨url_scheme.SCHEME_HTTP, "example.com".toList, 443⟩, true) := by
  decide

/-- C15 (what the code does): when hsts_match finds an expired entry by a superdomain
match, it calls hsts_remove_entry with the key of the host that was asked for, which
is not in the store: the table, and with it the expired entry under the superdomain
key, stays as it was; only the changed flag is set. -/
theorem hsts_match_expired_superdomain_kept (now : Int) (store : hsts_store) (u : url)
    (entry : hsts_kh_info) (kh : hsts_kh)
    (hs : hsts_is_scheme_valid u.scheme = false)
    (hf : hsts_find_entry store u.host (MAKE_EXPLICIT_PORT u.scheme u.port)
      = (some entry, hsts_kh_match.SUPERDOMAIN_MATCH, kh))
    (hexp : time_t_wrap (entry.created + entry.max_age) < now) :
    hsts_match now store u = ({ store with changed := true }, u, false) := by
  have hk : kh = ⟨xstrdup_lower u.host, MAKE_EXPLICIT_PORT u.scheme u.port⟩ := by
    have := hsts_find_entry_key store u.host (MAKE_EXPLICIT_PORT u.scheme u.port)
    rw [hf] at this
    exact this
  have hn := hsts_find_entry_superdomain store u.host (MAKE_EXPLICIT_PORT u.scheme u.port)
    (by rw [hf])
  unfold hsts_match
  simp only [hs, Bool.not_false, if_true, hf]
  rw [if_neg (by omega)]
  simp only [hsts_remove_entry, hk, hash_table_remove_absent _ _ hn]

/-- C15 (witness): the store holds example.com with an entry that expired in second
10; the URL https://sub.example.com:443/ is matched in second 1000. -/
theorem hsts_match_expired_superdomain_kept_witness :
    hsts_match 1000 ⟨[(⟨"example.com".toList, 443⟩, ⟨0, 10, true⟩)], 0, false⟩
        ⟨url_scheme.SCHEME_HTTPS, "sub.example.com".toList, 443⟩
      = (⟨[(⟨"example.com".toList, 443⟩, ⟨0, 10, true⟩)], 0, true⟩,
          ⟨url_scheme.SCHEME_HTTPS, "sub.example.com".toList, 443⟩, false) :=
  hsts_match_expired_superdomain_kept 1000
    ⟨[(⟨"example.com".toList, 443⟩, ⟨0, 10, true⟩)], 0, false⟩
    ⟨url_scheme.SCHEME_HTTPS, "sub.example.com".toList, 443⟩ ⟨0, 10, true⟩
    ⟨"sub.example.com".toList, 443⟩ (by decide) (by decide) (by decide)

/-- C17 (as amended): hsts_store_merge leaves every key other than (lowercased host,
explicit port) as it was.  When the key holds an entry, the record replaces it if the
created of the record is greater, and the stored entry stays otherwise.  When the key
is absent and the lookup finds no entry at all, the record is stored if the host is
not an IP literal and created + max_age does not fall below created. -/
theorem hsts_store_merge_newest_wins (is_ip : List Char → Bool) (store : hsts_store)
    (host : List Char) (port created max_age : Int) (incl : Bool) :
    (∀ k : hsts_kh, k ≠ ⟨xstrdup_lower host, MAKE_EXPLICIT_PORT url_scheme.SCHEME_HTTP port⟩ →
        hash_table_get (hsts_store_merge is_ip store host port created max_age incl).1.table k
          = hash_table_get store.table k)
      ∧ (∀ e : hsts_kh_info,
          hash_table_get store.table
            ⟨xstrdup_lower host, MAKE_EXPLICIT_PORT url_scheme.SCHEME_HTTP port⟩ = some e →
          hash_table_get (hsts_store_merge is_ip store host port created max_age incl).1.table
              ⟨xstrdup_lower host, MAKE_EXPLICIT_PORT url_scheme.SCHEME_HTTP port⟩
            = if created > e.created then some ⟨created, max_age, incl⟩ else some e)
      ∧ ((hsts_find_entry store host (MAKE_EXPLICIT_PORT url_scheme.SCHEME_HTTP port)).1 = none →
          is_ip host = false → ¬ time_t_wrap (created + max_age) < created →
          hash_table_get (hsts_store_merge is_ip store host port created max_age incl).1.table
              ⟨xstrdup_lower host, MAKE_EXPLICIT_PORT url_scheme.SCHEME_HTTP port⟩
            = some ⟨created, max_age, incl⟩) := by
  have hnew : ∀ k : hsts_kh,
      k ≠ ⟨xstrdup_lower host, MAKE_EXPLICIT_PORT url_scheme.SCHEME_HTTP port⟩ →
      hash_table_get (hsts_new_entry is_ip store host
          (MAKE_EXPLICIT_PORT url_scheme.SCHEME_HTTP port) created max_age incl).1.table k
        = hash_table_get store.table k := by
    intro k hk
    unfold hsts_new_entry hsts_new_entry_internal
    simp only [MAKE_EXPLICIT_PORT_idem]
    split_ifs
    · rfl
    · rfl
    · rfl
    · exact hash_table_get_put_ne _ _ _ _ hk
  refine ⟨?_, ?_, ?_⟩
  · intro k hk
    unfold hsts_store_merge
    simp only
    split
    · split_ifs
      · exact hash_table_get_put_ne _ _ _ _ hk
      · rfl
    · exact hnew k hk
  · intro e he
    unfold hsts_store_merge
    simp only [hsts_find_entry_congruent store host _ e he, true_and]
    split_ifs with hc
    · exact hash_table_get_put_self _ _ _
    · exact he
  · intro hnone hip hexp
    have hget : hash_table_get store.table
        ⟨xstrdup_lower host, MAKE_EXPLICIT_PORT url_scheme.SCHEME_HTTP port⟩ = none := by
      cases hg : hash_table_get store.table
          ⟨xstrdup_lower host, MAKE_EXPLICIT_PORT url_scheme.SCHEME_HTTP port⟩ with
      | none => rfl
      | some v =>
        rw [hsts_find_entry_congruent store host _ v hg] at hnone
        simp at hnone
    unfold hsts_store_merge
    simp only
    split
    · rename_i khi m k heq
      rw [heq] at hnone
      simp at hnone
    · unfold hsts_new_entry hsts_new_entry_internal
      simp only [MAKE_EXPLICIT_PORT_idem, hsts_is_host_name_valid, hip, Bool.not_false,
        Bool.not_true, Bool.and_false, Bool.false_eq_true, if_false, Bool.true_and,
        decide_eq_true_eq, hexp, hash_table_contains, hget, Option.isSome_none]
      exact hash_table_get_put_self _ _ _

/-- C17 (witness): a newer record for a stored key, an older one, and a record for a
key that is absent from an empty store. -/
theorem hsts_store_merge_newest_wins_witness :
    hash_table_get (hsts_store_merge (fun _ => false)
        ⟨[(⟨"example.com".toList, 0⟩, ⟨990, 3600, true⟩)], 0, false⟩
        "Example.com".toList 443 995 60 false).1.table ⟨"example.com".toList, 0⟩
        = some ⟨995, 60, false⟩
      ∧ hash_table_get (hsts_store_merge (fun _ => false) ⟨[], 0, false⟩
        "Example.com".toList 443 995 60 false).1.table ⟨"example.com".toList, 0⟩
        = some ⟨995, 60, false⟩ :=
  ⟨(hsts_store_merge_newest_wins (fun _ => false)
      ⟨[(⟨"example.com".toList, 0⟩, ⟨990, 3600, true⟩)], 0, false⟩
      "Example.com".toList 443 995 60 false).2.1 ⟨990, 3600, true⟩ (by decide),
   (hsts_store_merge_newest_wins (fun _ => false) ⟨[], 0, false⟩
      "Example.com".toList 443 995 60 false).2.2 (by decide) rfl (by decide)⟩

/-- C17 (counterexample): a record whose host is an IP literal, and a record whose
created + max_age falls below created, are not stored although their key is absent:
the store stays empty. -/
theorem hsts_store_merge_rejected :
    hsts_store_merge (fun h => h.all (fun c => c.isDigit || c = '.')) ⟨[], 0, false⟩
        "10.0.0.1".toList 0 2000 3600 true = (⟨[], 0, false⟩, false)
      ∧ hsts_store_merge (fun h => h.all (fun c => c.isDigit || c = '.')) ⟨[], 0, false⟩
        "example.com".toList 0 2000 (-1) true = (⟨[], 0, false⟩, false) := by
  decide

theorem label_suffixes_findIdx (h : List Char) :
    label_suffixes h
      = if h.findIdx (fun c => decide (c = '.')) < h.length then
          h.drop (h.findIdx (fun c => decide (c = '.')) + 1)
            :: label_suffixes (h.drop (h.findIdx (fun c => decide (c = '.')) + 1))
        else [] := by
  induction h with
  | nil => simp [label_suffixes]
  | cons c s ih =>
    by_cases hc : c = '.'
    · simp [label_suffixes, hc, List.findIdx_cons]
    · simp only [label_suffixes, hc, if_false, List.findIdx_cons, decide_False, cond_false,
        List.length_cons, Nat.add_lt_add_iff_right, List.drop_succ_cons]
      exact ih

theorem label_suffixes_no_dot (s : List Char) (h : s.contains '.' = false) :
    label_suffixes s = [] := by
  induction s with
  | nil => rfl
  | cons c t ih =>
    simp only [List.contains_cons, Bool.or_eq_false_iff] at h
    have hc : c ≠ '.' := by
      intro e; rw [e] at h; simp at h
    simp only [label_suffixes, hc, if_false]
    exact ih h.2

theorem dots_apart_drop (b : Bool) (h : List Char)
    (hd : dots_apart b h = true) (hp : h.findIdx (fun c => decide (c = '.')) < h.length) :
    dots_apart true (h.drop (h.findIdx (fun c => decide (c = '.')) + 1)) = true := by
  induction h generalizing b with
  | nil => simp at hp
  | cons c s ih =>
    by_cases hc : c = '.'
    · simp only [dots_apart, hc, if_true, Bool.and_eq_true] at hd
      simp [List.findIdx_cons, hc, hd.2]
    · simp only [dots_apart, hc, if_false] at hd
      simp only [List.findIdx_cons, hc, decide_False, cond_false, List.length_cons,
        Nat.add_lt_add_iff_right, List.drop_succ_cons] at hp ⊢
      exact ih false hd hp

theorem dots_apart_findIdx_pos (h : List Char) (hd : dots_apart true h = true)
    (hp : h.findIdx (fun c => decide (c = '.')) < h.length) :
    0 < h.findIdx (fun c => decide (c = '.')) := by
  cases h with
  | nil => simp at hp
  | cons c s =>
    by_cases hc : c = '.'
    · simp [dots_apart, hc] at hd
    · simp [List.findIdx_cons, hc]

theorem hsts_find_super_spec (table : hash_table) (p : Int) (fuel : Nat) (h : List Char)
    (hf : h.length ≤ fuel) (hd : dots_apart true h = true) :
    hsts_find_super table p fuel h
      = (spec_superdomains h).findSome? (fun s => hash_table_get table ⟨s, p⟩) := by
  induction fuel generalizing h with
  | zero =>
    have hnil : h = [] := List.eq_nil_of_length_eq_zero (by omega)
    subst hnil
    rfl
  | succ n ih =>
    simp only [hsts_find_super]
    unfold spec_superdomains
    rw [label_suffixes_findIdx h]
    by_cases hp : h.findIdx (fun c => decide (c = '.')) < h.length
    · have hpos := dots_apart_findIdx_pos h hd hp
      have hd2 := dots_apart_drop true h hd hp
      have hlen : (h.drop (h.findIdx (fun c => decide (c = '.')) + 1)).length ≤ n := by
        rw [List.length_drop]; omega
      rw [if_pos hp]
      by_cases hc : (h.drop (h.findIdx (fun c => decide (c = '.')) + 1)).contains '.' = true
      · rw [if_pos ⟨hp, hpos, hc⟩, List.filter_cons, if_pos hc, List.findSome?_cons]
        cases hash_table_get table ⟨h.drop (h.findIdx (fun c => decide (c = '.')) + 1), p⟩ with
        | some khi => rfl
        | none =>
          simp only
          rw [ih _ hlen hd2]
          rfl
      · rw [if_neg (fun hh => hc hh.2.2), List.filter_cons, if_neg hc,
          label_suffixes_no_dot _ (by simpa using hc)]
        rfl
    · rw [if_neg (fun hh => hp hh.1), if_neg hp]
      rfl

theorem hsts_find_super_put_bare (table : hash_table) (p : Int) (fuel : Nat) (h s : List Char)
    (v : hsts_kh_info) (hs : s.contains '.' = false) :
    hsts_find_super (hash_table_put table ⟨s, p⟩ v) p fuel h = hsts_find_super table p fuel h := by
  induction fuel generalizing h with
  | zero => rfl
  | succ n ih =>
    simp only [hsts_find_super]
    split_ifs with hc
    · have hne : (⟨h.drop (h.findIdx (fun c => decide (c = '.')) + 1), p⟩ : hsts_kh) ≠ ⟨s, p⟩ := by
        intro e
        have e2 : h.drop (h.findIdx (fun c => decide (c = '.')) + 1) = s := by
          injection e
        rw [e2, hs] at hc
        exact absurd hc.2.2 (by simp)
      rw [hash_table_get_put_ne _ _ _ _ hne, ih]
    · rfl

/-- C12 (as amended): hsts_find_entry returns CONGRUENT_MATCH with the entry stored
under (lowercase host, port) when that key exists.  Otherwise, for a host none of
whose labels in front of a dot is empty, it returns SUPERDOMAIN_MATCH with the entry
of the longest proper suffix, obtained by dropping leading labels, that still has at
least two labels and is a key with the same port, and NO_MATCH with no entry when
there is none.  The entry is present exactly when the match is not NO_MATCH, and a
suffix without a dot (a bare TLD) is never looked up: what the table holds under it
does not change the result. -/
theorem hsts_find_entry_spec (store : hsts_store) (host : List Char) (port : Int) :
    (∀ e : hsts_kh_info, hash_table_get store.table ⟨xstrdup_lower host, port⟩ = some e →
        hsts_find_entry store host port
          = (some e, hsts_kh_match.CONGRUENT_MATCH, ⟨xstrdup_lower host, port⟩))
      ∧ (labels_nonempty (xstrdup_lower host) = true →
          ((hsts_find_entry store host port).1, (hsts_find_entry store host port).2.1)
            = spec_hsts_find store.table host port)
      ∧ ((hsts_find_entry store host port).1.isSome = true
          ↔ (hsts_find_entry store host port).2.1 ≠ hsts_kh_match.NO_MATCH)
      ∧ (∀ (s : List Char) (v : hsts_kh_info), s.contains '.' = false →
          s ≠ xstrdup_lower host →
          hsts_find_entry { store with table := hash_table_put store.table ⟨s, port⟩ v } host port
            = hsts_find_entry store host port) := by
  refine ⟨fun e he => hsts_find_entry_congruent store host port e he, ?_, ?_, ?_⟩
  · intro hl
    unfold hsts_find_entry spec_hsts_find
    simp only
    cases hash_table_get store.table ⟨xstrdup_lower host, port⟩ with
    | some khi => rfl
    | none =>
      simp only
      rw [hsts_find_super_spec _ _ _ _ (le_refl _) hl]
      cases (spec_superdomains (xstrdup_lower host)).findSome?
          (fun s => hash_table_get store.table ⟨s, port⟩) with
      | some khi => rfl
      | none => rfl
  · unfold hsts_find_entry
    simp only
    cases hash_table_get store.table ⟨xstrdup_lower host, port⟩ with
    | some khi => simp
    | none =>
      simp only
      cases hsts_find_super store.table port (xstrdup_lower host).length (xstrdup_lower host) with
      | some khi => simp
      | none => simp
  · intro s v hs hne
    have hk : (⟨xstrdup_lower host, port⟩ : hsts_kh) ≠ ⟨s, port⟩ := by
      intro e
      apply hne
      injection e with e1 _
      exact e1.symm
    unfold hsts_find_entry
    simp only
    rw [hash_table_get_put_ne _ _ _ _ hk, hsts_find_super_put_bare _ _ _ _ _ _ hs]

/-- C12 (witness): the host a.b.example.com with example.com in the store. -/
theorem hsts_find_entry_spec_witness :
    ((hsts_find_entry ⟨[(⟨"example.com".toList, 0⟩, ⟨990, 3600, true⟩)], 0, false⟩
        "A.b.Example.com".toList 0).1,
      (hsts_find_entry ⟨[(⟨"example.com".toList, 0⟩, ⟨990, 3600, true⟩)], 0, false⟩
        "A.b.Example.com".toList 0).2.1)
      = (some ⟨990, 3600, true⟩, hsts_kh_match.SUPERDOMAIN_MATCH) :=
  ((hsts_find_entry_spec ⟨[(⟨"example.com".toList, 0⟩, ⟨990, 3600, true⟩)], 0, false⟩
      "A.b.Example.com".toList 0).2.1 (by decide)).trans (by decide)

/-- C12 (counterexample): for the host a..example.com the walk stops at the suffix
.example.com, which begins with a dot: the key example.com, a proper suffix with two
labels, is not looked up and the result is NO_MATCH. -/
theorem hsts_find_entry_empty_label :
    hsts_find_entry ⟨[(⟨"example.com".toList, 0⟩, ⟨990, 3600, true⟩)], 0, false⟩
        "a..example.com".toList 0
      = (none, hsts_kh_match.NO_MATCH, ⟨"a..example.com".toList, 0⟩)
    ∧ spec_hsts_find [(⟨"example.com".toList, 0⟩, ⟨990, 3600, true⟩)] "a..example.com".toList 0
      = (some ⟨990, 3600, true⟩, hsts_kh_match.SUPERDOMAIN_MATCH) := by
  decide

/-! ## The database file: what is dumped is read back -/

theorem digit_char_toNat (k : Nat) (h : k < 10) : (Char.ofNat (48 + k)).toNat = 48 + k := by
  interval_cases k <;> rfl

theorem fmt_decimal_digits (fuel n : Nat) : (fmt_decimal fuel n).all c_isdigit = true := by
  induction fuel generalizing n with
  | zero => rfl
  | succ k ih =>
    unfold fmt_decimal
    split_ifs with h
    · simp only [List.all_cons, List.all_nil, Bool.and_true]
      unfold c_isdigit
      rw [digit_char_toNat n h]
      simp
      omega
    · rw [List.all_append, ih]
      simp only [List.all_cons, List.all_nil, Bool.and_true, Bool.true_and]
      unfold c_isdigit
      rw [digit_char_toNat _ (Nat.mod_lt _ (by decide))]
      simp
      omega

theorem fmt_decimal_ne_nil (fuel n : Nat) (h : 0 < fuel) : fmt_decimal fuel n ≠ [] := by
  obtain ⟨k, rfl⟩ : ∃ k, fuel = k + 1 := ⟨fuel - 1, by omega⟩
  unfold fmt_decimal
  split_ifs <;> simp

theorem digits_value_append (a : List Char) (c : Char) :
    digits_value (a ++ [c]) = digits_value a * 10 + (c.toNat - 48) := by
  unfold digits_value
  rw [List.foldl_append]
  rfl

theorem digits_value_fmt (fuel n : Nat) (h : n < 10 ^ fuel) :
    digits_value (fmt_decimal fuel n) = n := by
  induction fuel generalizing n with
  | zero =>
    simp at h
    subst h
    rfl
  | succ k ih =>
    unfold fmt_decimal
    split_ifs with h10
    · unfold digits_value
      simp only [List.foldl_cons, List.foldl_nil]
      rw [digit_char_toNat n h10]
      omega
    · rw [digits_value_append, ih (n / 10) (by rw [pow_succ] at h; omega),
        digit_char_toNat _ (Nat.mod_lt _ (by decide))]
      omega

theorem dropWhile_append_stop (f : Char → Bool) (a : List Char) (c : Char) (t : List Char)
    (ha : a.all f = true) (hc : f c = false) : (a ++ c :: t).dropWhile f = c :: t := by
  induction a with
  | nil => simp [List.dropWhile_cons, hc]
  | cons x xs ih =>
    simp only [List.all_cons, Bool.and_eq_true] at ha
    rw [List.cons_append, List.dropWhile_cons_of_pos ha.1, ih ha.2]

theorem scan_decimal_digits (w : Char) (ds : List Char) (c : Char) (t : List Char)
    (hw : c_isspace w = true) (hds : ds.all c_isdigit = true) (hne : ds ≠ [])
    (hc : c_isdigit c = false) :
    scan_decimal (w :: (ds ++ c :: t)) = some (false, digits_value ds, c :: t) := by
  obtain ⟨d, ds1, rfl⟩ := List.exists_cons_of_ne_nil hne
  have hd : c_isdigit d = true := by
    simp only [List.all_cons, Bool.and_eq_true] at hds
    exact hds.1
  have hsp : c_isspace d = false := c_isdigit_not_space d hd
  have hm : d ≠ '-' := by rintro rfl; revert hd; decide
  have hp : d ≠ '+' := by rintro rfl; revert hd; decide
  unfold scan_decimal
  have h1 : (w :: (d :: ds1 ++ c :: t)).dropWhile c_isspace = d :: ds1 ++ c :: t := by
    rw [List.dropWhile_cons_of_pos hw, List.cons_append,
      List.dropWhile_cons_of_neg (by simp [hsp])]
  rw [h1]
  simp only [List.cons_append, List.head?_cons, Option.some.injEq]
  rw [if_neg hm, if_neg hp]
  simp only []
  rw [← List.cons_append]
  rw [takeWhile_append_stop c_isdigit (d :: ds1) c t hds hc,
    dropWhile_append_stop c_isdigit (d :: ds1) c t hds hc]
  simp

theorem scan_decimal_minus (w : Char) (ds : List Char) (c : Char) (t : List Char)
    (hw : c_isspace w = true) (hds : ds.all c_isdigit = true) (hne : ds ≠ [])
    (hc : c_isdigit c = false) :
    scan_decimal (w :: '-' :: (ds ++ c :: t)) = some (true, digits_value ds, c :: t) := by
  unfold scan_decimal
  have h1 : (w :: '-' :: (ds ++ c :: t)).dropWhile c_isspace = '-' :: (ds ++ c :: t) := by
    rw [List.dropWhile_cons_of_pos hw, List.dropWhile_cons_of_neg (by decide)]
  rw [h1]
  simp only [List.head?_cons, if_true, List.tail_cons]
  rw [takeWhile_append_stop c_isdigit ds c t hds hc,
    dropWhile_append_stop c_isdigit ds c t hds hc]
  simp [hne]

theorem int_wrap_eq (x : Int) (h1 : -(2 ^ 31) ≤ x) (h2 : x < 2 ^ 31) : int_wrap x = x := by
  unfold int_wrap
  rw [Int.emod_eq_of_lt (by omega) (by omega)]
  omega

theorem scan_d_fmt (w : Char) (x : Int) (c : Char) (t : List Char) (hw : c_isspace w = true)
    (hc : c_isdigit c = false) (h1 : -(2 ^ 31) ≤ x) (h2 : x < 2 ^ 31) :
    scan_d (w :: (fmt_d x ++ c :: t)) = some (x, c :: t) := by
  unfold scan_d fmt_d
  by_cases hx : x < 0
  · rw [if_pos hx]
    have hlt : (-x).toNat < 10 ^ 10 := by omega
    rw [List.cons_append, scan_decimal_minus w _ c t hw (fmt_decimal_digits _ _)
      (fmt_decimal_ne_nil _ _ (by decide)) hc, digits_value_fmt _ _ hlt]
    simp only [if_true]
    have : ((-x).toNat : Int) = -x := Int.toNat_of_nonneg (by omega)
    rw [this, neg_neg, max_eq_left (by omega), int_wrap_eq x h1 h2]
  · rw [if_neg hx]
    have hlt : x.toNat < 10 ^ 10 := by omega
    rw [scan_decimal_digits w _ c t hw (fmt_decimal_digits _ _)
      (fmt_decimal_ne_nil _ _ (by decide)) hc, digits_value_fmt _ _ hlt]
    simp only [Bool.false_eq_true, if_false]
    have : (x.toNat : Int) = x := Int.toNat_of_nonneg (by omega)
    rw [this, min_eq_left (by omega), int_wrap_eq x h1 h2]

theorem scan_lu_fmt (w : Char) (x : Int) (c : Char) (t : List Char) (hw : c_isspace w = true)
    (hc : c_isdigit c = false) (h1 : -(2 ^ 63) ≤ x) (h2 : x < 2 ^ 63) :
    scan_lu (w :: (fmt_lu x ++ c :: t)) = some (x, c :: t) := by
  unfold scan_lu fmt_lu
  have hnn : 0 ≤ x % 2 ^ 64 := Int.emod_nonneg _ (by norm_num)
  have hlt64 : x % 2 ^ 64 < 2 ^ 64 := Int.emod_lt_of_pos _ (by norm_num)
  have hlt : (x % 2 ^ 64).toNat < 10 ^ 20 := by
    have : (x % 2 ^ 64).toNat < 2 ^ 64 := by omega
    exact lt_trans this (by norm_num)
  rw [scan_decimal_digits w _ c t hw (fmt_decimal_digits _ _)
    (fmt_decimal_ne_nil _ _ (by decide)) hc, digits_value_fmt _ _ hlt]
  have hnot : ¬ ((x % 2 ^ 64).toNat ≥ 2 ^ 64) := by omega
  simp only [hnot, if_false, Bool.false_eq_true]
  have hc2 : ((x % 2 ^ 64).toNat : Int) = x % 2 ^ 64 := Int.toNat_of_nonneg hnn
  rw [hc2]
  unfold time_t_wrap
  congr 2
  by_cases hx : 0 ≤ x
  · rw [Int.emod_eq_of_lt hx (by omega), Int.emod_eq_of_lt (by omega) (by omega)]
    omega
  · have e1 : x % 2 ^ 64 = x + 2 ^ 64 := by
      rw [← Int.add_mul_emod_self (a := x) (b := 1) (c := 2 ^ 64)]
      rw [Int.emod_eq_of_lt (by omega) (by omega)]
      ring
    rw [e1]
    have e2 : (x + 2 ^ 64 + 2 ^ 63) % 2 ^ 64 = x + 2 ^ 63 := by
      rw [show x + 2 ^ 64 + 2 ^ 63 = (x + 2 ^ 63) + 1 * 2 ^ 64 by ring,
        Int.add_mul_emod_self, Int.emod_eq_of_lt (by omega) (by omega)]
    rw [e2]
    omega

theorem scan_s_host (host : List Char) (w : Char) (t : List Char) (hne : host ≠ [])
    (hlen : host.length ≤ 255) (hsp : host.all (fun c => !c_isspace c) = true)
    (hw : c_isspace w = true) :
    scan_s 255 (host ++ w :: t) = some (host, w :: t) := by
  obtain ⟨d, ds, rfl⟩ := List.exists_cons_of_ne_nil hne
  have hd : c_isspace d = false := by
    simp only [List.all_cons, Bool.and_eq_true, Bool.not_eq_true'] at hsp
    exact hsp.1
  unfold scan_s
  have h1 : (d :: ds ++ w :: t).dropWhile c_isspace = d :: ds ++ w :: t := by
    rw [List.cons_append, List.dropWhile_cons_of_neg (by simp [hd])]
  rw [h1]
  simp only []
  rw [takeWhile_append_stop (fun c => !c_isspace c) (d :: ds) w t hsp (by simp [hw]),
    List.take_of_length_le hlen, List.drop_left]
  simp

theorem c_isdigit_ne_ctl (c : Char) (h : c_isdigit c = true) : c ≠ NUL ∧ c ≠ LF := by
  constructor <;> rintro rfl <;> revert h <;> decide

theorem fmt_decimal_mem (fuel n : Nat) (c : Char) (h : c ∈ fmt_decimal fuel n) :
    c ≠ NUL ∧ c ≠ LF :=
  c_isdigit_ne_ctl c (List.all_eq_true.1 (fmt_decimal_digits fuel n) c h)

theorem fmt_d_mem (x : Int) (c : Char) (h : c ∈ fmt_d x) : c ≠ NUL ∧ c ≠ LF := by
  unfold fmt_d at h
  split_ifs at h
  · rcases List.mem_cons.1 h with rfl | h
    · exact ⟨by decide, by decide⟩
    · exact fmt_decimal_mem _ _ c h
  · exact fmt_decimal_mem _ _ c h

theorem fmt_lu_mem (x : Int) (c : Char) (h : c ∈ fmt_lu x) : c ≠ NUL ∧ c ≠ LF :=
  fmt_decimal_mem _ _ c h

/-- The fields of a valid entry. -/
theorem hsts_entry_valid_iff (is_ip : List Char → Bool) (kv : hsts_kh × hsts_kh_info) :
    hsts_entry_valid is_ip kv = true ↔
      kv.1.host ≠ [] ∧ kv.1.host.length ≤ 255
        ∧ (∀ c ∈ kv.1.host, c_isspace c = false ∧ c ≠ NUL)
        ∧ kv.1.host.head? ≠ some '#' ∧ xstrdup_lower kv.1.host = kv.1.host
        ∧ is_ip kv.1.host = false
        ∧ (-(2 ^ 31) ≤ kv.1.explicit_port ∧ kv.1.explicit_port < 2 ^ 31
          ∧ MAKE_EXPLICIT_PORT url_scheme.SCHEME_HTTP kv.1.explicit_port = kv.1.explicit_port)
        ∧ (-(2 ^ 63) ≤ kv.2.created ∧ kv.2.created < 2 ^ 63)
        ∧ (-(2 ^ 63) ≤ kv.2.max_age ∧ kv.2.max_age < 2 ^ 63) := by
  unfold hsts_entry_valid
  simp only [Bool.and_eq_true, decide_eq_true_eq, List.all_eq_true, Bool.not_eq_true',
    and_assoc]

theorem hsts_dump_line_shape (kh : hsts_kh) (khi : hsts_kh_info) :
    hsts_dump_line kh khi
      = kh.host ++ TAB :: (fmt_d kh.explicit_port ++ TAB ::
          (fmt_d (if khi.include_subdomains then 1 else 0) ++ TAB ::
            (fmt_lu khi.created ++ TAB :: (fmt_lu khi.max_age ++ [LF])))) := by
  unfold hsts_dump_line
  simp only [List.append_assoc, List.cons_append, List.nil_append, List.singleton_append]

theorem hsts_sscanf_dump_line (is_ip : List Char → Bool) (kv : hsts_kh × hsts_kh_info)
    (hv : hsts_entry_valid is_ip kv = true) :
    hsts_sscanf (hsts_dump_line kv.1 kv.2)
      = some (kv.1.host, kv.1.explicit_port, (if kv.2.include_subdomains then 1 else 0),
          kv.2.created, kv.2.max_age) := by
  obtain ⟨h1, h2, h3, _, _, _, ⟨p1, p2, _⟩, ⟨c1, c2⟩, ⟨m1, m2⟩⟩ :=
    (hsts_entry_valid_iff is_ip kv).1 hv
  have hsp : kv.1.host.all (fun c => !c_isspace c) = true := by
    rw [List.all_eq_true]
    intro c hc
    simp [(h3 c hc).1]
  have hT : c_isspace TAB = true := by decide
  have hTd : c_isdigit TAB = false := by decide
  have hLd : c_isdigit LF = false := by decide
  have hb1 : -(2 ^ 31) ≤ (if kv.2.include_subdomains then (1 : Int) else 0) := by
    split_ifs <;> norm_num
  have hb2 : (if kv.2.include_subdomains then (1 : Int) else 0) < 2 ^ 31 := by
    split_ifs <;> norm_num
  rw [hsts_dump_line_shape]
  unfold hsts_sscanf
  rw [scan_s_host _ TAB _ h1 h2 hsp hT]
  simp only []
  rw [scan_d_fmt TAB _ TAB _ hT hTd p1 p2]
  simp only []
  rw [scan_d_fmt TAB _ TAB _ hT hTd hb1 hb2]
  simp only []
  rw [scan_lu_fmt TAB _ TAB _ hT hTd c1 c2]
  simp only []
  rw [scan_lu_fmt TAB _ LF [] hT hLd m1 m2]

theorem hsts_dump_line_mem (is_ip : List Char → Bool) (kv : hsts_kh × hsts_kh_info)
    (hv : hsts_entry_valid is_ip kv = true) (c : Char)
    (hc : c ∈ kv.1.host ++ TAB :: (fmt_d kv.1.explicit_port ++ TAB ::
          (fmt_d (if kv.2.include_subdomains then 1 else 0) ++ TAB ::
            (fmt_lu kv.2.created ++ TAB :: fmt_lu kv.2.max_age)))) :
    c ≠ NUL ∧ c ≠ LF := by
  obtain ⟨_, _, h3, _⟩ := (hsts_entry_valid_iff is_ip kv).1 hv
  have hT : TAB ≠ NUL ∧ TAB ≠ LF := ⟨by decide, by decide⟩
  simp only [List.mem_append, List.mem_cons] at hc
  rcases hc with h | rfl | h | rfl | h | rfl | h | rfl | h
  · refine ⟨(h3 c h).2, ?_⟩
    rintro rfl
    have := (h3 _ h).1
    revert this
    decide
  · exact hT
  · exact fmt_d_mem _ c h
  · exact hT
  · exact fmt_d_mem _ c h
  · exact hT
  · exact fmt_lu_mem _ c h
  · exact hT
  · exact fmt_lu_mem _ c h

theorem hsts_read_line_dump (is_ip : List Char → Bool) (store : hsts_store)
    (kv : hsts_kh × hsts_kh_info) (hv : hsts_entry_valid is_ip kv = true) :
    hsts_read_line is_ip false store (hsts_dump_line kv.1 kv.2)
      = (hsts_new_entry is_ip store kv.1.host kv.1.explicit_port kv.2.created kv.2.max_age
          kv.2.include_subdomains).1 := by
  obtain ⟨h1, _, h3, h4, _⟩ := (hsts_entry_valid_iff is_ip kv).1 hv
  have hscan := hsts_sscanf_dump_line is_ip kv hv
  have hnul : (hsts_dump_line kv.1 kv.2).takeWhile (fun c => c ≠ NUL)
      = hsts_dump_line kv.1 kv.2 := by
    rw [List.takeWhile_eq_self_iff]
    intro c hc
    rw [hsts_dump_line_shape] at hc
    have : c ≠ NUL := by
      rw [show kv.1.host ++ TAB :: (fmt_d kv.1.explicit_port ++ TAB ::
          (fmt_d (if kv.2.include_subdomains then 1 else 0) ++ TAB ::
            (fmt_lu kv.2.created ++ TAB :: (fmt_lu kv.2.max_age ++ [LF]))))
        = (kv.1.host ++ TAB :: (fmt_d kv.1.explicit_port ++ TAB ::
          (fmt_d (if kv.2.include_subdomains then 1 else 0) ++ TAB ::
            (fmt_lu kv.2.created ++ TAB :: fmt_lu kv.2.max_age)))) ++ [LF] by
          simp only [List.append_assoc, List.cons_append]] at hc
      rcases List.mem_append.1 hc with h | h
      · exact (hsts_dump_line_mem is_ip kv hv c h).1
      · simp only [List.mem_singleton] at h
        subst h
        decide
    simpa using this
  obtain ⟨d, ds, hd⟩ := List.exists_cons_of_ne_nil h1
  have hdsp : c_isspace d = false := (h3 d (by rw [hd]; exact List.mem_cons_self _ _)).1
  have hdrop : (hsts_dump_line kv.1 kv.2).dropWhile c_isspace = hsts_dump_line kv.1 kv.2 := by
    rw [hsts_dump_line_shape, hd, List.cons_append,
      List.dropWhile_cons_of_neg (by simp [hdsp])]
  have hhead : (hsts_dump_line kv.1 kv.2).head? ≠ some '#' := by
    rw [hsts_dump_line_shape, hd, List.cons_append, List.head?_cons]
    rw [hd, List.head?_cons] at h4
    exact h4
  unfold hsts_read_line
  simp only []
  rw [hnul, hdrop, if_neg hhead, hscan]
  simp only [Bool.false_eq_true, if_false]
  cases kv.2.include_subdomains <;> simp

theorem getline_split_line (l rest cur : List Char) (h : LF ∉ l) :
    getline_split (l ++ LF :: rest) cur = (cur.reverse ++ l ++ [LF]) :: getline_split rest [] := by
  induction l generalizing cur with
  | nil =>
    simp [getline_split]
  | cons x xs ih =>
    have hx : x ≠ LF := fun hh => h (by rw [hh]; exact List.mem_cons_self _ _)
    have hxs : LF ∉ xs := fun hh => h (List.mem_cons_of_mem _ hh)
    rw [List.cons_append, getline_split, if_neg hx, ih (x :: cur) hxs]
    simp

theorem getline_split_dump (is_ip : List Char → Bool) (es : hash_table)
    (hv : ∀ kv ∈ es, hsts_entry_valid is_ip kv = true) :
    getline_split (es.map (fun kv => hsts_dump_line kv.1 kv.2)).flatten []
      = es.map (fun kv => hsts_dump_line kv.1 kv.2) := by
  induction es with
  | nil => rfl
  | cons kv rest ih =>
    have hkv := hv kv (List.mem_cons_self _ _)
    rw [List.map_cons, List.flatten_cons]
    have hshape : hsts_dump_line kv.1 kv.2
        = (kv.1.host ++ TAB :: (fmt_d kv.1.explicit_port ++ TAB ::
          (fmt_d (if kv.2.include_subdomains then 1 else 0) ++ TAB ::
            (fmt_lu kv.2.created ++ TAB :: fmt_lu kv.2.max_age)))) ++ [LF] := by
      rw [hsts_dump_line_shape]
      simp only [List.append_assoc, List.cons_append]
    have hLF : LF ∉ kv.1.host ++ TAB :: (fmt_d kv.1.explicit_port ++ TAB ::
          (fmt_d (if kv.2.include_subdomains then 1 else 0) ++ TAB ::
            (fmt_lu kv.2.created ++ TAB :: fmt_lu kv.2.max_age))) :=
      fun hh => (hsts_dump_line_mem is_ip kv hkv LF hh).2 rfl
    rw [hshape, List.append_assoc, List.singleton_append, getline_split_line _ _ _ hLF,
      ih (fun x hx => hv x (List.mem_cons_of_mem _ hx))]
    simp

theorem hash_table_get_none (t : hash_table) (k : hsts_kh)
    (h : ∀ a ∈ t, hsts_cmp_func a.1 k = false) : hash_table_get t k = none := by
  induction t with
  | nil => rfl
  | cons a rest ih =>
    obtain ⟨ak, av⟩ := a
    unfold hash_table_get
    have := h (ak, av) (List.mem_cons_self _ _)
    simp only at this
    rw [this]
    simp only [Bool.false_eq_true, if_false]
    exact ih (fun x hx => h x (List.mem_cons_of_mem _ hx))

theorem hash_table_put_append (t : hash_table) (k : hsts_kh) (v : hsts_kh_info)
    (h : ∀ a ∈ t, hsts_cmp_func a.1 k = false) : hash_table_put t k v = t ++ [(k, v)] := by
  induction t with
  | nil => rfl
  | cons a rest ih =>
    obtain ⟨ak, av⟩ := a
    unfold hash_table_put
    have := h (ak, av) (List.mem_cons_self _ _)
    simp only at this
    rw [this]
    simp only [Bool.false_eq_true, if_false, List.cons_append]
    rw [ih (fun x hx => h x (List.mem_cons_of_mem _ hx))]

theorem hsts_read_lines_dump (is_ip : List Char → Bool) (es : hash_table) (t : hash_table)
    (m : Int) (c : Bool) (hv : ∀ kv ∈ es, hsts_entry_valid is_ip kv = true)
    (hp : es.Pairwise (fun a b => hsts_cmp_func a.1 b.1 = false))
    (ht : ∀ a ∈ t, ∀ b ∈ es, hsts_cmp_func a.1 b.1 = false) :
    (es.map (fun kv => hsts_dump_line kv.1 kv.2)).foldl (hsts_read_line is_ip false) ⟨t, m, c⟩
      = ⟨t ++ es.filter hsts_entry_kept, m, c⟩ := by
  induction es generalizing t with
  | nil => simp
  | cons kv rest ih =>
    have hkv := hv kv (List.mem_cons_self _ _)
    obtain ⟨_, _, _, _, hlow, hip, ⟨_, _, hport⟩, _, _⟩ := (hsts_entry_valid_iff is_ip kv).1 hkv
    rw [List.map_cons, List.foldl_cons, hsts_read_line_dump is_ip _ kv hkv]
    have hnew : (hsts_new_entry is_ip ⟨t, m, c⟩ kv.1.host kv.1.explicit_port kv.2.created
        kv.2.max_age kv.2.include_subdomains).1
        = ⟨t ++ (if hsts_entry_kept kv then [kv] else []), m, c⟩ := by
      unfold hsts_new_entry hsts_new_entry_internal hsts_is_host_name_valid hsts_entry_kept
      simp only [hip, hlow, hport, Bool.not_false, Bool.not_true, Bool.and_false,
        Bool.false_eq_true, if_false, Bool.true_and]
      by_cases hexp : time_t_wrap (kv.2.created + kv.2.max_age) < kv.2.created
      · simp [hexp]
      · have hget : hash_table_get t kv.1 = none :=
          hash_table_get_none t kv.1 (fun a ha => ht a ha kv (List.mem_cons_self _ _))
        have hput := hash_table_put_append t kv.1 kv.2
          (fun a ha => ht a ha kv (List.mem_cons_self _ _))
        simp [hexp, hash_table_contains, hget, hput]
    rw [hnew]
    rw [ih (t ++ (if hsts_entry_kept kv then [kv] else []))
      (fun x hx => hv x (List.mem_cons_of_mem _ hx)) (List.pairwise_cons.1 hp).2]
    · rw [List.filter_cons]
      split_ifs <;> simp
    · intro a ha b hb
      rcases List.mem_append.1 ha with h | h
      · exact ht a h b (List.mem_cons_of_mem _ hb)
      · split_ifs at h
        · simp only [List.mem_singleton] at h
          subst h
          exact (List.pairwise_cons.1 hp).1 b hb
        · simp at h

theorem hsts_store_dump_lines (store : hsts_store) :
    getline_split (hsts_store_dump store) []
      = ("# HSTS 1.0 Known Hosts database for GNU Wget.".toList ++ [LF])
        :: ("# Edit at your own risk.".toList ++ [LF])
        :: ("# <hostname>".toList ++ [TAB] ++ "<port>".toList ++ [TAB]
            ++ "<incl. subdomains>".toList ++ [TAB] ++ "<created>".toList ++ [TAB]
            ++ "<max-age>".toList ++ [LF])
        :: getline_split (store.table.map (fun kv => hsts_dump_line kv.1 kv.2)).flatten [] := by
  have htext : hsts_store_dump store
      = "# HSTS 1.0 Known Hosts database for GNU Wget.".toList ++ LF ::
          ("# Edit at your own risk.".toList ++ LF ::
            (("# <hostname>".toList ++ [TAB] ++ "<port>".toList ++ [TAB]
              ++ "<incl. subdomains>".toList ++ [TAB] ++ "<created>".toList ++ [TAB]
              ++ "<max-age>".toList) ++ LF ::
              (store.table.map (fun kv => hsts_dump_line kv.1 kv.2)).flatten)) := by
    unfold hsts_store_dump
    simp only [List.append_assoc, List.cons_append, List.nil_append, List.singleton_append]
  rw [htext, getline_split_line _ _ _ (by decide), getline_split_line _ _ _ (by decide),
    getline_split_line _ _ _ (by decide)]
  simp only [List.reverse_nil, List.nil_append, List.append_assoc]

theorem hsts_read_line_comment (is_ip : List Char → Bool) (merge : Bool) (store : hsts_store)
    (line : List Char)
    (h : ((line.takeWhile (fun c => c ≠ NUL)).dropWhile c_isspace).head? = some '#') :
    hsts_read_line is_ip merge store line = store := by
  unfold hsts_read_line
  simp only []
  rw [if_pos h]

/-- C16 (as amended): for a store whose keys are pairwise different and whose
entries are valid (non-empty lowercase non-IP host names of at most 255 bytes without
white space that do not begin with the comment sign, a port in explicit form, times
in the range of time_t), reading the text that hsts_store_dump writes back with
hsts_read_database, without merging, into an empty store yields exactly the
entries whose created + max_age does not fall below created, with the same keys and
values, in the same order; the current time plays no part.  The comment lines of the
dump add no entry to any store. -/
theorem hsts_dump_read_round_trip (is_valid_ip_address : List Char → Bool) (store : hsts_store)
    (hv : ∀ kv ∈ store.table, hsts_entry_valid is_valid_ip_address kv = true)
    (hp : store.table.Pairwise (fun a b => hsts_cmp_func a.1 b.1 = false)) :
    (∀ m c, hsts_read_database is_valid_ip_address ⟨[], m, c⟩ (hsts_store_dump store) false
        = (⟨store.table.filter hsts_entry_kept, m, c⟩, true))
      ∧ (∀ st merge m c, hsts_read_database is_valid_ip_address st
          (hsts_store_dump ⟨[], m, c⟩) merge = (st, true)) := by
  constructor
  · intro m c
    unfold hsts_read_database
    rw [hsts_store_dump_lines, getline_split_dump is_valid_ip_address _ hv, List.foldl_cons,
      List.foldl_cons, List.foldl_cons,
      hsts_read_line_comment _ _ _ _ (by decide), hsts_read_line_comment _ _ _ _ (by decide),
      hsts_read_line_comment _ _ _ _ (by decide),
      hsts_read_lines_dump is_valid_ip_address _ [] m c hv hp
        (fun a ha => absurd ha (List.not_mem_nil _))]
    rfl
  · intro st merge m c
    unfold hsts_read_database
    rw [hsts_store_dump_lines, List.foldl_cons, List.foldl_cons, List.foldl_cons,
      hsts_read_line_comment _ _ _ _ (by decide), hsts_read_line_comment _ _ _ _ (by decide),
      hsts_read_line_comment _ _ _ _ (by decide)]
    rfl

/-- C16 (witness): a store with a plain entry and an entry on another port with a
negative creation time. -/
theorem hsts_dump_read_round_trip_witness :
    hsts_read_database (fun _ => false) ⟨[], 0, false⟩
        (hsts_store_dump ⟨[(⟨"example.com".toList, 0⟩, ⟨1000, 3600, true⟩),
          (⟨"sub.example.org".toList, 8443⟩, ⟨-5, 0, false⟩)], 7, true⟩) false
      = (⟨[(⟨"example.com".toList, 0⟩, ⟨1000, 3600, true⟩),
          (⟨"sub.example.org".toList, 8443⟩, ⟨-5, 0, false⟩)], 0, false⟩, true) :=
  ((hsts_dump_read_round_trip (fun _ => false)
      ⟨[(⟨"example.com".toList, 0⟩, ⟨1000, 3600, true⟩),
        (⟨"sub.example.org".toList, 8443⟩, ⟨-5, 0, false⟩)], 7, true⟩
      (by decide) (by decide)).1 0 false).trans (by decide)

/-- C16 (counterexample): with the current time 1000, the entry of example.com
(created 2000, max_age -1, dumped with the max_age 18446744073709551615) has
created + max_age = 1999, not below the current time, and is lost when the dump is
read back, while the entry of example.org (created 0, max_age 10), whose
created + max_age is below the current time, is read back; both entries are valid. -/
theorem hsts_dump_read_drops_negative_max_age :
    hsts_dump_line ⟨"example.com".toList, 0⟩ ⟨2000, -1, true⟩
      = "example.com".toList ++ [TAB] ++ "0".toList ++ [TAB] ++ "1".toList ++ [TAB]
        ++ "2000".toList ++ [TAB] ++ "18446744073709551615".toList ++ [LF]
    ∧ (hsts_read_database (fun _ => false) ⟨[], 0, false⟩
        (hsts_store_dump ⟨[(⟨"example.com".toList, 0⟩, ⟨2000, -1, true⟩),
          (⟨"example.org".toList, 0⟩, ⟨0, 10, false⟩)], 0, false⟩) false).1.table
      = [(⟨"example.org".toList, 0⟩, ⟨0, 10, false⟩)]
    ∧ ¬ ((2000 : Int) + (-1) < 1000) ∧ (0 : Int) + 10 < 1000
    ∧ hsts_entry_valid (fun _ => false) (⟨"example.com".toList, 0⟩, ⟨2000, -1, true⟩) = true
    ∧ hsts_entry_valid (fun _ => false) (⟨"example.org".toList, 0⟩, ⟨0, 10, false⟩) = true :=
  ⟨by decide, by decide, by decide, by decide, by decide, by decide⟩

end Hsts
